import Mathlib

/-!
# QgsGeos (src/core/geometry/qgsgeos.cpp): a shallow embedding

The geometry engine of the repository wraps the GEOS C library.  The
embedding has three layers:

* the engine-native (GEOS) geometry as a closed data type, with the
  structural accessors of the C API (`GEOSGeomTypeId_r`,
  `GEOSGetNumCoordinates_r`, the coordinate-sequence calls) as functions;
* the computational calls of the library (clipping, overlay, predicates,
  polygonizing) as the fields of the context handle `GEOSContextHandle_t`
  that the source hands to every call, so that every statement holds for
  every behaviour of the library;
* the abstract geometry tree and the functions of `QgsGeos`, translated line
  by line from the source.

Coordinates are rationals, which stand for the finite doubles of the source.
Where the source computes with doubles in the functions embedded here (the
width and the height of a rectangle, the halving of a clip rectangle, the
snapping of a coordinate to the grid), the result of every operation is
rounded to the nearest double by `toDouble`.  A result beyond the largest
double, which is an infinity in the source, is outside the model.
-/

/-! ## Numeric helpers -/

/-- The constant `DBL_EPSILON` of `<cfloat>`, two to the power -52. -/
def DBL_EPSILON : ℚ := 1 / 4503599627370496

/-- Round to the nearest integer, a tie to the even one: the rounding of a
significand in IEEE 754 arithmetic. -/
def roundHalfEven (q : ℚ) : ℤ :=
  let f := ⌊q⌋
  if q - f < 1 / 2 then f else if 1 / 2 < q - f then f + 1 else if f % 2 = 0 then f else f + 1

/-- The length in bits of `n`, found in at most `fuel` halvings. -/
def bitLength : Nat → Nat → Nat
  | 0, _ => 0
  | fuel + 1, n => if n = 0 then 0 else bitLength fuel (n / 2) + 1

/-- The exponent of the binade of a rational other than zero: the integer `e` with
`2 ^ e ≤ |q| < 2 ^ (e + 1)`, found from the lengths in bits of the numerator and the
denominator. -/
def binadeExponent (q : ℚ) : ℤ :=
  let e : ℤ := (bitLength q.num.natAbs q.num.natAbs : ℤ) - (bitLength q.den q.den : ℤ)
  if (2 : ℚ) ^ e ≤ |q| then e else e - 1

/-- The double nearest to the rational `q`, a tie going to the even significand:
the rounding of IEEE 754 binary64 arithmetic, in which the result of an
operation on doubles is the exact result rounded.  A double has a significand
of 53 bits, whose last bit has the exponent `e - 52` for a value from `2 ^ e`
up to `2 ^ (e + 1)`, and at least the exponent -1074: the doubles below
`2 ^ -1022` are spaced by `2 ^ -1074`.  The exponent is not bounded above:
beyond the largest double, where the source has an infinity, the function goes
on rounding to 53 bits and the model does not apply. -/
def toDouble (q : ℚ) : ℚ :=
  if q = 0 then 0
  else
    let e : ℤ := max (binadeExponent q) (-1022)
    (roundHalfEven (q / 2 ^ (e - 52)) : ℚ) * 2 ^ (e - 52)

/-- The largest finite double, `DBL_MAX` of `<cfloat>`. -/
def DBL_MAX : ℚ := (2 ^ 53 - 1) * 2 ^ 971

/-- The rational is a double: a significand of 53 bits times a power of two of
exponent -1074 or more. -/
def IsDouble (q : ℚ) : Prop :=
  ∃ m k : ℤ, |m| < 2 ^ 53 ∧ -1074 ≤ k ∧ q = (m : ℚ) * 2 ^ k

/-- Modelled from the spec: `qgsDoubleNear` of qgis.h is not among the sources;
two doubles are near when their difference lies in `(-epsilon, epsilon]`. -/
def qgsDoubleNearEps (a b epsilon : ℚ) : Bool :=
  let diff := a - b
  decide (diff > -epsilon) && decide (diff ≤ epsilon)

/-- Modelled from the spec: `qgsDoubleNear` with its default tolerance
`4 * DBL_EPSILON`. -/
def qgsDoubleNear (a b : ℚ) : Bool :=
  qgsDoubleNearEps a b (4 * DBL_EPSILON)

/-- The function `std::round` of `<cmath>`: nearest integer, halves away from
zero. -/
def stdRound (q : ℚ) : ℚ :=
  if 0 ≤ q then ((Int.floor (q + 1 / 2) : ℤ) : ℚ) else -((Int.floor (-q + 1 / 2) : ℤ) : ℚ)

/-! ## Rectangles -/

/-- Modelled from the spec: `QgsRectangle` (qgsrectangle.h is not among the
sources), an axis-aligned rectangle given by its four bounds. -/
structure QgsRectangle where
  xMinimum : ℚ
  yMinimum : ℚ
  xMaximum : ℚ
  yMaximum : ℚ
deriving DecidableEq

namespace QgsRectangle

/-- Modelled from the spec: `QgsRectangle::width`, the difference of the two bounds in x,
computed in doubles. -/
def width (r : QgsRectangle) : ℚ := toDouble (r.xMaximum - r.xMinimum)

/-- Modelled from the spec: `QgsRectangle::height`, the difference of the two bounds in y,
computed in doubles. -/
def height (r : QgsRectangle) : ℚ := toDouble (r.yMaximum - r.yMinimum)

def setXMinimum (r : QgsRectangle) (v : ℚ) : QgsRectangle := { r with xMinimum := v }

def setXMaximum (r : QgsRectangle) (v : ℚ) : QgsRectangle := { r with xMaximum := v }

def setYMinimum (r : QgsRectangle) (v : ℚ) : QgsRectangle := { r with yMinimum := v }

def setYMaximum (r : QgsRectangle) (v : ℚ) : QgsRectangle := { r with yMaximum := v }

end QgsRectangle

/-! ## The engine-native geometry (GEOS) -/

/-- One coordinate of a GEOS coordinate sequence.  The library stores x, y
and z; it has no measure ordinate. -/
structure GEOSCoordinate where
  x : ℚ
  y : ℚ
  z : ℚ
deriving DecidableEq

/-- Modelled from the spec: the GEOS coordinate sequence (an opaque handle in
the source): the dimension it was created with and its coordinates. -/
structure GEOSCoordSequence where
  dims : Nat
  coords : List GEOSCoordinate
deriving DecidableEq

/-- The type ids of `geos_c.h`. -/
inductive GEOSGeomTypes where
  | GEOS_POINT
  | GEOS_LINESTRING
  | GEOS_LINEARRING
  | GEOS_POLYGON
  | GEOS_MULTIPOINT
  | GEOS_MULTILINESTRING
  | GEOS_MULTIPOLYGON
  | GEOS_GEOMETRYCOLLECTION
deriving DecidableEq

open GEOSGeomTypes

/-- The four collection types of GEOS. -/
inductive GEOSCollectionType where
  | multiPoint
  | multiLineString
  | multiPolygon
  | geometryCollection
deriving DecidableEq

/-- Modelled from the spec: the engine-native geometry (an opaque handle in
the source).  A point, line string or linear ring owns a coordinate
sequence, a polygon owns the sequences of its shell and of its holes, a
collection owns its members. -/
inductive GEOSGeometry where
  | point (cs : GEOSCoordSequence)
  | lineString (cs : GEOSCoordSequence)
  | linearRing (cs : GEOSCoordSequence)
  | polygon (shell : GEOSCoordSequence) (holes : List GEOSCoordSequence)
  | collection (type : GEOSCollectionType) (geoms : List GEOSGeometry)

def GEOSCollectionType.typeId : GEOSCollectionType → GEOSGeomTypes
  | .multiPoint => GEOS_MULTIPOINT
  | .multiLineString => GEOS_MULTILINESTRING
  | .multiPolygon => GEOS_MULTIPOLYGON
  | .geometryCollection => GEOS_GEOMETRYCOLLECTION

def GEOSCollectionType.ofTypeId : GEOSGeomTypes → Option GEOSCollectionType
  | GEOS_MULTIPOINT => some .multiPoint
  | GEOS_MULTILINESTRING => some .multiLineString
  | GEOS_MULTIPOLYGON => some .multiPolygon
  | GEOS_GEOMETRYCOLLECTION => some .geometryCollection
  | _ => none

/-! ### Coordinate sequences -/

/-- Replace the element at position `i` of a list by its image under `f`. -/
def listModifyAt {α : Type} (f : α → α) : List α → Nat → List α
  | [], _ => []
  | a :: as, 0 => f a :: as
  | a :: as, i + 1 => a :: listModifyAt f as i

def GEOSCoordSeq_create_r (size dims : Nat) : GEOSCoordSequence :=
  { dims := dims, coords := List.replicate size { x := 0, y := 0, z := 0 } }

def GEOSCoordSeq_setX_r (cs : GEOSCoordSequence) (idx : Nat) (v : ℚ) : GEOSCoordSequence :=
  { cs with coords := listModifyAt (fun c => { c with x := v }) cs.coords idx }

def GEOSCoordSeq_setY_r (cs : GEOSCoordSequence) (idx : Nat) (v : ℚ) : GEOSCoordSequence :=
  { cs with coords := listModifyAt (fun c => { c with y := v }) cs.coords idx }

/-- The call `GEOSCoordSeq_setOrdinate_r`: ordinate 0 is x, 1 is y, 2 is z; the
library keeps no further ordinate. -/
def GEOSCoordSeq_setOrdinate_r (cs : GEOSCoordSequence) (idx dim : Nat) (v : ℚ) :
    GEOSCoordSequence :=
  match dim with
  | 0 => GEOSCoordSeq_setX_r cs idx v
  | 1 => GEOSCoordSeq_setY_r cs idx v
  | 2 => { cs with coords := listModifyAt (fun c => { c with z := v }) cs.coords idx }
  | _ => cs

def GEOSCoordSeq_getSize_r (cs : GEOSCoordSequence) : Nat := cs.coords.length

/-- The getters return `none` where the C call reports failure (index out of
range) and leaves its output argument untouched. -/
def GEOSCoordSeq_getX_r (cs : GEOSCoordSequence) (idx : Nat) : Option ℚ :=
  (cs.coords.get? idx).map (fun c => c.x)

def GEOSCoordSeq_getY_r (cs : GEOSCoordSequence) (idx : Nat) : Option ℚ :=
  (cs.coords.get? idx).map (fun c => c.y)

def GEOSCoordSeq_getZ_r (cs : GEOSCoordSequence) (idx : Nat) : Option ℚ :=
  (cs.coords.get? idx).map (fun c => c.z)

def GEOSCoordSeq_getOrdinate_r (cs : GEOSCoordSequence) (idx dim : Nat) : Option ℚ :=
  match dim with
  | 0 => GEOSCoordSeq_getX_r cs idx
  | 1 => GEOSCoordSeq_getY_r cs idx
  | 2 => GEOSCoordSeq_getZ_r cs idx
  | _ => none

/-! ### Structural accessors of the C API -/

def GEOSGeomTypeId_r : GEOSGeometry → GEOSGeomTypes
  | .point _ => GEOS_POINT
  | .lineString _ => GEOS_LINESTRING
  | .linearRing _ => GEOS_LINEARRING
  | .polygon _ _ => GEOS_POLYGON
  | .collection t _ => t.typeId

def GEOSGetNumGeometries_r : GEOSGeometry → Nat
  | .collection _ geoms => geoms.length
  | _ => 1

/-- The call `GEOSGetGeometryN_r`: member `n` of a collection; a single geometry
is its own member 0. -/
def GEOSGetGeometryN_r : GEOSGeometry → Nat → Option GEOSGeometry
  | .collection _ geoms, n => geoms.get? n
  | g, 0 => some g
  | _, _ => none

def GEOSGetNumCoordinates_r : GEOSGeometry → Nat
  | .point cs => cs.coords.length
  | .lineString cs => cs.coords.length
  | .linearRing cs => cs.coords.length
  | .polygon shell holes => shell.coords.length + (holes.map (fun h => h.coords.length)).sum
  | .collection _ geoms => sumCoordinates geoms
where
  sumCoordinates : List GEOSGeometry → Nat
    | [] => 0
    | g :: gs => GEOSGetNumCoordinates_r g + sumCoordinates gs

/-- The geometries that `GEOSGetGeometryN_r` delivers for the indices below
`GEOSGetNumGeometries_r`: the members of a collection, a single geometry
itself. -/
def GEOSGeometry.memberGeometries : GEOSGeometry → List GEOSGeometry
  | .collection _ geoms => geoms
  | g => [g]

/-- The call `GEOSGeom_getCoordSeq_r`, defined for points, line strings and
linear rings only. -/
def GEOSGeom_getCoordSeq_r : GEOSGeometry → Option GEOSCoordSequence
  | .point cs => some cs
  | .lineString cs => some cs
  | .linearRing cs => some cs
  | _ => none

/-- The call `GEOSGeom_getCoordinateDimension_r`: the dimension of the
coordinates, the largest one over the rings or members and at least 2 for
polygons and collections. -/
def GEOSGeom_getCoordinateDimension_r : GEOSGeometry → Nat
  | .point cs => cs.dims
  | .lineString cs => cs.dims
  | .linearRing cs => cs.dims
  | .polygon shell holes => (holes.map (fun h => h.dims)).foldl max (max 2 shell.dims)
  | .collection _ geoms => maxDimension geoms
where
  maxDimension : List GEOSGeometry → Nat
    | [] => 2
    | g :: gs => max (GEOSGeom_getCoordinateDimension_r g) (maxDimension gs)

/-- The call `GEOSGeom_getDimensions_r`: the topological dimension (0 points,
1 lines, 2 surfaces; -1 for an empty generic collection). -/
def GEOSGeom_getDimensions_r : GEOSGeometry → Int
  | .point _ => 0
  | .lineString _ => 1
  | .linearRing _ => 1
  | .polygon _ _ => 2
  | .collection .multiPoint _ => 0
  | .collection .multiLineString _ => 1
  | .collection .multiPolygon _ => 2
  | .collection .geometryCollection geoms => maxDimensions geoms
where
  maxDimensions : List GEOSGeometry → Int
    | [] => -1
    | g :: gs => max (GEOSGeom_getDimensions_r g) (maxDimensions gs)

def GEOSGetExteriorRing_r : GEOSGeometry → Option GEOSGeometry
  | .polygon shell _ => some (.linearRing shell)
  | _ => none

def GEOSGetNumInteriorRings_r : GEOSGeometry → Nat
  | .polygon _ holes => holes.length
  | _ => 0

def GEOSGetInteriorRingN_r : GEOSGeometry → Nat → Option GEOSGeometry
  | .polygon _ holes, n => (holes.get? n).map GEOSGeometry.linearRing
  | _, _ => none

/-! ### Constructors of the C API

A constructor returns `none` where the library raises an exception (the
error handler installed by the source, `throwGEOSException`, throws). -/

def GEOSGeom_createPoint_r (cs : GEOSCoordSequence) : Option GEOSGeometry :=
  some (.point cs)

/-- A line string has no or at least two points. -/
def GEOSGeom_createLineString_r (cs : GEOSCoordSequence) : Option GEOSGeometry :=
  if cs.coords.length = 1 then none else some (.lineString cs)

/-- Closedness as the library tests it: first and last coordinate agree in x
and y. -/
def GEOSCoordSequence.isClosed2D (cs : GEOSCoordSequence) : Bool :=
  match cs.coords.head?, cs.coords.getLast? with
  | some a, some b => decide (a.x = b.x) && decide (a.y = b.y)
  | _, _ => false

/-- A linear ring is empty, or closed with at least four points. -/
def GEOSGeom_createLinearRing_r (cs : GEOSCoordSequence) : Option GEOSGeometry :=
  if cs.coords.isEmpty then some (.linearRing cs)
  else if cs.isClosed2D && decide (4 ≤ cs.coords.length) then some (.linearRing cs)
  else none

/-- The sequences of a list of linear rings; `none` if a member is no ring. -/
def ringSequences : List GEOSGeometry → Option (List GEOSCoordSequence)
  | [] => some []
  | .linearRing cs :: rest => (ringSequences rest).map (fun l => cs :: l)
  | _ :: _ => none

def GEOSGeom_createPolygon_r (shell : GEOSGeometry) (holes : List GEOSGeometry) :
    Option GEOSGeometry :=
  match shell, ringSequences holes with
  | .linearRing s, some hs => some (.polygon s hs)
  | _, _ => none

def GEOSGeom_createCollection_r (typeId : GEOSGeomTypes) (geoms : List GEOSGeometry) :
    Option GEOSGeometry :=
  (GEOSCollectionType.ofTypeId typeId).map (fun t => .collection t geoms)

def GEOSGeom_clone_r (g : GEOSGeometry) : GEOSGeometry := g

/-! ## The abstract geometry tree -/

/-- Modelled from the spec: `QgsPoint` (qgspoint.h is not among the sources): x
and y, and a z and an m value exactly when the point has the has-Z and the
has-M flag. -/
structure QgsPoint where
  x : ℚ
  y : ℚ
  zValue : Option ℚ
  mValue : Option ℚ
deriving DecidableEq

namespace QgsPoint

def is3D (p : QgsPoint) : Bool := p.zValue.isSome

def isMeasure (p : QgsPoint) : Bool := p.mValue.isSome

def z (p : QgsPoint) : ℚ := p.zValue.getD 0

def m (p : QgsPoint) : ℚ := p.mValue.getD 0

/-- The constructor `QgsPoint( t, x, y, z, m )`, the type `t` given by its two
flags. -/
def ofType (hasZ hasM : Bool) (x y z m : ℚ) : QgsPoint :=
  { x := x, y := y
    zValue := if hasZ then some z else none
    mValue := if hasM then some m else none }

/-- The default constructor `QgsPoint()`. -/
def empty : QgsPoint := { x := 0, y := 0, zValue := none, mValue := none }

/-- Modelled from the spec: `QgsPoint::operator==`, same type and all ordinates
near each other (tolerance 1E-8). -/
def equals (p q : QgsPoint) : Bool :=
  decide (p.is3D = q.is3D) && decide (p.isMeasure = q.isMeasure)
    && qgsDoubleNearEps p.x q.x (1 / 100000000)
    && qgsDoubleNearEps p.y q.y (1 / 100000000)
    && qgsDoubleNearEps p.z q.z (1 / 100000000)
    && qgsDoubleNearEps p.m q.m (1 / 100000000)

end QgsPoint

/-- Modelled from the spec: `QgsLineString` (qgslinestring.h is not among the
sources): the two flags and the ordinate vectors `mX`, `mY`, `mZ`, `mM`.
Curved segments are outside the model: every curve is a line string. -/
structure QgsLineString where
  is3D : Bool
  isMeasure : Bool
  mX : List ℚ
  mY : List ℚ
  mZ : List ℚ
  mM : List ℚ
deriving DecidableEq

namespace QgsLineString

/-- The constructor `QgsLineString( x, y, z, m )` from ordinate vectors: the
line has Z (M) when the z (m) vector is not empty and covers every point. -/
def ofVectors (x y z m : List ℚ) : QgsLineString :=
  let pointCount := min x.length y.length
  let hasZ := !z.isEmpty && decide (pointCount ≤ z.length)
  let hasM := !m.isEmpty && decide (pointCount ≤ m.length)
  { is3D := hasZ
    isMeasure := hasM
    mX := x.take pointCount
    mY := y.take pointCount
    mZ := if hasZ then z.take pointCount else []
    mM := if hasM then m.take pointCount else [] }

def numPoints (l : QgsLineString) : Nat := l.mX.length

def xAt (l : QgsLineString) (i : Nat) : ℚ := l.mX.getD i 0

def yAt (l : QgsLineString) (i : Nat) : ℚ := l.mY.getD i 0

def zAt (l : QgsLineString) (i : Nat) : ℚ := l.mZ.getD i 0

def mAt (l : QgsLineString) (i : Nat) : ℚ := l.mM.getD i 0

/-- The accessor `pointN`, with an integer index as in the source (it is called
with `numPoints - 1`, which is -1 on an empty line). -/
def pointN (l : QgsLineString) (i : Int) : QgsPoint :=
  if i < 0 ∨ (l.numPoints : Int) ≤ i then QgsPoint.empty
  else QgsPoint.ofType l.is3D l.isMeasure (l.xAt i.toNat) (l.yAt i.toNat)
    (l.zAt i.toNat) (l.mAt i.toNat)

/-- The constructor `QgsLineString()`. -/
def empty : QgsLineString :=
  { is3D := false, isMeasure := false, mX := [], mY := [], mZ := [], mM := [] }

/-- Modelled from the spec: `addVertex` appends the point; a line without points
takes its flags from it, and z and m are kept as far as the line has the
flag. -/
def addVertex (l : QgsLineString) (pt : QgsPoint) : QgsLineString :=
  let hasZ := if l.mX.isEmpty then pt.is3D else l.is3D
  let hasM := if l.mX.isEmpty then pt.isMeasure else l.isMeasure
  { is3D := hasZ
    isMeasure := hasM
    mX := l.mX ++ [pt.x]
    mY := l.mY ++ [pt.y]
    mZ := if hasZ then l.mZ ++ [pt.z] else l.mZ
    mM := if hasM then l.mM ++ [pt.m] else l.mM }

end QgsLineString

/-- Modelled from the spec: `QgsPolygonV2` (qgspolygon.h is not among the
sources): one exterior ring (absent in a polygon just constructed) and the
interior rings. -/
structure QgsPolygonV2 where
  is3D : Bool
  isMeasure : Bool
  exteriorRing : Option QgsLineString
  interiorRings : List QgsLineString
deriving DecidableEq

namespace QgsPolygonV2

/-- The constructor `QgsPolygonV2()`. -/
def empty : QgsPolygonV2 :=
  { is3D := false, isMeasure := false, exteriorRing := none, interiorRings := [] }

/-- Modelled from the spec: `setExteriorRing` stores the ring; the polygon takes
its flags from it. -/
def setExteriorRing (p : QgsPolygonV2) (ring : QgsLineString) : QgsPolygonV2 :=
  { p with exteriorRing := some ring, is3D := ring.is3D, isMeasure := ring.isMeasure }

/-- Modelled from the spec: `setInteriorRings` stores the rings. -/
def setInteriorRings (p : QgsPolygonV2) (rings : List QgsLineString) : QgsPolygonV2 :=
  { p with interiorRings := rings }

def numInteriorRings (p : QgsPolygonV2) : Nat := p.interiorRings.length

end QgsPolygonV2

/-- The collection classes of the abstract model. -/
inductive QgsCollectionType where
  | MultiPoint
  | MultiLineString
  | MultiPolygon
  | GeometryCollection
deriving DecidableEq

/-- Modelled from the spec: the abstract geometry (qgsabstractgeometry.h and
the geometry classes are not among the sources), the closed variant type of
the design notes: Point, LineString, Polygon, and the collections, which
carry the two flags and their members. -/
inductive QgsAbstractGeometry where
  | point (p : QgsPoint)
  | lineString (l : QgsLineString)
  | polygon (p : QgsPolygonV2)
  | collection (type : QgsCollectionType) (hasZ hasM : Bool) (geoms : List QgsAbstractGeometry)

namespace QgsAbstractGeometry

def is3D : QgsAbstractGeometry → Bool
  | .point p => p.is3D
  | .lineString l => l.is3D
  | .polygon p => p.is3D
  | .collection _ hasZ _ _ => hasZ

def isMeasure : QgsAbstractGeometry → Bool
  | .point p => p.isMeasure
  | .lineString l => l.isMeasure
  | .polygon p => p.isMeasure
  | .collection _ _ hasM _ => hasM

/-- Modelled from the spec: `dimension()`: 0 for points, 1 for curves, 2 for
surfaces, and for a collection the largest dimension of a member (0 when it
has none). -/
def dimension : QgsAbstractGeometry → Nat
  | .point _ => 0
  | .lineString _ => 1
  | .polygon _ => 2
  | .collection _ _ _ geoms => maxDimension geoms
where
  maxDimension : List QgsAbstractGeometry → Nat
    | [] => 0
    | g :: gs => max (dimension g) (maxDimension gs)

/-- Modelled from the spec: `nCoordinates()`, the number of vertices. -/
def nCoordinates : QgsAbstractGeometry → Nat
  | .point _ => 1
  | .lineString l => l.numPoints
  | .polygon p =>
      (match p.exteriorRing with
        | some r => r.numPoints
        | none => 0) + (p.interiorRings.map QgsLineString.numPoints).sum
  | .collection _ _ _ geoms => sumCoordinates geoms
where
  sumCoordinates : List QgsAbstractGeometry → Nat
    | [] => 0
    | g :: gs => nCoordinates g + sumCoordinates gs

/-- The x and y of every vertex, in order. -/
def vertices : QgsAbstractGeometry → List (ℚ × ℚ)
  | .point p => [(p.x, p.y)]
  | .lineString l => l.mX.zip l.mY
  | .polygon p =>
      (match p.exteriorRing with
        | some r => r.mX.zip r.mY
        | none => []) ++ p.interiorRings.flatMap (fun r => r.mX.zip r.mY)
  | .collection _ _ _ geoms => allVertices geoms
where
  allVertices : List QgsAbstractGeometry → List (ℚ × ℚ)
    | [] => []
    | g :: gs => vertices g ++ allVertices gs

/-- Modelled from the spec: `boundingBox()`, the smallest rectangle around all
vertices; the null rectangle (all bounds 0) for a geometry without vertex. -/
def boundingBox (g : QgsAbstractGeometry) : QgsRectangle :=
  match g.vertices with
  | [] => { xMinimum := 0, yMinimum := 0, xMaximum := 0, yMaximum := 0 }
  | (x, y) :: rest =>
      rest.foldl
        (fun r v =>
          { xMinimum := min r.xMinimum v.1, yMinimum := min r.yMinimum v.2
            xMaximum := max r.xMaximum v.1, yMaximum := max r.yMaximum v.2 })
        { xMinimum := x, yMinimum := y, xMaximum := x, yMaximum := y }

/-- Modelled from the spec: `addGeometry` of the collection classes.  A null
pointer is not added; `QgsMultiPointV2`, `QgsMultiLineString` and
`QgsMultiPolygonV2` accept only points, line strings and polygons and take
their flags from the member added; `QgsGeometryCollection` accepts every
geometry.  On a geometry that is no collection nothing happens. -/
def addGeometry (c : QgsAbstractGeometry) (g : Option QgsAbstractGeometry) : QgsAbstractGeometry :=
  match c, g with
  | .collection .MultiPoint _ _ geoms, some (.point p) =>
      .collection .MultiPoint p.is3D p.isMeasure (geoms ++ [.point p])
  | .collection .MultiLineString _ _ geoms, some (.lineString l) =>
      .collection .MultiLineString l.is3D l.isMeasure (geoms ++ [.lineString l])
  | .collection .MultiPolygon _ _ geoms, some (.polygon p) =>
      .collection .MultiPolygon p.is3D p.isMeasure (geoms ++ [.polygon p])
  | .collection .GeometryCollection hasZ hasM geoms, some a =>
      .collection .GeometryCollection hasZ hasM (geoms ++ [a])
  | c, _ => c

/-- The members of a collection (none for a single geometry). -/
def geometries : QgsAbstractGeometry → List QgsAbstractGeometry
  | .collection _ _ _ geoms => geoms
  | _ => []

end QgsAbstractGeometry

/-- The exception that the error handler of the source, `throwGEOSException`,
throws from inside a failing library call. -/
structure GEOSException where
deriving DecidableEq

/-! ## Conversion between the two representations (static members of QgsGeos) -/

namespace QgsGeos

/-- The loop body of `createCoordinateSequence` for a positive precision: the
ordinates of point `i % numPoints` are stored snapped to the grid,
`std::round( v / precision ) * precision` with the quotient and the product
computed in doubles. -/
def storeSnapped (line : QgsLineString) (precision : ℚ) (hasZ hasM : Bool) (numPoints : Nat)
    (coordSeq : GEOSCoordSequence) (i : Nat) : GEOSCoordSequence :=
  let coordSeq := GEOSCoordSeq_setX_r coordSeq i
    (toDouble (stdRound (toDouble (line.xAt (i % numPoints) / precision)) * precision))
  let coordSeq := GEOSCoordSeq_setY_r coordSeq i
    (toDouble (stdRound (toDouble (line.yAt (i % numPoints) / precision)) * precision))
  let coordSeq := if hasZ then
      GEOSCoordSeq_setOrdinate_r coordSeq i 2
        (toDouble (stdRound (toDouble (line.zAt (i % numPoints) / precision)) * precision))
    else coordSeq
  if hasM then GEOSCoordSeq_setOrdinate_r coordSeq i 3 (line.mAt (i % numPoints)) else coordSeq

/-- The loop body of `createCoordinateSequence` without snapping. -/
def storeExact (line : QgsLineString) (hasZ hasM : Bool) (numPoints : Nat)
    (coordSeq : GEOSCoordSequence) (i : Nat) : GEOSCoordSequence :=
  let coordSeq := GEOSCoordSeq_setX_r coordSeq i (line.xAt (i % numPoints))
  let coordSeq := GEOSCoordSeq_setY_r coordSeq i (line.yAt (i % numPoints))
  let coordSeq := if hasZ then
      GEOSCoordSeq_setOrdinate_r coordSeq i 2 (line.zAt (i % numPoints))
    else coordSeq
  if hasM then GEOSCoordSeq_setOrdinate_r coordSeq i 3 (line.mAt (i % numPoints)) else coordSeq

/-- The function `QgsGeos::createCoordinateSequence`.  The measure flag is
switched off in the source (`bool hasM = false`). -/
def createCoordinateSequence (curve : QgsLineString) (precision : ℚ) (forceClose : Bool) :
    Option GEOSCoordSequence :=
  let line := curve
  let hasZ := line.is3D
  let hasM := false
  let coordDims := 2 + (if hasZ then 1 else 0) + (if hasM then 1 else 0)
  let numPoints := line.numPoints
  let numOutPoints :=
    if forceClose && !((line.pointN 0).equals (line.pointN ((numPoints : Int) - 1))) then
      numPoints + 1
    else numPoints
  let coordSeq := GEOSCoordSeq_create_r numOutPoints coordDims
  if precision > 0 then
    some ((List.range numOutPoints).foldl (storeSnapped line precision hasZ hasM numPoints) coordSeq)
  else
    some ((List.range numOutPoints).foldl (storeExact line hasZ hasM numPoints) coordSeq)

/-- The function `QgsGeos::createGeosPointXY`: the measure value is never
written.  The quotient and the product of the snapping are computed in
doubles. -/
def createGeosPointXY (x y : ℚ) (hasZ : Bool) (z : ℚ) (_hasM : Bool) (_m : ℚ) (coordDims : Nat)
    (precision : ℚ) : Option GEOSGeometry :=
  let coordSeq := GEOSCoordSeq_create_r 1 coordDims
  let coordSeq :=
    if precision > 0 then
      let coordSeq := GEOSCoordSeq_setX_r coordSeq 0
        (toDouble (stdRound (toDouble (x / precision)) * precision))
      let coordSeq := GEOSCoordSeq_setY_r coordSeq 0
        (toDouble (stdRound (toDouble (y / precision)) * precision))
      if hasZ then
        GEOSCoordSeq_setOrdinate_r coordSeq 0 2
          (toDouble (stdRound (toDouble (z / precision)) * precision))
      else coordSeq
    else
      let coordSeq := GEOSCoordSeq_setX_r coordSeq 0 x
      let coordSeq := GEOSCoordSeq_setY_r coordSeq 0 y
      if hasZ then GEOSCoordSeq_setOrdinate_r coordSeq 0 2 z else coordSeq
  GEOSGeom_createPoint_r coordSeq

def createGeosPoint (pt : QgsPoint) (coordDims : Nat) (precision : ℚ) : Option GEOSGeometry :=
  createGeosPointXY pt.x pt.y pt.is3D pt.z pt.isMeasure pt.m coordDims precision

def createGeosLinestring (c : QgsLineString) (precision : ℚ) : Option GEOSGeometry :=
  match createCoordinateSequence c precision false with
  | none => none
  | some coordSeq => GEOSGeom_createLineString_r coordSeq

/-- The ring built from a curve in `createGeosPolygon`; `none` stands for the
exception that leaves the function through `CATCH_GEOS( nullptr )`. -/
def createGeosRing (ring : QgsLineString) (precision : ℚ) : Option GEOSGeometry :=
  (createCoordinateSequence ring precision true).bind GEOSGeom_createLinearRing_r

/-- The loop of `createGeosPolygon` over the interior rings. -/
def createGeosHoles (precision : ℚ) : List QgsLineString → Option (List GEOSGeometry)
  | [] => some []
  | interiorRing :: rest =>
    match createGeosRing interiorRing precision with
    | none => none
    | some hole => (createGeosHoles precision rest).map (fun holes => hole :: holes)

def createGeosPolygon (polygon : QgsPolygonV2) (precision : ℚ) : Option GEOSGeometry :=
  match polygon.exteriorRing with
  | none => none
  | some exteriorRing =>
    match createGeosRing exteriorRing precision with
    | none => none
    | some exteriorRingGeos =>
      match createGeosHoles precision polygon.interiorRings with
      | none => none
      | some holes => GEOSGeom_createPolygon_r exteriorRingGeos holes

/-- The function `QgsGeos::createGeosCollection`: null members are left out; an
exception of the library gives a null result. -/
def createGeosCollection (typeId : GEOSGeomTypes) (geoms : List (Option GEOSGeometry)) :
    Option GEOSGeometry :=
  GEOSGeom_createCollection_r typeId (geoms.filterMap id)

/-- The type id chosen by `asGeos` for a collection: by the geometry type for
the multi types, `GEOS_GEOMETRYCOLLECTION` otherwise. -/
def collectionTypeId : QgsCollectionType → GEOSGeomTypes
  | .MultiPoint => GEOS_MULTIPOINT
  | .MultiLineString => GEOS_MULTILINESTRING
  | .MultiPolygon => GEOS_MULTIPOLYGON
  | .GeometryCollection => GEOS_GEOMETRYCOLLECTION

/-- The function `QgsGeos::asGeos` on a geometry that is not null. -/
def asGeosOf (precision : ℚ) : QgsAbstractGeometry → Option GEOSGeometry
  | .point p =>
      let coordDims := 2 + (if p.is3D then 1 else 0) + (if p.isMeasure then 1 else 0)
      createGeosPoint p coordDims precision
  | .lineString l => createGeosLinestring l precision
  | .polygon p => createGeosPolygon p precision
  | .collection t _ _ geoms => createGeosCollection (collectionTypeId t) (geomVector geoms)
where
  geomVector : List QgsAbstractGeometry → List (Option GEOSGeometry)
    | [] => []
    | g :: gs => asGeosOf precision g :: geomVector gs

/-- The function `QgsGeos::asGeos`. -/
def asGeos (geom : Option QgsAbstractGeometry) (precision : ℚ) : Option GEOSGeometry :=
  match geom with
  | none => none
  | some g => asGeosOf precision g

/-- The function `QgsGeos::coordSeqPoint`.  An ordinate the library fails to
deliver is read as 0; the library delivers no measure. -/
def coordSeqPoint (cs : Option GEOSCoordSequence) (i : Nat) (hasZ hasM : Bool) : QgsPoint :=
  match cs with
  | none => QgsPoint.empty
  | some cs =>
    let x := (GEOSCoordSeq_getX_r cs i).getD 0
    let y := (GEOSCoordSeq_getY_r cs i).getD 0
    let z := if hasZ then (GEOSCoordSeq_getZ_r cs i).getD 0 else 0
    let m := if hasM then (GEOSCoordSeq_getOrdinate_r cs i 3).getD 0 else 0
    QgsPoint.ofType hasZ hasM x y z m

/-- The body of `QgsGeos::sequenceToLinestring` from the coordinate sequence on:
the ordinates are read into vectors, of which the line string is made. -/
def lineOfSequence (cs : GEOSCoordSequence) (hasZ hasM : Bool) : QgsLineString :=
  let nPoints := GEOSCoordSeq_getSize_r cs
  let xOut := (List.range nPoints).map (fun i => (GEOSCoordSeq_getX_r cs i).getD 0)
  let yOut := (List.range nPoints).map (fun i => (GEOSCoordSeq_getY_r cs i).getD 0)
  let zOut := if hasZ then (List.range nPoints).map (fun i => (GEOSCoordSeq_getZ_r cs i).getD 0)
    else []
  let mOut := if hasM then
      (List.range nPoints).map (fun i => (GEOSCoordSeq_getOrdinate_r cs i 3).getD 0)
    else []
  QgsLineString.ofVectors xOut yOut zOut mOut

/-- The function `QgsGeos::sequenceToLinestring`.  The coordinate sequence is
read without a test: on a geometry that is no point, line string or linear
ring the call `GEOSGeom_getCoordSeq_r` raises, and the exception leaves the
function. -/
def sequenceToLinestring (geos : GEOSGeometry) (hasZ hasM : Bool) :
    Except GEOSException QgsLineString :=
  match GEOSGeom_getCoordSeq_r geos with
  | none => .error {}
  | some cs => .ok (lineOfSequence cs hasZ hasM)

/-- The function `QgsGeos::fromGeosPolygon`: null for a geometry that is no
polygon.  An exception of `sequenceToLinestring` leaves the function. -/
def fromGeosPolygon (geos : GEOSGeometry) : Except GEOSException (Option QgsPolygonV2) :=
  if GEOSGeomTypeId_r geos ≠ GEOS_POLYGON then .ok none
  else
    let nCoordDims := GEOSGeom_getCoordinateDimension_r geos
    let nDims := GEOSGeom_getDimensions_r geos
    let hasZ := decide (nCoordDims = 3)
    let hasM := decide (nDims - (nCoordDims : Int) = 1)
    let polygon := QgsPolygonV2.empty
    match (match GEOSGetExteriorRing_r geos with
           | some ring =>
             match sequenceToLinestring ring hasZ hasM with
             | .ok line => Except.ok (polygon.setExteriorRing line)
             | .error e => .error e
           | none => .ok polygon) with
    | .error e => .error e
    | .ok polygon =>
      match (List.range (GEOSGetNumInteriorRings_r geos)).foldl
          (fun (interiorRings : Except GEOSException (List QgsLineString)) i =>
            match interiorRings, GEOSGetInteriorRingN_r geos i with
            | .error e, _ => Except.error e
            | .ok interiorRings, none => .ok interiorRings
            | .ok interiorRings, some ring =>
              match sequenceToLinestring ring hasZ hasM with
              | .ok line => .ok (interiorRings ++ [line])
              | .error e => .error e)
          (.ok []) with
      | .error e => .error e
      | .ok interiorRings => .ok (some (polygon.setInteriorRings interiorRings))

/-- The function `QgsGeos::fromGeos` on a geometry that is not null.  The
function has no handler: an exception of `GEOSGeom_getCoordSeq_r` on a member
of a multi-point, or of `sequenceToLinestring` on a member of a
multi-line-string, ends the loop and leaves the function. -/
def fromGeosOf (geos : GEOSGeometry) : Except GEOSException (Option QgsAbstractGeometry) :=
  let nCoordDims := GEOSGeom_getCoordinateDimension_r geos
  let nDims := GEOSGeom_getDimensions_r geos
  let hasZ := decide (nCoordDims = 3)
  let hasM := decide (nDims - (nCoordDims : Int) = 1)
  match geos with
  | .point cs =>
      .ok (some (.point (coordSeqPoint (GEOSGeom_getCoordSeq_r (.point cs)) 0 hasZ hasM)))
  | .lineString cs =>
      match sequenceToLinestring (.lineString cs) hasZ hasM with
      | .ok line => .ok (some (.lineString line))
      | .error e => .error e
  | .linearRing _ => .ok none
  | .polygon shell holes =>
      match fromGeosPolygon (.polygon shell holes) with
      | .ok polygon => .ok (polygon.map QgsAbstractGeometry.polygon)
      | .error e => .error e
  | .collection .multiPoint geoms =>
      match geoms.foldl
          (fun (multiPoint : Except GEOSException QgsAbstractGeometry) part =>
            match multiPoint, GEOSGeom_getCoordSeq_r part with
            | .error e, _ => Except.error e
            | .ok _, none => .error {}
            | .ok multiPoint, some cs =>
              .ok (multiPoint.addGeometry (some (.point (coordSeqPoint (some cs) 0 hasZ hasM)))))
          (.ok (.collection .MultiPoint false false [])) with
      | .ok multiPoint => .ok (some multiPoint)
      | .error e => .error e
  | .collection .multiLineString geoms =>
      match geoms.foldl
          (fun (multiLineString : Except GEOSException QgsAbstractGeometry) part =>
            match multiLineString, sequenceToLinestring part hasZ hasM with
            | .error e, _ => Except.error e
            | .ok _, .error e => .error e
            | .ok multiLineString, .ok line =>
              .ok (multiLineString.addGeometry (some (.lineString line))))
          (.ok (.collection .MultiLineString false false [])) with
      | .ok multiLineString => .ok (some multiLineString)
      | .error e => .error e
  | .collection .multiPolygon geoms =>
      match geoms.foldl
          (fun (multiPolygon : Except GEOSException QgsAbstractGeometry) part =>
            match multiPolygon, fromGeosPolygon part with
            | .error e, _ => Except.error e
            | .ok _, .error e => .error e
            | .ok multiPolygon, .ok poly =>
              .ok (multiPolygon.addGeometry (poly.map QgsAbstractGeometry.polygon)))
          (.ok (.collection .MultiPolygon false false [])) with
      | .ok multiPolygon => .ok (some multiPolygon)
      | .error e => .error e
  | .collection .geometryCollection geoms =>
      match members geoms with
      | .ok converted =>
        .ok (some (converted.foldl
          (fun geomCollection geom => geomCollection.addGeometry geom)
          (.collection .GeometryCollection false false [])))
      | .error e => .error e
where
  members : List GEOSGeometry → Except GEOSException (List (Option QgsAbstractGeometry))
    | [] => .ok []
    | g :: gs =>
      match fromGeosOf g with
      | .error e => .error e
      | .ok geom =>
        match members gs with
        | .error e => .error e
        | .ok geoms => .ok (geom :: geoms)

/-- The function `QgsGeos::fromGeos` as its callers see it, that is together with
the handler of the try block around the call (`CATCH_GEOS( nullptr )`): null
for a null argument, the result of the conversion, and null when the
conversion raises.  The conversion raises only on a multi-point or a
multi-line-string with a member that has no coordinate sequence, itself or as
member of a collection.  The library hands out no such geometry; the engine
builds one in the multi-part branch of `reshapeGeometry`, where the call is
inside the try block.  The single-part branch of `reshapeGeometry`, which has
no try block, uses `fromGeosOf`, and the exception leaves the function.  At the
other calls the argument is an answer of the library or a geometry that the
engine built from line strings and polygons; a context that answers with a
multi-geometry of the wrong members gets null for it. -/
def fromGeos (geos : Option GEOSGeometry) : Option QgsAbstractGeometry :=
  match geos with
  | none => none
  | some g =>
    match fromGeosOf g with
    | .ok geom => geom
    | .error _ => none

/-- The function `QgsGeos::numberOfGeometries`. -/
def numberOfGeometries (g : Option GEOSGeometry) : Nat :=
  match g with
  | none => 0
  | some g =>
    let geometryType := GEOSGeomTypeId_r g
    if geometryType = GEOS_POINT ∨ geometryType = GEOS_LINESTRING ∨ geometryType = GEOS_LINEARRING
        ∨ geometryType = GEOS_POLYGON then 1
    else GEOSGetNumGeometries_r g

end QgsGeos

/-! ## Well-formed geometries without measure values -/

/-- A line string without measure values whose ordinate vectors fit its flags
(as many y as x, as many z as x when it has Z and none otherwise), of at
least two points. -/
def QgsLineString.wellFormedNoM (l : QgsLineString) : Prop :=
  l.isMeasure = false ∧ l.mM = [] ∧ l.mY.length = l.mX.length
    ∧ l.mZ.length = (if l.is3D then l.mX.length else 0) ∧ 2 ≤ l.mX.length

/-- A ring: a well-formed line string of at least four points whose last
point is its first point. -/
def QgsLineString.wellFormedRing (l : QgsLineString) : Prop :=
  l.wellFormedNoM ∧ 4 ≤ l.mX.length ∧ l.pointN 0 = l.pointN ((l.numPoints : Int) - 1)

/-- A polygon without measure values: it has an exterior ring, all its rings
are well-formed rings, and all carry the has-Z flag of the polygon. -/
def QgsPolygonV2.wellFormedNoM (p : QgsPolygonV2) : Prop :=
  p.isMeasure = false
    ∧ (∃ r, p.exteriorRing = some r ∧ r.wellFormedRing ∧ r.is3D = p.is3D)
    ∧ ∀ h ∈ p.interiorRings, h.wellFormedRing ∧ h.is3D = p.is3D

/-- The geometries of the round trip: a Point, LineString or Polygon, or a
MultiPoint, MultiLineString or MultiPolygon whose members are of the member
type and carry its has-Z flag (no Z flag on a collection without member);
nowhere a measure value. -/
def QgsAbstractGeometry.wellFormedNoM : QgsAbstractGeometry → Prop
  | .point p => p.mValue = none
  | .lineString l => l.wellFormedNoM
  | .polygon p => p.wellFormedNoM
  | .collection .MultiPoint hasZ hasM geoms =>
      hasM = false ∧ (geoms = [] → hasZ = false)
        ∧ ∀ g ∈ geoms, ∃ p, g = .point p ∧ p.mValue = none ∧ p.is3D = hasZ
  | .collection .MultiLineString hasZ hasM geoms =>
      hasM = false ∧ (geoms = [] → hasZ = false)
        ∧ ∀ g ∈ geoms, ∃ l, g = .lineString l ∧ l.wellFormedNoM ∧ l.is3D = hasZ
  | .collection .MultiPolygon hasZ hasM geoms =>
      hasM = false ∧ (geoms = [] → hasZ = false)
        ∧ ∀ g ∈ geoms, ∃ p, g = .polygon p ∧ p.wellFormedNoM ∧ p.is3D = hasZ
  | .collection .GeometryCollection _ _ _ => False

/-! ## The library calls and the engine object -/

/-- A prepared geometry of the library (`GEOSPreparedGeometry`): an index over the
native geometry it was built from. -/
structure GEOSPreparedGeometry where
  base : GEOSGeometry

/-- The context handle `geosinit.ctxt` that the source passes to every call of
the library.  Its fields are the computational calls of GEOS, which are not
part of the repository: every statement about the engine holds for every
behaviour of these calls.  A call either returns its value or raises
`GEOSException`: because the installed error handler throws, a failing call
never comes back with a null pointer or an error code.

The last field is not a call of GEOS but the function `std::log10` of `<cmath>`
on a positive double.  Its result is a double that the language standard does
not pin down to the last bit, so it is a parameter too, and what is assumed
of it is a hypothesis where it is used. -/
structure GEOSContextHandle_t where
  GEOSClipByRect_r : GEOSGeometry → ℚ → ℚ → ℚ → ℚ → Except GEOSException GEOSGeometry
  GEOSisValid_r : GEOSGeometry → Except GEOSException Bool
  GEOSisSimple_r : GEOSGeometry → Except GEOSException Bool
  GEOSIntersects_r : GEOSGeometry → GEOSGeometry → Except GEOSException Bool
  GEOSEquals_r : GEOSGeometry → GEOSGeometry → Except GEOSException Bool
  GEOSRelatePattern_r : GEOSGeometry → GEOSGeometry → String → Except GEOSException Bool
  GEOSIntersection_r : GEOSGeometry → GEOSGeometry → Except GEOSException GEOSGeometry
  GEOSDifference_r : GEOSGeometry → GEOSGeometry → Except GEOSException GEOSGeometry
  GEOSUnion_r : GEOSGeometry → GEOSGeometry → Except GEOSException GEOSGeometry
  GEOSBoundary_r : GEOSGeometry → Except GEOSException GEOSGeometry
  GEOSPolygonize_r : List GEOSGeometry → Except GEOSException GEOSGeometry
  GEOSArea_r : GEOSGeometry → Except GEOSException ℚ
  GEOSSymDifference_r : GEOSGeometry → GEOSGeometry → Except GEOSException GEOSGeometry
  GEOSLineMerge_r : GEOSGeometry → Except GEOSException GEOSGeometry
  GEOSTouches_r : GEOSGeometry → GEOSGeometry → Except GEOSException Bool
  GEOSCrosses_r : GEOSGeometry → GEOSGeometry → Except GEOSException Bool
  GEOSWithin_r : GEOSGeometry → GEOSGeometry → Except GEOSException Bool
  GEOSContains_r : GEOSGeometry → GEOSGeometry → Except GEOSException Bool
  GEOSDisjoint_r : GEOSGeometry → GEOSGeometry → Except GEOSException Bool
  GEOSOverlaps_r : GEOSGeometry → GEOSGeometry → Except GEOSException Bool
  GEOSPrepare_r : GEOSGeometry → Except GEOSException GEOSPreparedGeometry
  GEOSPreparedIntersects_r : GEOSPreparedGeometry → GEOSGeometry → Except GEOSException Bool
  GEOSPreparedTouches_r : GEOSPreparedGeometry → GEOSGeometry → Except GEOSException Bool
  GEOSPreparedCrosses_r : GEOSPreparedGeometry → GEOSGeometry → Except GEOSException Bool
  GEOSPreparedWithin_r : GEOSPreparedGeometry → GEOSGeometry → Except GEOSException Bool
  GEOSPreparedContains_r : GEOSPreparedGeometry → GEOSGeometry → Except GEOSException Bool
  GEOSPreparedDisjoint_r : GEOSPreparedGeometry → GEOSGeometry → Except GEOSException Bool
  GEOSPreparedOverlaps_r : GEOSPreparedGeometry → GEOSGeometry → Except GEOSException Bool
  GEOSRelate_r : GEOSGeometry → GEOSGeometry → Except GEOSException String
  GEOSDistance_r : GEOSGeometry → GEOSGeometry → Except GEOSException ℚ
  GEOSHausdorffDistance_r : GEOSGeometry → GEOSGeometry → Except GEOSException ℚ
  GEOSLength_r : GEOSGeometry → Except GEOSException ℚ
  GEOSProject_r : GEOSGeometry → GEOSGeometry → Except GEOSException ℚ
  GEOSBuffer_r : GEOSGeometry → ℚ → Int → Except GEOSException GEOSGeometry
  GEOSBufferWithStyle_r :
    GEOSGeometry → ℚ → Int → Int → Int → ℚ → Except GEOSException GEOSGeometry
  GEOSTopologyPreserveSimplify_r : GEOSGeometry → ℚ → Except GEOSException GEOSGeometry
  GEOSEnvelope_r : GEOSGeometry → Except GEOSException GEOSGeometry
  GEOSConvexHull_r : GEOSGeometry → Except GEOSException GEOSGeometry
  GEOSGetCentroid_r : GEOSGeometry → Except GEOSException GEOSGeometry
  GEOSPointOnSurface_r : GEOSGeometry → Except GEOSException GEOSGeometry
  log10 : ℚ → ℚ

/-- The engine object: the abstract geometry it was constructed on
(`mGeometry` of `QgsGeometryEngine`), the snapping precision, and the two
caches. -/
structure QgsGeos where
  mGeometry : Option QgsAbstractGeometry
  mPrecision : ℚ
  mGeos : Option GEOSGeometry
  mGeosPrepared : Option GEOSPreparedGeometry

/-! ## Recursive subdivision -/

/-- Which of the three `parts->addGeometry` statements of `subdivideRecursive`
emitted a part. -/
inductive EmitReason where
  | degenerateRect
  | depthExceeded
  | belowThreshold
deriving DecidableEq

/-- What a run of `subdivideRecursive` did: the parts handed to
`parts->addGeometry( fromGeos( ... ) )`, in order and each with the statement
that emitted it, and whether the run ended in an exception of the library. -/
structure SubdivideTrace where
  parts : List (EmitReason × GEOSGeometry)
  raised : Bool

namespace SubdivideTrace

def nothing : SubdivideTrace := { parts := [], raised := false }

def emit (reason : EmitReason) (part : GEOSGeometry) : SubdivideTrace :=
  { parts := [(reason, part)], raised := false }

def exception : SubdivideTrace := { parts := [], raised := true }

/-- Sequencing of two statements: the second one runs unless the first one
ended in an exception. -/
def andThen (first next : SubdivideTrace) : SubdivideTrace :=
  if first.raised then first
  else { parts := first.parts ++ next.parts, raised := next.raised }

end SubdivideTrace

/-- Modelled from the spec: `QgsGeometryFactory::createCollectionOfType`: the
empty multi-part collection for the type of the given geometry, with its
flags. -/
def createCollectionOfType : QgsAbstractGeometry → QgsAbstractGeometry
  | .point p => .collection .MultiPoint p.is3D p.isMeasure []
  | .lineString l => .collection .MultiLineString l.is3D l.isMeasure []
  | .polygon p => .collection .MultiPolygon p.is3D p.isMeasure []
  | .collection t hasZ hasM _ => .collection t hasZ hasM []

namespace QgsGeos

/-- The two half rectangles of `subdivideRecursive`: the clip rectangle chopped
in half by its longest side, and widened by `DBL_EPSILON` where it has no
extent.  Every sum, difference and quotient is the one of doubles. -/
def halfClipRects (clipRect : QgsRectangle) : QgsRectangle × QgsRectangle :=
  let width := clipRect.width
  let height := clipRect.height
  let halfClipRect1 := clipRect
  let halfClipRect2 := clipRect
  let halfClipRect1 :=
    if width > height then
      halfClipRect1.setXMaximum (toDouble (clipRect.xMinimum + toDouble (width / 2)))
    else halfClipRect1.setYMaximum (toDouble (clipRect.yMinimum + toDouble (height / 2)))
  let halfClipRect2 :=
    if width > height then halfClipRect2.setXMinimum halfClipRect1.xMaximum
    else halfClipRect2.setYMinimum halfClipRect1.yMaximum
  let halfClipRect1 :=
    if height ≤ 0 then
      (halfClipRect1.setYMinimum (toDouble (halfClipRect1.yMinimum - DBL_EPSILON))).setYMaximum
        (toDouble (halfClipRect1.yMaximum + DBL_EPSILON))
    else halfClipRect1
  let halfClipRect2 :=
    if height ≤ 0 then
      (halfClipRect2.setYMinimum (toDouble (halfClipRect2.yMinimum - DBL_EPSILON))).setYMaximum
        (toDouble (halfClipRect2.yMaximum + DBL_EPSILON))
    else halfClipRect2
  let halfClipRect1 :=
    if width ≤ 0 then
      (halfClipRect1.setXMinimum (toDouble (halfClipRect1.xMinimum - DBL_EPSILON))).setXMaximum
        (toDouble (halfClipRect1.xMaximum + DBL_EPSILON))
    else halfClipRect1
  let halfClipRect2 :=
    if width ≤ 0 then
      (halfClipRect2.setXMinimum (toDouble (halfClipRect2.xMinimum - DBL_EPSILON))).setXMaximum
        (toDouble (halfClipRect2.xMaximum + DBL_EPSILON))
    else halfClipRect2
  (halfClipRect1, halfClipRect2)

/-- The call `GEOSClipByRect_r` on a rectangle. -/
def clipByRect (ctxt : GEOSContextHandle_t) (part : GEOSGeometry) (r : QgsRectangle) :
    Except GEOSException GEOSGeometry :=
  ctxt.GEOSClipByRect_r part r.xMinimum r.yMinimum r.xMaximum r.yMaximum

/-- The test of `subdivideRecursive` for a part with members to recurse into. -/
def isSubdividedByMembers (partType : GEOSGeomTypes) : Bool :=
  decide (partType = GEOS_MULTILINESTRING) || decide (partType = GEOS_MULTIPOLYGON)
    || decide (partType = GEOS_GEOMETRYCOLLECTION)

/-- The function `QgsGeos::subdivideRecursive`.  The recursion is the one of the
source: into the members of a multi-part geometry at the same depth, into
the two clipped halves at depth + 1. -/
def subdivideRecursive (ctxt : GEOSContextHandle_t) (currentPart : GEOSGeometry)
    (maxNodes depth : Int) (clipRect : QgsRectangle) : SubdivideTrace :=
  if qgsDoubleNear clipRect.width 0 && qgsDoubleNear clipRect.height 0 then
    if GEOSGeomTypeId_r currentPart = GEOS_POINT then
      SubdivideTrace.emit .degenerateRect currentPart
    else SubdivideTrace.nothing
  else if _h : isSubdividedByMembers (GEOSGeomTypeId_r currentPart) = true then
    currentPart.memberGeometries.attach.foldl
      (fun trace member =>
        trace.andThen (subdivideRecursive ctxt member.1 maxNodes depth clipRect))
      SubdivideTrace.nothing
  else if depth > 50 then SubdivideTrace.emit .depthExceeded currentPart
  else
    let vertexCount : Int := GEOSGetNumCoordinates_r currentPart
    if vertexCount = 0 then SubdivideTrace.nothing
    else if vertexCount < maxNodes then SubdivideTrace.emit .belowThreshold currentPart
    else
      let halfClipRect1 := (halfClipRects clipRect).1
      let halfClipRect2 := (halfClipRects clipRect).2
      match clipByRect ctxt currentPart halfClipRect1, clipByRect ctxt currentPart halfClipRect2 with
      | .ok clipPart1, .ok clipPart2 =>
          (subdivideRecursive ctxt clipPart1 maxNodes (depth + 1) halfClipRect1).andThen
            (subdivideRecursive ctxt clipPart2 maxNodes (depth + 1) halfClipRect2)
      | _, _ => SubdivideTrace.exception
termination_by ((51 - depth).toNat, sizeOf currentPart)
decreasing_by
  · apply Prod.Lex.right
    have hmem := member.2
    cases currentPart with
    | collection type geoms =>
      have hlt := List.sizeOf_lt_of_mem (show member.1 ∈ geoms from hmem)
      simp only [GEOSGeometry.collection.sizeOf_spec]
      omega
    | point cs => simp [isSubdividedByMembers, GEOSGeomTypeId_r] at _h
    | lineString cs => simp [isSubdividedByMembers, GEOSGeomTypeId_r] at _h
    | linearRing cs => simp [isSubdividedByMembers, GEOSGeomTypeId_r] at _h
    | polygon shell holes => simp [isSubdividedByMembers, GEOSGeomTypeId_r] at _h
  · apply Prod.Lex.left
    omega
  · apply Prod.Lex.left
    omega

/-- The body of `subdivideRecursive` run with a bound on the nesting of calls:
every call uses one unit of `fuel`, and `none` means that the bound was
reached before the run ended. -/
def subdivideRecursiveFuel (ctxt : GEOSContextHandle_t) :
    Nat → GEOSGeometry → Int → Int → QgsRectangle → Option SubdivideTrace
  | 0, _, _, _, _ => none
  | fuel + 1, currentPart, maxNodes, depth, clipRect =>
    if qgsDoubleNear clipRect.width 0 && qgsDoubleNear clipRect.height 0 then
      if GEOSGeomTypeId_r currentPart = GEOS_POINT then
        some (SubdivideTrace.emit .degenerateRect currentPart)
      else some SubdivideTrace.nothing
    else if isSubdividedByMembers (GEOSGeomTypeId_r currentPart) = true then
      currentPart.memberGeometries.foldl
        (fun trace member =>
          match trace, subdivideRecursiveFuel ctxt fuel member maxNodes depth clipRect with
          | some trace, some next => some (trace.andThen next)
          | _, _ => none)
        (some SubdivideTrace.nothing)
    else if depth > 50 then some (SubdivideTrace.emit .depthExceeded currentPart)
    else
      let vertexCount : Int := GEOSGetNumCoordinates_r currentPart
      if vertexCount = 0 then some SubdivideTrace.nothing
      else if vertexCount < maxNodes then some (SubdivideTrace.emit .belowThreshold currentPart)
      else
        let halfClipRect1 := (halfClipRects clipRect).1
        let halfClipRect2 := (halfClipRects clipRect).2
        match clipByRect ctxt currentPart halfClipRect1,
            clipByRect ctxt currentPart halfClipRect2 with
        | .ok clipPart1, .ok clipPart2 =>
            match subdivideRecursiveFuel ctxt fuel clipPart1 maxNodes (depth + 1) halfClipRect1,
                subdivideRecursiveFuel ctxt fuel clipPart2 maxNodes (depth + 1) halfClipRect2 with
            | some first, some next => some (first.andThen next)
            | _, _ => none
        | _, _ => some SubdivideTrace.exception

/-- The function `QgsGeos::subdivide`: null without a native geometry or after
an exception, otherwise the collection of the emitted parts. -/
def subdivide (ctxt : GEOSContextHandle_t) (self : QgsGeos) (maxNodes : Int) :
    Option QgsAbstractGeometry :=
  match self.mGeos, self.mGeometry with
  | some mGeos, some mGeometry =>
    let maxNodes := max maxNodes 8
    let parts := createCollectionOfType mGeometry
    let trace := subdivideRecursive ctxt mGeos maxNodes 0 mGeometry.boundingBox
    if trace.raised then none
    else some (trace.parts.foldl (fun parts part => parts.addGeometry (fromGeos (some part.2))) parts)
  | _, _ => none

end QgsGeos

/-! ## Splitting by a line -/

/-- The result codes of `QgsGeometryEngine::EngineOperationResult` that the
source uses. -/
inductive EngineOperationResult where
  | Success
  | NothingHappened
  | EngineError
  | NodedGeometryError
  | InvalidBaseGeometry
  | InvalidInput
  | SplitCannotSplitPoint
deriving DecidableEq

open EngineOperationResult

/-- What a call of `splitGeometry` leaves behind: the result code and the two
lists it works on by reference. -/
structure SplitOutcome where
  returnCode : EngineOperationResult
  newGeometries : List (Option QgsAbstractGeometry)
  topologyTestPoints : List QgsPoint

namespace QgsGeos

/-- The points collected by `topologicalTestPointsSplit` from the members of
the intersection, up to the first member without a coordinate sequence
(where the library raises and the function leaves through its `CATCH`). -/
def collectTestPoints : List GEOSGeometry → List QgsPoint
  | [] => []
  | g :: gs =>
    match GEOSGeom_getCoordSeq_r g with
    | none => []
    | some lineSequence =>
      lineSequence.coords.map (fun c => QgsPoint.ofType false false c.x c.y 0 0)
        ++ collectTestPoints gs

/-- The function `QgsGeos::topologicalTestPointsSplit`: its result and the test
points it leaves. -/
def topologicalTestPointsSplit (ctxt : GEOSContextHandle_t) (self : QgsGeos)
    (splitLine : GEOSGeometry) (testPoints : List QgsPoint) : Bool × List QgsPoint :=
  match self.mGeos with
  | none => (false, testPoints)
  | some mGeos =>
    match ctxt.GEOSIntersection_r mGeos splitLine with
    | .error _ => (true, [])
    | .ok intersectionGeom =>
      let simple := decide (GEOSGeomTypeId_r intersectionGeom = GEOS_LINESTRING)
        || decide (GEOSGeomTypeId_r intersectionGeom = GEOS_POINT)
      if simple then (true, collectTestPoints [intersectionGeom])
      else (true, collectTestPoints intersectionGeom.memberGeometries)

/-- The loop of `linePointDifference` over the inner vertices of one line: the
lines closed so far and the line under construction. -/
def breakLineStep (line : QgsLineString) (splitPoint : QgsPoint)
    (state : List QgsLineString × QgsLineString) (j : Nat) : List QgsLineString × QgsLineString :=
  let currentPoint := line.pointN j
  let newLine := state.2.addVertex currentPoint
  if currentPoint.equals splitPoint then
    (state.1 ++ [newLine], QgsLineString.empty.addVertex currentPoint)
  else (state.1, newLine)

/-- The body of the loop of `linePointDifference` for one part: the line
broken at every inner vertex equal to the split point. -/
def breakLine (line : QgsLineString) (splitPoint : QgsPoint) : List QgsLineString :=
  let newLine := QgsLineString.empty.addVertex (line.pointN 0)
  let nVertices := line.numPoints
  let state := (List.range' 1 (nVertices - 2)).foldl (breakLineStep line splitPoint) ([], newLine)
  let newLine := state.2.addVertex (line.pointN ((nVertices : Int) - 1))
  state.1 ++ [newLine]

/-- The line strings among the members of a multi curve. -/
def lineStringsOf : List QgsAbstractGeometry → List QgsLineString
  | [] => []
  | .lineString l :: gs => l :: lineStringsOf gs
  | _ :: gs => lineStringsOf gs

/-- The function `QgsGeos::linePointDifference`. -/
def linePointDifference (self : QgsGeos) (GEOSsplitPoint : GEOSGeometry) : Option GEOSGeometry :=
  match self.mGeos, self.mGeometry with
  | some mGeos, some mGeometry =>
    let type := GEOSGeomTypeId_r mGeos
    let multiCurve : Option (List QgsAbstractGeometry) :=
      if type = GEOS_MULTILINESTRING then
        match mGeometry with
        | .collection .MultiLineString _ _ geoms => some geoms
        | _ => none
      else if type = GEOS_LINESTRING then
        some ((QgsAbstractGeometry.collection .MultiLineString false false []).addGeometry
          (some mGeometry)).geometries
      else none
    match multiCurve with
    | none => none
    | some multiCurve =>
      match fromGeos (some GEOSsplitPoint) with
      | some (.point splitPoint) =>
        let lines := (lineStringsOf multiCurve).foldl
          (fun lines line =>
            (breakLine line splitPoint).foldl
              (fun lines newLine => lines.addGeometry (some (.lineString newLine))) lines)
          (QgsAbstractGeometry.collection .MultiLineString false false [])
        asGeos (some lines) self.mPrecision
      | _ => none
  | _, _ => none

/-- The test of `mergeGeometriesMultiTypeSplit` whether a geometry equals a part
of the receiver; an exception of `GEOSEquals_r` leaves the function. -/
def isPartOf (ctxt : GEOSContextHandle_t) (geom : GEOSGeometry) :
    List GEOSGeometry → Except GEOSException Bool
  | [] => .ok false
  | part :: parts =>
    match ctxt.GEOSEquals_r geom part with
    | .error e => .error e
    | .ok true => .ok true
    | .ok false => isPartOf ctxt geom parts

/-- The loop of `mergeGeometriesMultiTypeSplit` over the copied list: the new
split result and the geometries that belong to the initial multi feature. -/
def classifyFragments (ctxt : GEOSContextHandle_t) (type : GEOSGeomTypes)
    (parts : List GEOSGeometry) :
    List GEOSGeometry → Except GEOSException (List (Option GEOSGeometry) × List GEOSGeometry)
  | [] => .ok ([], [])
  | geom :: rest =>
    match isPartOf ctxt geom parts with
    | .error e => .error e
    | .ok isPart =>
      match classifyFragments ctxt type parts rest with
      | .error e => .error e
      | .ok (splitResult, unionGeom) =>
        if isPart then .ok (splitResult, geom :: unionGeom)
        else if type = GEOS_MULTILINESTRING then
          .ok (createGeosCollection GEOS_MULTILINESTRING [some geom] :: splitResult, unionGeom)
        else if type = GEOS_MULTIPOLYGON then
          .ok (createGeosCollection GEOS_MULTIPOLYGON [some geom] :: splitResult, unionGeom)
        else .ok (splitResult, unionGeom)

/-- The function `QgsGeos::mergeGeometriesMultiTypeSplit`, as the list it leaves
in `splitResult`. -/
def mergeGeometriesMultiTypeSplit (ctxt : GEOSContextHandle_t) (self : QgsGeos)
    (splitResult : List GEOSGeometry) : Except GEOSException (List (Option GEOSGeometry)) :=
  match self.mGeos with
  | none => .ok (splitResult.map some)
  | some mGeos =>
    let type := GEOSGeomTypeId_r mGeos
    if type ≠ GEOS_GEOMETRYCOLLECTION ∧ type ≠ GEOS_MULTILINESTRING ∧ type ≠ GEOS_MULTIPOLYGON
        ∧ type ≠ GEOS_MULTIPOINT then
      .ok (splitResult.map some)
    else
      match classifyFragments ctxt type mGeos.memberGeometries splitResult with
      | .error e => .error e
      | .ok (splitResult, unionGeom) =>
        if !unionGeom.isEmpty then
          if type = GEOS_MULTILINESTRING then
            .ok (splitResult ++ [createGeosCollection GEOS_MULTILINESTRING (unionGeom.map some)])
          else if type = GEOS_MULTIPOLYGON then
            .ok (splitResult ++ [createGeosCollection GEOS_MULTIPOLYGON (unionGeom.map some)])
          else .ok splitResult
        else .ok splitResult

/-- The function `QgsGeos::splitLinearGeometry`: the result code and the list
`newGeometries` it leaves. -/
def splitLinearGeometry (ctxt : GEOSContextHandle_t) (self : QgsGeos)
    (splitLine : Option GEOSGeometry) (newGeometries : List (Option QgsAbstractGeometry)) :
    Except GEOSException (EngineOperationResult × List (Option QgsAbstractGeometry)) :=
  match splitLine with
  | none => .ok (InvalidInput, newGeometries)
  | some splitLine =>
    match self.mGeos with
    | none => .ok (InvalidBaseGeometry, newGeometries)
    | some mGeos =>
      match ctxt.GEOSIntersects_r splitLine mGeos with
      | .error e => .error e
      | .ok false => .ok (NothingHappened, newGeometries)
      | .ok true =>
        match ctxt.GEOSRelatePattern_r mGeos splitLine "1********" with
        | .error e => .error e
        | .ok true => .ok (InvalidInput, newGeometries)
        | .ok false =>
          let splitGeomType := GEOSGeomTypeId_r splitLine
          let splitGeom : Except GEOSException GEOSGeometry :=
            if splitGeomType = GEOS_POINT then
              match linePointDifference self splitLine with
              | some g => .ok g
              | none => .error {}
            else ctxt.GEOSDifference_r mGeos splitLine
          match splitGeom with
          | .error e => .error e
          | .ok splitGeom =>
            let splitType := GEOSGeomTypeId_r splitGeom
            let lineGeoms :=
              if splitType = GEOS_MULTILINESTRING then
                splitGeom.memberGeometries.map GEOSGeom_clone_r
              else [GEOSGeom_clone_r splitGeom]
            match mergeGeometriesMultiTypeSplit ctxt self lineGeoms with
            | .error e => .error e
            | .ok lineGeoms => .ok (Success, newGeometries ++ lineGeoms.map fromGeos)

/-- The function `QgsGeos::nodeGeometries`. -/
def nodeGeometries (ctxt : GEOSContextHandle_t) (splitLine geom : Option GEOSGeometry) :
    Except GEOSException (Option GEOSGeometry) :=
  match splitLine, geom with
  | some splitLine, some geom =>
    let geometryBoundary :=
      if GEOSGeomTypeId_r geom = GEOS_POLYGON ∨ GEOSGeomTypeId_r geom = GEOS_MULTIPOLYGON then
        ctxt.GEOSBoundary_r geom
      else .ok (GEOSGeom_clone_r geom)
    match geometryBoundary with
    | .error e => .error e
    | .ok geometryBoundary =>
      match ctxt.GEOSUnion_r (GEOSGeom_clone_r splitLine) geometryBoundary with
      | .error e => .error e
      | .ok unionGeometry => .ok (some unionGeometry)
  | _, _ => .ok none

/-- The area test of `splitPolygonGeometry` on one candidate polygon: whether
the candidate is retained. -/
def isRetained (ctxt : GEOSContextHandle_t) (mGeos polygon : GEOSGeometry) :
    Except GEOSException Bool :=
  match ctxt.GEOSIntersection_r mGeos polygon with
  | .error e => .error e
  | .ok intersectGeometry =>
    match ctxt.GEOSArea_r intersectGeometry with
    | .error e => .error e
    | .ok intersectionArea =>
      match ctxt.GEOSArea_r polygon with
      | .error e => .error e
      | .ok polygonArea =>
        let areaRatio := intersectionArea / polygonArea
        .ok (decide (areaRatio > 99 / 100) && decide (areaRatio < 101 / 100))

/-- The loop of `splitPolygonGeometry` over the candidate polygons: the clones
of the retained ones, in order. -/
def testCandidates (ctxt : GEOSContextHandle_t) (mGeos : GEOSGeometry) :
    List GEOSGeometry → Except GEOSException (List GEOSGeometry)
  | [] => .ok []
  | polygon :: rest =>
    match isRetained ctxt mGeos polygon with
    | .error e => .error e
    | .ok retained =>
      match testCandidates ctxt mGeos rest with
      | .error e => .error e
      | .ok testedGeometries =>
        if retained then .ok (GEOSGeom_clone_r polygon :: testedGeometries)
        else .ok testedGeometries

/-- The candidates of `splitPolygonGeometry`: the geometries `GEOSGetGeometryN_r`
delivers for the indices below `numberOfGeometries`. -/
def candidatePolygons (polygons : GEOSGeometry) : List GEOSGeometry :=
  (List.range (numberOfGeometries (some polygons))).filterMap (GEOSGetGeometryN_r polygons)

/-- The validity loop of `splitPolygonGeometry`: whether every geometry of the
list is valid, the test ending at the first invalid one.  A null entry makes
the library raise. -/
def allValid (ctxt : GEOSContextHandle_t) : List (Option GEOSGeometry) → Except GEOSException Bool
  | [] => .ok true
  | none :: _ => .error {}
  | some g :: rest =>
    match ctxt.GEOSisValid_r g with
    | .error e => .error e
    | .ok false => .ok false
    | .ok true => allValid ctxt rest

/-- The function `QgsGeos::splitPolygonGeometry`: the result code and the list
`newGeometries` it leaves. -/
def splitPolygonGeometry (ctxt : GEOSContextHandle_t) (self : QgsGeos)
    (splitLine : Option GEOSGeometry) (newGeometries : List (Option QgsAbstractGeometry)) :
    Except GEOSException (EngineOperationResult × List (Option QgsAbstractGeometry)) :=
  match splitLine with
  | none => .ok (InvalidInput, newGeometries)
  | some splitLine =>
    match self.mGeos with
    | none => .ok (InvalidBaseGeometry, newGeometries)
    | some mGeos =>
      match ctxt.GEOSIntersects_r splitLine mGeos with
      | .error e => .error e
      | .ok false => .ok (NothingHappened, newGeometries)
      | .ok true =>
        match nodeGeometries ctxt (some splitLine) (some mGeos) with
        | .error e => .error e
        | .ok none => .ok (NodedGeometryError, newGeometries)
        | .ok (some nodedGeometry) =>
          match ctxt.GEOSPolygonize_r [nodedGeometry] with
          | .error e => .error e
          | .ok polygons =>
            if numberOfGeometries (some polygons) = 0 then .ok (InvalidBaseGeometry, newGeometries)
            else
              match testCandidates ctxt mGeos (candidatePolygons polygons) with
              | .error e => .error e
              | .ok testedGeometries =>
                let nGeometriesThis := numberOfGeometries (some mGeos)
                let splitDone := !decide (testedGeometries.length = nGeometriesThis)
                match mergeGeometriesMultiTypeSplit ctxt self testedGeometries with
                | .error e => .error e
                | .ok testedGeometries =>
                  if !splitDone then .ok (NothingHappened, newGeometries)
                  else
                    match allValid ctxt testedGeometries with
                    | .error e => .error e
                    | .ok false => .ok (InvalidBaseGeometry, newGeometries)
                    | .ok true => .ok (Success, newGeometries ++ testedGeometries.map fromGeos)

/-- The native form of the cutting line built at the head of the `try` block of
`splitGeometry`: a line string from two points on, a point from one point;
`none` without points (the source returns `InvalidInput` there). -/
def createSplitLineGeos (splitLine : QgsLineString) (precision : ℚ) :
    Option (Option GEOSGeometry) :=
  if splitLine.numPoints > 1 then some (createGeosLinestring splitLine precision)
  else if splitLine.numPoints = 1 then
    some (createGeosPointXY (splitLine.xAt 0) (splitLine.yAt 0) false 0 false 0 2 precision)
  else none

/-- The `try` block of `splitGeometry`, entered with the output list cleared:
the result code, the output list and the test points it leaves; an
exception is caught by the caller as `EngineError`. -/
def splitGeometryGuarded (ctxt : GEOSContextHandle_t) (self : QgsGeos) (dimension : Nat)
    (splitLine : QgsLineString) (topological : Bool) (topologyTestPoints : List QgsPoint) :
    SplitOutcome :=
  let newGeometries : List (Option QgsAbstractGeometry) := []
  match createSplitLineGeos splitLine self.mPrecision with
  | none => ⟨InvalidInput, newGeometries, topologyTestPoints⟩
  | some none => ⟨EngineError, newGeometries, topologyTestPoints⟩
  | some (some splitLineGeos) =>
    match ctxt.GEOSisValid_r splitLineGeos with
    | .error _ => ⟨EngineError, newGeometries, topologyTestPoints⟩
    | .ok false => ⟨InvalidInput, newGeometries, topologyTestPoints⟩
    | .ok true =>
      match ctxt.GEOSisSimple_r splitLineGeos with
      | .error _ => ⟨EngineError, newGeometries, topologyTestPoints⟩
      | .ok false => ⟨InvalidInput, newGeometries, topologyTestPoints⟩
      | .ok true =>
        let tested : Bool × List QgsPoint :=
          if topological then
            topologicalTestPointsSplit ctxt self splitLineGeos topologyTestPoints
          else (true, topologyTestPoints)
        if !tested.1 then ⟨InvalidInput, newGeometries, tested.2⟩
        else if dimension = 1 then
          match splitLinearGeometry ctxt self (some splitLineGeos) newGeometries with
          | .error _ => ⟨EngineError, newGeometries, tested.2⟩
          | .ok (returnCode, newGeometries) => ⟨returnCode, newGeometries, tested.2⟩
        else if dimension = 2 then
          match splitPolygonGeometry ctxt self (some splitLineGeos) newGeometries with
          | .error _ => ⟨EngineError, newGeometries, tested.2⟩
          | .ok (returnCode, newGeometries) => ⟨returnCode, newGeometries, tested.2⟩
        else ⟨InvalidInput, newGeometries, tested.2⟩

/-- The function `QgsGeos::splitGeometry`.  The validity test of the receiver
stands before the `try` block: its exception is the only one that leaves
the function. -/
def splitGeometry (ctxt : GEOSContextHandle_t) (self : QgsGeos) (splitLine : QgsLineString)
    (newGeometries : List (Option QgsAbstractGeometry)) (topological : Bool)
    (topologyTestPoints : List QgsPoint) : Except GEOSException SplitOutcome :=
  match self.mGeos, self.mGeometry with
  | some mGeos, some mGeometry =>
    if mGeometry.dimension = 0 then
      .ok ⟨SplitCannotSplitPoint, newGeometries, topologyTestPoints⟩
    else
      match ctxt.GEOSisValid_r mGeos with
      | .error e => .error e
      | .ok false => .ok ⟨InvalidBaseGeometry, newGeometries, topologyTestPoints⟩
      | .ok true =>
        if (mGeometry.dimension = 1 ∧ splitLine.numPoints < 1)
            ∨ (mGeometry.dimension = 2 ∧ splitLine.numPoints < 2) then
          .ok ⟨InvalidInput, newGeometries, topologyTestPoints⟩
        else
          .ok (splitGeometryGuarded ctxt self mGeometry.dimension splitLine topological
            topologyTestPoints)
  | _, _ => .ok ⟨InvalidBaseGeometry, newGeometries, topologyTestPoints⟩

end QgsGeos

/-! ## Shape of the geometries the library hands out -/

/-- A point that holds exactly one coordinate. -/
def GEOSGeometry.isSinglePoint : GEOSGeometry → Bool
  | .point cs => decide (cs.coords.length = 1)
  | _ => false

/-- Every multi-point inside the geometry consists of points that hold one
coordinate each, which is how the library builds its multi-points. -/
def GEOSGeometry.multiPointsOfPoints : GEOSGeometry → Bool
  | .collection .multiPoint geoms => geoms.all GEOSGeometry.isSinglePoint
  | .collection _ geoms => allMembers geoms
  | _ => true
where
  allMembers : List GEOSGeometry → Bool
    | [] => true
    | g :: gs => multiPointsOfPoints g && allMembers gs

/-! ## Concrete inputs used by the examples -/

/-- A context in which every call of the library raises an exception.  Its
`log10` returns the least integer `d` with `t ≤ 10 ^ d`, which is what an exact
logarithm gives after rounding up. -/
def raisingContext : GEOSContextHandle_t :=
  { GEOSClipByRect_r := fun _ _ _ _ _ => .error {}
    GEOSisValid_r := fun _ => .error {}
    GEOSisSimple_r := fun _ => .error {}
    GEOSIntersects_r := fun _ _ => .error {}
    GEOSEquals_r := fun _ _ => .error {}
    GEOSRelatePattern_r := fun _ _ _ => .error {}
    GEOSIntersection_r := fun _ _ => .error {}
    GEOSDifference_r := fun _ _ => .error {}
    GEOSUnion_r := fun _ _ => .error {}
    GEOSBoundary_r := fun _ => .error {}
    GEOSPolygonize_r := fun _ => .error {}
    GEOSArea_r := fun _ => .error {}
    GEOSSymDifference_r := fun _ _ => .error {}
    GEOSLineMerge_r := fun _ => .error {}
    GEOSTouches_r := fun _ _ => .error {}
    GEOSCrosses_r := fun _ _ => .error {}
    GEOSWithin_r := fun _ _ => .error {}
    GEOSContains_r := fun _ _ => .error {}
    GEOSDisjoint_r := fun _ _ => .error {}
    GEOSOverlaps_r := fun _ _ => .error {}
    GEOSPrepare_r := fun _ => .error {}
    GEOSPreparedIntersects_r := fun _ _ => .error {}
    GEOSPreparedTouches_r := fun _ _ => .error {}
    GEOSPreparedCrosses_r := fun _ _ => .error {}
    GEOSPreparedWithin_r := fun _ _ => .error {}
    GEOSPreparedContains_r := fun _ _ => .error {}
    GEOSPreparedDisjoint_r := fun _ _ => .error {}
    GEOSPreparedOverlaps_r := fun _ _ => .error {}
    GEOSRelate_r := fun _ _ => .error {}
    GEOSDistance_r := fun _ _ => .error {}
    GEOSHausdorffDistance_r := fun _ _ => .error {}
    GEOSLength_r := fun _ => .error {}
    GEOSProject_r := fun _ _ => .error {}
    GEOSBuffer_r := fun _ _ _ => .error {}
    GEOSBufferWithStyle_r := fun _ _ _ _ _ _ => .error {}
    GEOSTopologyPreserveSimplify_r := fun _ _ => .error {}
    GEOSEnvelope_r := fun _ => .error {}
    GEOSConvexHull_r := fun _ => .error {}
    GEOSGetCentroid_r := fun _ => .error {}
    GEOSPointOnSurface_r := fun _ => .error {}
    log10 := fun t => (Int.clog 10 t : ℚ) }

/-- The line string (0 0, 1 0, 2 0, 3 0, 4 1), of five vertices. -/
def fiveVertexLine : QgsLineString :=
  { is3D := false, isMeasure := false
    mX := [0, 1, 2, 3, 4], mY := [0, 0, 0, 0, 1], mZ := [], mM := [] }

/-- The native form of `fiveVertexLine`. -/
def fiveVertexLineGeos : GEOSGeometry :=
  .lineString
    { dims := 2
      coords := [⟨0, 0, 0⟩, ⟨1, 0, 0⟩, ⟨2, 0, 0⟩, ⟨3, 0, 0⟩, ⟨4, 1, 0⟩] }

/-- An engine constructed on `fiveVertexLine`. -/
def fiveVertexEngine : QgsGeos :=
  { mGeometry := some (.lineString fiveVertexLine), mPrecision := 0
    mGeos := some fiveVertexLineGeos, mGeosPrepared := none }

/-- The line string (0 0, 1 0) with the measure values 5 and 6. -/
def measuredLine : QgsLineString :=
  { is3D := false, isMeasure := true, mX := [0, 1], mY := [0, 0], mZ := [], mM := [5, 6] }

/-- The line string (0 0, 1 0) without measure values. -/
def unmeasuredLine : QgsLineString :=
  { is3D := false, isMeasure := false, mX := [0, 1], mY := [0, 0], mZ := [], mM := [] }

/-- The closed ring (0 0 1, 4 0 2, 4 4 3, 0 4 4, 0 0 1), with Z. -/
def squareRingZ : QgsLineString :=
  { is3D := true, isMeasure := false
    mX := [0, 4, 4, 0, 0], mY := [0, 0, 4, 4, 0], mZ := [1, 2, 3, 4, 1], mM := [] }

/-- The closed ring (1 1 0, 2 1 0, 2 2 0, 1 2 0, 1 1 0), with Z. -/
def holeRingZ : QgsLineString :=
  { is3D := true, isMeasure := false
    mX := [1, 2, 2, 1, 1], mY := [1, 1, 2, 2, 1], mZ := [0, 0, 0, 0, 0], mM := [] }

/-- A MultiPolygonZ of one polygon with one hole. -/
def multiPolygonZ : QgsAbstractGeometry :=
  .collection .MultiPolygon true false
    [.polygon { is3D := true, isMeasure := false
                exteriorRing := some squareRingZ, interiorRings := [holeRingZ] }]

/-- The ring (0 0, 2 0, 2 2, 0 2, 0 0). -/
def squareRing : QgsLineString :=
  { is3D := false, isMeasure := false
    mX := [0, 2, 2, 0, 0], mY := [0, 0, 2, 2, 0], mZ := [], mM := [] }

/-- The square polygon with the corners (0 0) and (2 2). -/
def squarePolygon : QgsAbstractGeometry :=
  .polygon { is3D := false, isMeasure := false, exteriorRing := some squareRing, interiorRings := [] }

/-- The native form of `squarePolygon`. -/
def squarePolygonGeos : GEOSGeometry :=
  .polygon { dims := 2, coords := [⟨0, 0, 0⟩, ⟨2, 0, 0⟩, ⟨2, 2, 0⟩, ⟨0, 2, 0⟩, ⟨0, 0, 0⟩] } []

/-- An engine constructed on `squarePolygon`. -/
def squareEngine : QgsGeos :=
  { mGeometry := some squarePolygon, mPrecision := 0
    mGeos := some squarePolygonGeos, mGeosPrepared := none }

/-- The left half of the square, (0 0, 1 0, 1 2, 0 2, 0 0). -/
def leftHalfGeos : GEOSGeometry :=
  .polygon { dims := 2, coords := [⟨0, 0, 0⟩, ⟨1, 0, 0⟩, ⟨1, 2, 0⟩, ⟨0, 2, 0⟩, ⟨0, 0, 0⟩] } []

/-- The right half of the square, (1 0, 2 0, 2 2, 1 2, 1 0). -/
def rightHalfGeos : GEOSGeometry :=
  .polygon { dims := 2, coords := [⟨1, 0, 0⟩, ⟨2, 0, 0⟩, ⟨2, 2, 0⟩, ⟨1, 2, 0⟩, ⟨1, 0, 0⟩] } []

/-- The vertical cutting line (1 -1, 1 3) through the middle of the square. -/
def middleCutLine : QgsLineString :=
  { is3D := false, isMeasure := false, mX := [1, 1], mY := [-1, 3], mZ := [], mM := [] }

/-- The vertical line (5 0, 5 2), outside the square. -/
def outsideLine : QgsLineString :=
  { is3D := false, isMeasure := false, mX := [5, 5], mY := [0, 2], mZ := [], mM := [] }

/-- The area enclosed by a ring (shoelace formula). -/
def ringArea (cs : GEOSCoordSequence) : ℚ :=
  |((cs.coords.zip cs.coords.tail).map (fun p => p.1.x * p.2.y - p.2.x * p.1.y)).sum| / 2

/-- The area of a polygon: its shell less its holes; 0 for every other geometry
of the examples. -/
def polygonArea : GEOSGeometry → ℚ
  | .polygon shell holes => ringArea shell - (holes.map ringArea).sum
  | _ => 0

/-- The answers of the library when the square is cut by `middleCutLine`: all
geometries are valid and simple, line and square intersect without linear
overlap, polygonizing the noded lines gives the two halves of the square,
the part of the square inside a half is that half, and areas are the true
areas.  (Clipping, boundary, union, intersection and difference only hand
their input on; the calls that splitting does not use raise.) -/
def halvingContext : GEOSContextHandle_t :=
  { raisingContext with
    GEOSClipByRect_r := fun g _ _ _ _ => .ok g
    GEOSisValid_r := fun _ => .ok true
    GEOSisSimple_r := fun _ => .ok true
    GEOSIntersects_r := fun _ _ => .ok true
    GEOSEquals_r := fun _ _ => .ok false
    GEOSRelatePattern_r := fun _ _ _ => .ok false
    GEOSIntersection_r := fun _ b => .ok b
    GEOSDifference_r := fun a _ => .ok a
    GEOSUnion_r := fun a b => .ok (.collection .geometryCollection [a, b])
    GEOSBoundary_r := fun g => .ok g
    GEOSPolygonize_r := fun _ => .ok (.collection .geometryCollection [leftHalfGeos, rightHalfGeos])
    GEOSArea_r := fun g => .ok (polygonArea g) }

/-- The answers of the library for a cutting line away from the receiver: all
geometries are valid and simple and nothing intersects; every other call
raises. -/
def disjointContext : GEOSContextHandle_t :=
  { raisingContext with
    GEOSisValid_r := fun _ => .ok true
    GEOSisSimple_r := fun _ => .ok true
    GEOSIntersects_r := fun _ _ => .ok false }

/-- The answers of the library for a cutting line lying on the receiver: all
geometries are valid and simple, the two intersect, and their relation
matches every pattern; every other call raises. -/
def overlappingContext : GEOSContextHandle_t :=
  { raisingContext with
    GEOSisValid_r := fun _ => .ok true
    GEOSisSimple_r := fun _ => .ok true
    GEOSIntersects_r := fun _ _ => .ok true
    GEOSRelatePattern_r := fun _ _ _ => .ok true }

/-- The answers of a library that finds every geometry invalid. -/
def invalidContext : GEOSContextHandle_t :=
  { raisingContext with GEOSisValid_r := fun _ => .ok false }

/-- The native form of `middleCutLine`. -/
def middleCutLineGeos : GEOSGeometry :=
  .lineString { dims := 2, coords := [⟨1, -1, 0⟩, ⟨1, 3, 0⟩] }

/-- The native form of `unmeasuredLine`. -/
def unmeasuredLineGeos : GEOSGeometry :=
  .lineString { dims := 2, coords := [⟨0, 0, 0⟩, ⟨1, 0, 0⟩] }

/-- A line string of the single point (7 7). -/
def onePointLine : QgsLineString :=
  { is3D := false, isMeasure := false, mX := [7], mY := [7], mZ := [], mM := [] }

/-- An engine constructed on the point (1 1). -/
def pointEngine : QgsGeos :=
  { mGeometry := some (.point { x := 1, y := 1, zValue := none, mValue := none })
    mPrecision := 0
    mGeos := some (.point { dims := 2, coords := [⟨1, 1, 0⟩] })
    mGeosPrepared := none }

/-! ## Auxiliary notions of the proofs -/

/-- The coordinate written for point `i` of a line. -/
def lineCoordinate (l : QgsLineString) (i : Nat) : GEOSCoordinate :=
  { x := l.xAt i, y := l.yAt i, z := if l.is3D then l.zAt i else 0 }

/-- The sequence that `createCoordinateSequence` builds for a line. -/
def lineSequence (l : QgsLineString) : GEOSCoordSequence :=
  { dims := 2 + (if l.is3D then 1 else 0), coords := (List.range l.numPoints).map (lineCoordinate l) }

/-- The GEOS point that `asGeos` builds from a point without measure. -/
def pointGeos (p : QgsPoint) : GEOSGeometry :=
  .point { dims := 2 + (if p.is3D then 1 else 0), coords := [{ x := p.x, y := p.y, z := p.z }] }

/-- The GEOS polygon that `asGeos` builds from a well-formed polygon. -/
def polygonGeos (p : QgsPolygonV2) : GEOSGeometry :=
  match p.exteriorRing with
  | some r => .polygon (lineSequence r) (p.interiorRings.map lineSequence)
  | none => .polygon { dims := 2, coords := [] } []

/-- The rectangle test at the head of `subdivideRecursive`. -/
def QgsGeos.isDegenerate (clipRect : QgsRectangle) : Bool :=
  qgsDoubleNear clipRect.width 0 && qgsDoubleNear clipRect.height 0

/-- What holds of every entry of a trace of `subdivideRecursive`. -/
def EmittedAsInSource (maxNodes : Int) (e : EmitReason × GEOSGeometry) : Prop :=
  (e.1 = .degenerateRect → GEOSGeomTypeId_r e.2 = GEOS_POINT)
    ∧ (e.1 = .belowThreshold →
        QgsGeos.isSubdividedByMembers (GEOSGeomTypeId_r e.2) = false
          ∧ 0 < GEOSGetNumCoordinates_r e.2 ∧ (GEOSGetNumCoordinates_r e.2 : Int) < maxNodes)
    ∧ (e.1 = .depthExceeded → QgsGeos.isSubdividedByMembers (GEOSGeomTypeId_r e.2) = false)
    ∧ e.2.multiPointsOfPoints = true

/-! ## A subdivision with one clipping step -/

/-- The line string (0 0, 1 0, 2 0, 3 0, 4 0, 5 0, 6 0, 7 0, 8 1), of nine vertices. -/
def nineVertexLine : QgsLineString :=
  { is3D := false, isMeasure := false
    mX := [0, 1, 2, 3, 4, 5, 6, 7, 8], mY := [0, 0, 0, 0, 0, 0, 0, 0, 1], mZ := [], mM := [] }

/-- The native form of `nineVertexLine`. -/
def nineVertexLineGeos : GEOSGeometry :=
  .lineString
    { dims := 2
      coords := [⟨0, 0, 0⟩, ⟨1, 0, 0⟩, ⟨2, 0, 0⟩, ⟨3, 0, 0⟩, ⟨4, 0, 0⟩, ⟨5, 0, 0⟩, ⟨6, 0, 0⟩,
        ⟨7, 0, 0⟩, ⟨8, 1, 0⟩] }

/-- An engine constructed on `nineVertexLine`. -/
def nineVertexEngine : QgsGeos :=
  { mGeometry := some (.lineString nineVertexLine), mPrecision := 0
    mGeos := some nineVertexLineGeos, mGeosPrepared := none }

/-- The part of `nineVertexLine` up to x = 4. -/
def leftPartLine : QgsLineString :=
  { is3D := false, isMeasure := false
    mX := [0, 1, 2, 3, 4], mY := [0, 0, 0, 0, 0], mZ := [], mM := [] }

/-- The part of `nineVertexLine` from x = 4 on. -/
def rightPartLine : QgsLineString :=
  { is3D := false, isMeasure := false
    mX := [4, 5, 6, 7, 8], mY := [0, 0, 0, 0, 1], mZ := [], mM := [] }

/-- The native form of `leftPartLine`. -/
def leftPartGeos : GEOSGeometry :=
  .lineString { dims := 2, coords := [⟨0, 0, 0⟩, ⟨1, 0, 0⟩, ⟨2, 0, 0⟩, ⟨3, 0, 0⟩, ⟨4, 0, 0⟩] }

/-- The native form of `rightPartLine`. -/
def rightPartGeos : GEOSGeometry :=
  .lineString { dims := 2, coords := [⟨4, 0, 0⟩, ⟨5, 0, 0⟩, ⟨6, 0, 0⟩, ⟨7, 0, 0⟩, ⟨8, 1, 0⟩] }

/-- A context whose clipping call answers as the library does on `nineVertexLine` and its two
half rectangles: the left part for a rectangle ending at x = 4 or before, the right part
otherwise; every other call raises. -/
def cuttingContext : GEOSContextHandle_t :=
  { raisingContext with
    GEOSClipByRect_r := fun _ _ _ x1 _ => .ok (if x1 ≤ 4 then leftPartGeos else rightPartGeos) }

/-! ## Coordinate snapping -/

/-- The ordinate that the two builders store for the ordinate `v`: snapped to the grid of
`precision` when that is positive, unchanged otherwise. -/
def QgsGeos.storedOrdinate (precision v : ℚ) : ℚ :=
  if precision > 0 then toDouble (stdRound (toDouble (v / precision)) * precision) else v

/-- The coordinate that `createCoordinateSequence` stores at position `i` of its output. -/
def QgsGeos.storedCoordinate (line : QgsLineString) (precision : ℚ) (i : Nat) : GEOSCoordinate :=
  { x := QgsGeos.storedOrdinate precision (line.xAt (i % line.numPoints))
    y := QgsGeos.storedOrdinate precision (line.yAt (i % line.numPoints))
    z := if line.is3D then QgsGeos.storedOrdinate precision (line.zAt (i % line.numPoints)) else 0 }

/-- The number of points that `createCoordinateSequence` writes: one more than the line has when
the line is to be closed and is not. -/
def QgsGeos.numOutPoints (line : QgsLineString) (forceClose : Bool) : Nat :=
  if forceClose && !((line.pointN 0).equals (line.pointN ((line.numPoints : Int) - 1))) then
    line.numPoints + 1
  else line.numPoints

/-- A line string with Z of three vertices that is not closed. -/
def openLineZ : QgsLineString :=
  { is3D := true, isMeasure := false
    mX := [1/3, 2, 7/2], mY := [0, 1/4, 5], mZ := [1, 2, 13/4], mM := [] }

/-! ## The caches of the engine object -/

namespace QgsGeos

/-- The function `QgsGeos::cacheGeos`. -/
def cacheGeos (self : QgsGeos) : QgsGeos :=
  if self.mGeometry.isNone || self.mGeos.isSome then self
  else { self with mGeos := asGeos self.mGeometry self.mPrecision }

/-- The constructor `QgsGeos::QgsGeos`.  The two caches start out null (the
member initialisers of qgsgeos.h, which is not among the sources). -/
def construct (geometry : Option QgsAbstractGeometry) (precision : ℚ) : QgsGeos :=
  cacheGeos { mGeometry := geometry, mPrecision := precision, mGeos := none, mGeosPrepared := none }

/-- The function `QgsGeos::geometryChanged`. -/
def geometryChanged (self : QgsGeos) : QgsGeos :=
  cacheGeos { self with mGeos := none, mGeosPrepared := none }

/-- The function `QgsGeos::prepareGeometry`: the object after the call.  When
`GEOSPrepare_r` raises, the exception leaves the function with the prepared form
already cleared. -/
def prepareGeometry (ctxt : GEOSContextHandle_t) (self : QgsGeos) : QgsGeos :=
  let self := { self with mGeosPrepared := none }
  match self.mGeos with
  | some mGeos =>
    match ctxt.GEOSPrepare_r mGeos with
    | .ok prepared => { self with mGeosPrepared := some prepared }
    | .error _ => self
  | none => self

/-- The states of an engine object that its construction and calls of `cacheGeos`,
`prepareGeometry` and `geometryChanged` lead to.  The object holds the abstract
geometry by pointer: before a call of `geometryChanged` the owner of the geometry
may have changed what the pointer leads to. -/
inductive Reachable (ctxt : GEOSContextHandle_t) : QgsGeos → Prop
  | construct (geometry : Option QgsAbstractGeometry) (precision : ℚ) :
      Reachable ctxt (construct geometry precision)
  | cacheGeos {self : QgsGeos} : Reachable ctxt self → Reachable ctxt (cacheGeos self)
  | prepareGeometry {self : QgsGeos} :
      Reachable ctxt self → Reachable ctxt (prepareGeometry ctxt self)
  | geometryChanged {self : QgsGeos} (geometry : Option QgsAbstractGeometry) :
      Reachable ctxt self → Reachable ctxt (geometryChanged { self with mGeometry := geometry })

/-- The two caches describe the abstract geometry held: both are absent, or the
native geometry is the conversion of the abstract geometry and the prepared form,
once built, is the one the library built from that native geometry. -/
def CachesConsistent (ctxt : GEOSContextHandle_t) (self : QgsGeos) : Prop :=
  (self.mGeos = none ∧ self.mGeosPrepared = none)
    ∨ ∃ g, self.mGeos = some g ∧ asGeos self.mGeometry self.mPrecision = some g
        ∧ (self.mGeosPrepared = none
            ∨ ∃ p, self.mGeosPrepared = some p ∧ ctxt.GEOSPrepare_r g = .ok p)

end QgsGeos

/-- A context whose `GEOSPrepare_r` builds the index of its argument; every other
call raises. -/
def preparingContext : GEOSContextHandle_t :=
  { raisingContext with GEOSPrepare_r := fun g => .ok { base := g } }

/-! ## Two-dimensional points -/

/-- The class `QgsPointXY` of qgspointxy.h. -/
structure QgsPointXY where
  x : ℚ
  y : ℚ
deriving DecidableEq

/-! ## Further calls of the library that only read a geometry -/

/-- The call `GEOSGeomGetX_r`: the x ordinate of a point; it fails on every other
geometry and on the empty point. -/
def GEOSGeomGetX_r : GEOSGeometry → Option ℚ
  | .point cs => cs.coords.head?.map (fun c => c.x)
  | _ => none

/-- The call `GEOSGeomGetY_r`. -/
def GEOSGeomGetY_r : GEOSGeometry → Option ℚ
  | .point cs => cs.coords.head?.map (fun c => c.y)
  | _ => none

/-- The call `GEOSisEmpty_r`: a geometry without any coordinate. -/
def GEOSisEmpty_r (g : GEOSGeometry) : Bool := decide (GEOSGetNumCoordinates_r g = 0)

namespace QgsRectangle

/-- Modelled from the spec: `QgsRectangle::isEmpty` of qgsrectangle.h is not among
the sources; a rectangle is empty when it has no extent in x or in y. -/
def isEmpty (r : QgsRectangle) : Bool :=
  decide (r.xMaximum ≤ r.xMinimum) || decide (r.yMaximum ≤ r.yMinimum)

/-- Modelled from the spec: `QgsRectangle::isNull` of qgsrectangle.h is not among
the sources; a rectangle is null when its four bounds are zero or are the bounds
of the minimal rectangle. -/
def isNull (r : QgsRectangle) : Bool :=
  (qgsDoubleNear r.xMinimum 0 && qgsDoubleNear r.xMaximum 0
      && qgsDoubleNear r.yMinimum 0 && qgsDoubleNear r.yMaximum 0)
    || (qgsDoubleNear r.xMinimum DBL_MAX && qgsDoubleNear r.yMinimum DBL_MAX
      && qgsDoubleNear r.xMaximum (-DBL_MAX) && qgsDoubleNear r.yMaximum (-DBL_MAX))

end QgsRectangle

/-! ## The operations of the engine

The optional error message that the operations write is not modelled. -/

namespace QgsGeos

/-- The operations that `overlay` dispatches on. -/
inductive Overlay where
  | INTERSECTION
  | DIFFERENCE
  | UNION
  | SYMDIFFERENCE
deriving DecidableEq

/-- The predicates that `relation` dispatches on. -/
inductive Relation where
  | INTERSECTS
  | TOUCHES
  | CROSSES
  | WITHIN
  | OVERLAPS
  | CONTAINS
  | DISJOINT
deriving DecidableEq

/-- The result of a `try` block that returns a geometry and whose handler returns
null. -/
def geometryOrNull (r : Except GEOSException GEOSGeometry) : Option QgsAbstractGeometry :=
  match r with
  | .ok g => fromGeos (some g)
  | .error _ => none

/-- The library call of `overlay` for each operation; a union of lines is merged. -/
def overlayCall (ctxt : GEOSContextHandle_t) (mGeos geosGeom : GEOSGeometry) (op : Overlay) :
    Except GEOSException GEOSGeometry :=
  match op with
  | .INTERSECTION => ctxt.GEOSIntersection_r mGeos geosGeom
  | .DIFFERENCE => ctxt.GEOSDifference_r mGeos geosGeom
  | .UNION =>
    match ctxt.GEOSUnion_r mGeos geosGeom with
    | .error e => .error e
    | .ok unionGeometry =>
      if GEOSGeomTypeId_r unionGeometry = GEOS_MULTILINESTRING then
        ctxt.GEOSLineMerge_r unionGeometry
      else .ok unionGeometry
  | .SYMDIFFERENCE => ctxt.GEOSSymDifference_r mGeos geosGeom

/-- The function `QgsGeos::overlay`. -/
def overlay (ctxt : GEOSContextHandle_t) (self : QgsGeos) (geom : Option QgsAbstractGeometry)
    (op : Overlay) : Option QgsAbstractGeometry :=
  match self.mGeos, geom with
  | some mGeos, some geom =>
    match asGeos (some geom) self.mPrecision with
    | none => none
    | some geosGeom => geometryOrNull (overlayCall ctxt mGeos geosGeom op)
  | _, _ => none

def intersection (ctxt : GEOSContextHandle_t) (self : QgsGeos)
    (geom : Option QgsAbstractGeometry) : Option QgsAbstractGeometry :=
  overlay ctxt self geom .INTERSECTION

def difference (ctxt : GEOSContextHandle_t) (self : QgsGeos)
    (geom : Option QgsAbstractGeometry) : Option QgsAbstractGeometry :=
  overlay ctxt self geom .DIFFERENCE

/-- The function `QgsGeos::combine` on one operand. -/
def combine (ctxt : GEOSContextHandle_t) (self : QgsGeos)
    (geom : Option QgsAbstractGeometry) : Option QgsAbstractGeometry :=
  overlay ctxt self geom .UNION

def symDifference (ctxt : GEOSContextHandle_t) (self : QgsGeos)
    (geom : Option QgsAbstractGeometry) : Option QgsAbstractGeometry :=
  overlay ctxt self geom .SYMDIFFERENCE

/-- The function `QgsGeos::clip`. -/
def clip (ctxt : GEOSContextHandle_t) (self : QgsGeos) (rect : QgsRectangle) :
    Option QgsAbstractGeometry :=
  match self.mGeos with
  | none => none
  | some mGeos =>
    if rect.isNull || rect.isEmpty then none
    else geometryOrNull (ctxt.GEOSClipByRect_r mGeos rect.xMinimum rect.yMinimum
      rect.xMaximum rect.yMaximum)

/-- The library call of `relation` for each predicate, on the prepared form when
there is one. -/
def relationCall (ctxt : GEOSContextHandle_t) (mGeos : GEOSGeometry)
    (mGeosPrepared : Option GEOSPreparedGeometry) (geosGeom : GEOSGeometry) (r : Relation) :
    Except GEOSException Bool :=
  match mGeosPrepared with
  | some prepared =>
    match r with
    | .INTERSECTS => ctxt.GEOSPreparedIntersects_r prepared geosGeom
    | .TOUCHES => ctxt.GEOSPreparedTouches_r prepared geosGeom
    | .CROSSES => ctxt.GEOSPreparedCrosses_r prepared geosGeom
    | .WITHIN => ctxt.GEOSPreparedWithin_r prepared geosGeom
    | .CONTAINS => ctxt.GEOSPreparedContains_r prepared geosGeom
    | .DISJOINT => ctxt.GEOSPreparedDisjoint_r prepared geosGeom
    | .OVERLAPS => ctxt.GEOSPreparedOverlaps_r prepared geosGeom
  | none =>
    match r with
    | .INTERSECTS => ctxt.GEOSIntersects_r mGeos geosGeom
    | .TOUCHES => ctxt.GEOSTouches_r mGeos geosGeom
    | .CROSSES => ctxt.GEOSCrosses_r mGeos geosGeom
    | .WITHIN => ctxt.GEOSWithin_r mGeos geosGeom
    | .CONTAINS => ctxt.GEOSContains_r mGeos geosGeom
    | .DISJOINT => ctxt.GEOSDisjoint_r mGeos geosGeom
    | .OVERLAPS => ctxt.GEOSOverlaps_r mGeos geosGeom

/-- The result of a `try` block that returns a truth value and whose handler
returns false. -/
def trueOrFalse (r : Except GEOSException Bool) : Bool :=
  match r with
  | .ok b => b
  | .error _ => false

/-- The function `QgsGeos::relation`. -/
def relation (ctxt : GEOSContextHandle_t) (self : QgsGeos) (geom : Option QgsAbstractGeometry)
    (r : Relation) : Bool :=
  match self.mGeos, geom with
  | some mGeos, some geom =>
    match asGeos (some geom) self.mPrecision with
    | none => false
    | some geosGeom => trueOrFalse (relationCall ctxt mGeos self.mGeosPrepared geosGeom r)
  | _, _ => false

def intersects (ctxt : GEOSContextHandle_t) (self : QgsGeos)
    (geom : Option QgsAbstractGeometry) : Bool := relation ctxt self geom .INTERSECTS

def touches (ctxt : GEOSContextHandle_t) (self : QgsGeos)
    (geom : Option QgsAbstractGeometry) : Bool := relation ctxt self geom .TOUCHES

def crosses (ctxt : GEOSContextHandle_t) (self : QgsGeos)
    (geom : Option QgsAbstractGeometry) : Bool := relation ctxt self geom .CROSSES

def within (ctxt : GEOSContextHandle_t) (self : QgsGeos)
    (geom : Option QgsAbstractGeometry) : Bool := relation ctxt self geom .WITHIN

def overlaps (ctxt : GEOSContextHandle_t) (self : QgsGeos)
    (geom : Option QgsAbstractGeometry) : Bool := relation ctxt self geom .OVERLAPS

def contains (ctxt : GEOSContextHandle_t) (self : QgsGeos)
    (geom : Option QgsAbstractGeometry) : Bool := relation ctxt self geom .CONTAINS

def disjoint (ctxt : GEOSContextHandle_t) (self : QgsGeos)
    (geom : Option QgsAbstractGeometry) : Bool := relation ctxt self geom .DISJOINT

/-- The result of a `try` block that computes a number and whose handler returns
-1. -/
def numberOrMinusOne (r : Except GEOSException ℚ) : ℚ :=
  match r with
  | .ok d => d
  | .error _ => -1

/-- The function `QgsGeos::distance`. -/
def distance (ctxt : GEOSContextHandle_t) (self : QgsGeos) (geom : Option QgsAbstractGeometry) :
    ℚ :=
  match self.mGeos with
  | none => -1
  | some mGeos =>
    match asGeos geom self.mPrecision with
    | none => -1
    | some otherGeosGeom => numberOrMinusOne (ctxt.GEOSDistance_r mGeos otherGeosGeom)

/-- The function `QgsGeos::hausdorffDistance`. -/
def hausdorffDistance (ctxt : GEOSContextHandle_t) (self : QgsGeos)
    (geom : Option QgsAbstractGeometry) : ℚ :=
  match self.mGeos with
  | none => -1
  | some mGeos =>
    match asGeos geom self.mPrecision with
    | none => -1
    | some otherGeosGeom => numberOrMinusOne (ctxt.GEOSHausdorffDistance_r mGeos otherGeosGeom)

/-- The function `QgsGeos::relate`: the intersection matrix, or the empty string. -/
def relate (ctxt : GEOSContextHandle_t) (self : QgsGeos) (geom : Option QgsAbstractGeometry) :
    String :=
  match self.mGeos with
  | none => ""
  | some mGeos =>
    match asGeos geom self.mPrecision with
    | none => ""
    | some geosGeom =>
      match ctxt.GEOSRelate_r mGeos geosGeom with
      | .ok r => r
      | .error _ => ""

/-- The function `QgsGeos::relatePattern`. -/
def relatePattern (ctxt : GEOSContextHandle_t) (self : QgsGeos)
    (geom : Option QgsAbstractGeometry) (pattern : String) : Bool :=
  match self.mGeos, geom with
  | some mGeos, some geom =>
    match asGeos (some geom) self.mPrecision with
    | none => false
    | some geosGeom => trueOrFalse (ctxt.GEOSRelatePattern_r mGeos geosGeom pattern)
  | _, _ => false

/-- The function `QgsGeos::area`. -/
def area (ctxt : GEOSContextHandle_t) (self : QgsGeos) : ℚ :=
  match self.mGeos with
  | none => -1
  | some mGeos => numberOrMinusOne (ctxt.GEOSArea_r mGeos)

/-- The function `QgsGeos::length`. -/
def length (ctxt : GEOSContextHandle_t) (self : QgsGeos) : ℚ :=
  match self.mGeos with
  | none => -1
  | some mGeos => numberOrMinusOne (ctxt.GEOSLength_r mGeos)

/-- The function `QgsGeos::lineLocatePoint`. -/
def lineLocatePoint (ctxt : GEOSContextHandle_t) (self : QgsGeos) (point : QgsPoint) : ℚ :=
  match self.mGeos with
  | none => -1
  | some mGeos =>
    match asGeos (some (.point point)) self.mPrecision with
    | none => -1
    | some otherGeom => numberOrMinusOne (ctxt.GEOSProject_r mGeos otherGeom)

/-- The function `QgsGeos::buffer` with a distance and a segment count. -/
def buffer (ctxt : GEOSContextHandle_t) (self : QgsGeos) (distance : ℚ) (segments : Int) :
    Option QgsAbstractGeometry :=
  match self.mGeos with
  | none => none
  | some mGeos => geometryOrNull (ctxt.GEOSBuffer_r mGeos distance segments)

/-- The function `QgsGeos::buffer` with cap style, join style and miter limit. -/
def bufferWithStyle (ctxt : GEOSContextHandle_t) (self : QgsGeos) (distance : ℚ)
    (segments endCapStyle joinStyle : Int) (miterLimit : ℚ) : Option QgsAbstractGeometry :=
  match self.mGeos with
  | none => none
  | some mGeos =>
    geometryOrNull
      (ctxt.GEOSBufferWithStyle_r mGeos distance segments endCapStyle joinStyle miterLimit)

/-- The function `QgsGeos::simplify`. -/
def simplify (ctxt : GEOSContextHandle_t) (self : QgsGeos) (tolerance : ℚ) :
    Option QgsAbstractGeometry :=
  match self.mGeos with
  | none => none
  | some mGeos => geometryOrNull (ctxt.GEOSTopologyPreserveSimplify_r mGeos tolerance)

/-- The function `QgsGeos::envelope`. -/
def envelope (ctxt : GEOSContextHandle_t) (self : QgsGeos) : Option QgsAbstractGeometry :=
  match self.mGeos with
  | none => none
  | some mGeos => geometryOrNull (ctxt.GEOSEnvelope_r mGeos)

/-- The function `QgsGeos::convexHull`. -/
def convexHull (ctxt : GEOSContextHandle_t) (self : QgsGeos) : Option QgsAbstractGeometry :=
  match self.mGeos with
  | none => none
  | some mGeos => geometryOrNull (ctxt.GEOSConvexHull_r mGeos)

/-- The point `new QgsPoint( x, y )` read off a native point; a failing read raises
inside the `try` block, whose handler returns null. -/
def pointOf (geos : GEOSGeometry) : Option QgsPoint :=
  match GEOSGeomGetX_r geos, GEOSGeomGetY_r geos with
  | some x, some y => some { x := x, y := y, zValue := none, mValue := none }
  | _, _ => none

/-- The function `QgsGeos::centroid`. -/
def centroid (ctxt : GEOSContextHandle_t) (self : QgsGeos) : Option QgsPoint :=
  match self.mGeos with
  | none => none
  | some mGeos =>
    match ctxt.GEOSGetCentroid_r mGeos with
    | .error _ => none
    | .ok geos => pointOf geos

/-- The function `QgsGeos::pointOnSurface`. -/
def pointOnSurface (ctxt : GEOSContextHandle_t) (self : QgsGeos) : Option QgsPoint :=
  match self.mGeos with
  | none => none
  | some mGeos =>
    match ctxt.GEOSPointOnSurface_r mGeos with
    | .error _ => none
    | .ok geos => if GEOSisEmpty_r geos then none else pointOf geos

/-- The function `QgsGeos::isValid`. -/
def isValid (ctxt : GEOSContextHandle_t) (self : QgsGeos) : Bool :=
  match self.mGeos with
  | none => false
  | some mGeos => trueOrFalse (ctxt.GEOSisValid_r mGeos)

/-- The function `QgsGeos::isSimple`. -/
def isSimple (ctxt : GEOSContextHandle_t) (self : QgsGeos) : Bool :=
  match self.mGeos with
  | none => false
  | some mGeos => trueOrFalse (ctxt.GEOSisSimple_r mGeos)

/-- The function `QgsGeos::isEqual`. -/
def isEqual (ctxt : GEOSContextHandle_t) (self : QgsGeos) (geom : Option QgsAbstractGeometry) :
    Bool :=
  match self.mGeos, geom with
  | some mGeos, some geom =>
    match asGeos (some geom) self.mPrecision with
    | none => false
    | some geosGeom => trueOrFalse (ctxt.GEOSEquals_r mGeos geosGeom)
  | _, _ => false

end QgsGeos

/-! ## Reshaping by a line -/

namespace QgsGeos

/-- The digits of one ordinate in `geomDigits`,
`std::ceil( std::log10( std::fabs( t ) ) )`: the ceiling of the double that
`std::log10` returns.  For `t = 0` the logarithm is minus infinity, whose
conversion to `int` is not defined; the model gives no digits then, and the
maximum is kept. -/
def ordinateDigits (ctxt : GEOSContextHandle_t) (t : ℚ) : Option Int :=
  if t = 0 then none else some ⌈ctxt.log10 |t|⌉

/-- The body of the loop of `geomDigits` for the coordinate `i`. -/
def digitsStep (ctxt : GEOSContextHandle_t) (bBoxCoordSeq : GEOSCoordSequence) (maxDigits : Int)
    (i : Nat) : Int :=
  let maxDigits :=
    match (GEOSCoordSeq_getX_r bBoxCoordSeq i).bind (ordinateDigits ctxt) with
    | some digits => if digits > maxDigits then digits else maxDigits
    | none => maxDigits
  match (GEOSCoordSeq_getY_r bBoxCoordSeq i).bind (ordinateDigits ctxt) with
  | some digits => if digits > maxDigits then digits else maxDigits
  | none => maxDigits

/-- The function `QgsGeos::geomDigits`.  No `try` block surrounds the call of the
library, whose exception leaves the function.  On a ring without coordinates the
unsigned loop bound `nCoords - 1` wraps around and the reads leave the sequence;
the model raises there. -/
def geomDigits (ctxt : GEOSContextHandle_t) (geom : GEOSGeometry) : Except GEOSException Int :=
  match ctxt.GEOSEnvelope_r geom with
  | .error e => .error e
  | .ok bbox =>
    match GEOSGetExteriorRing_r bbox with
    | none => .ok (-1)
    | some bBoxRing =>
      match GEOSGeom_getCoordSeq_r bBoxRing with
      | none => .ok (-1)
      | some bBoxCoordSeq =>
        let nCoords := GEOSCoordSeq_getSize_r bBoxCoordSeq
        if nCoords = 0 then .error {}
        else .ok ((List.range (nCoords - 1)).foldl (digitsStep ctxt bBoxCoordSeq) (-1))

/-- The function `QgsGeos::pointContainedInLine`. -/
def pointContainedInLine (ctxt : GEOSContextHandle_t) (point line : Option GEOSGeometry) :
    Except GEOSException Int :=
  match point, line with
  | some point, some line =>
    match geomDigits ctxt line with
    | .error e => .error e
    | .ok digits =>
      let bufferDistance : ℚ := (10 : ℚ) ^ (digits - 11)
      match ctxt.GEOSBuffer_r line bufferDistance 8 with
      | .error e => .error e
      | .ok lineBuffer =>
        match ctxt.GEOSContains_r lineBuffer point with
        | .error e => .error e
        | .ok contained => .ok (if contained then 1 else 0)
  | _, _ => .ok (-1)

/-- The constant `DEFAULT_QUADRANT_SEGMENTS`. -/
def DEFAULT_QUADRANT_SEGMENTS : Int := 8

/-- The function `QgsGeos::lineContainedInLine`.  A ratio with the divisor 0 is
infinite or no number in the source and 0 here; neither lies between 0.9 and
1.1. -/
def lineContainedInLine (ctxt : GEOSContextHandle_t) (line1 line2 : Option GEOSGeometry) :
    Except GEOSException Int :=
  match line1, line2 with
  | some line1, some line2 =>
    match geomDigits ctxt line2 with
    | .error e => .error e
    | .ok digits =>
      let bufferDistance : ℚ := (10 : ℚ) ^ (digits - 11)
      match ctxt.GEOSBuffer_r line2 bufferDistance DEFAULT_QUADRANT_SEGMENTS with
      | .error e => .error e
      | .ok bufferGeom =>
        match ctxt.GEOSIntersection_r bufferGeom line1 with
        | .error e => .error e
        | .ok intersectionGeom =>
          match ctxt.GEOSLength_r intersectionGeom with
          | .error e => .error e
          | .ok intersectGeomLength =>
            match ctxt.GEOSLength_r line1 with
            | .error e => .error e
            | .ok line1Length =>
              let intersectRatio := line1Length / intersectGeomLength
              if intersectRatio > 9 / 10 ∧ intersectRatio < 11 / 10 then .ok 1 else .ok 0
  | _, _ => .ok (-1)

/-- The function `_linestringEndpoints`: the first and the last point of a line
string, `none` where the source returns false. -/
def _linestringEndpoints (linestring : GEOSGeometry) : Option (QgsPointXY × QgsPointXY) :=
  match GEOSGeom_getCoordSeq_r linestring with
  | none => none
  | some coordSeq =>
    let coordSeqSize := GEOSCoordSeq_getSize_r coordSeq
    if coordSeqSize < 2 then none
    else
      match GEOSCoordSeq_getX_r coordSeq 0, GEOSCoordSeq_getY_r coordSeq 0,
          GEOSCoordSeq_getX_r coordSeq (coordSeqSize - 1),
          GEOSCoordSeq_getY_r coordSeq (coordSeqSize - 1) with
      | some x1, some y1, some x2, some y2 => some (⟨x1, y1⟩, ⟨x2, y2⟩)
      | _, _, _, _ => none

/-- The function `_mergeLinestrings`.  It is called outside every `try` block: an
exception of the library leaves it. -/
def _mergeLinestrings (ctxt : GEOSContextHandle_t) (line1 line2 : GEOSGeometry)
    (intersectionPoint : QgsPointXY) : Except GEOSException (Option GEOSGeometry) :=
  match _linestringEndpoints line1 with
  | none => .ok none
  | some (p1, p2) =>
    match _linestringEndpoints line2 with
    | none => .ok none
    | some (r1, r2) =>
      let intersectionAtOrigLineEndpoint : Bool :=
        (decide (intersectionPoint.x = p1.x) && decide (intersectionPoint.y = p1.y))
          || (decide (intersectionPoint.x = p2.x) && decide (intersectionPoint.y = p2.y))
      let intersectionAtReshapeLineEndpoint : Bool :=
        (decide (intersectionPoint.x = r1.x) && decide (intersectionPoint.y = r1.y))
          || (decide (intersectionPoint.x = r2.x) && decide (intersectionPoint.y = r2.y))
      if intersectionAtOrigLineEndpoint && intersectionAtReshapeLineEndpoint then
        let g1 := GEOSGeom_clone_r line1
        let g2 := GEOSGeom_clone_r line2
        match GEOSGeom_createCollection_r GEOS_MULTILINESTRING [g1, g2] with
        | none => .error {}
        | some multiGeom =>
          match ctxt.GEOSLineMerge_r multiGeom with
          | .error e => .error e
          | .ok res => .ok (some res)
      else .ok none

/-- What the `try` block at the head of `reshapeLine` finds out about the
intersection of the two lines. -/
structure IntersectionScan where
  atLeastTwoIntersections : Bool
  oneIntersection : Bool
  oneIntersectionPoint : QgsPointXY

/-- The `try` block at the head of `reshapeLine`.  An exception, also of a read
of the intersection point, ends the block with no intersection found. -/
def scanIntersection (ctxt : GEOSContextHandle_t) (line reshapeLineGeos : GEOSGeometry) :
    IntersectionScan :=
  match ctxt.GEOSIntersection_r line reshapeLineGeos with
  | .error _ => ⟨false, false, ⟨0, 0⟩⟩
  | .ok intersectGeom =>
    let atLeastTwoIntersections :=
      decide (GEOSGeomTypeId_r intersectGeom = GEOS_MULTIPOINT)
        && decide (GEOSGetNumGeometries_r intersectGeom > 1)
    if GEOSGeomTypeId_r intersectGeom = GEOS_POINT then
      match (GEOSGeom_getCoordSeq_r intersectGeom).bind (fun cs => GEOSCoordSeq_getX_r cs 0),
          (GEOSGeom_getCoordSeq_r intersectGeom).bind (fun cs => GEOSCoordSeq_getY_r cs 0) with
      | some xi, some yi => ⟨atLeastTwoIntersections, true, ⟨xi, yi⟩⟩
      | _, _ => ⟨false, false, ⟨0, 0⟩⟩
    else ⟨atLeastTwoIntersections, false, ⟨0, 0⟩⟩

/-- The test `GEOSEquals_r( a, b ) == 1` on two vertices; a null vertex makes the
call fail. -/
def equalsCall (ctxt : GEOSContextHandle_t) (a b : Option GEOSGeometry) :
    Except GEOSException Bool :=
  match a, b with
  | some a, some b => ctxt.GEOSEquals_r a b
  | _, _ => .error {}

/-- The test whether a vertex equals the begin or the end of the original line;
the second call is made only when the first one answers no. -/
def equalsEither (ctxt : GEOSContextHandle_t) (vertex beginLineVertex endLineVertex :
    Option GEOSGeometry) : Except GEOSException Bool :=
  match equalsCall ctxt vertex beginLineVertex with
  | .error e => .error e
  | .ok true => .ok true
  | .ok false => equalsCall ctxt vertex endLineVertex

/-- Where the loop of `reshapeLine` puts a merged line. -/
inductive PartClass where
  | resultLinePart
  | probablePart
  | dropped
deriving DecidableEq

/-- The logic of `reshapeLine` that decides if a part belongs to the result. -/
def classifyPart (isRing : Bool) (nEndpointsSameAsOriginalLine nEndpointsOnOriginalLine : Nat)
    (currentGeomOverlapsOriginalGeom currentGeomOverlapsReshapeLine : Bool) : PartClass :=
  if !isRing && decide (nEndpointsSameAsOriginalLine = 1) && decide (nEndpointsOnOriginalLine = 2)
      && currentGeomOverlapsOriginalGeom then .resultLinePart
  else if isRing && decide (nEndpointsOnOriginalLine = 2) && currentGeomOverlapsOriginalGeom then
    .probablePart
  else if decide (nEndpointsOnOriginalLine = 2) && !currentGeomOverlapsOriginalGeom then
    .resultLinePart
  else if decide (nEndpointsSameAsOriginalLine = 2) && !currentGeomOverlapsOriginalGeom then
    .resultLinePart
  else if currentGeomOverlapsOriginalGeom && currentGeomOverlapsReshapeLine then .resultLinePart
  else .dropped

/-- The body of the loop of `reshapeLine` over the merged lines, for one of them.
A member without coordinate sequence makes the library fail. -/
def classifyMergedLine (ctxt : GEOSContextHandle_t) (line reshapeLineGeos : GEOSGeometry)
    (precision : ℚ) (isRing : Bool) (beginLineVertex endLineVertex : Option GEOSGeometry)
    (currentGeom : GEOSGeometry) : Except GEOSException PartClass :=
  match GEOSGeom_getCoordSeq_r currentGeom with
  | none => .error {}
  | some currentCoordSeq =>
    let currentCoordSeqSize := GEOSCoordSeq_getSize_r currentCoordSeq
    if currentCoordSeqSize < 2 then .ok .dropped
    else
      match GEOSCoordSeq_getX_r currentCoordSeq 0, GEOSCoordSeq_getY_r currentCoordSeq 0,
          GEOSCoordSeq_getX_r currentCoordSeq (currentCoordSeqSize - 1),
          GEOSCoordSeq_getY_r currentCoordSeq (currentCoordSeqSize - 1) with
      | some xBegin, some yBegin, some xEnd, some yEnd =>
        let beginCurrentGeomVertex := createGeosPointXY xBegin yBegin false 0 false 0 2 precision
        let endCurrentGeomVertex := createGeosPointXY xEnd yEnd false 0 false 0 2 precision
        match pointContainedInLine ctxt beginCurrentGeomVertex (some line) with
        | .error e => .error e
        | .ok beginOnLine =>
        match pointContainedInLine ctxt endCurrentGeomVertex (some line) with
        | .error e => .error e
        | .ok endOnLine =>
        let nEndpointsOnOriginalLine : Nat :=
          (if beginOnLine = 1 then 1 else 0) + (if endOnLine = 1 then 1 else 0)
        match equalsEither ctxt beginCurrentGeomVertex beginLineVertex endLineVertex with
        | .error e => .error e
        | .ok beginSame =>
        match equalsEither ctxt endCurrentGeomVertex beginLineVertex endLineVertex with
        | .error e => .error e
        | .ok endSame =>
        let nEndpointsSameAsOriginalLine : Nat :=
          (if beginSame then 1 else 0) + (if endSame then 1 else 0)
        match lineContainedInLine ctxt (some currentGeom) (some line) with
        | .error e => .error e
        | .ok inOriginal =>
        match lineContainedInLine ctxt (some currentGeom) (some reshapeLineGeos) with
        | .error e => .error e
        | .ok inReshapeLine =>
          .ok (classifyPart isRing nEndpointsSameAsOriginalLine nEndpointsOnOriginalLine
            (decide (inOriginal = 1)) (decide (inReshapeLine = 1)))
      | _, _, _, _ => .error {}

/-- The loop of `reshapeLine` over the merged lines: the parts of the result and
the probable parts, each in the order of the merged lines. -/
def classifyMergedLines (ctxt : GEOSContextHandle_t) (line reshapeLineGeos : GEOSGeometry)
    (precision : ℚ) (isRing : Bool) (beginLineVertex endLineVertex : Option GEOSGeometry) :
    List GEOSGeometry → Except GEOSException (List GEOSGeometry × List GEOSGeometry)
  | [] => .ok ([], [])
  | currentGeom :: rest =>
    match classifyMergedLine ctxt line reshapeLineGeos precision isRing beginLineVertex
        endLineVertex currentGeom with
    | .error e => .error e
    | .ok partClass =>
      match classifyMergedLines ctxt line reshapeLineGeos precision isRing beginLineVertex
          endLineVertex rest with
      | .error e => .error e
      | .ok (resultLineParts, probableParts) =>
        match partClass with
        | .resultLinePart => .ok (GEOSGeom_clone_r currentGeom :: resultLineParts, probableParts)
        | .probablePart => .ok (resultLineParts, GEOSGeom_clone_r currentGeom :: probableParts)
        | .dropped => .ok (resultLineParts, probableParts)

/-- The loop of `reshapeLine` that looks for the longest probable part: the
first one of the greatest length. -/
def longestPart (ctxt : GEOSContextHandle_t) :
    List GEOSGeometry → Option GEOSGeometry → ℚ → Except GEOSException (Option GEOSGeometry)
  | [], maxGeom, _ => .ok maxGeom
  | currentGeom :: rest, maxGeom, maxLength =>
    match ctxt.GEOSLength_r currentGeom with
    | .error e => .error e
    | .ok currentLength =>
      if currentLength > maxLength then longestPart ctxt rest (some currentGeom) currentLength
      else longestPart ctxt rest maxGeom maxLength

/-- The end of `reshapeLine`: the parts of the result are merged into one line
string. -/
def mergeResultLineParts (ctxt : GEOSContextHandle_t) (resultLineParts : List GEOSGeometry) :
    Except GEOSException (Option GEOSGeometry) :=
  match resultLineParts with
  | [] => .ok none
  | first :: others =>
    let result : Except GEOSException GEOSGeometry :=
      if others.isEmpty then .ok first
      else
        match GEOSGeom_createCollection_r GEOS_MULTILINESTRING resultLineParts with
        | none => .error {}
        | some multiLineGeom => ctxt.GEOSLineMerge_r multiLineGeom
    match result with
    | .error e => .error e
    | .ok result => if GEOSGeomTypeId_r result ≠ GEOS_LINESTRING then .ok none else .ok (some result)

/-- The part of `reshapeLine` behind the test for two intersections: the two
lines are noded and merged, and the merged lines are sorted out.  A null pointer
among the parts of the result makes the library fail. -/
def reshapeLineNoded (ctxt : GEOSContextHandle_t) (line reshapeLineGeos : GEOSGeometry)
    (precision : ℚ) : Except GEOSException (Option GEOSGeometry) :=
  match _linestringEndpoints line with
  | none => .ok none
  | some (p1, p2) =>
    let beginLineVertex := createGeosPointXY p1.x p1.y false 0 false 0 2 precision
    let endLineVertex := createGeosPointXY p2.x p2.y false 0 false 0 2 precision
    let isRingTest : Except GEOSException Bool :=
      if GEOSGeomTypeId_r line = GEOS_LINEARRING then .ok true
      else equalsCall ctxt beginLineVertex endLineVertex
    match isRingTest with
    | .error e => .error e
    | .ok isRing =>
    match nodeGeometries ctxt (some reshapeLineGeos) (some line) with
    | .error e => .error e
    | .ok none => .ok none
    | .ok (some nodedGeometry) =>
    match ctxt.GEOSLineMerge_r nodedGeometry with
    | .error e => .error e
    | .ok mergedLines =>
      let numMergedLines := GEOSGetNumGeometries_r mergedLines
      if numMergedLines < 2 then
        if numMergedLines = 1 then .ok (some (GEOSGeom_clone_r reshapeLineGeos)) else .ok none
      else
        match classifyMergedLines ctxt line reshapeLineGeos precision isRing beginLineVertex
            endLineVertex mergedLines.memberGeometries with
        | .error e => .error e
        | .ok (resultLineParts, probableParts) =>
          if isRing && !probableParts.isEmpty then
            match longestPart ctxt probableParts none (-DBL_MAX) with
            | .error e => .error e
            | .ok none => .error {}
            | .ok (some maxGeom) => mergeResultLineParts ctxt (resultLineParts ++ [maxGeom])
          else mergeResultLineParts ctxt resultLineParts

/-- The function `QgsGeos::reshapeLine`. -/
def reshapeLine (ctxt : GEOSContextHandle_t) (line reshapeLineGeos : Option GEOSGeometry)
    (precision : ℚ) : Except GEOSException (Option GEOSGeometry) :=
  match line, reshapeLineGeos with
  | some line, some reshapeLineGeos =>
    let scan := scanIntersection ctxt line reshapeLineGeos
    if scan.oneIntersection then
      _mergeLinestrings ctxt line reshapeLineGeos scan.oneIntersectionPoint
    else if !scan.atLeastTwoIntersections then .ok none
    else reshapeLineNoded ctxt line reshapeLineGeos precision
  | _, _ => .ok none

/-- What the two tests of `reshapePolygon` for intersecting rings keep. -/
structure RingScan where
  nIntersections : Nat
  lastIntersectingRing : Int
  lastIntersectingGeom : Option GEOSGeometry

/-- The loop of `reshapePolygon` over the inner rings, from ring `i` on. -/
def scanInnerRings (ctxt : GEOSContextHandle_t) (reshapeLineGeos : GEOSGeometry) :
    List GEOSGeometry → Nat → RingScan → Except GEOSException RingScan
  | [], _, scan => .ok scan
  | ring :: rest, i, scan =>
    match ctxt.GEOSIntersects_r ring reshapeLineGeos with
    | .error e => .error e
    | .ok true =>
      scanInnerRings ctxt reshapeLineGeos rest (i + 1)
        { nIntersections := scan.nIntersections + 1, lastIntersectingRing := i,
          lastIntersectingGeom := some ring }
    | .ok false => scanInnerRings ctxt reshapeLineGeos rest (i + 1) scan

/-- The loop of `reshapePolygon` that keeps the rings still inside the new outer
boundary, from ring `i` on; the ring that was reshaped takes part as `newRing`. -/
def containedRings (ctxt : GEOSContextHandle_t) (outerRingPoly newRing : GEOSGeometry)
    (lastIntersectingRing : Int) :
    List GEOSGeometry → Nat → Except GEOSException (List GEOSGeometry)
  | [], _ => .ok []
  | innerRing :: rest, i =>
    let currentRing := if lastIntersectingRing = i then newRing else GEOSGeom_clone_r innerRing
    match ctxt.GEOSContains_r outerRingPoly currentRing with
    | .error e => .error e
    | .ok contained =>
      match containedRings ctxt outerRingPoly newRing lastIntersectingRing rest (i + 1) with
      | .error e => .error e
      | .ok ringList => .ok (if contained then currentRing :: ringList else ringList)

/-- The function `QgsGeos::reshapePolygon`.  For a geometry that is no polygon
the library reports -1 rings and the function returns null.  The test of the outer
ring and everything behind the loop over the inner rings stand outside the `try`
block; a constructor of the library that fails raises. -/
def reshapePolygon (ctxt : GEOSContextHandle_t) (polygon : GEOSGeometry)
    (reshapeLineGeos : Option GEOSGeometry) (precision : ℚ) :
    Except GEOSException (Option GEOSGeometry) :=
  match polygon, reshapeLineGeos with
  | .polygon shell holes, some reshapeLineGeos =>
    let outerRing := GEOSGeometry.linearRing shell
    let innerRings := holes.map GEOSGeometry.linearRing
    match ctxt.GEOSIntersects_r outerRing reshapeLineGeos with
    | .error e => .error e
    | .ok outerIntersects =>
      let scan : RingScan :=
        if outerIntersects then ⟨1, -1, some outerRing⟩ else ⟨0, -2, none⟩
      let scan : RingScan :=
        match scanInnerRings ctxt reshapeLineGeos innerRings 0 scan with
        | .ok scan => scan
        | .error _ => { scan with nIntersections := 0 }
      if scan.nIntersections ≠ 1 then .ok none
      else
        match reshapeLine ctxt scan.lastIntersectingGeom (some reshapeLineGeos) precision with
        | .error e => .error e
        | .ok none => .ok none
        | .ok (some reshapeResult) =>
          match (GEOSGeom_getCoordSeq_r reshapeResult).bind GEOSGeom_createLinearRing_r with
          | none => .error {}
          | some newRing =>
            let newOuterRing :=
              if scan.lastIntersectingRing = -1 then newRing else GEOSGeom_clone_r outerRing
            let ringList : Except GEOSException (List GEOSGeometry) :=
              if innerRings.length > 0 then
                match GEOSGeom_createPolygon_r (GEOSGeom_clone_r newOuterRing) [] with
                | none => .error {}
                | some outerRingPoly =>
                  containedRings ctxt outerRingPoly newRing scan.lastIntersectingRing innerRings 0
              else .ok []
            match ringList with
            | .error e => .error e
            | .ok ringList =>
              match GEOSGeom_createPolygon_r newOuterRing ringList with
              | none => .error {}
              | some reshapedPolygon => .ok (some reshapedPolygon)
  | .polygon _ _, none => .error {}
  | _, _ => .ok none

/-- The call of `reshapeLine` or `reshapePolygon` that `reshapeGeometry` makes for
one geometry. -/
def reshapePart (ctxt : GEOSContextHandle_t) (isLine : Bool) (part : GEOSGeometry)
    (reshapeLineGeos : Option GEOSGeometry) (precision : ℚ) :
    Except GEOSException (Option GEOSGeometry) :=
  if isLine then reshapeLine ctxt (some part) reshapeLineGeos precision
  else reshapePolygon ctxt part reshapeLineGeos precision

/-- The loop of `reshapeGeometry` over the parts of a multi-part receiver: the new
parts and whether a reshape took place. -/
def reshapeParts (ctxt : GEOSContextHandle_t) (isLine : Bool)
    (reshapeLineGeos : Option GEOSGeometry) (precision : ℚ) :
    List GEOSGeometry → Except GEOSException (List GEOSGeometry × Bool)
  | [] => .ok ([], false)
  | part :: rest =>
    match reshapePart ctxt isLine part reshapeLineGeos precision with
    | .error e => .error e
    | .ok currentReshapeGeometry =>
      match reshapeParts ctxt isLine reshapeLineGeos precision rest with
      | .error e => .error e
      | .ok (newGeoms, reshapeTookPlace) =>
        match currentReshapeGeometry with
        | some reshaped => .ok (reshaped :: newGeoms, true)
        | none => .ok (GEOSGeom_clone_r part :: newGeoms, reshapeTookPlace)

/-- The function `QgsGeos::reshapeGeometry`: the geometry returned and the error
code, which starts out as the caller left it.  For a single geometry no `try`
block surrounds the calls: an exception, also one of the conversion of the
result, leaves the function.  For a multi-part geometry the conversion of the
new multi-geometry is inside the `try` block, after the code is set: if it
raises, null is returned under the code `Success`.  (An engine without abstract
geometry holds no native geometry either.) -/
def reshapeGeometry (ctxt : GEOSContextHandle_t) (self : QgsGeos)
    (reshapeWithLine : QgsLineString) (errorCode : EngineOperationResult) :
    Except GEOSException (Option QgsAbstractGeometry × EngineOperationResult) :=
  match self.mGeos, self.mGeometry with
  | some mGeos, some mGeometry =>
    if mGeometry.dimension = 0 then .ok (none, InvalidBaseGeometry)
    else if reshapeWithLine.numPoints < 2 then .ok (none, InvalidInput)
    else
      let reshapeLineGeos := createGeosLinestring reshapeWithLine self.mPrecision
      let geosTypeId := GEOSGeomTypeId_r mGeos
      let isMultiGeom : Bool :=
        decide (geosTypeId = GEOS_MULTILINESTRING) || decide (geosTypeId = GEOS_MULTIPOLYGON)
      let isLine : Bool := decide (mGeometry.dimension = 1)
      if !isMultiGeom then
        match reshapePart ctxt isLine mGeos reshapeLineGeos self.mPrecision with
        | .error e => .error e
        | .ok none => .ok (none, Success)
        | .ok (some reshapedGeometry) =>
          match fromGeosOf reshapedGeometry with
          | .error e => .error e
          | .ok reshapeResult => .ok (reshapeResult, Success)
      else
        match reshapeParts ctxt isLine reshapeLineGeos self.mPrecision mGeos.memberGeometries with
        | .error _ => .ok (none, errorCode)
        | .ok (newGeoms, reshapeTookPlace) =>
          match GEOSGeom_createCollection_r
              (if isLine then GEOS_MULTILINESTRING else GEOS_MULTIPOLYGON) newGeoms with
          | none => .ok (none, errorCode)
          | some newMultiGeom =>
            if reshapeTookPlace then .ok (fromGeos (some newMultiGeom), Success)
            else .ok (none, NothingHappened)
  | _, _ => .ok (none, InvalidBaseGeometry)

end QgsGeos

/-! ## A multi-line-string extended at an end point -/

/-- The first part of `twoLinesGeos`, the line (0 0, 1 0). -/
def firstLineGeos : GEOSGeometry :=
  .lineString { dims := 2, coords := [⟨0, 0, 0⟩, ⟨1, 0, 0⟩] }

/-- The second part of `twoLinesGeos`, the line (0 5, 1 5). -/
def secondLineGeos : GEOSGeometry :=
  .lineString { dims := 2, coords := [⟨0, 5, 0⟩, ⟨1, 5, 0⟩] }

/-- The multi-line-string ((0 0, 1 0), (0 5, 1 5)) in native form. -/
def twoLinesGeos : GEOSGeometry := .collection .multiLineString [firstLineGeos, secondLineGeos]

/-- The multi-line-string ((0 0, 1 0), (0 5, 1 5)). -/
def twoLines : QgsAbstractGeometry :=
  .collection .MultiLineString false false
    [.lineString { is3D := false, isMeasure := false, mX := [0, 1], mY := [0, 0], mZ := [], mM := [] },
     .lineString { is3D := false, isMeasure := false, mX := [0, 1], mY := [5, 5], mZ := [], mM := [] }]

/-- An engine constructed on `twoLines`. -/
def twoLinesEngine : QgsGeos :=
  { mGeometry := some twoLines, mPrecision := 0, mGeos := some twoLinesGeos, mGeosPrepared := none }

/-- The line (1 0, 2 0), which starts where the first part of `twoLines` ends. -/
def extensionLine : QgsLineString :=
  { is3D := false, isMeasure := false, mX := [1, 2], mY := [0, 0], mZ := [], mM := [] }

/-- The native form of `extensionLine`. -/
def extensionLineGeos : GEOSGeometry :=
  .lineString { dims := 2, coords := [⟨1, 0, 0⟩, ⟨2, 0, 0⟩] }

/-- The first part of `twoLines` extended by `extensionLine`: the line (0 0, 1 0, 2 0). -/
def extendedLineGeos : GEOSGeometry :=
  .lineString { dims := 2, coords := [⟨0, 0, 0⟩, ⟨1, 0, 0⟩, ⟨2, 0, 0⟩] }

/-- The answers of the library when `twoLines` is reshaped by `extensionLine`: a line on the
x axis meets the extension in the point (1 0), every other line does not meet it, and the two
lines that meet merge into `extendedLineGeos`; every other call raises. -/
def extendingContext : GEOSContextHandle_t :=
  { raisingContext with
    GEOSIntersection_r := fun a _ =>
      match a with
      | .lineString cs =>
        if cs.coords.all (fun c => decide (c.y = 0)) then
          .ok (.point { dims := 2, coords := [⟨1, 0, 0⟩] })
        else .ok (.collection .geometryCollection [])
      | _ => .ok (.collection .geometryCollection [])
    GEOSLineMerge_r := fun _ => .ok extendedLineGeos }

/-! ## Auxiliary notions for `reshapePolygon` -/

/-- The holes of a polygon in which the hole `lastIntersectingRing` (counted from `i`) is
replaced by the sequence `cs`. -/
def QgsGeos.holesWithReplaced (cs : GEOSCoordSequence) (lastIntersectingRing : Int)
    (holes : List GEOSCoordSequence) (i : Nat) : List GEOSCoordSequence :=
  (holes.enumFrom i).map (fun jh => if lastIntersectingRing = (jh.1 : Int) then cs else jh.2)

/-- The rings among `rings` whose containment test, in the same position of `contained`, was
answered with yes. -/
def QgsGeos.keptRings (rings : List GEOSCoordSequence) (contained : List Bool) :
    List GEOSCoordSequence :=
  (rings.zip contained).filterMap (fun rc => if rc.2 then some rc.1 else none)

/-! ## The network tracer: shortest paths -/

namespace QgsTracer

variable {V : Type} [DecidableEq V] {C : Type} [LinearOrderedAddCommMonoid C]

/-- Modelled from the spec: the tracer graph (qgstracer.cpp is not among the sources).  The
edges are given by their two end vertices and can be walked in both directions; this is the
list of the vertices that an edge joins to `u`. -/
def neighbours (edges : List (V × V)) (u : V) : List V :=
  edges.filterMap (fun e => if e.1 = u then some e.2 else if e.2 = u then some e.1 else none)

/-- Modelled from the spec: the vertices of the tracer graph: the end points of its edges,
each once. -/
def vertices (edges : List (V × V)) : List V :=
  (edges.flatMap (fun e => [e.1, e.2])).dedup

/-- Modelled from the spec: the cost of a path: the total length of a point sequence is the
sum of the lengths of its steps. -/
def pathLength (len : V → V → C) : List V → C
  | [] => 0
  | [_] => 0
  | a :: b :: rest => len a b + pathLength len (b :: rest)

/-- Modelled from the spec: a record of the search.  A vertex whose shortest path from the
source is settled: the vertex, the length of the
path and the path itself. -/
structure Settled (V : Type) (C : Type) where
  vertex : V
  dist : C
  path : List V

/-- Modelled from the spec: the candidates of a step of the search: the vertices not yet settled that an edge joins
to a settled vertex, each with the path through that vertex. -/
def candidates (len : V → V → C) (edges : List (V × V)) (settled : List (Settled V C)) :
    List (Settled V C) :=
  settled.flatMap (fun s =>
    (neighbours edges s.vertex).filterMap (fun v =>
      if v ∈ settled.map (fun t => t.vertex) then none
      else some { vertex := v, dist := s.dist + len s.vertex v, path := s.path ++ [v] }))

/-- Modelled from the spec: the choice of a step of the search: the first candidate of the
least length. -/
def minCandidate : List (Settled V C) → Option (Settled V C)
  | [] => none
  | c :: cs =>
    match minCandidate cs with
    | none => some c
    | some m => if m.dist < c.dist then some m else some c

/-- Modelled from the spec: "a standard single-source shortest-path algorithm (e.g.,
Dijkstra)": as long as there is a candidate, the candidate of the least length is settled.
Every step settles a new vertex, so that as many steps as the graph has vertices suffice. -/
def dijkstra (len : V → V → C) (edges : List (V × V)) : Nat → List (Settled V C) →
    List (Settled V C)
  | 0, settled => settled
  | fuel + 1, settled =>
    match minCandidate (candidates len edges settled) with
    | none => settled
    | some c => dijkstra len edges fuel (settled ++ [c])

/-- Modelled from the spec: the shortest path from `source` to `target` over the edges, the empty sequence when the
target is not reached. -/
def shortestPath (len : V → V → C) (edges : List (V × V)) (source target : V) : List V :=
  match (dijkstra len edges (vertices edges).length
      [{ vertex := source, dist := 0, path := [source] }]).find?
      (fun s => decide (s.vertex = target)) with
  | some s => s.path
  | none => []

/-- A point sequence that runs along the edges: each step is an edge of the graph. -/
def IsWalk (edges : List (V × V)) (w : List V) : Prop :=
  List.Chain' (fun a b => b ∈ neighbours edges a) w

/-- A walk from `source` to `target`. -/
def IsWalkFromTo (edges : List (V × V)) (source target : V) (w : List V) : Prop :=
  IsWalk edges w ∧ w.head? = some source ∧ w.getLast? = some target

/-- The invariant of the search: every settled vertex carries a shortest walk from the
source, no vertex is settled twice, and the paths stay inside the settled vertices. -/
structure SearchInvariant (len : V → V → C) (edges : List (V × V)) (source : V)
    (settled : List (Settled V C)) : Prop where
  walks : ∀ s ∈ settled,
    IsWalkFromTo edges source s.vertex s.path ∧ pathLength len s.path = s.dist
  shortest : ∀ s ∈ settled, ∀ w, IsWalkFromTo edges source s.vertex w → s.dist ≤ pathLength len w
  nodup : (settled.map (fun t => t.vertex)).Nodup
  paths : ∀ s ∈ settled, s.path.Nodup ∧ ∀ v ∈ s.path, v ∈ settled.map (fun t => t.vertex)
  source_mem : source ∈ settled.map (fun t => t.vertex)

end QgsTracer

/-! ## The network tracer: the graph of the layers -/

/-- Modelled from the spec: the points of the plane in the order by x, then by y.  The order
is linear along every line, so that sorting by it puts the cut points of a segment in their
order along the segment. -/
instance : LinearOrder QgsPointXY :=
  LinearOrder.lift' (fun p => toLex (p.x, p.y)) (by
    intro p q h
    cases p; cases q
    simpa [Prod.ext_iff] using h)

namespace QgsTracer

/-- Modelled from the spec: a test of the graph construction, which is not among the
sources.  The cross product of the vectors from `o` to `a` and from `o` to `b`; it is zero when
the three points lie on one line. -/
def cross (o a b : QgsPointXY) : ℚ :=
  (a.x - o.x) * (b.y - o.y) - (a.y - o.y) * (b.x - o.x)

/-- Modelled from the spec: a test of the graph construction: the point `p` lies on the
closed segment `s`, that is on its line, between its ends. -/
def onSegment (s : QgsPointXY × QgsPointXY) (p : QgsPointXY) : Prop :=
  cross s.1 s.2 p = 0 ∧ min s.1 s.2 ≤ p ∧ p ≤ max s.1 s.2

instance (s : QgsPointXY × QgsPointXY) (p : QgsPointXY) : Decidable (onSegment s p) :=
  inferInstanceAs (Decidable (_ ∧ _))

/-- Modelled from the spec: a step of the graph construction: the point in which the lines
through two segments meet, none when they are parallel. -/
def lineIntersection (s t : QgsPointXY × QgsPointXY) : Option QgsPointXY :=
  let d := (s.2.x - s.1.x) * (t.2.y - t.1.y) - (s.2.y - s.1.y) * (t.2.x - t.1.x)
  if d = 0 then none
  else
    let u := ((t.1.x - s.1.x) * (t.2.y - t.1.y) - (t.1.y - s.1.y) * (t.2.x - t.1.x)) / d
    some ⟨s.1.x + u * (s.2.x - s.1.x), s.1.y + u * (s.2.y - s.1.y)⟩

/-- Modelled from the spec: the points of a line string in the plane of the tracer. -/
def linePoints (l : QgsLineString) : List QgsPointXY :=
  (l.mX.zip l.mY).map (fun c => ⟨c.1, c.2⟩)

/-- Modelled from the spec: "extract its boundary as one or more line strings": a line
string is its own line work, a polygon gives its rings, a collection the line work of its
members, a point nothing. -/
def extractLinework : QgsAbstractGeometry → List (List QgsPointXY)
  | .point _ => []
  | .lineString l => [linePoints l]
  | .polygon p =>
      (match p.exteriorRing with
        | some r => [linePoints r]
        | none => []) ++ p.interiorRings.map linePoints
  | .collection _ _ _ geoms => membersLinework geoms
where
  membersLinework : List QgsAbstractGeometry → List (List QgsPointXY)
    | [] => []
    | g :: gs => extractLinework g ++ membersLinework gs

/-- Modelled from the spec: the segments of a line, from each point to the next; "zero-length or degenerate input
geometries are skipped silently". -/
def segmentsOf (line : List QgsPointXY) : List (QgsPointXY × QgsPointXY) :=
  (line.zip line.tail).filter (fun s => decide (s.1 ≠ s.2))

/-- Modelled from the spec: the points in which two segments that are not parallel meet: "find all pairwise self-
and mutual intersections among the extracted lines". -/
def crossings (segments : List (QgsPointXY × QgsPointXY)) : List QgsPointXY :=
  segments.flatMap (fun s =>
    segments.filterMap (fun t =>
      match lineIntersection s t with
      | some p => if onSegment s p ∧ onSegment t p then some p else none
      | none => none))

/-- Modelled from the spec: the nodes of the line work: the ends of the segments and their
crossings. -/
def nodes (segments : List (QgsPointXY × QgsPointXY)) : List QgsPointXY :=
  segments.flatMap (fun s => [s.1, s.2]) ++ crossings segments

/-- Modelled from the spec: the nodes on a segment, each once, in their order along the
segment. -/
def cutPoints (segments : List (QgsPointXY × QgsPointXY)) (s : QgsPointXY × QgsPointXY) :
    List QgsPointXY :=
  (((nodes segments).filter (fun p => decide (onSegment s p))).dedup).insertionSort (· ≤ ·)

/-- Modelled from the spec: the pieces into which the nodes cut a segment: "split every line at every intersection
point". -/
def segmentEdges (segments : List (QgsPointXY × QgsPointXY)) (s : QgsPointXY × QgsPointXY) :
    List (QgsPointXY × QgsPointXY) :=
  (cutPoints segments s).zip (cutPoints segments s).tail

/-- Modelled from the spec: the graph construction.  Every coordinate of the noded line
work is a vertex, so that an edge is a straight piece between two nodes (an edge polyline of
the spec is a chain of such edges); pieces that coincide are one edge ("deduplicate
coincident vertices").  Coordinates are exact, so that the tolerance of the spec, which
absorbs the rounding of floating-point coordinates, is zero: two points are one vertex when
they are equal. -/
def makeGraph (lines : List (List QgsPointXY)) : List (QgsPointXY × QgsPointXY) :=
  ((lines.flatMap segmentsOf).flatMap (segmentEdges (lines.flatMap segmentsOf))).dedup

/-- Modelled from the spec: the split of an edge by a query point: the first edge through
`p` is replaced by its two pieces. -/
def splitEdge : List (QgsPointXY × QgsPointXY) → QgsPointXY →
    Option (List (QgsPointXY × QgsPointXY))
  | [], _ => none
  | e :: rest, p =>
    if onSegment e p then some ((e.1, p) :: (p, e.2) :: rest)
    else (splitEdge rest p).map (fun r => e :: r)

/-- Modelled from the spec: a query point is snapped to the graph, "inserting a new
degree-2 vertex splitting the nearest edge if the coordinate does not already coincide with
an existing vertex"; there is nothing to snap to when the point lies on no edge. -/
def joinPoint (edges : List (QgsPointXY × QgsPointXY)) (p : QgsPointXY) :
    Option (List (QgsPointXY × QgsPointXY)) :=
  if p ∈ vertices edges then some edges else splitEdge edges p

/-- Modelled from the spec: the graph with both query points joined to it, the first point
first. -/
def joinedGraph (edges : List (QgsPointXY × QgsPointXY)) (p1 p2 : QgsPointXY) :
    Option (List (QgsPointXY × QgsPointXY)) :=
  (joinPoint edges p1).bind (fun joined => joinPoint joined p2)

/-- Modelled from the spec: the shortest-path query on a built graph: "a shortest path is
computed over edge costs equal to Euclidean edge length"; "if no path exists ... the result
is an empty sequence".  The length of a step is the parameter `len`. -/
def tracePath {C : Type} [LinearOrderedAddCommMonoid C] (len : QgsPointXY → QgsPointXY → C)
    (edges : List (QgsPointXY × QgsPointXY)) (p1 p2 : QgsPointXY) : List QgsPointXY :=
  match joinedGraph edges p1 p2 with
  | some joined => shortestPath len joined p1 p2
  | none => []

/-- The paths from `u` to `target` that visit no vertex twice and none of `visited`. -/
def simplePaths {V : Type} [DecidableEq V] (edges : List (V × V)) (target : V) :
    Nat → List V → V → List (List V)
  | 0, _, _ => []
  | fuel + 1, visited, u =>
    if u = target then [[u]]
    else
      ((neighbours edges u).filter (fun v => decide (v ∉ u :: visited))).flatMap (fun v =>
        (simplePaths edges target fuel (u :: visited) v).map (fun w => u :: w))

/-- The length `len` is the Euclidean distance. -/
def IsEuclideanLength (len : QgsPointXY → QgsPointXY → ℝ) : Prop :=
  ∀ p q, 0 ≤ len p q ∧ len p q ^ 2 = (((p.x - q.x) ^ 2 + (p.y - q.y) ^ 2 : ℚ) : ℝ)

/-- The point lies on an edge of the graph. -/
def OnGraph (edges : List (QgsPointXY × QgsPointXY)) (p : QgsPointXY) : Prop :=
  ∃ e ∈ edges, onSegment e p

end QgsTracer


/-! ## The network tracer: layers and state -/

namespace QgsRectangle

/-- Modelled from the spec: `QgsRectangle::intersects` of qgsrectangle.h is not among the
sources; two rectangles intersect when their ranges overlap in x and in y. -/
def intersects (r rect : QgsRectangle) : Bool :=
  decide (max r.xMinimum rect.xMinimum ≤ min r.xMaximum rect.xMaximum)
    && decide (max r.yMinimum rect.yMinimum ≤ min r.yMaximum rect.yMaximum)

end QgsRectangle

/-- The point lies inside the ring: a ray from the point to the right crosses the ring an
odd number of times. -/
def insideRing (ring : List QgsPointXY) (p : QgsPointXY) : Bool :=
  ((ring.zip ring.tail).filter (fun s =>
    decide ((s.1.y > p.y) ≠ (s.2.y > p.y))
      && decide (p.x < s.1.x + (p.y - s.1.y) * (s.2.x - s.1.x) / (s.2.y - s.1.y)))).length % 2 = 1

namespace QgsRectangle

/-- Modelled from the spec: `QgsRectangle::contains` of qgsrectangle.h is not among the
sources; the point lies in the rectangle, its border included. -/
def contains (r : QgsRectangle) (p : QgsPointXY) : Bool :=
  decide (r.xMinimum ≤ p.x) && decide (p.x ≤ r.xMaximum)
    && decide (r.yMinimum ≤ p.y) && decide (p.y ≤ r.yMaximum)

end QgsRectangle

namespace QgsTracer

/-- The parameter `t` at which `a + t * d` enters the range from `mn` to `mx`; 0 when `d` is 0
and the value does not move. -/
def rangeEnter (a d mn mx : ℚ) : ℚ :=
  if 0 < d then (mn - a) / d else if d < 0 then (mx - a) / d else 0

/-- The parameter `t` at which `a + t * d` leaves the range from `mn` to `mx`; 1 when `d` is 0
and the value does not move. -/
def rangeLeave (a d mn mx : ℚ) : ℚ :=
  if 0 < d then (mx - a) / d else if d < 0 then (mn - a) / d else 1

/-- Modelled from the spec: the intersection test of the extent filter on one segment: the
closed segment has a point in the rectangle.  The points of the segment are
`s.1 + t * (s.2 - s.1)` for `t` from 0 to 1; each axis admits a range of `t`, and the segment
meets the rectangle when the ranges have a `t` in common. -/
def segmentIntersects (s : QgsPointXY × QgsPointXY) (r : QgsRectangle) : Bool :=
  let dx := s.2.x - s.1.x
  let dy := s.2.y - s.1.y
  (decide (dx ≠ 0) || (decide (r.xMinimum ≤ s.1.x) && decide (s.1.x ≤ r.xMaximum)))
    && (decide (dy ≠ 0) || (decide (r.yMinimum ≤ s.1.y) && decide (s.1.y ≤ r.yMaximum)))
    && decide (max 0 (max (rangeEnter s.1.x dx r.xMinimum r.xMaximum)
          (rangeEnter s.1.y dy r.yMinimum r.yMaximum))
        ≤ min 1 (min (rangeLeave s.1.x dx r.xMinimum r.xMaximum)
          (rangeLeave s.1.y dy r.yMinimum r.yMaximum)))

/-- Modelled from the spec: the intersection test of the extent filter on a line: one of its
points, or a point of one of its segments, lies in the rectangle. -/
def lineIntersects (line : List QgsPointXY) (r : QgsRectangle) : Bool :=
  line.any r.contains || (line.zip line.tail).any (fun s => segmentIntersects s r)

/-- Modelled from the spec: the intersection test of the extent filter ("out-of-extent
features are excluded entirely"): the geometry has a point in the rectangle.  A point lies in
it; a line string has a point in it; a polygon has a ring with a point in it, or holds the
rectangle in its inside (its corner lies inside the exterior ring and inside no interior
ring); a collection has a member that intersects. -/
def intersectsExtent (r : QgsRectangle) : QgsAbstractGeometry → Bool
  | .point p => r.contains ⟨p.x, p.y⟩
  | .lineString l => lineIntersects (linePoints l) r
  | .polygon p =>
      (match p.exteriorRing with
        | some ring =>
          lineIntersects (linePoints ring) r
            || (insideRing (linePoints ring) ⟨r.xMinimum, r.yMinimum⟩
              && !p.interiorRings.any (fun hole =>
                insideRing (linePoints hole) ⟨r.xMinimum, r.yMinimum⟩))
        | none => false)
        || p.interiorRings.any (fun hole => lineIntersects (linePoints hole) r)
  | .collection _ _ _ geoms => anyMember geoms
where
  anyMember : List QgsAbstractGeometry → Bool
    | [] => false
    | g :: gs => intersectsExtent r g || anyMember gs

end QgsTracer

/-- Modelled from the spec: a feature of a vector layer (qgsfeature.h is not among the
sources): its id and its geometry. -/
structure QgsFeature where
  id : Int
  geometry : QgsAbstractGeometry

/-- Modelled from the spec: the contents of a vector layer (qgsvectorlayer.h is not among
the sources): its features. -/
structure QgsVectorLayer where
  features : List QgsFeature

namespace QgsVectorLayer

/-- Modelled from the spec: the call `addFeature`. -/
def addFeature (layer : QgsVectorLayer) (f : QgsFeature) : QgsVectorLayer :=
  { features := layer.features ++ [f] }

/-- Modelled from the spec: the call `deleteFeature`. -/
def deleteFeature (layer : QgsVectorLayer) (fid : Int) : QgsVectorLayer :=
  { features := layer.features.filter (fun f => decide (f.id ≠ fid)) }

/-- Modelled from the spec: the call `changeGeometry`. -/
def changeGeometry (layer : QgsVectorLayer) (fid : Int) (geom : QgsAbstractGeometry) :
    QgsVectorLayer :=
  { features := layer.features.map (fun f => if f.id = fid then { f with geometry := geom } else f) }

end QgsVectorLayer

/-- Modelled from the spec: the state of the tracer (qgstracer.h is not among the sources):
the contents of the layers it tracks, the extent (an empty rectangle when none is
configured) and the graph, absent in the states Uninitialized and Invalidated.  The
destination coordinate system, curved geometries and the cost and feature reference that an
edge carries are outside the model: the layers hold straight line work in the coordinates of
the tracer, and the cost of an edge is the length of the step between its ends. -/
structure QgsTracer where
  mLayers : List QgsVectorLayer
  mExtent : QgsRectangle
  mGraph : Option (List (QgsPointXY × QgsPointXY))

namespace QgsTracer

/-- Modelled from the spec: the constructor `QgsTracer()`: no layers, no extent, no
graph. -/
def create : QgsTracer :=
  { mLayers := []
    mExtent := { xMinimum := 0, yMinimum := 0, xMaximum := 0, yMaximum := 0 }
    mGraph := none }

/-- Modelled from the spec: the call `setLayers`, a configuration change: the graph is
invalidated. -/
def setLayers (t : QgsTracer) (layers : List QgsVectorLayer) : QgsTracer :=
  { t with mLayers := layers, mGraph := none }

/-- Modelled from the spec: the call `setExtent`, a configuration change: the graph is
invalidated. -/
def setExtent (t : QgsTracer) (extent : QgsRectangle) : QgsTracer :=
  { t with mExtent := extent, mGraph := none }

/-- Modelled from the spec: a mutation of the tracked layer `i`: "Built → Invalidated on any
tracked layer mutation". -/
def layerChanged (t : QgsTracer) (i : Nat) (change : QgsVectorLayer → QgsVectorLayer) :
    QgsTracer :=
  { t with mLayers := t.mLayers.modify change i, mGraph := none }

/-- Modelled from the spec: a feature is added to the tracked layer `i`. -/
def featureAdded (t : QgsTracer) (i : Nat) (f : QgsFeature) : QgsTracer :=
  t.layerChanged i (fun layer => layer.addFeature f)

/-- Modelled from the spec: a feature of the tracked layer `i` is deleted. -/
def featureDeleted (t : QgsTracer) (i : Nat) (fid : Int) : QgsTracer :=
  t.layerChanged i (fun layer => layer.deleteFeature fid)

/-- Modelled from the spec: the geometry of a feature of the tracked layer `i` is
changed. -/
def geometryChanged (t : QgsTracer) (i : Nat) (fid : Int) (geom : QgsAbstractGeometry) :
    QgsTracer :=
  t.layerChanged i (fun layer => layer.changeGeometry fid geom)

/-- Modelled from the spec: the line work that enters the graph: of "every feature in
every configured layer", and with an extent configured of the features that intersect it
("out-of-extent features are excluded entirely"); a feature that intersects enters with
all its line work. -/
def layerLinework (t : QgsTracer) : List (List QgsPointXY) :=
  t.mLayers.flatMap (fun layer =>
    (layer.features.filter (fun f =>
      t.mExtent.isEmpty || intersectsExtent t.mExtent f.geometry)).flatMap
      (fun f => extractLinework f.geometry))

/-- Modelled from the spec: the graph of the current contents of the layers. -/
def currentGraph (t : QgsTracer) : List (QgsPointXY × QgsPointXY) :=
  makeGraph t.layerLinework

/-- Modelled from the spec: the call `init`: "Invalidated → Built on next query (full
rebuild ...)"; a graph that is built is kept. -/
def init (t : QgsTracer) : QgsTracer :=
  match t.mGraph with
  | some _ => t
  | none => { t with mGraph := some t.currentGraph }

/-- Modelled from the spec: the call `findShortestPath`: the graph is built when it is not,
and the query is answered on it; the result is the point sequence and the state of the
tracer after the call.  "The tracer surfaces only path found vs no path": there is no error
to raise. -/
def findShortestPath {C : Type} [LinearOrderedAddCommMonoid C]
    (len : QgsPointXY → QgsPointXY → C) (t : QgsTracer) (p1 p2 : QgsPointXY) :
    List QgsPointXY × QgsTracer :=
  match t.init.mGraph with
  | some graph => (tracePath len graph p1 p2, t.init)
  | none => ([], t.init)

/-- The states of a tracer that the calls of the interface reach; a query leaves the state
that `init` leaves. -/
inductive Reachable : QgsTracer → Prop
  | create : Reachable create
  | setLayers (t : QgsTracer) (layers : List QgsVectorLayer) :
      Reachable t → Reachable (t.setLayers layers)
  | setExtent (t : QgsTracer) (extent : QgsRectangle) :
      Reachable t → Reachable (t.setExtent extent)
  | featureAdded (t : QgsTracer) (i : Nat) (f : QgsFeature) :
      Reachable t → Reachable (t.featureAdded i f)
  | featureDeleted (t : QgsTracer) (i : Nat) (fid : Int) :
      Reachable t → Reachable (t.featureDeleted i fid)
  | geometryChanged (t : QgsTracer) (i : Nat) (fid : Int) (geom : QgsAbstractGeometry) :
      Reachable t → Reachable (t.geometryChanged i fid geom)
  | init (t : QgsTracer) : Reachable t → Reachable t.init

/-- A line string of the plane from its points. -/
def lineString (points : List (ℚ × ℚ)) : QgsAbstractGeometry :=
  .lineString (QgsLineString.ofVectors (points.map Prod.fst) (points.map Prod.snd) [] [])

/-- The layer of the test `testSimple`: nearly a square, one side of which is shifted. -/
def fourEdgeLayer : QgsVectorLayer :=
  { features :=
      [ { id := 1, geometry := lineString [(0, 0), (0, 10)] },
        { id := 2, geometry := lineString [(0, 0), (10, 0)] },
        { id := 3, geometry := lineString [(0, 10), (20, 10)] },
        { id := 4, geometry := lineString [(10, 0), (20, 10)] } ] }

/-- The layer of the test `testButterfly`: a line string that crosses itself. -/
def butterflyLayer : QgsVectorLayer :=
  { features :=
      [ { id := 1, geometry := lineString [(0, 0), (0, 10), (10, 0), (10, 10), (0, 0)] } ] }

/-- The feature that the test `testLayerUpdates` adds: a shortcut. -/
def shortcutFeature : QgsFeature :=
  { id := 5, geometry := lineString [(10, 0), (10, 10)] }

/-- A point sequence that runs along the edges of the graph: each step stays on one edge. -/
def RunsAlong (edges : List (QgsPointXY × QgsPointXY)) (w : List QgsPointXY) : Prop :=
  List.Chain' (fun a b => ∃ e ∈ edges, onSegment e a ∧ onSegment e b) w

/-- The graph of the layer of `testSimple`. -/
def fourEdgeGraph : List (QgsPointXY × QgsPointXY) :=
  [(⟨0, 0⟩, ⟨0, 10⟩), (⟨0, 0⟩, ⟨10, 0⟩), (⟨0, 10⟩, ⟨20, 10⟩), (⟨10, 0⟩, ⟨20, 10⟩)]

/-- The graph of the layer of `testSimple` with the query point (10, 10) joined. -/
def fourEdgeGraphJoined : List (QgsPointXY × QgsPointXY) :=
  [(⟨0, 0⟩, ⟨0, 10⟩), (⟨0, 0⟩, ⟨10, 0⟩), (⟨0, 10⟩, ⟨10, 10⟩), (⟨10, 10⟩, ⟨20, 10⟩),
    (⟨10, 0⟩, ⟨20, 10⟩)]

/-- The graph of the layer of `testSimple` with the shortcut added. -/
def shortcutGraph : List (QgsPointXY × QgsPointXY) :=
  [(⟨0, 0⟩, ⟨0, 10⟩), (⟨0, 0⟩, ⟨10, 0⟩), (⟨0, 10⟩, ⟨10, 10⟩), (⟨10, 10⟩, ⟨20, 10⟩),
    (⟨10, 0⟩, ⟨20, 10⟩), (⟨10, 0⟩, ⟨10, 10⟩)]

/-- The graph of the layer of `testButterfly`. -/
def butterflyGraph : List (QgsPointXY × QgsPointXY) :=
  [(⟨0, 0⟩, ⟨0, 10⟩), (⟨0, 10⟩, ⟨5, 5⟩), (⟨5, 5⟩, ⟨10, 0⟩), (⟨10, 0⟩, ⟨10, 10⟩),
    (⟨0, 0⟩, ⟨5, 5⟩), (⟨5, 5⟩, ⟨10, 10⟩)]

/-- A layer of two lines that do not meet. -/
def islandsLayer : QgsVectorLayer :=
  { features :=
      [ { id := 1, geometry := lineString [(0, 0), (1, 0)] },
        { id := 2, geometry := lineString [(0, 5), (1, 5)] } ] }

/-- The graph of the layer of two lines that do not meet. -/
def islandsGraph : List (QgsPointXY × QgsPointXY) :=
  [(⟨0, 0⟩, ⟨1, 0⟩), (⟨0, 5⟩, ⟨1, 5⟩)]

/-- The layer of the test `testPolygon`: the shape of `testSimple` as one polygon ring. -/
def polygonLayer : QgsVectorLayer :=
  { features :=
      [ { id := 1
          geometry := .polygon
            { is3D := false
              isMeasure := false
              exteriorRing :=
                some (QgsLineString.ofVectors [0, 0, 20, 10, 0] [0, 10, 10, 0, 0] [] [])
              interiorRings := [] } } ] }

/-- The tracer of the test `testLayerUpdates` after the shortcut is added and deleted and the
geometry of the bottom line is changed into the shortcut. -/
def changedTracer : QgsTracer :=
  ((((create.setLayers [fourEdgeLayer]).init.featureAdded 0 shortcutFeature).init.featureDeleted
    0 5).init).geometryChanged 0 2 (lineString [(10, 0), (10, 10)])

end QgsTracer

namespace QgsTracer

/-- A graph is noded when no edge is listed twice, every edge runs from its lesser to its
greater end, and a common point of two different edges is an end of both. -/
def Noded (edges : List (QgsPointXY × QgsPointXY)) : Prop :=
  edges.Nodup ∧ (∀ e ∈ edges, e.1 < e.2)
    ∧ ∀ e1 ∈ edges, ∀ e2 ∈ edges, e1 ≠ e2 → ∀ p, onSegment e1 p → onSegment e2 p →
        (p = e1.1 ∨ p = e1.2) ∧ (p = e2.1 ∨ p = e2.2)

end QgsTracer

/-! ## A square with two holes reshaped by a line that cuts a corner -/

/-- The x and y of the coordinates of a point, a line or a ring, and of the shell of a
polygon; a collection has none of its own. -/
def planarCoords : GEOSGeometry → List QgsPointXY
  | .point cs => cs.coords.map (fun c => ⟨c.x, c.y⟩)
  | .lineString cs => cs.coords.map (fun c => ⟨c.x, c.y⟩)
  | .linearRing cs => cs.coords.map (fun c => ⟨c.x, c.y⟩)
  | .polygon shell _ => shell.coords.map (fun c => ⟨c.x, c.y⟩)
  | .collection _ _ => []

/-- The native point at a point of the plane. -/
def planarPoint (p : QgsPointXY) : GEOSGeometry :=
  .point { dims := 2, coords := [⟨p.x, p.y, 0⟩] }

/-- The native line string through points of the plane. -/
def planarLine (points : List QgsPointXY) : GEOSGeometry :=
  .lineString { dims := 2, coords := points.map (fun p => ⟨p.x, p.y, 0⟩) }

/-- The points in which the segments of two lines cross. -/
def crossingPoints (a b : GEOSGeometry) : List QgsPointXY :=
  ((QgsTracer.segmentsOf (planarCoords a)).flatMap (fun s =>
    (QgsTracer.segmentsOf (planarCoords b)).filterMap (fun t =>
      match QgsTracer.lineIntersection s t with
      | some p => if QgsTracer.onSegment s p ∧ QgsTracer.onSegment t p then some p else none
      | none => none))).dedup

/-- Every segment of the line `b` lies on a segment of the line `a`. -/
def liesOn (b a : GEOSGeometry) : Bool :=
  (QgsTracer.segmentsOf (planarCoords b)).all (fun t =>
    (QgsTracer.segmentsOf (planarCoords a)).any (fun s =>
      decide (QgsTracer.onSegment s t.1 ∧ QgsTracer.onSegment s t.2)))

/-- The common part of two lines of which one lies on the other or which cross in points. -/
def commonPart (a b : GEOSGeometry) : GEOSGeometry :=
  if liesOn b a then b
  else
    match crossingPoints a b with
    | [p] => planarPoint p
    | points => .collection .multiPoint (points.map planarPoint)

/-- The bounding box of a line as a polygon. -/
def boundingPolygon (g : GEOSGeometry) : GEOSGeometry :=
  match planarCoords g with
  | [] => .polygon { dims := 2, coords := [] } []
  | p :: rest =>
    let xMin := (rest.map (fun q => q.x)).foldl min p.x
    let xMax := (rest.map (fun q => q.x)).foldl max p.x
    let yMin := (rest.map (fun q => q.y)).foldl min p.y
    let yMax := (rest.map (fun q => q.y)).foldl max p.y
    .polygon { dims := 2
               coords := [⟨xMin, yMin, 0⟩, ⟨xMax, yMin, 0⟩, ⟨xMax, yMax, 0⟩, ⟨xMin, yMax, 0⟩,
                 ⟨xMin, yMin, 0⟩] } []

/-- The length of a line of segments that are parallel to the axes. -/
def axisLength (g : GEOSGeometry) : ℚ :=
  ((QgsTracer.segmentsOf (planarCoords g)).map
    (fun s => |s.2.x - s.1.x| + |s.2.y - s.1.y|)).sum

/-- The square (0 0, 8 0, 8 8, 0 8, 0 0) as a ring. -/
def cornerShell : GEOSCoordSequence :=
  { dims := 2, coords := [⟨0, 0, 0⟩, ⟨8, 0, 0⟩, ⟨8, 8, 0⟩, ⟨0, 8, 0⟩, ⟨0, 0, 0⟩] }

/-- A hole near the lower left corner of the square. -/
def lowerHole : GEOSCoordSequence :=
  { dims := 2, coords := [⟨1, 1, 0⟩, ⟨2, 1, 0⟩, ⟨2, 2, 0⟩, ⟨1, 2, 0⟩, ⟨1, 1, 0⟩] }

/-- A hole near the upper right corner of the square. -/
def upperHole : GEOSCoordSequence :=
  { dims := 2, coords := [⟨5, 5, 0⟩, ⟨6, 5, 0⟩, ⟨6, 6, 0⟩, ⟨5, 6, 0⟩, ⟨5, 5, 0⟩] }

/-- The reshape line (9 4, 4 4, 4 9), which cuts the upper right quarter off the square. -/
def cornerCutGeos : GEOSGeometry :=
  .lineString { dims := 2, coords := [⟨9, 4, 0⟩, ⟨4, 4, 0⟩, ⟨4, 9, 0⟩] }

/-- The ring of the square with its upper right quarter cut off. -/
def cornerCutRing : GEOSCoordSequence :=
  { dims := 2
    coords := [⟨8, 4, 0⟩, ⟨4, 4, 0⟩, ⟨4, 8, 0⟩, ⟨0, 8, 0⟩, ⟨0, 0, 0⟩, ⟨8, 0, 0⟩, ⟨8, 4, 0⟩] }

/-- The answers of the library when the square with its two holes is reshaped by the line
`cornerCutGeos`, for line work in which lines cross in points or lie on each other and whose
segments are parallel to the axes.  The intersection test, the common part, the bounding box,
the length, the equality of points and the containment of a point in a line and of a ring in
a polygon are computed; the thin buffer around a line is the line itself; the union of two
lines is their noded line work; the ten pieces of the noded line work merge into the three
parts of the reshape line and the two arcs of the square, and the two parts of the result
merge into the ring `cornerCutRing`.  Every other call raises. -/
def cornerContext : GEOSContextHandle_t :=
  { raisingContext with
    GEOSIntersects_r := fun a b => .ok (!(crossingPoints a b).isEmpty)
    GEOSIntersection_r := fun a b => .ok (commonPart a b)
    GEOSUnion_r := fun a b =>
      .ok (.collection .multiLineString
        ((QgsTracer.makeGraph [planarCoords a, planarCoords b]).map
          (fun e => planarLine [e.1, e.2])))
    GEOSLineMerge_r := fun g =>
      if GEOSGetNumGeometries_r g = 10 then
        .ok (.collection .multiLineString
          [planarLine [⟨9, 4⟩, ⟨8, 4⟩], planarLine [⟨8, 4⟩, ⟨4, 4⟩, ⟨4, 8⟩],
            planarLine [⟨4, 8⟩, ⟨4, 9⟩], planarLine [⟨8, 4⟩, ⟨8, 8⟩, ⟨4, 8⟩],
            planarLine [⟨4, 8⟩, ⟨0, 8⟩, ⟨0, 0⟩, ⟨8, 0⟩, ⟨8, 4⟩]])
      else if GEOSGetNumGeometries_r g = 2 then .ok (.lineString cornerCutRing)
      else .error {}
    GEOSEnvelope_r := fun g => .ok (boundingPolygon g)
    GEOSBuffer_r := fun g _ _ => .ok g
    GEOSContains_r := fun a b =>
      match b with
      | .point _ =>
        .ok ((planarCoords b).all (fun p =>
          (QgsTracer.segmentsOf (planarCoords a)).any (fun s =>
            decide (QgsTracer.onSegment s p))))
      | _ => .ok ((planarCoords b).all (insideRing (planarCoords a)))
    GEOSEquals_r := fun a b => .ok (decide (planarCoords a = planarCoords b))
    GEOSLength_r := fun g => .ok (axisLength g) }


/-- Two native geometries are the same tree with the same coordinates. -/
def GEOSGeometry.same : GEOSGeometry → GEOSGeometry → Bool
  | .point a, .point b => decide (a = b)
  | .lineString a, .lineString b => decide (a = b)
  | .linearRing a, .linearRing b => decide (a = b)
  | .polygon a ha, .polygon b hb => decide (a = b) && decide (ha = hb)
  | .collection ta as, .collection tb bs => decide (ta = tb) && sameList as bs
  | _, _ => false
where
  sameList : List GEOSGeometry → List GEOSGeometry → Bool
    | [], [] => true
    | a :: as, b :: bs => GEOSGeometry.same a b && sameList as bs
    | _, _ => false

/-- The result of a reshape is the geometry `g`. -/
def isResult (r : Except GEOSException (Option GEOSGeometry)) (g : GEOSGeometry) : Bool :=
  match r with
  | .ok (some g') => g'.same g
  | _ => false

/-- The answer of a call is the value `a`. -/
def isAnswer {α : Type} [DecidableEq α] (r : Except GEOSException α) (a : α) : Bool :=
  match r with
  | .ok a' => decide (a' = a)
  | .error _ => false

/-! ## Zero-area clip rectangles and the halves of a clip rectangle -/

/-- The points of a rectangle, borders included. -/
def QgsRectangle.covers (r : QgsRectangle) (x y : ℚ) : Prop :=
  r.xMinimum ≤ x ∧ x ≤ r.xMaximum ∧ r.yMinimum ≤ y ∧ y ≤ r.yMaximum

/-- The line string (0 0, 1 0, 2 0, 3 0, 4 0, 5 0, 6 0, 7 0, 8 0), of nine vertices on the
x axis. -/
def flatLine : QgsLineString :=
  { is3D := false, isMeasure := false
    mX := [0, 1, 2, 3, 4, 5, 6, 7, 8], mY := [0, 0, 0, 0, 0, 0, 0, 0, 0], mZ := [], mM := [] }

/-- The native form of `flatLine`. -/
def flatLineGeos : GEOSGeometry :=
  .lineString
    { dims := 2
      coords := [⟨0, 0, 0⟩, ⟨1, 0, 0⟩, ⟨2, 0, 0⟩, ⟨3, 0, 0⟩, ⟨4, 0, 0⟩, ⟨5, 0, 0⟩, ⟨6, 0, 0⟩,
        ⟨7, 0, 0⟩, ⟨8, 0, 0⟩] }

/-- An engine constructed on `flatLine`. -/
def flatEngine : QgsGeos :=
  { mGeometry := some (.lineString flatLine), mPrecision := 0
    mGeos := some flatLineGeos, mGeosPrepared := none }

/-- The part of `flatLine` from x = 4 on. -/
def flatRightLine : QgsLineString :=
  { is3D := false, isMeasure := false
    mX := [4, 5, 6, 7, 8], mY := [0, 0, 0, 0, 0], mZ := [], mM := [] }

/-- The native form of `flatRightLine`. -/
def flatRightGeos : GEOSGeometry :=
  .lineString { dims := 2, coords := [⟨4, 0, 0⟩, ⟨5, 0, 0⟩, ⟨6, 0, 0⟩, ⟨7, 0, 0⟩, ⟨8, 0, 0⟩] }

/-- The bounding box of `flatLine`: from (0, 0) to (8, 0), of height and area 0. -/
def flatRect : QgsRectangle := { xMinimum := 0, yMinimum := 0, xMaximum := 8, yMaximum := 0 }

/-- A context whose clipping call answers as the library does on `flatLine` and its two half
rectangles: the part up to x = 4 for a rectangle ending at x = 4 or before, the part from
x = 4 on otherwise; every other call raises. -/
def flatContext : GEOSContextHandle_t :=
  { raisingContext with
    GEOSClipByRect_r := fun _ _ _ x1 _ => .ok (if x1 ≤ 4 then leftPartGeos else flatRightGeos) }

/-! ## Equality and hash of two-dimensional points (qgspointxy.h) -/

/-- The free function `operator==( const QgsPointXY &p1, const QgsPointXY &p2 )`. -/
def QgsPointXY.operatorEq (p1 p2 : QgsPointXY) : Bool :=
  if qgsDoubleNear p1.x p2.x && qgsDoubleNear p1.y p2.y then true else false

/-- The conversion `static_cast< quint64 >( v )` of a double: the value is truncated towards
zero; the result is defined when the truncated value fits the type, that is for
`-1 < v < 2 ^ 64`, and `none` stands for the undefined conversion. -/
def toQuint64 (v : ℚ) : Option Nat :=
  if -1 < v ∧ v < 2 ^ 64 then some (Int.toNat ⌊v⌋) else none

/-- The function `qHash( quint64 key )` of the Qt library (qhashfunctions.h, not part of the
repository) with its default seed 0: the key folded to 32 bits,
`uint( ( ( key >> 31 ) ^ key ) & ~0U )`. -/
def qHashQuint64 (key : Nat) : Nat :=
  ((key >>> 31) ^^^ key) % 2 ^ 32

/-- The function `qHash( const QgsPointXY &p )`, over the hash `h` of the library for 64-bit
keys; `uint` has 32 bits, so the shift drops the top bit. -/
def qHash (h : Nat → Nat) (p : QgsPointXY) : Option Nat :=
  match toQuint64 p.x, toQuint64 p.y with
  | some kx, some ky =>
    let h1 := h kx % 2 ^ 32
    let h2 := h ky % 2 ^ 32
    let hash := h1 ^^^ ((h2 <<< 1) % 2 ^ 32)
    some hash
  | _, _ => none

/-! ## A line with small coordinates -/

/-- Every coordinate sequence of a native geometry has dimension 2 or more (the library hands
out sequences of dimension 2 or 3). -/
def GEOSGeometry.hasPlanarSequences : GEOSGeometry → Bool
  | .point cs => decide (2 ≤ cs.dims)
  | .lineString cs => decide (2 ≤ cs.dims)
  | .linearRing cs => decide (2 ≤ cs.dims)
  | .polygon shell holes => decide (2 ≤ shell.dims) && holes.all (fun h => decide (2 ≤ h.dims))
  | .collection _ geoms => allOf geoms
where
  allOf : List GEOSGeometry → Bool
    | [] => true
    | g :: gs => hasPlanarSequences g && allOf gs

/-- A line string carries the has-M flag or a measure value. -/
def QgsLineString.anyMeasure (l : QgsLineString) : Bool :=
  l.isMeasure || !l.mM.isEmpty

/-- An abstract geometry carries the has-M flag or a measure value, itself or in one of its
rings or members. -/
def QgsAbstractGeometry.anyMeasure : QgsAbstractGeometry → Bool
  | .point p => p.isMeasure
  | .lineString l => l.anyMeasure
  | .polygon p =>
      p.isMeasure
        || (match p.exteriorRing with
            | some r => r.anyMeasure
            | none => false)
        || p.interiorRings.any QgsLineString.anyMeasure
  | .collection _ _ hasM geoms => hasM || anyOf geoms
where
  anyOf : List QgsAbstractGeometry → Bool
    | [] => false
    | g :: gs => anyMeasure g || anyOf gs

namespace QgsTracer

/-- The tracer of the test `testExtent`: the four-edge layer and the extent from (0, 0) to
(5, 5). -/
def extentTracer : QgsTracer :=
  (create.setLayers [fourEdgeLayer]).setExtent
    { xMinimum := 0, yMinimum := 0, xMaximum := 5, yMaximum := 5 }

/-- The graph of the test `testExtent`: the two lines that start in the extent, whole. -/
def extentGraph : List (QgsPointXY × QgsPointXY) :=
  [(⟨0, 0⟩, ⟨0, 10⟩), (⟨0, 0⟩, ⟨10, 0⟩)]

end QgsTracer

/-! ## Regrouping of split fragments -/

/-- The library finds the geometry equal to one of the parts. -/
def QgsGeos.equalsPart (ctxt : GEOSContextHandle_t) (parts : List GEOSGeometry)
    (geom : GEOSGeometry) : Bool :=
  parts.any (fun part =>
    match ctxt.GEOSEquals_r geom part with
    | .ok true => true
    | _ => false)

/-! ## Splits that leave nothing -/

/-- The vertices of a line string, in order. -/
def QgsLineString.points (l : QgsLineString) : List QgsPoint :=
  (List.range l.numPoints).map (fun (i : Nat) => l.pointN (i : Int))

/-- The line string that `addVertex` builds from the points, added in order to the line
string `QgsLineString()`. -/
def QgsLineString.ofPoints (ps : List QgsPoint) : QgsLineString :=
  ps.foldl QgsLineString.addVertex QgsLineString.empty

/-- The loop of `linePointDifference` on the vertices: the vertex lists of the lines it
closes, from the vertices of the line under construction, the inner vertices still to come
and the last vertex. -/
def QgsGeos.breakPoints (splitPoint : QgsPoint) :
    List QgsPoint → List QgsPoint → QgsPoint → List (List QgsPoint)
  | current, [], last => [current ++ [last]]
  | current, v :: rest, last =>
    if v.equals splitPoint then (current ++ [v]) :: breakPoints splitPoint [v] rest last
    else breakPoints splitPoint (current ++ [v]) rest last

namespace QgsTracer

/-- A layer with the line (12 0, 0 12), which passes the square from (0, 0) to (5, 5) by
without meeting it although its bounding box holds the square, and the line
(0 0, 10 0). -/
def passingLayer : QgsVectorLayer :=
  { features :=
      [ { id := 1, geometry := lineString [(12, 0), (0, 12)] },
        { id := 2, geometry := lineString [(0, 0), (10, 0)] } ] }

/-- The tracer on `passingLayer` with the extent (0,0)-(5,5). -/
def passingTracer : QgsTracer :=
  (create.setLayers [passingLayer]).setExtent
    { xMinimum := 0, yMinimum := 0, xMaximum := 5, yMaximum := 5 }

end QgsTracer

/-- A line string of two vertices whose first x ordinate is 1/4. -/
def quarterLine : QgsLineString :=
  { is3D := false, isMeasure := false, mX := [1/4, 1], mY := [0, 0], mZ := [], mM := [] }

/-- The ordinate at which `subdivideRecursive` cuts a side that begins at `lo` and has the
length `side`: the expression `lo + side / 2.0` of the source, computed in doubles. -/
def QgsGeos.cutOrdinate (lo side : ℚ) : ℚ := toDouble (lo + toDouble (side / 2))

/-- The rectangle from (0.1, 0) to (0.3, 0.1), its bounds being the nearest doubles. -/
def tenthsRect : QgsRectangle :=
  { xMinimum := toDouble (1 / 10), yMinimum := 0, xMaximum := toDouble (3 / 10),
    yMaximum := toDouble (1 / 10) }

/-- The closed line (1 0, 2 0, 2 1, 1 0), which starts and ends where the first part of
`twoLines` ends. -/
def closingLine : QgsLineString :=
  { is3D := false, isMeasure := false, mX := [1, 2, 2, 1], mY := [0, 0, 1, 0], mZ := [],
    mM := [] }

/-- The native form of `closingLine`. -/
def closingLineGeos : GEOSGeometry :=
  .lineString { dims := 2, coords := [⟨1, 0, 0⟩, ⟨2, 0, 0⟩, ⟨2, 1, 0⟩, ⟨1, 0, 0⟩] }

/-- The answers of the library when `twoLines` is reshaped by `closingLine`: a line on the x
axis meets the closed line in the point (1 0), every other line does not meet it.  In (1 0)
three line ends meet, the end of the first part and both ends of the closed line, so the line
merge joins nothing and hands back the multi-line-string of the lines it was given.  Every
other call raises. -/
def closingContext : GEOSContextHandle_t :=
  { raisingContext with
    GEOSIntersection_r := fun a _ =>
      match a with
      | .lineString cs =>
        if cs.coords.all (fun c => decide (c.y = 0)) then
          .ok (.point { dims := 2, coords := [⟨1, 0, 0⟩] })
        else .ok (.collection .geometryCollection [])
      | _ => .ok (.collection .geometryCollection [])
    GEOSLineMerge_r := fun multiGeom => .ok multiGeom }

/-! # Theorems -/

open QgsGeos

/-! ## The rounding of doubles -/

theorem roundHalfEven_cases (q : ℚ) :
    (roundHalfEven q = ⌊q⌋ ∧ q - ⌊q⌋ ≤ 1 / 2) ∨ (roundHalfEven q = ⌊q⌋ + 1 ∧ 1 / 2 ≤ q - ⌊q⌋) := by
  unfold roundHalfEven
  simp only
  by_cases h1 : q - ⌊q⌋ < 1 / 2
  · rw [if_pos h1]
    exact Or.inl ⟨rfl, le_of_lt h1⟩
  · rw [if_neg h1]
    by_cases h2 : 1 / 2 < q - ⌊q⌋
    · rw [if_pos h2]
      exact Or.inr ⟨rfl, le_of_lt h2⟩
    · rw [if_neg h2]
      have heq : q - ⌊q⌋ = 1 / 2 := le_antisymm (not_lt.mp h2) (not_lt.mp h1)
      by_cases h3 : ⌊q⌋ % 2 = 0
      · rw [if_pos h3]
        exact Or.inl ⟨rfl, le_of_eq heq⟩
      · rw [if_neg h3]
        exact Or.inr ⟨rfl, le_of_eq heq.symm⟩

/-- The rounded value is a nearest integer. -/
theorem roundHalfEven_nearest (q : ℚ) (j : ℤ) :
    |q - (roundHalfEven q : ℚ)| ≤ |q - (j : ℚ)| := by
  have hf := Int.floor_le q
  have hlt := Int.lt_floor_add_one q
  have ha1 := le_abs_self (q - j)
  have ha2 := neg_abs_le (q - j)
  have ha3 := abs_nonneg (q - j)
  rcases roundHalfEven_cases q with ⟨hr, hh⟩ | ⟨hr, hh⟩
  · have hrq : (roundHalfEven q : ℚ) = (⌊q⌋ : ℚ) := by rw [hr]
    rw [hrq, abs_le]
    rcases le_or_lt j ⌊q⌋ with hj | hj
    · have hj' : (j : ℚ) ≤ (⌊q⌋ : ℚ) := by exact_mod_cast hj
      constructor <;> linarith
    · have hj' : ((⌊q⌋ : ℤ) : ℚ) + 1 ≤ (j : ℚ) := by exact_mod_cast hj
      constructor <;> linarith
  · have hrq : (roundHalfEven q : ℚ) = (⌊q⌋ : ℚ) + 1 := by rw [hr]; push_cast; rfl
    rw [hrq, abs_le]
    rcases le_or_lt j ⌊q⌋ with hj | hj
    · have hj' : (j : ℚ) ≤ (⌊q⌋ : ℚ) := by exact_mod_cast hj
      constructor <;> linarith
    · have hj' : ((⌊q⌋ : ℤ) : ℚ) + 1 ≤ (j : ℚ) := by exact_mod_cast hj
      constructor <;> linarith

theorem roundHalfEven_intCast (n : ℤ) : roundHalfEven (n : ℚ) = n := by
  have h := roundHalfEven_nearest (n : ℚ) n
  simp only [sub_self, abs_zero, abs_nonpos_iff] at h
  have h2 : ((roundHalfEven (n : ℚ) : ℤ) : ℚ) = (n : ℚ) := by linarith
  exact_mod_cast h2

theorem roundHalfEven_near (q : ℚ) : |q - (roundHalfEven q : ℚ)| ≤ 1 / 2 := by
  have hf := Int.floor_le q
  have hlt := Int.lt_floor_add_one q
  rcases roundHalfEven_cases q with ⟨hr, hh⟩ | ⟨hr, hh⟩
  · have hrq : (roundHalfEven q : ℚ) = (⌊q⌋ : ℚ) := by rw [hr]
    rw [hrq, abs_le]
    constructor <;> linarith
  · have hrq : (roundHalfEven q : ℚ) = (⌊q⌋ : ℚ) + 1 := by rw [hr]; push_cast; rfl
    rw [hrq, abs_le]
    constructor <;> linarith

theorem bitLength_spec : ∀ (fuel n : Nat), n ≤ fuel → n ≠ 0 →
    2 ^ bitLength fuel n ≤ 2 * n ∧ n < 2 ^ bitLength fuel n := by
  intro fuel
  induction fuel with
  | zero => intro n h hn; omega
  | succ fuel ih =>
    intro n h hn
    rw [bitLength, if_neg hn]
    by_cases h2 : n / 2 = 0
    · have h1 : n = 1 := by omega
      subst h1
      have : bitLength fuel 0 = 0 := by cases fuel <;> simp [bitLength]
      simp [this]
    · obtain ⟨h3, h4⟩ := ih (n / 2) (by omega) h2
      rw [pow_succ]
      constructor <;> omega

theorem binadeExponent_spec {q : ℚ} (hq : q ≠ 0) :
    (2 : ℚ) ^ binadeExponent q ≤ |q| ∧ |q| < 2 ^ (binadeExponent q + 1) := by
  have hn : q.num.natAbs ≠ 0 := by simpa using hq
  have hd : q.den ≠ 0 := q.den_nz
  obtain ⟨h1, h2⟩ := bitLength_spec _ _ (le_refl q.num.natAbs) hn
  obtain ⟨h3, h4⟩ := bitLength_spec _ _ (le_refl q.den) hd
  have habs : |q| = (q.num.natAbs : ℚ) / (q.den : ℚ) := by
    have hnum : (q.num.natAbs : ℚ) = |(q.num : ℚ)| := by
      rw [Nat.cast_natAbs, Int.cast_abs]
    conv_lhs => rw [← Rat.num_div_den q]
    rw [abs_div, Nat.abs_cast, hnum]
  have hdpos : (0 : ℚ) < q.den := by exact_mod_cast Nat.pos_of_ne_zero hd
  have hsucc : ∀ k : ℤ, (2 : ℚ) ^ (k + 1) = 2 ^ k * 2 := fun k => zpow_add_one₀ (by norm_num) k
  have hpred : ∀ k : ℤ, (2 : ℚ) ^ (k - 1) = 2 ^ k / 2 := fun k => by
    rw [zpow_sub_one₀ (by norm_num)]; rfl
  have h1q : (2 : ℚ) ^ (bitLength q.num.natAbs q.num.natAbs : ℤ) ≤ 2 * q.num.natAbs := by
    rw [zpow_natCast]; exact_mod_cast h1
  have h2q : (q.num.natAbs : ℚ) < (2 : ℚ) ^ (bitLength q.num.natAbs q.num.natAbs : ℤ) := by
    rw [zpow_natCast]; exact_mod_cast h2
  have h3q : (2 : ℚ) ^ (bitLength q.den q.den : ℤ) ≤ 2 * q.den := by
    rw [zpow_natCast]; exact_mod_cast h3
  have h4q : (q.den : ℚ) < (2 : ℚ) ^ (bitLength q.den q.den : ℤ) := by
    rw [zpow_natCast]; exact_mod_cast h4
  set a : ℤ := (bitLength q.num.natAbs q.num.natAbs : ℤ) with ha
  set b : ℤ := (bitLength q.den q.den : ℤ) with hb
  have hA : (0 : ℚ) < 2 ^ a := zpow_pos (by norm_num) a
  have hB : (0 : ℚ) < 2 ^ b := zpow_pos (by norm_num) b
  have hsub : (2 : ℚ) ^ (a - b) = 2 ^ a / 2 ^ b := zpow_sub₀ (by norm_num) a b
  unfold binadeExponent
  simp only [← ha, ← hb]
  split_ifs with h
  · refine ⟨h, ?_⟩
    rw [hsucc, hsub, habs, div_lt_iff₀ hdpos]
    calc (q.num.natAbs : ℚ) < 2 ^ a := h2q
      _ = 2 ^ a / 2 ^ b * 2 ^ b := by field_simp
      _ ≤ 2 ^ a / 2 ^ b * (2 * q.den) := by
          apply mul_le_mul_of_nonneg_left h3q
          positivity
      _ = 2 ^ a / 2 ^ b * 2 * q.den := by ring
  · refine ⟨?_, ?_⟩
    · rw [hpred, hsub, habs, le_div_iff₀ hdpos]
      calc 2 ^ a / 2 ^ b / 2 * (q.den : ℚ) ≤ 2 ^ a / 2 ^ b / 2 * 2 ^ b := by
            apply mul_le_mul_of_nonneg_left (le_of_lt h4q)
            positivity
        _ = 2 ^ a / 2 := by field_simp; ring
        _ ≤ q.num.natAbs := by linarith
    · rw [sub_add_cancel]
      exact lt_of_not_le h

theorem binadeExponent_eq_log {q : ℚ} (hq : q ≠ 0) : binadeExponent q = Int.log 2 |q| := by
  obtain ⟨h1, h2⟩ := binadeExponent_spec hq
  have hpos : 0 < |q| := abs_pos.mpr hq
  have h3 : binadeExponent q ≤ Int.log 2 |q| :=
    (Int.zpow_le_iff_le_log (by norm_num) hpos).mp (by exact_mod_cast h1)
  have h4 : Int.log 2 |q| < binadeExponent q + 1 :=
    (Int.lt_zpow_iff_log_lt (by norm_num) hpos).mp (by exact_mod_cast h2)
  omega

/-- The exponent that `toDouble` works with. -/
theorem toDouble_eq (q : ℚ) :
    toDouble q = (roundHalfEven (q / 2 ^ (max (Int.log 2 |q|) (-1022) - 52)) : ℚ)
      * 2 ^ (max (Int.log 2 |q|) (-1022) - 52) := by
  unfold toDouble
  split_ifs with h
  · subst h
    simp [roundHalfEven]
  · rw [binadeExponent_eq_log h]

theorem two_zpow_pos (k : ℤ) : (0 : ℚ) < 2 ^ k := zpow_pos (by norm_num) k

/-- A multiple of the grid step is no nearer than the rounded value. -/
theorem toDouble_nearest_grid (x : ℚ) (j : ℤ) :
    |x - toDouble x| ≤ |x - (j : ℚ) * 2 ^ (max (Int.log 2 |x|) (-1022) - 52)| := by
  rw [toDouble_eq]
  generalize max (Int.log 2 |x|) (-1022) - 52 = k
  have hg := two_zpow_pos k
  have h := roundHalfEven_nearest (x / 2 ^ k) j
  have e1 : x - (roundHalfEven (x / 2 ^ k) : ℚ) * 2 ^ k
      = (x / 2 ^ k - (roundHalfEven (x / 2 ^ k) : ℚ)) * 2 ^ k := by
    rw [sub_mul, div_mul_cancel₀ _ (ne_of_gt hg)]
  have e2 : x - (j : ℚ) * 2 ^ k = (x / 2 ^ k - (j : ℚ)) * 2 ^ k := by
    rw [sub_mul, div_mul_cancel₀ _ (ne_of_gt hg)]
  rw [e1, e2, abs_mul, abs_mul, abs_of_pos hg]
  exact mul_le_mul_of_nonneg_right h (le_of_lt hg)

/-- A double on an exponent of at least `k` is a multiple of `2 ^ k`. -/
theorem multiple_of_le {m k k' : ℤ} (h : k ≤ k') :
    ∃ j : ℤ, (m : ℚ) * 2 ^ k' = (j : ℚ) * 2 ^ k := by
  obtain ⟨n, hn⟩ := Int.eq_ofNat_of_zero_le (sub_nonneg.mpr h)
  refine ⟨m * 2 ^ n, ?_⟩
  have hk : k' = k + n := by omega
  rw [hk, zpow_add₀ (by norm_num : (2 : ℚ) ≠ 0)]
  push_cast
  rw [zpow_natCast]
  ring

theorem toDouble_zero : toDouble 0 = 0 := by
  rw [toDouble_eq]
  simp [roundHalfEven]

/-- The rounded value is a nearest double. -/
theorem toDouble_nearest (x d : ℚ) (hd : IsDouble d) : |x - toDouble x| ≤ |x - d| := by
  obtain ⟨m, k, hm, hk, rfl⟩ := hd
  by_cases hx : x = 0
  · subst hx
    rw [toDouble_zero]
    simp
  by_cases hle : max (Int.log 2 |x|) (-1022) - 52 ≤ k
  · obtain ⟨j, hj⟩ := @multiple_of_le m _ _ hle
    rw [hj]
    exact toDouble_nearest_grid x j
  · have hlt : k < max (Int.log 2 |x|) (-1022) - 52 := not_le.mp hle
    have hmax : max (Int.log 2 |x|) (-1022) = Int.log 2 |x| := by
      rcases le_total (Int.log 2 |x|) (-1022) with h | h
      · rw [max_eq_right h] at hlt
        omega
      · exact max_eq_left h
    rw [hmax] at hlt
    have hxpos : 0 < |x| := abs_pos.mpr hx
    have hlow : (2 : ℚ) ^ (Int.log 2 |x|) ≤ |x| := by
      have := Int.zpow_log_le_self (b := 2) (r := |x|) (by norm_num) hxpos
      exact_mod_cast this
    -- the double is smaller than the binade
    have hdlt : |(m : ℚ) * 2 ^ k| < 2 ^ (Int.log 2 |x|) := by
      rw [abs_mul, abs_of_pos (two_zpow_pos k)]
      have hm' : |(m : ℚ)| < 2 ^ 53 := by
        have : ((|m| : ℤ) : ℚ) < ((2 ^ 53 : ℤ) : ℚ) := by exact_mod_cast hm
        simpa using this
      have hk' : (2 : ℚ) ^ k ≤ 2 ^ (Int.log 2 |x| - 53) :=
        zpow_le_zpow_right₀ (by norm_num) (by omega)
      calc |(m : ℚ)| * 2 ^ k ≤ |(m : ℚ)| * 2 ^ (Int.log 2 |x| - 53) :=
            mul_le_mul_of_nonneg_left hk' (abs_nonneg _)
        _ < 2 ^ 53 * 2 ^ (Int.log 2 |x| - 53) :=
            mul_lt_mul_of_pos_right hm' (two_zpow_pos _)
        _ = 2 ^ (Int.log 2 |x|) := by
            rw [show (2 : ℚ) ^ 53 = 2 ^ (53 : ℤ) by norm_num,
              ← zpow_add₀ (by norm_num : (2 : ℚ) ≠ 0)]
            congr 1
            omega
    -- the end of the binade is a multiple of the step
    have hgrid := toDouble_nearest_grid x (if 0 ≤ x then 2 ^ 52 else -(2 ^ 52))
    rw [hmax] at hgrid
    have hcast : (((2 : ℤ) ^ 52 : ℤ) : ℚ) = (2 : ℚ) ^ (52 : ℤ) := by norm_num
    have hstep : (((2 : ℤ) ^ 52 : ℤ) : ℚ) * 2 ^ (Int.log 2 |x| - 52) = 2 ^ (Int.log 2 |x|) := by
      rw [hcast, ← zpow_add₀ (by norm_num : (2 : ℚ) ≠ 0)]
      congr 1
      omega
    have hend : |x - ((if 0 ≤ x then 2 ^ 52 else -(2 ^ 52) : ℤ) : ℚ) * 2 ^ (Int.log 2 |x| - 52)|
        = |x| - 2 ^ (Int.log 2 |x|) := by
      by_cases h0 : 0 ≤ x
      · rw [if_pos h0, hstep]
        rw [abs_of_nonneg h0] at hlow ⊢
        rw [abs_of_nonneg (by linarith)]
      · rw [if_neg h0, Int.cast_neg, neg_mul, hstep]
        have hneg : x < 0 := not_le.mp h0
        rw [abs_of_neg hneg] at hlow ⊢
        rw [abs_of_nonpos (by linarith)]
        ring
    rw [hend] at hgrid
    have htri : |x| - |(m : ℚ) * 2 ^ k| ≤ |x - (m : ℚ) * 2 ^ k| := abs_sub_abs_le_abs_sub _ _
    linarith

theorem toDouble_of_isDouble (d : ℚ) (hd : IsDouble d) : toDouble d = d := by
  have h := toDouble_nearest d d hd
  simp only [sub_self, abs_zero, abs_nonpos_iff] at h
  linarith

theorem isDouble_intCast_mul (n k : ℤ) (hn : |n| ≤ 2 ^ 53) (hk : -1074 ≤ k) :
    IsDouble ((n : ℚ) * 2 ^ k) := by
  rcases lt_or_eq_of_le hn with h | h
  · exact ⟨n, k, h, hk, rfl⟩
  · rcases abs_eq (by norm_num : (0 : ℤ) ≤ 2 ^ 53) |>.mp h with h1 | h1
    · refine ⟨1, k + 53, by norm_num, by omega, ?_⟩
      rw [h1, zpow_add₀ (by norm_num : (2 : ℚ) ≠ 0)]
      push_cast
      norm_num
      ring
    · refine ⟨-1, k + 53, by norm_num, by omega, ?_⟩
      rw [h1, zpow_add₀ (by norm_num : (2 : ℚ) ≠ 0)]
      push_cast
      norm_num
      ring

/-- The scaled argument of the rounding lies below `2 ^ 53`. -/
theorem scaled_lt (x : ℚ) :
    |x / 2 ^ (max (Int.log 2 |x|) (-1022) - 52)| < 2 ^ 53 := by
  rw [abs_div, abs_of_pos (two_zpow_pos _), div_lt_iff₀ (two_zpow_pos _)]
  by_cases hx : x = 0
  · subst hx
    simp only [abs_zero]
    exact mul_pos (by norm_num) (two_zpow_pos _)
  have hxpos : 0 < |x| := abs_pos.mpr hx
  have hup : |x| < (2 : ℚ) ^ (Int.log 2 |x| + 1) := by
    have := Int.lt_zpow_succ_log_self (b := 2) (by norm_num) |x|
    exact_mod_cast this
  have hle : (2 : ℚ) ^ (Int.log 2 |x| + 1) ≤ 2 ^ 53 * 2 ^ (max (Int.log 2 |x|) (-1022) - 52) := by
    rw [show (2 : ℚ) ^ 53 = 2 ^ (53 : ℤ) by norm_num, ← zpow_add₀ (by norm_num : (2 : ℚ) ≠ 0)]
    apply zpow_le_zpow_right₀ (by norm_num)
    have := le_max_left (Int.log 2 |x|) (-1022)
    omega
  linarith

theorem round_scaled_le (x : ℚ) :
    |roundHalfEven (x / 2 ^ (max (Int.log 2 |x|) (-1022) - 52))| ≤ 2 ^ 53 := by
  have h1 := scaled_lt x
  have h2 := roundHalfEven_near (x / 2 ^ (max (Int.log 2 |x|) (-1022) - 52))
  generalize roundHalfEven (x / 2 ^ (max (Int.log 2 |x|) (-1022) - 52)) = n at h2
  generalize x / 2 ^ (max (Int.log 2 |x|) (-1022) - 52) = y at h1 h2
  have h3 : |(n : ℚ)| < 2 ^ 53 + 1 := by
    have := abs_sub_abs_le_abs_sub (n : ℚ) y
    rw [abs_sub_comm] at h2
    linarith
  have h5 : |n| < 2 ^ 53 + 1 := by exact_mod_cast h3
  omega

theorem toDouble_isDouble (x : ℚ) : IsDouble (toDouble x) := by
  rw [toDouble_eq]
  apply isDouble_intCast_mul _ _ (round_scaled_le x)
  have := le_max_right (Int.log 2 |x|) (-1022)
  omega

/-- Rounding keeps the order. -/
theorem toDouble_mono {x y : ℚ} (h : x ≤ y) : toDouble x ≤ toDouble y := by
  by_contra hcon
  have hlt : toDouble y < toDouble x := not_le.mp hcon
  have h1 := sq_le_sq.mpr (toDouble_nearest x (toDouble y) (toDouble_isDouble y))
  have h2 := sq_le_sq.mpr (toDouble_nearest y (toDouble x) (toDouble_isDouble x))
  have hpos : 0 < toDouble x - toDouble y := by linarith
  have e1 : 0 ≤ (toDouble x - toDouble y) * (2 * x - toDouble x - toDouble y) := by nlinarith
  have e2 : (toDouble x - toDouble y) * (2 * y - toDouble x - toDouble y) ≤ 0 := by nlinarith
  have f1 : 0 ≤ 2 * x - toDouble x - toDouble y := by
    by_contra hneg
    have := mul_neg_of_pos_of_neg hpos (not_le.mp hneg)
    linarith
  have f2 : 2 * y - toDouble x - toDouble y ≤ 0 := by
    by_contra hnp
    have := mul_pos hpos (not_le.mp hnp)
    linarith
  have hxy : x = y := le_antisymm h (by linarith)
  rw [hxy] at hlt
  exact lt_irrefl _ hlt

theorem toDouble_le_of_le {x d : ℚ} (hd : IsDouble d) (h : x ≤ d) : toDouble x ≤ d := by
  have := toDouble_mono h
  rwa [toDouble_of_isDouble d hd] at this

theorem le_toDouble_of_le {x d : ℚ} (hd : IsDouble d) (h : d ≤ x) : d ≤ toDouble x := by
  have := toDouble_mono h
  rwa [toDouble_of_isDouble d hd] at this

theorem isDouble_zero : IsDouble 0 := ⟨0, 0, by norm_num, by norm_num, by simp⟩

theorem toDouble_nonneg {x : ℚ} (h : 0 ≤ x) : 0 ≤ toDouble x :=
  le_toDouble_of_le isDouble_zero h

theorem toDouble_nonpos {x : ℚ} (h : x ≤ 0) : toDouble x ≤ 0 :=
  toDouble_le_of_le isDouble_zero h

/-- Every double is a multiple of the least positive double. -/
theorem isDouble_multiple {d : ℚ} (hd : IsDouble d) : ∃ j : ℤ, d = (j : ℚ) * 2 ^ (-1074 : ℤ) := by
  obtain ⟨m, k, -, hk, rfl⟩ := hd
  exact @multiple_of_le m _ _ hk

/-- The difference of two doubles is rounded to itself, or to a double whose half is a double
too. -/
theorem half_isDouble_of_rounded {a b : ℚ} (ha : IsDouble a) (hb : IsDouble b)
    (hne : toDouble (b - a) ≠ b - a) : IsDouble (toDouble (b - a) / 2) := by
  obtain ⟨ja, hja⟩ := isDouble_multiple ha
  obtain ⟨jb, hjb⟩ := isDouble_multiple hb
  have hdiff : b - a = ((jb - ja : ℤ) : ℚ) * 2 ^ (-1074 : ℤ) := by
    rw [hja, hjb]
    push_cast
    ring
  by_cases he : max (Int.log 2 |b - a|) (-1022) = -1022
  · exfalso
    apply hne
    rw [toDouble_eq, he]
    have h52 : (-1022 : ℤ) - 52 = -1074 := by norm_num
    rw [h52]
    nth_rewrite 1 [hdiff]
    rw [mul_div_assoc, div_self (ne_of_gt (two_zpow_pos _)), mul_one, roundHalfEven_intCast]
    exact hdiff.symm
  · have hge : -1021 ≤ max (Int.log 2 |b - a|) (-1022) := by
      have := le_max_right (Int.log 2 |b - a|) (-1022)
      omega
    rw [toDouble_eq]
    have hn := round_scaled_le (b - a)
    have hhalf : (roundHalfEven ((b - a) / 2 ^ (max (Int.log 2 |b - a|) (-1022) - 52)) : ℚ)
          * 2 ^ (max (Int.log 2 |b - a|) (-1022) - 52) / 2
        = (roundHalfEven ((b - a) / 2 ^ (max (Int.log 2 |b - a|) (-1022) - 52)) : ℚ)
          * 2 ^ (max (Int.log 2 |b - a|) (-1022) - 52 - 1) := by
      rw [zpow_sub_one₀ (by norm_num : (2 : ℚ) ≠ 0)]
      ring
    rw [hhalf]
    exact isDouble_intCast_mul _ _ hn (by omega)

theorem isDouble_four : IsDouble 4 := ⟨4, 0, by norm_num, by norm_num, by norm_num⟩

/-- A rectangle of width four or more is not degenerate. -/
theorem isDegenerate_of_wide (r : QgsRectangle) (h : 4 ≤ r.xMaximum - r.xMinimum) :
    QgsGeos.isDegenerate r = false := by
  have h4 : 4 ≤ r.width := le_toDouble_of_le isDouble_four h
  have heps : 4 * DBL_EPSILON < 4 := by norm_num [DBL_EPSILON]
  simp [QgsGeos.isDegenerate, qgsDoubleNear, qgsDoubleNearEps]
  intro _ h2
  exact absurd h2 (by linarith)

/-! ## Loops that an exception ends -/

/-- A loop every statement of which succeeds gives the state of the loop without
exceptions. -/
theorem foldl_except_ok {σ α : Type} (F : Except GEOSException σ → α → Except GEOSException σ)
    (G : σ → α → σ) (l : List α) :
    ∀ init : σ, (∀ s, ∀ a ∈ l, F (.ok s) a = .ok (G s a)) →
      l.foldl F (.ok init) = .ok (l.foldl G init) := by
  induction l with
  | nil => intro init _; rfl
  | cons a l ih =>
    intro init h
    rw [List.foldl_cons, List.foldl_cons, h init a (List.mem_cons_self _ _)]
    exact ih _ (fun s b hb => h s b (List.mem_cons_of_mem _ hb))

/-- A loop stays in the exception that was raised. -/
theorem foldl_except_error {σ α : Type} (F : Except GEOSException σ → α → Except GEOSException σ)
    (hF : ∀ e a, F (.error e) a = .error e) (l : List α) (e : GEOSException) :
    l.foldl F (.error e) = .error e := by
  induction l with
  | nil => rfl
  | cons a l ih => rw [List.foldl_cons, hF, ih]

/-- What the statements of a loop keep holds of the state in which the loop ends without
exception. -/
theorem foldl_except_invariant {σ α : Type}
    (F : Except GEOSException σ → α → Except GEOSException σ)
    (hF : ∀ e a, F (.error e) a = .error e) (P : σ → Prop) (l : List α)
    (hstep : ∀ s a s2, a ∈ l → P s → F (.ok s) a = .ok s2 → P s2) :
    ∀ init r : σ, P init → l.foldl F (.ok init) = .ok r → P r := by
  induction l with
  | nil =>
    intro init r hinit h
    cases h
    exact hinit
  | cons a l ih =>
    intro init r hinit h
    rw [List.foldl_cons] at h
    cases hs : F (.ok init) a with
    | error e =>
      rw [hs, foldl_except_error F hF] at h
      cases h
    | ok s1 =>
      rw [hs] at h
      exact ih (fun s b s2 hb => hstep s b s2 (List.mem_cons_of_mem _ hb)) s1 r
        (hstep init a s1 (List.mem_cons_self _ _) hinit hs) h

/-! ## Round trip through the engine-native form -/
theorem qgsDoubleNearEps_self (a e : ℚ) (he : 0 < e) : qgsDoubleNearEps a a e = true := by
  simp [qgsDoubleNearEps, he, le_of_lt he]

theorem QgsPoint.equals_self (p : QgsPoint) : p.equals p = true := by
  simp [QgsPoint.equals, qgsDoubleNearEps_self]

theorem listModifyAt_append_cons {α : Type} (f : α → α) (pre : List α) (c : α) (r : List α) :
    listModifyAt f (pre ++ c :: r) pre.length = pre ++ f c :: r := by
  induction pre with
  | nil => simp [listModifyAt]
  | cons a pre ih => simpa [listModifyAt] using ih

theorem storeExact_step (l : QgsLineString) (n dims k m : Nat) (hk : k < n) :
    storeExact l l.is3D false n
      { dims := dims, coords := (List.range k).map (lineCoordinate l) ++ List.replicate (m + 1) ⟨0, 0, 0⟩ } k
    = { dims := dims, coords := (List.range (k + 1)).map (lineCoordinate l) ++ List.replicate m ⟨0, 0, 0⟩ } := by
  have hlen : ((List.range k).map (lineCoordinate l)).length = k := by simp
  have hmod : k % n = k := Nat.mod_eq_of_lt hk
  have key : ∀ (f : GEOSCoordinate → GEOSCoordinate) (c : GEOSCoordinate) (r : List GEOSCoordinate),
      listModifyAt f ((List.range k).map (lineCoordinate l) ++ c :: r) k
        = (List.range k).map (lineCoordinate l) ++ f c :: r := by
    intro f c r
    have := listModifyAt_append_cons f ((List.range k).map (lineCoordinate l)) c r
    rw [hlen] at this
    exact this
  cases hz : l.is3D <;>
    simp [storeExact, GEOSCoordSeq_setX_r, GEOSCoordSeq_setY_r, GEOSCoordSeq_setOrdinate_r, key,
      hmod, List.range_succ, lineCoordinate, hz, List.replicate_succ]

theorem foldl_storeExact (l : QgsLineString) (n dims : Nat) :
    ∀ k m, k + m = n →
      (List.range k).foldl (storeExact l l.is3D false n)
        { dims := dims, coords := List.replicate n ⟨0, 0, 0⟩ }
      = { dims := dims, coords := (List.range k).map (lineCoordinate l) ++ List.replicate m ⟨0, 0, 0⟩ } := by
  intro k
  induction k with
  | zero => intro m hm; simp at hm; simp [hm]
  | succ k ih =>
    intro m hm
    rw [List.range_succ, List.foldl_append, ih (m + 1) (by omega)]
    simp only [List.foldl_cons, List.foldl_nil]
    rw [storeExact_step l n dims k m (by omega), List.range_succ]

/-- The sequence built by `createCoordinateSequence` without snapping and
without a closing point. -/
theorem createCoordinateSequence_exact (l : QgsLineString) (precision : ℚ) (forceClose : Bool)
    (hp : precision ≤ 0)
    (hc : forceClose = true → l.pointN 0 = l.pointN ((l.numPoints : Int) - 1)) :
    createCoordinateSequence l precision forceClose
      = some { dims := 2 + (if l.is3D then 1 else 0),
               coords := (List.range l.numPoints).map (lineCoordinate l) } := by
  have hnot : ¬ (precision > 0) := not_lt.mpr hp
  have hclose : (forceClose && !((l.pointN 0).equals (l.pointN ((l.numPoints : Int) - 1)))) = false := by
    cases forceClose with
    | false => simp
    | true => rw [← hc rfl]; simp [QgsPoint.equals_self]
  unfold createCoordinateSequence
  simp only [hclose, hnot, if_false, Bool.false_eq_true, GEOSCoordSeq_create_r]
  rw [foldl_storeExact l l.numPoints _ l.numPoints 0 (by omega)]
  simp

theorem map_getD_range (xs : List ℚ) (n : Nat) (h : xs.length = n) :
    (List.range n).map (fun i => xs.getD i 0) = xs := by
  subst h
  apply List.ext_getElem
  · simp
  · intro i h1 h2
    simp at h1
    simp [List.getD_eq_getElem, h1]

theorem read_x_range (f : Nat → GEOSCoordinate) (n dims : Nat) :
    (List.range n).map
        (fun i => (GEOSCoordSeq_getX_r { dims := dims, coords := (List.range n).map f } i).getD 0)
      = (List.range n).map (fun i => (f i).x) := by
  apply List.map_congr_left
  intro i hi
  simp at hi
  simp [GEOSCoordSeq_getX_r, List.getElem?_map, List.getElem?_range hi]

theorem read_y_range (f : Nat → GEOSCoordinate) (n dims : Nat) :
    (List.range n).map
        (fun i => (GEOSCoordSeq_getY_r { dims := dims, coords := (List.range n).map f } i).getD 0)
      = (List.range n).map (fun i => (f i).y) := by
  apply List.map_congr_left
  intro i hi
  simp at hi
  simp [GEOSCoordSeq_getY_r, List.getElem?_map, List.getElem?_range hi]

theorem read_z_range (f : Nat → GEOSCoordinate) (n dims : Nat) :
    (List.range n).map
        (fun i => (GEOSCoordSeq_getZ_r { dims := dims, coords := (List.range n).map f } i).getD 0)
      = (List.range n).map (fun i => (f i).z) := by
  apply List.map_congr_left
  intro i hi
  simp at hi
  simp [GEOSCoordSeq_getZ_r, List.getElem?_map, List.getElem?_range hi]

/-- Reading a well-formed line string back from its coordinate sequence. -/
theorem sequenceToLinestring_lineCoordinates (l : QgsLineString) (h : l.wellFormedNoM) (dims : Nat)
    (geos : GEOSGeometry)
    (hg : GEOSGeom_getCoordSeq_r geos
      = some { dims := dims, coords := (List.range l.numPoints).map (lineCoordinate l) }) :
    sequenceToLinestring geos l.is3D false = .ok l := by
  obtain ⟨hM, hmM, hY, hZ, hn⟩ := h
  obtain ⟨is3D, isMeasure, mX, mY, mZ, mM⟩ := l
  simp only at hM hmM hY hZ hn
  subst hM hmM
  have hx : (List.range mX.length).map (fun i => mX.getD i 0) = mX := map_getD_range mX _ rfl
  have hy : (List.range mX.length).map (fun i => mY.getD i 0) = mY := map_getD_range mY _ hY
  have hne : mX ≠ [] := by intro h0; simp [h0] at hn
  cases is3D with
  | false =>
    simp at hZ
    subst hZ
    simp only [QgsLineString.numPoints] at hg
    simp only [sequenceToLinestring, lineOfSequence, hg, GEOSCoordSeq_getSize_r,
      QgsLineString.numPoints, List.length_map, List.length_range, read_x_range, read_y_range,
      lineCoordinate, QgsLineString.xAt, QgsLineString.yAt, hx, hy]
    simp [QgsLineString.ofVectors, hY]
  | true =>
    simp at hZ
    have hz : (List.range mX.length).map (fun i => mZ.getD i 0) = mZ := map_getD_range mZ _ hZ
    simp only [QgsLineString.numPoints] at hg
    simp only [sequenceToLinestring, lineOfSequence, hg, GEOSCoordSeq_getSize_r,
      QgsLineString.numPoints, List.length_map, List.length_range, read_x_range, read_y_range,
      read_z_range, lineCoordinate, QgsLineString.xAt, QgsLineString.yAt, QgsLineString.zAt,
      hx, hy, hz, if_true]
    have hzne : mZ ≠ [] := by intro h0; simp [h0] at hZ; omega
    have ht : List.take mX.length mZ = mZ := by rw [← hZ]; simp
    simp [QgsLineString.ofVectors, hY, hZ, hne, hzne, ht]

/-- Round trip of a line string. -/
theorem lineString_roundTrip (l : QgsLineString) (precision : ℚ) (hp : precision ≤ 0)
    (h : l.wellFormedNoM) :
    fromGeos (asGeos (some (.lineString l)) precision) = some (.lineString l) := by
  have hn : l.mX.length ≠ 1 := by have := h.2.2.2.2; omega
  have hseq := sequenceToLinestring_lineCoordinates l h (2 + (if l.is3D then 1 else 0))
    (.lineString { dims := 2 + (if l.is3D then 1 else 0),
                   coords := (List.range l.numPoints).map (lineCoordinate l) }) rfl
  simp only [asGeos, asGeosOf, createGeosLinestring,
    createCoordinateSequence_exact l precision false hp (by simp), GEOSGeom_createLineString_r,
    List.length_map, List.length_range, QgsLineString.numPoints, hn, if_false, fromGeos, fromGeosOf,
    GEOSGeom_getCoordinateDimension_r, GEOSGeom_getDimensions_r]
  cases hz : l.is3D <;> simp [hz, QgsLineString.numPoints] at hseq ⊢ <;> simp [hseq]

/-- Round trip of a point. -/
theorem point_roundTrip (p : QgsPoint) (precision : ℚ) (hp : precision ≤ 0)
    (h : p.mValue = none) :
    fromGeos (asGeos (some (.point p)) precision) = some (.point p) := by
  have hnot : ¬ (precision > 0) := not_lt.mpr hp
  obtain ⟨x, y, zValue, mValue⟩ := p
  simp only at h
  subst h
  cases zValue <;>
    simp [asGeos, asGeosOf, createGeosPoint, createGeosPointXY, hnot, GEOSGeom_createPoint_r,
      GEOSCoordSeq_create_r, GEOSCoordSeq_setX_r, GEOSCoordSeq_setY_r, GEOSCoordSeq_setOrdinate_r,
      listModifyAt, fromGeos, fromGeosOf, GEOSGeom_getCoordinateDimension_r,
      GEOSGeom_getDimensions_r, coordSeqPoint, GEOSGeom_getCoordSeq_r, GEOSCoordSeq_getX_r,
      GEOSCoordSeq_getY_r, GEOSCoordSeq_getZ_r, QgsPoint.ofType, QgsPoint.is3D, QgsPoint.isMeasure,
      QgsPoint.z, QgsPoint.m]

theorem createGeosRing_wellFormed (r : QgsLineString) (precision : ℚ) (hp : precision ≤ 0)
    (h : r.wellFormedRing) :
    createGeosRing r precision = some (.linearRing (lineSequence r)) := by
  obtain ⟨hwf, h4, hclosed⟩ := h
  obtain ⟨n, hn⟩ : ∃ n, r.mX.length = n + 4 := ⟨r.mX.length - 4, by omega⟩
  have hnum : r.numPoints = n + 4 := hn
  have h0 : r.pointN 0 = QgsPoint.ofType r.is3D r.isMeasure (r.xAt 0) (r.yAt 0) (r.zAt 0) (r.mAt 0) := by
    have hle : ¬ ((n : Int) + 4 ≤ 0) := by omega
    simp [QgsLineString.pointN, hnum, hle]
  have hclosed0 := hclosed
  have h1 : r.pointN ((r.numPoints : Int) - 1)
      = QgsPoint.ofType r.is3D r.isMeasure (r.xAt (n + 3)) (r.yAt (n + 3)) (r.zAt (n + 3))
          (r.mAt (n + 3)) := by
    have e : ((n + 4 : Nat) : Int) - 1 = ((n + 3 : Nat) : Int) := by push_cast; ring
    have hlt : ¬ ((n : Int) + 4 ≤ (n : Int) + 3) := by omega
    have hnn : ¬ ((n : Int) + 3 < 0) := by omega
    simp only [QgsLineString.pointN, hnum, e, Int.toNat_ofNat]
    simp [hlt, hnn]
  rw [h0, h1] at hclosed
  simp only [QgsPoint.ofType, QgsPoint.mk.injEq] at hclosed
  obtain ⟨hx, hy, -, -⟩ := hclosed
  simp only [createGeosRing, createCoordinateSequence_exact r precision true hp (fun _ => hclosed0),
    Option.bind_some, GEOSGeom_createLinearRing_r, lineSequence, hnum]
  have hclosed2D : GEOSCoordSequence.isClosed2D
      { dims := 2 + (if r.is3D = true then 1 else 0),
        coords := List.map (lineCoordinate r) (List.range (n + 4)) } = true := by
    have hhead : (List.map (lineCoordinate r) (List.range (n + 4))).head? = some (lineCoordinate r 0) := by
      simp [List.range_succ_eq_map]
    have hlast : (List.map (lineCoordinate r) (List.range (n + 4))).getLast?
        = some (lineCoordinate r (n + 3)) := by
      rw [List.range_succ]; simp
    simp only [GEOSCoordSequence.isClosed2D, hhead, hlast]
    simp [lineCoordinate, hx, hy]
  simp [hclosed2D]

theorem mapM_createGeosRing (rings : List QgsLineString) (precision : ℚ) (hp : precision ≤ 0)
    (h : ∀ r ∈ rings, r.wellFormedRing) :
    createGeosHoles precision rings
      = some (rings.map (fun r => GEOSGeometry.linearRing (lineSequence r))) := by
  induction rings with
  | nil => rfl
  | cons r rs ih =>
    have h1 := createGeosRing_wellFormed r precision hp (h r (by simp))
    have h2 := ih (fun x hx => h x (by simp [hx]))
    simp [createGeosHoles, h1, h2]

theorem ringSequences_map (rings : List QgsLineString) :
    ringSequences (rings.map (fun r => GEOSGeometry.linearRing (lineSequence r)))
      = some (rings.map lineSequence) := by
  induction rings with
  | nil => rfl
  | cons r rs ih => simp [ringSequences, ih]

theorem foldl_max_const (a : Nat) (l : List Nat) (h : ∀ x ∈ l, x = a) : l.foldl max a = a := by
  induction l with
  | nil => rfl
  | cons x xs ih =>
    have hx : x = a := h x (by simp)
    simp [List.foldl_cons, hx, ih (fun y hy => h y (by simp [hy]))]

theorem filterMap_range_getElem {α β : Type} (f : α → Option β) (g : α → β) (l : List α)
    (h : ∀ a ∈ l, f a = some (g a)) :
    (List.range l.length).filterMap (fun i => (l[i]?).bind f) = l.map g := by
  induction l using List.reverseRecOn with
  | nil => rfl
  | append_singleton pre a ih =>
    have hpre : ∀ x ∈ pre, f x = some (g x) := fun x hx => h x (by simp [hx])
    have ha : f a = some (g a) := h a (by simp)
    rw [List.length_append, List.length_singleton, List.range_succ, List.filterMap_append,
      List.map_append]
    congr 1
    · rw [← ih hpre]
      apply List.filterMap_congr
      intro i hi
      simp at hi
      simp [List.getElem?_append_left hi]
    · simp [ha]

/-- The loop of `fromGeosPolygon` over the interior rings. -/
theorem interiorRings_loop (shell : GEOSCoordSequence) (hasZ hasM : Bool) :
    ∀ (holes pre : List GEOSCoordSequence) (acc : List QgsLineString),
      (List.range holes.length).foldl
          (fun (interiorRings : Except GEOSException (List QgsLineString)) i =>
            match interiorRings, GEOSGetInteriorRingN_r (.polygon shell (pre ++ holes))
                (pre.length + i) with
            | .error e, _ => Except.error e
            | .ok interiorRings, none => .ok interiorRings
            | .ok interiorRings, some ring =>
              match sequenceToLinestring ring hasZ hasM with
              | .ok line => .ok (interiorRings ++ [line])
              | .error e => .error e)
          (.ok acc)
        = .ok (acc ++ holes.map (fun hole => lineOfSequence hole hasZ hasM)) := by
  intro holes
  induction holes using List.reverseRecOn with
  | nil => intro pre acc; simp
  | append_singleton holes hole ih =>
    intro pre acc
    rw [List.length_append, List.length_singleton, List.range_succ, List.foldl_append]
    have hpre : pre ++ (holes ++ [hole]) = pre ++ holes ++ [hole] := by simp
    have hih := ih pre acc
    have hcongr : (List.range holes.length).foldl
          (fun (interiorRings : Except GEOSException (List QgsLineString)) i =>
            match interiorRings, GEOSGetInteriorRingN_r (.polygon shell (pre ++ (holes ++ [hole])))
                (pre.length + i) with
            | .error e, _ => Except.error e
            | .ok interiorRings, none => .ok interiorRings
            | .ok interiorRings, some ring =>
              match sequenceToLinestring ring hasZ hasM with
              | .ok line => .ok (interiorRings ++ [line])
              | .error e => .error e)
          (.ok acc)
        = .ok (acc ++ holes.map (fun hole => lineOfSequence hole hasZ hasM)) := by
      rw [← hih]
      apply List.foldl_ext
      intro state i hi
      have hlt : i < holes.length := by simpa using hi
      have h1 : (pre ++ (holes ++ [hole]))[pre.length + i]? = (pre ++ holes)[pre.length + i]? := by
        rw [hpre, List.getElem?_append_left (by simp; omega)]
      simp only [GEOSGetInteriorRingN_r, List.get?_eq_getElem?, h1]
    rw [hcongr]
    have hlast : (pre ++ (holes ++ [hole]))[pre.length + holes.length]? = some hole := by
      rw [hpre, List.getElem?_append_right (by simp)]
      simp
    simp [GEOSGetInteriorRingN_r, hlast, sequenceToLinestring, GEOSGeom_getCoordSeq_r]

/-- The polygon that `fromGeosPolygon` builds: no ring of a native polygon raises. -/
theorem fromGeosPolygon_polygon (shell : GEOSCoordSequence) (holes : List GEOSCoordSequence) :
    fromGeosPolygon (.polygon shell holes)
      = .ok (some ((QgsPolygonV2.empty.setExteriorRing
          (lineOfSequence shell
            (decide (GEOSGeom_getCoordinateDimension_r (.polygon shell holes) = 3))
            (decide (GEOSGeom_getDimensions_r (.polygon shell holes)
              - ((GEOSGeom_getCoordinateDimension_r (.polygon shell holes) : Nat) : Int) = 1)))).setInteriorRings
          (holes.map (fun hole => lineOfSequence hole
            (decide (GEOSGeom_getCoordinateDimension_r (.polygon shell holes) = 3))
            (decide (GEOSGeom_getDimensions_r (.polygon shell holes)
              - ((GEOSGeom_getCoordinateDimension_r (.polygon shell holes) : Nat) : Int) = 1)))))) := by
  have hloop := interiorRings_loop shell
    (decide (GEOSGeom_getCoordinateDimension_r (.polygon shell holes) = 3))
    (decide (GEOSGeom_getDimensions_r (.polygon shell holes)
      - ((GEOSGeom_getCoordinateDimension_r (.polygon shell holes) : Nat) : Int) = 1))
    holes [] []
  simp only [List.nil_append, List.length_nil, Nat.zero_add] at hloop
  have hext : ∀ z m, sequenceToLinestring (.linearRing shell) z m
      = .ok (lineOfSequence shell z m) := fun _ _ => rfl
  simp only [fromGeosPolygon, GEOSGeomTypeId_r, ne_eq, not_true_eq_false, if_false,
    GEOSGetExteriorRing_r, GEOSGetNumInteriorRings_r, hext, hloop]

theorem polygon_fromGeos (p : QgsPolygonV2) (h : p.wellFormedNoM) (r : QgsLineString)
    (hr : p.exteriorRing = some r) :
    fromGeosPolygon (.polygon (lineSequence r) (p.interiorRings.map lineSequence))
      = .ok (some p) := by
  obtain ⟨hM, ⟨r2, hr2, hring, hz⟩, hholes⟩ := h
  rw [hr] at hr2
  cases hr2
  have hdims : GEOSGeom_getCoordinateDimension_r
      (.polygon (lineSequence r) (p.interiorRings.map lineSequence))
      = 2 + (if p.is3D then 1 else 0) := by
    simp only [GEOSGeom_getCoordinateDimension_r, List.map_map]
    have e : max 2 (lineSequence r).dims = 2 + (if p.is3D then 1 else 0) := by
      simp [lineSequence, hz]
    rw [e]
    apply foldl_max_const
    intro x hx
    simp only [List.mem_map, Function.comp] at hx
    obtain ⟨hole, hmem, rfl⟩ := hx
    simp [lineSequence, (hholes hole hmem).2]
  have hhasZ : decide (2 + (if p.is3D then 1 else 0) = 3) = p.is3D := by
    cases p.is3D <;> simp
  have hhasM : decide ((2 : Int) - ((2 + (if p.is3D then 1 else 0) : Nat) : Int) = 1) = false := by
    cases p.is3D <;> simp
  have hline : ∀ l : QgsLineString, l.wellFormedNoM → l.is3D = p.is3D →
      lineOfSequence (lineSequence l) p.is3D false = l := by
    intro l hl hzl
    have := sequenceToLinestring_lineCoordinates l hl _ (.linearRing (lineSequence l)) rfl
    rw [hzl] at this
    simpa [sequenceToLinestring, GEOSGeom_getCoordSeq_r] using this
  have hext : lineOfSequence (lineSequence r) p.is3D false = r := hline r hring.1 hz
  have hint : (p.interiorRings.map lineSequence).map
      (fun hole => lineOfSequence hole p.is3D false) = p.interiorRings := by
    rw [List.map_map]
    conv_rhs => rw [← List.map_id p.interiorRings]
    apply List.map_congr_left
    intro hole hmem
    exact hline hole (hholes hole hmem).1.1 (hholes hole hmem).2
  rw [fromGeosPolygon_polygon, hdims]
  simp only [GEOSGeom_getDimensions_r, hhasZ, hhasM, hext, hint]
  obtain ⟨is3D, isMeasure, ext, ints⟩ := p
  simp only at hM hr hz hext
  subst hM hr
  simp [QgsPolygonV2.setInteriorRings, QgsPolygonV2.setExteriorRing, QgsPolygonV2.empty, hz,
    hring.1.1]

/-- Round trip of a polygon. -/
theorem polygon_roundTrip (p : QgsPolygonV2) (precision : ℚ) (hp : precision ≤ 0)
    (h : p.wellFormedNoM) :
    fromGeos (asGeos (some (.polygon p)) precision) = some (.polygon p) := by
  obtain ⟨r, hr, hring, hz⟩ := h.2.1
  have hext := createGeosRing_wellFormed r precision hp hring
  have hholes := mapM_createGeosRing p.interiorRings precision hp (fun x hx => (h.2.2 x hx).1)
  simp only [asGeos, asGeosOf, createGeosPolygon, hr, hext, hholes, GEOSGeom_createPolygon_r,
    ringSequences_map, fromGeos, fromGeosOf, polygon_fromGeos p h r hr, Option.map_some']

theorem geomVector_eq_map (precision : ℚ) (gs : List QgsAbstractGeometry) :
    asGeosOf.geomVector precision gs = gs.map (asGeosOf precision) := by
  induction gs with
  | nil => rfl
  | cons g gs ih => simp [asGeosOf.geomVector, ih]

theorem exists_map_of_forall {α β : Type} (inj : α → β) (P : α → Prop) (l : List β)
    (h : ∀ b ∈ l, ∃ a, b = inj a ∧ P a) : ∃ as : List α, l = as.map inj ∧ ∀ a ∈ as, P a := by
  induction l with
  | nil => exact ⟨[], rfl, by simp⟩
  | cons b bs ih =>
    obtain ⟨a, rfl, ha⟩ := h b (by simp)
    obtain ⟨as, rfl, has⟩ := ih (fun x hx => h x (by simp [hx]))
    exact ⟨a :: as, rfl, by
      intro x hx
      rcases List.mem_cons.mp hx with rfl | hx
      · exact ha
      · exact has x hx⟩

theorem maxDimension_uniform (d : Nat) (hd : 2 ≤ d) (l : List GEOSGeometry) (hne : l ≠ [])
    (h : ∀ g ∈ l, GEOSGeom_getCoordinateDimension_r g = d) :
    GEOSGeom_getCoordinateDimension_r.maxDimension l = d := by
  induction l with
  | nil => exact absurd rfl hne
  | cons g gs ih =>
    have hg := h g (by simp)
    cases gs with
    | nil => simp [GEOSGeom_getCoordinateDimension_r.maxDimension, hg, hd]
    | cons g2 gs2 =>
      have := ih (by simp) (fun x hx => h x (by simp [hx]))
      simp only [GEOSGeom_getCoordinateDimension_r.maxDimension] at this ⊢
      simp [hg, this]

/-- The loop of `fromGeos` over the members of a multi-point that all have a coordinate
sequence. -/
theorem multiPoint_loop (hasZ hasM : Bool) (geoms : List GEOSGeometry)
    (h : ∀ g ∈ geoms, (GEOSGeom_getCoordSeq_r g).isSome = true) (init : QgsAbstractGeometry) :
    geoms.foldl
        (fun (multiPoint : Except GEOSException QgsAbstractGeometry) part =>
          match multiPoint, GEOSGeom_getCoordSeq_r part with
          | .error e, _ => Except.error e
          | .ok _, none => .error {}
          | .ok multiPoint, some cs =>
            .ok (multiPoint.addGeometry (some (.point (coordSeqPoint (some cs) 0 hasZ hasM)))))
        (.ok init)
      = .ok (geoms.foldl
          (fun multiPoint part =>
            multiPoint.addGeometry
              (some (.point (coordSeqPoint (GEOSGeom_getCoordSeq_r part) 0 hasZ hasM))))
          init) := by
  apply foldl_except_ok
  intro s a ha
  have := h a ha
  cases hcs : GEOSGeom_getCoordSeq_r a with
  | none => rw [hcs] at this; cases this
  | some cs => rfl

/-- The loop of `fromGeos` over the members of a multi-line-string that all have a coordinate
sequence. -/
theorem multiLineString_loop (hasZ hasM : Bool) (geoms : List GEOSGeometry)
    (h : ∀ g ∈ geoms, (GEOSGeom_getCoordSeq_r g).isSome = true) (init : QgsAbstractGeometry) :
    geoms.foldl
        (fun (multiLineString : Except GEOSException QgsAbstractGeometry) part =>
          match multiLineString, sequenceToLinestring part hasZ hasM with
          | .error e, _ => Except.error e
          | .ok _, .error e => .error e
          | .ok multiLineString, .ok line =>
            .ok (multiLineString.addGeometry (some (.lineString line))))
        (.ok init)
      = .ok (geoms.foldl
          (fun multiLineString part =>
            multiLineString.addGeometry
              ((GEOSGeom_getCoordSeq_r part).map
                (fun cs => .lineString (lineOfSequence cs hasZ hasM))))
          init) := by
  apply foldl_except_ok
  intro s a ha
  have := h a ha
  cases hcs : GEOSGeom_getCoordSeq_r a with
  | none => rw [hcs] at this; cases this
  | some cs => simp [sequenceToLinestring, hcs]

/-- The polygon that `fromGeosPolygon` hands out: it never raises. -/
theorem fromGeosPolygon_total (g : GEOSGeometry) :
    ∃ r, fromGeosPolygon g = .ok r := by
  cases g with
  | polygon shell holes => exact ⟨_, fromGeosPolygon_polygon shell holes⟩
  | point cs => exact ⟨none, by simp [fromGeosPolygon, GEOSGeomTypeId_r]⟩
  | lineString cs => exact ⟨none, by simp [fromGeosPolygon, GEOSGeomTypeId_r]⟩
  | linearRing cs => exact ⟨none, by simp [fromGeosPolygon, GEOSGeomTypeId_r]⟩
  | collection t geoms =>
    have hne : GEOSGeomTypeId_r (.collection t geoms) ≠ GEOS_POLYGON := by
      cases t <;> simp [GEOSGeomTypeId_r, GEOSCollectionType.typeId]
    exact ⟨none, by simp [fromGeosPolygon, hne]⟩

/-- The loop of `fromGeos` over the members of a multi-polygon. -/
theorem multiPolygon_loop (geoms : List GEOSGeometry) (init : QgsAbstractGeometry) :
    geoms.foldl
        (fun (multiPolygon : Except GEOSException QgsAbstractGeometry) part =>
          match multiPolygon, fromGeosPolygon part with
          | .error e, _ => Except.error e
          | .ok _, .error e => .error e
          | .ok multiPolygon, .ok poly =>
            .ok (multiPolygon.addGeometry (poly.map QgsAbstractGeometry.polygon)))
        (.ok init)
      = .ok (geoms.foldl
          (fun multiPolygon part =>
            multiPolygon.addGeometry
              ((match fromGeosPolygon part with
                | .ok poly => poly
                | .error _ => none).map QgsAbstractGeometry.polygon))
          init) := by
  apply foldl_except_ok
  intro s a _
  obtain ⟨r, hr⟩ := fromGeosPolygon_total a
  simp [hr]

theorem foldl_collect {α : Type} (T : QgsCollectionType) (hasZ : Bool) (toG : α → GEOSGeometry)
    (inj : α → QgsAbstractGeometry)
    (step : QgsAbstractGeometry → GEOSGeometry → QgsAbstractGeometry) (as : List α)
    (hstep : ∀ a ∈ as, ∀ z m acc,
      step (.collection T z m acc) (toG a) = .collection T hasZ false (acc ++ [inj a])) :
    ∀ z0 m0 acc,
      (as.map toG).foldl step (.collection T z0 m0 acc)
        = .collection T (if as.isEmpty then z0 else hasZ) (if as.isEmpty then m0 else false)
            (acc ++ as.map inj) := by
  induction as with
  | nil => intro z0 m0 acc; simp
  | cons a as ih =>
    intro z0 m0 acc
    simp only [List.map_cons, List.foldl_cons]
    rw [hstep a (by simp), ih (fun x hx => hstep x (by simp [hx]))]
    cases as <;> simp

theorem filterMap_id_map_some {α β : Type} (f : α → β) (l : List α) :
    (l.map (fun a => some (f a))).filterMap id = l.map f := by
  induction l with
  | nil => rfl
  | cons a l ih => simpa using ih

theorem asGeosOf_point (p : QgsPoint) (precision : ℚ) (hp : precision ≤ 0) (h : p.mValue = none) :
    asGeosOf precision (.point p) = some (pointGeos p) := by
  have hnot : ¬ (precision > 0) := not_lt.mpr hp
  obtain ⟨x, y, zValue, mValue⟩ := p
  simp only at h
  subst h
  cases zValue <;>
    simp [asGeosOf, createGeosPoint, createGeosPointXY, hnot, GEOSGeom_createPoint_r,
      GEOSCoordSeq_create_r, GEOSCoordSeq_setX_r, GEOSCoordSeq_setY_r, GEOSCoordSeq_setOrdinate_r,
      listModifyAt, QgsPoint.is3D, QgsPoint.isMeasure, QgsPoint.z, QgsPoint.m, pointGeos]

theorem coordSeqPoint_pointGeos (p : QgsPoint) (h : p.mValue = none) :
    coordSeqPoint (some { dims := 2 + (if p.is3D then 1 else 0),
                          coords := [{ x := p.x, y := p.y, z := p.z }] }) 0 p.is3D false = p := by
  obtain ⟨x, y, zValue, mValue⟩ := p
  simp only at h
  subst h
  cases zValue <;>
    simp [coordSeqPoint, GEOSCoordSeq_getX_r, GEOSCoordSeq_getY_r, GEOSCoordSeq_getZ_r,
      QgsPoint.ofType, QgsPoint.is3D, QgsPoint.z]

theorem hasZ_of_uniform (hasZ : Bool) {α : Type} (toG : α → GEOSGeometry) (as : List α)
    (hempty : as = [] → hasZ = false)
    (h : ∀ a ∈ as, GEOSGeom_getCoordinateDimension_r (toG a) = 2 + (if hasZ then 1 else 0)) :
    decide (GEOSGeom_getCoordinateDimension_r.maxDimension (as.map toG) = 3) = hasZ := by
  by_cases he : as = []
  · subst he
    simp [GEOSGeom_getCoordinateDimension_r.maxDimension, hempty rfl]
  · rw [maxDimension_uniform (2 + (if hasZ then 1 else 0)) (by omega) (as.map toG) (by simpa using he)
      (by
        intro g hg
        obtain ⟨a, ha, rfl⟩ := List.mem_map.mp hg
        exact h a ha)]
    cases hasZ <;> simp

/-- Round trip of a MultiPoint. -/
theorem multiPoint_roundTrip (hasZ : Bool) (ps : List QgsPoint) (precision : ℚ)
    (hp : precision ≤ 0) (hempty : ps = [] → hasZ = false)
    (h : ∀ p ∈ ps, p.mValue = none ∧ p.is3D = hasZ) :
    fromGeos (asGeos (some (.collection .MultiPoint hasZ false (ps.map .point))) precision)
      = some (.collection .MultiPoint hasZ false (ps.map .point)) := by
  have hvec : (ps.map QgsAbstractGeometry.point).map (asGeosOf precision)
      = ps.map (fun p => some (pointGeos p)) := by
    rw [List.map_map]
    apply List.map_congr_left
    intro p hpm
    exact asGeosOf_point p precision hp (h p hpm).1
  have hfm : (ps.map (fun p => some (pointGeos p))).filterMap id = ps.map pointGeos :=
    filterMap_id_map_some pointGeos ps
  have hZ := hasZ_of_uniform hasZ pointGeos ps hempty (by
    intro p hpm
    simp [pointGeos, GEOSGeom_getCoordinateDimension_r, (h p hpm).2])
  simp only [asGeos, asGeosOf, geomVector_eq_map, hvec, createGeosCollection, hfm,
    GEOSGeom_createCollection_r, collectionTypeId, GEOSCollectionType.ofTypeId, Option.map_some',
    fromGeos, fromGeosOf, GEOSGeom_getCoordinateDimension_r, GEOSGeom_getDimensions_r, hZ]
  rw [multiPoint_loop _ _ _ (by
      intro g hg
      obtain ⟨p, _, rfl⟩ := List.mem_map.mp hg
      rfl)]
  simp only []
  rw [foldl_collect .MultiPoint hasZ pointGeos QgsAbstractGeometry.point _ ps (by
    intro p hpm z m acc
    have hpz := (h p hpm).2
    have := coordSeqPoint_pointGeos p (h p hpm).1
    rw [hpz] at this
    simp only [pointGeos, GEOSGeom_getCoordSeq_r, hpz]
    have hM : decide ((0 : Int) - ((GEOSGeom_getCoordinateDimension_r.maxDimension
        (List.map pointGeos ps) : Nat) : Int) = 1) = false := by
      simp; omega
    simp only [hM, this, QgsAbstractGeometry.addGeometry, hpz]
    simp [QgsPoint.isMeasure, (h p hpm).1])]
  cases ps with
  | nil => simp [hempty rfl]
  | cons p ps => simp

theorem two_le_maxDimension (l : List GEOSGeometry) :
    2 ≤ GEOSGeom_getCoordinateDimension_r.maxDimension l := by
  induction l with
  | nil => simp [GEOSGeom_getCoordinateDimension_r.maxDimension]
  | cons g gs ih =>
    simp only [GEOSGeom_getCoordinateDimension_r.maxDimension]
    omega

theorem asGeosOf_lineString (l : QgsLineString) (precision : ℚ) (hp : precision ≤ 0)
    (h : l.wellFormedNoM) :
    asGeosOf precision (.lineString l) = some (.lineString (lineSequence l)) := by
  have hn : l.mX.length ≠ 1 := by have := h.2.2.2.2; omega
  simp only [asGeosOf, createGeosLinestring,
    createCoordinateSequence_exact l precision false hp (by simp), GEOSGeom_createLineString_r,
    List.length_map, List.length_range, QgsLineString.numPoints, hn, if_false, lineSequence]

theorem asGeosOf_polygon (p : QgsPolygonV2) (precision : ℚ) (hp : precision ≤ 0)
    (h : p.wellFormedNoM) :
    asGeosOf precision (.polygon p) = some (polygonGeos p) := by
  obtain ⟨r, hr, hring, hz⟩ := h.2.1
  have hext := createGeosRing_wellFormed r precision hp hring
  have hholes := mapM_createGeosRing p.interiorRings precision hp (fun x hx => (h.2.2 x hx).1)
  simp only [asGeosOf, createGeosPolygon, hr, hext, hholes, GEOSGeom_createPolygon_r,
    ringSequences_map, polygonGeos]

theorem fromGeosPolygon_polygonGeos (p : QgsPolygonV2) (h : p.wellFormedNoM) :
    fromGeosPolygon (polygonGeos p) = .ok (some p) := by
  obtain ⟨r, hr, -, -⟩ := h.2.1
  simp only [polygonGeos, hr]
  exact polygon_fromGeos p h r hr

theorem polygonGeos_dimension (p : QgsPolygonV2) (h : p.wellFormedNoM) :
    GEOSGeom_getCoordinateDimension_r (polygonGeos p) = 2 + (if p.is3D then 1 else 0) := by
  obtain ⟨hM, ⟨r, hr, hring, hz⟩, hholes⟩ := h
  simp only [polygonGeos, hr, GEOSGeom_getCoordinateDimension_r, List.map_map]
  have e : max 2 (lineSequence r).dims = 2 + (if p.is3D then 1 else 0) := by
    simp [lineSequence, hz]
  rw [e]
  apply foldl_max_const
  intro x hx
  simp only [List.mem_map, Function.comp] at hx
  obtain ⟨hole, hmem, rfl⟩ := hx
  simp [lineSequence, (hholes hole hmem).2]

/-- Round trip of a MultiLineString. -/
theorem multiLineString_roundTrip (hasZ : Bool) (ls : List QgsLineString) (precision : ℚ)
    (hp : precision ≤ 0) (hempty : ls = [] → hasZ = false)
    (h : ∀ l ∈ ls, l.wellFormedNoM ∧ l.is3D = hasZ) :
    fromGeos (asGeos (some (.collection .MultiLineString hasZ false (ls.map .lineString))) precision)
      = some (.collection .MultiLineString hasZ false (ls.map .lineString)) := by
  have hvec : (ls.map QgsAbstractGeometry.lineString).map (asGeosOf precision)
      = ls.map (fun l => some (GEOSGeometry.lineString (lineSequence l))) := by
    rw [List.map_map]
    apply List.map_congr_left
    intro l hl
    exact asGeosOf_lineString l precision hp (h l hl).1
  have hfm := filterMap_id_map_some (fun l => GEOSGeometry.lineString (lineSequence l)) ls
  have hZ := hasZ_of_uniform hasZ (fun l => GEOSGeometry.lineString (lineSequence l)) ls hempty (by
    intro l hl
    simp [lineSequence, GEOSGeom_getCoordinateDimension_r, (h l hl).2])
  have hM : decide ((1 : Int) - ((GEOSGeom_getCoordinateDimension_r.maxDimension
      (List.map (fun l => GEOSGeometry.lineString (lineSequence l)) ls) : Nat) : Int) = 1)
      = false := by
    have := two_le_maxDimension (List.map (fun l => GEOSGeometry.lineString (lineSequence l)) ls)
    simp; omega
  simp only [asGeos, asGeosOf, geomVector_eq_map, hvec, createGeosCollection, hfm,
    GEOSGeom_createCollection_r, collectionTypeId, GEOSCollectionType.ofTypeId, Option.map_some',
    fromGeos, fromGeosOf, GEOSGeom_getCoordinateDimension_r, GEOSGeom_getDimensions_r, hZ, hM]
  rw [multiLineString_loop _ _ _ (by
      intro g hg
      obtain ⟨l, _, rfl⟩ := List.mem_map.mp hg
      rfl)]
  simp only []
  rw [foldl_collect .MultiLineString hasZ (fun l => GEOSGeometry.lineString (lineSequence l))
    QgsAbstractGeometry.lineString _ ls (by
    intro l hl z m acc
    have hlz := (h l hl).2
    have := sequenceToLinestring_lineCoordinates l (h l hl).1 _
      (GEOSGeometry.lineString (lineSequence l)) rfl
    rw [hlz] at this
    simp only [sequenceToLinestring, GEOSGeom_getCoordSeq_r, Except.ok.injEq] at this
    simp only [GEOSGeom_getCoordSeq_r, this, Option.map_some', QgsAbstractGeometry.addGeometry,
      hlz, (h l hl).1.1])]
  cases ls with
  | nil => simp [hempty rfl]
  | cons l ls => simp

/-- Round trip of a MultiPolygon. -/
theorem multiPolygon_roundTrip (hasZ : Bool) (ps : List QgsPolygonV2) (precision : ℚ)
    (hp : precision ≤ 0) (hempty : ps = [] → hasZ = false)
    (h : ∀ p ∈ ps, p.wellFormedNoM ∧ p.is3D = hasZ) :
    fromGeos (asGeos (some (.collection .MultiPolygon hasZ false (ps.map .polygon))) precision)
      = some (.collection .MultiPolygon hasZ false (ps.map .polygon)) := by
  have hvec : (ps.map QgsAbstractGeometry.polygon).map (asGeosOf precision)
      = ps.map (fun p => some (polygonGeos p)) := by
    rw [List.map_map]
    apply List.map_congr_left
    intro p hpm
    exact asGeosOf_polygon p precision hp (h p hpm).1
  have hfm := filterMap_id_map_some polygonGeos ps
  simp only [asGeos, asGeosOf, geomVector_eq_map, hvec, createGeosCollection, hfm,
    GEOSGeom_createCollection_r, collectionTypeId, GEOSCollectionType.ofTypeId, Option.map_some',
    fromGeos, fromGeosOf]
  rw [multiPolygon_loop]
  simp only []
  rw [foldl_collect .MultiPolygon hasZ polygonGeos QgsAbstractGeometry.polygon _ ps (by
    intro p hpm z m acc
    simp only [fromGeosPolygon_polygonGeos p (h p hpm).1, Option.map_some',
      QgsAbstractGeometry.addGeometry, (h p hpm).2, (h p hpm).1.1])]
  cases ps with
  | nil => simp [hempty rfl]
  | cons p ps => simp

/-- C10 (amended): for every Point, LineString, Polygon, MultiPoint, MultiLineString or
MultiPolygon `G` that carries no measure values and is well-formed (ordinate vectors
fitting the flags, lines of at least two points, rings closed with at least four
points, members carrying the flags of their collection), converting `G` to the
engine-native form without snapping and back gives `G` itself: the same coordinate
sequences and the same has-Z and has-M flags. -/
theorem fromGeos_asGeos_roundTrip (G : QgsAbstractGeometry) (precision : ℚ)
    (hp : precision ≤ 0) (h : G.wellFormedNoM) :
    fromGeos (asGeos (some G) precision) = some G := by
  match G, h with
  | .point p, h => exact point_roundTrip p precision hp h
  | .lineString l, h => exact lineString_roundTrip l precision hp h
  | .polygon p, h => exact polygon_roundTrip p precision hp h
  | .collection .MultiPoint hasZ hasM geoms, h =>
    obtain ⟨hM, hempty, hmem⟩ := h
    obtain ⟨ps, rfl, hps⟩ := exists_map_of_forall QgsAbstractGeometry.point
      (fun p => p.mValue = none ∧ p.is3D = hasZ) geoms hmem
    subst hM
    exact multiPoint_roundTrip hasZ ps precision hp (fun e => hempty (by simp [e])) hps
  | .collection .MultiLineString hasZ hasM geoms, h =>
    obtain ⟨hM, hempty, hmem⟩ := h
    obtain ⟨ls, rfl, hls⟩ := exists_map_of_forall QgsAbstractGeometry.lineString
      (fun l => l.wellFormedNoM ∧ l.is3D = hasZ) geoms hmem
    subst hM
    exact multiLineString_roundTrip hasZ ls precision hp (fun e => hempty (by simp [e])) hls
  | .collection .MultiPolygon hasZ hasM geoms, h =>
    obtain ⟨hM, hempty, hmem⟩ := h
    obtain ⟨ps, rfl, hps⟩ := exists_map_of_forall QgsAbstractGeometry.polygon
      (fun p => p.wellFormedNoM ∧ p.is3D = hasZ) geoms hmem
    subst hM
    exact multiPolygon_roundTrip hasZ ps precision hp (fun e => hempty (by simp [e])) hps
  | .collection .GeometryCollection _ _ _, h => exact absurd h (by simp [QgsAbstractGeometry.wellFormedNoM])

/-- The list `memberGeometries` is what the two calls of the C API deliver. -/
theorem memberGeometries_eq (g : GEOSGeometry) :
    (List.range (GEOSGetNumGeometries_r g)).filterMap (GEOSGetGeometryN_r g)
      = g.memberGeometries := by
  cases g with
  | collection t geoms =>
    have h := filterMap_range_getElem (fun x : GEOSGeometry => some x) id geoms (fun _ _ => rfl)
    simp only [List.map_id] at h
    simp only [GEOSGetNumGeometries_r, GEOSGeometry.memberGeometries]
    refine Eq.trans ?_ h
    apply List.filterMap_congr
    intro i _
    cases hi : geoms[i]? <;> simp [GEOSGetGeometryN_r, hi]
  | point cs => rfl
  | lineString cs => rfl
  | linearRing cs => rfl
  | polygon shell holes => rfl

/-! ## Subdivision -/

namespace SubdivideTrace

theorem mem_andThen {first next : SubdivideTrace} {e : EmitReason × GEOSGeometry}
    (h : e ∈ (first.andThen next).parts) : e ∈ first.parts ∨ e ∈ next.parts := by
  unfold andThen at h
  split at h
  · exact Or.inl h
  · simpa using h

theorem mem_foldl_andThen {α : Type} (f : α → SubdivideTrace) (l : List α) :
    ∀ (init : SubdivideTrace) (e : EmitReason × GEOSGeometry),
      e ∈ (l.foldl (fun trace a => trace.andThen (f a)) init).parts →
        e ∈ init.parts ∨ ∃ a ∈ l, e ∈ (f a).parts := by
  induction l with
  | nil => intro init e h; exact Or.inl h
  | cons a l ih =>
    intro init e h
    simp only [List.foldl_cons] at h
    rcases ih _ e h with h1 | ⟨b, hb, hbe⟩
    · rcases mem_andThen h1 with h2 | h2
      · exact Or.inl h2
      · exact Or.inr ⟨a, by simp, h2⟩
    · exact Or.inr ⟨b, by simp [hb], hbe⟩

end SubdivideTrace

namespace QgsGeos

theorem subdivideRecursive_degenerate (ctxt : GEOSContextHandle_t) (currentPart : GEOSGeometry)
    (maxNodes depth : Int) (clipRect : QgsRectangle) (hdeg : isDegenerate clipRect = true) :
    subdivideRecursive ctxt currentPart maxNodes depth clipRect
      = if GEOSGeomTypeId_r currentPart = GEOS_POINT then
          SubdivideTrace.emit .degenerateRect currentPart
        else SubdivideTrace.nothing := by
  unfold isDegenerate at hdeg
  rw [subdivideRecursive.eq_def]
  simp only [hdeg, if_true]

theorem subdivideRecursive_members (ctxt : GEOSContextHandle_t) (currentPart : GEOSGeometry)
    (maxNodes depth : Int) (clipRect : QgsRectangle) (hdeg : isDegenerate clipRect = false)
    (hmulti : isSubdividedByMembers (GEOSGeomTypeId_r currentPart) = true) :
    subdivideRecursive ctxt currentPart maxNodes depth clipRect
      = currentPart.memberGeometries.foldl
          (fun trace member =>
            trace.andThen (subdivideRecursive ctxt member maxNodes depth clipRect))
          SubdivideTrace.nothing := by
  unfold isDegenerate at hdeg
  rw [subdivideRecursive.eq_def]
  simp only [hdeg, hmulti, if_false, dif_pos, Bool.false_eq_true]
  exact List.foldl_attach currentPart.memberGeometries
    (fun trace member => trace.andThen (subdivideRecursive ctxt member maxNodes depth clipRect))
    SubdivideTrace.nothing

theorem subdivideRecursive_single (ctxt : GEOSContextHandle_t) (currentPart : GEOSGeometry)
    (maxNodes depth : Int) (clipRect : QgsRectangle) (hdeg : isDegenerate clipRect = false)
    (hmulti : isSubdividedByMembers (GEOSGeomTypeId_r currentPart) = false) :
    subdivideRecursive ctxt currentPart maxNodes depth clipRect
      = if depth > 50 then SubdivideTrace.emit .depthExceeded currentPart
        else if (GEOSGetNumCoordinates_r currentPart : Int) = 0 then SubdivideTrace.nothing
        else if (GEOSGetNumCoordinates_r currentPart : Int) < maxNodes then
          SubdivideTrace.emit .belowThreshold currentPart
        else
          match clipByRect ctxt currentPart (halfClipRects clipRect).1,
              clipByRect ctxt currentPart (halfClipRects clipRect).2 with
          | .ok clipPart1, .ok clipPart2 =>
              (subdivideRecursive ctxt clipPart1 maxNodes (depth + 1) (halfClipRects clipRect).1).andThen
                (subdivideRecursive ctxt clipPart2 maxNodes (depth + 1) (halfClipRects clipRect).2)
          | _, _ => SubdivideTrace.exception := by
  unfold isDegenerate at hdeg
  rw [subdivideRecursive.eq_def]
  simp only [hdeg, hmulti, if_false, dif_neg, Bool.false_eq_true, not_false_eq_true]

end QgsGeos

theorem allMembers_iff (geoms : List GEOSGeometry) :
    GEOSGeometry.multiPointsOfPoints.allMembers geoms = true
      ↔ ∀ g ∈ geoms, g.multiPointsOfPoints = true := by
  induction geoms with
  | nil => simp [GEOSGeometry.multiPointsOfPoints.allMembers]
  | cons g gs ih => simp [GEOSGeometry.multiPointsOfPoints.allMembers, ih]

theorem multiPointsOfPoints_member (currentPart : GEOSGeometry)
    (ht : QgsGeos.isSubdividedByMembers (GEOSGeomTypeId_r currentPart) = true)
    (h : currentPart.multiPointsOfPoints = true) :
    ∀ g ∈ currentPart.memberGeometries, g.multiPointsOfPoints = true := by
  cases currentPart with
  | collection t geoms =>
    cases t with
    | multiPoint =>
      simp [QgsGeos.isSubdividedByMembers, GEOSGeomTypeId_r, GEOSCollectionType.typeId] at ht
    | multiLineString =>
      simp only [GEOSGeometry.multiPointsOfPoints] at h
      exact (allMembers_iff geoms).mp h
    | multiPolygon =>
      simp only [GEOSGeometry.multiPointsOfPoints] at h
      exact (allMembers_iff geoms).mp h
    | geometryCollection =>
      simp only [GEOSGeometry.multiPointsOfPoints] at h
      exact (allMembers_iff geoms).mp h
  | point cs => simp [QgsGeos.isSubdividedByMembers, GEOSGeomTypeId_r] at ht
  | lineString cs => simp [QgsGeos.isSubdividedByMembers, GEOSGeomTypeId_r] at ht
  | linearRing cs => simp [QgsGeos.isSubdividedByMembers, GEOSGeomTypeId_r] at ht
  | polygon shell holes => simp [QgsGeos.isSubdividedByMembers, GEOSGeomTypeId_r] at ht

theorem subdivideRecursive_emitted (ctxt : GEOSContextHandle_t)
    (hclip : ∀ part x0 y0 x1 y1 c,
      ctxt.GEOSClipByRect_r part x0 y0 x1 y1 = .ok c → c.multiPointsOfPoints = true)
    (currentPart : GEOSGeometry) (maxNodes depth : Int) (clipRect : QgsRectangle) :
    currentPart.multiPointsOfPoints = true →
      ∀ e ∈ (QgsGeos.subdivideRecursive ctxt currentPart maxNodes depth clipRect).parts,
        EmittedAsInSource maxNodes e := by
  induction currentPart, maxNodes, depth, clipRect using QgsGeos.subdivideRecursive.induct ctxt with
  | case1 currentPart maxNodes depth clipRect hdeg hpt =>
    intro hreg e he
    rw [QgsGeos.subdivideRecursive_degenerate _ _ _ _ _ hdeg] at he
    simp only [hpt, if_true, SubdivideTrace.emit, List.mem_singleton] at he
    subst he
    exact ⟨fun _ => hpt, by simp, by simp, hreg⟩
  | case2 currentPart maxNodes depth clipRect hdeg hpt =>
    intro hreg e he
    rw [QgsGeos.subdivideRecursive_degenerate _ _ _ _ _ hdeg] at he
    simp [hpt, SubdivideTrace.nothing] at he
  | case3 currentPart maxNodes depth clipRect hdeg hmulti ih =>
    intro hreg e he
    rw [QgsGeos.subdivideRecursive_members _ _ _ _ _ (by simpa [QgsGeos.isDegenerate] using hdeg)
      hmulti] at he
    rcases SubdivideTrace.mem_foldl_andThen
      (fun member => QgsGeos.subdivideRecursive ctxt member maxNodes depth clipRect)
      currentPart.memberGeometries _ e he with h0 | ⟨member, hmem, hm⟩
    · simp [SubdivideTrace.nothing] at h0
    · exact ih ⟨member, hmem⟩ (multiPointsOfPoints_member currentPart hmulti hreg member hmem) e hm
  | case4 currentPart maxNodes depth clipRect hdeg hmulti hdepth =>
    intro hreg e he
    rw [QgsGeos.subdivideRecursive_single _ _ _ _ _ (by simpa [QgsGeos.isDegenerate] using hdeg)
      (by simpa using hmulti)] at he
    simp only [hdepth, if_true, SubdivideTrace.emit, List.mem_singleton] at he
    subst he
    exact ⟨by simp, by simp, fun _ => by simpa using hmulti, hreg⟩
  | case5 currentPart maxNodes depth clipRect hdeg hmulti hdepth vertexCount hzero =>
    intro hreg e he
    rw [QgsGeos.subdivideRecursive_single _ _ _ _ _ (by simpa [QgsGeos.isDegenerate] using hdeg)
      (by simpa using hmulti)] at he
    simp only [vertexCount] at hzero
    simp [hdepth, hzero, SubdivideTrace.nothing] at he
  | case6 currentPart maxNodes depth clipRect hdeg hmulti hdepth vertexCount hzero hlt =>
    intro hreg e he
    rw [QgsGeos.subdivideRecursive_single _ _ _ _ _ (by simpa [QgsGeos.isDegenerate] using hdeg)
      (by simpa using hmulti)] at he
    simp only [vertexCount] at hzero hlt
    simp only [hdepth, hzero, hlt, if_true, if_false, SubdivideTrace.emit, List.mem_singleton] at he
    subst he
    refine ⟨by simp, fun _ => ⟨by simpa using hmulti, ?_, hlt⟩, by simp, hreg⟩
    have : GEOSGetNumCoordinates_r currentPart ≠ 0 := by
      intro h0; apply hzero; simp [h0]
    exact Nat.pos_of_ne_zero this
  | case7 currentPart maxNodes depth clipRect hdeg hmulti hdepth vertexCount hzero hlt half1 half2
      clipPart1 clipPart2 hc2 hc1 ih1 ih2 =>
    intro hreg e he
    rw [QgsGeos.subdivideRecursive_single _ _ _ _ _ (by simpa [QgsGeos.isDegenerate] using hdeg)
      (by simpa using hmulti)] at he
    simp only [vertexCount] at hzero hlt
    simp only [half1, half2] at hc1 hc2 ih1 ih2
    simp only [hdepth, hzero, hlt, if_false, hc1, hc2] at he
    rcases SubdivideTrace.mem_andThen he with h1 | h2
    · exact ih1 (hclip _ _ _ _ _ _ hc1) e h1
    · exact ih2 (hclip _ _ _ _ _ _ hc2) e h2
  | case8 currentPart maxNodes depth clipRect hdeg hmulti hdepth vertexCount hzero hlt half1 half2
      hfail =>
    intro hreg e he
    rw [QgsGeos.subdivideRecursive_single _ _ _ _ _ (by simpa [QgsGeos.isDegenerate] using hdeg)
      (by simpa using hmulti)] at he
    simp only [vertexCount] at hzero hlt
    simp only [half1, half2] at hfail
    simp only [hdepth, hzero, hlt, if_false] at he
    simp [SubdivideTrace.exception] at he

/-! ### Vertex counts across `fromGeos` -/

theorem ofVectors_numPoints (x y z m : List ℚ) :
    (QgsLineString.ofVectors x y z m).numPoints = min x.length y.length := by
  simp only [QgsLineString.ofVectors, QgsLineString.numPoints, List.length_take]
  omega

theorem lineOfSequence_numPoints (cs : GEOSCoordSequence) (hasZ hasM : Bool) :
    (QgsGeos.lineOfSequence cs hasZ hasM).numPoints = cs.coords.length := by
  simp [QgsGeos.lineOfSequence, ofVectors_numPoints, GEOSCoordSeq_getSize_r]

theorem sequenceToLinestring_numPoints (geos : GEOSGeometry) (hasZ hasM : Bool) (cs : GEOSCoordSequence)
    (hcs : GEOSGeom_getCoordSeq_r geos = some cs) :
    ∃ l, QgsGeos.sequenceToLinestring geos hasZ hasM = .ok l ∧ l.numPoints = cs.coords.length := by
  simp only [QgsGeos.sequenceToLinestring, hcs]
  exact ⟨_, rfl, lineOfSequence_numPoints cs hasZ hasM⟩

/-- A result of `fromGeos` is a result of the conversion that did not raise. -/
theorem fromGeos_eq_some (g : GEOSGeometry) (part : QgsAbstractGeometry) :
    QgsGeos.fromGeos (some g) = some part ↔ QgsGeos.fromGeosOf g = .ok (some part) := by
  simp only [QgsGeos.fromGeos]
  generalize QgsGeos.fromGeosOf g = r
  cases r <;> simp

theorem sumCoordinates_append (l : List QgsAbstractGeometry) (a : QgsAbstractGeometry) :
    QgsAbstractGeometry.nCoordinates.sumCoordinates (l ++ [a])
      = QgsAbstractGeometry.nCoordinates.sumCoordinates l + a.nCoordinates := by
  induction l with
  | nil => simp [QgsAbstractGeometry.nCoordinates.sumCoordinates]
  | cons b l ih =>
    show QgsAbstractGeometry.nCoordinates.sumCoordinates (b :: (l ++ [a])) = _
    simp only [QgsAbstractGeometry.nCoordinates.sumCoordinates, ih]
    omega

theorem interiorRings_numPoints (holes : List GEOSCoordSequence) (z m : Bool) :
    ((holes.map (fun hole => QgsGeos.lineOfSequence hole z m)).map QgsLineString.numPoints)
      = holes.map (fun h => h.coords.length) := by
  rw [List.map_map]
  apply List.map_congr_left
  intro hole _
  exact lineOfSequence_numPoints hole z m

theorem fromGeosPolygon_nCoordinates (shell : GEOSCoordSequence) (holes : List GEOSCoordSequence)
    (p : QgsPolygonV2) (h : QgsGeos.fromGeosPolygon (.polygon shell holes) = .ok (some p)) :
    (QgsAbstractGeometry.polygon p).nCoordinates
      = shell.coords.length + (holes.map (fun h => h.coords.length)).sum := by
  rw [fromGeosPolygon_polygon] at h
  simp only [Except.ok.injEq, Option.some.injEq] at h
  subst h
  simp only [QgsAbstractGeometry.nCoordinates, QgsPolygonV2.setInteriorRings,
    QgsPolygonV2.setExteriorRing, QgsPolygonV2.empty, lineOfSequence_numPoints,
    interiorRings_numPoints]

theorem multiPoint_fold_nCoordinates (z m : Bool) (geoms : List GEOSGeometry)
    (hall : geoms.all GEOSGeometry.isSinglePoint = true) :
    ∀ zz mm acc,
      (geoms.foldl
        (fun multiPoint part =>
          QgsAbstractGeometry.addGeometry multiPoint
            (some (.point (QgsGeos.coordSeqPoint (GEOSGeom_getCoordSeq_r part) 0 z m))))
        (QgsAbstractGeometry.collection .MultiPoint zz mm acc)).nCoordinates
      = (QgsAbstractGeometry.collection .MultiPoint zz mm acc).nCoordinates + geoms.length := by
  induction geoms with
  | nil => intro zz mm acc; simp
  | cons g gs ih =>
    intro zz mm acc
    simp only [List.all_cons, Bool.and_eq_true] at hall
    obtain ⟨hg, hgs⟩ := hall
    cases g with
    | point cs =>
      rw [List.foldl_cons]
      change (List.foldl _ (QgsAbstractGeometry.collection .MultiPoint _ _
        (acc ++ [.point (QgsGeos.coordSeqPoint (some cs) 0 z m)])) gs).nCoordinates = _
      rw [ih hgs]
      simp only [QgsAbstractGeometry.nCoordinates, sumCoordinates_append, List.length_cons]
      omega
    | lineString cs => simp [GEOSGeometry.isSinglePoint] at hg
    | linearRing cs => simp [GEOSGeometry.isSinglePoint] at hg
    | polygon shell holes => simp [GEOSGeometry.isSinglePoint] at hg
    | collection t geoms => simp [GEOSGeometry.isSinglePoint] at hg

theorem sumCoordinates_singlePoints (geoms : List GEOSGeometry)
    (hall : geoms.all GEOSGeometry.isSinglePoint = true) :
    GEOSGetNumCoordinates_r.sumCoordinates geoms = geoms.length := by
  induction geoms with
  | nil => rfl
  | cons g gs ih =>
    simp only [List.all_cons, Bool.and_eq_true] at hall
    obtain ⟨hg, hgs⟩ := hall
    cases g with
    | point cs =>
      simp only [GEOSGeometry.isSinglePoint, decide_eq_true_eq] at hg
      simp only [GEOSGetNumCoordinates_r.sumCoordinates, GEOSGetNumCoordinates_r, hg, ih hgs,
        List.length_cons]
      omega
    | lineString cs => simp [GEOSGeometry.isSinglePoint] at hg
    | linearRing cs => simp [GEOSGeometry.isSinglePoint] at hg
    | polygon shell holes => simp [GEOSGeometry.isSinglePoint] at hg
    | collection t geoms => simp [GEOSGeometry.isSinglePoint] at hg

/-- The number of vertices of the abstract form of a single part: one for a point, the number
of coordinates of the native part otherwise. -/
theorem fromGeosOf_nCoordinates (g : GEOSGeometry) (part : QgsAbstractGeometry)
    (hreg : g.multiPointsOfPoints = true)
    (hsingle : QgsGeos.isSubdividedByMembers (GEOSGeomTypeId_r g) = false)
    (h : QgsGeos.fromGeos (some g) = some part) :
    part.nCoordinates = if GEOSGeomTypeId_r g = GEOS_POINT then 1 else GEOSGetNumCoordinates_r g := by
  rw [fromGeos_eq_some] at h
  cases g with
  | point cs =>
    simp only [QgsGeos.fromGeosOf, Except.ok.injEq, Option.some.injEq] at h
    subst h
    simp [QgsAbstractGeometry.nCoordinates, GEOSGeomTypeId_r]
  | lineString cs =>
    obtain ⟨l, hl, hn⟩ := sequenceToLinestring_numPoints (.lineString cs)
      (decide (GEOSGeom_getCoordinateDimension_r (.lineString cs) = 3))
      (decide (GEOSGeom_getDimensions_r (.lineString cs)
        - ((GEOSGeom_getCoordinateDimension_r (.lineString cs) : Nat) : Int) = 1)) cs rfl
    simp only [QgsGeos.fromGeosOf, hl, Except.ok.injEq, Option.some.injEq] at h
    subst h
    simp [QgsAbstractGeometry.nCoordinates, GEOSGeomTypeId_r, GEOSGetNumCoordinates_r, hn]
  | linearRing cs => simp [QgsGeos.fromGeosOf] at h
  | polygon shell holes =>
    simp only [QgsGeos.fromGeosOf, fromGeosPolygon_polygon, Option.map_some', Except.ok.injEq,
      Option.some.injEq] at h
    subst h
    simp [fromGeosPolygon_nCoordinates shell holes _ (fromGeosPolygon_polygon shell holes),
      GEOSGeomTypeId_r, GEOSGetNumCoordinates_r]
  | collection t geoms =>
    cases t with
    | multiPoint =>
      simp only [GEOSGeometry.multiPointsOfPoints] at hreg
      have hseq : ∀ g ∈ geoms, (GEOSGeom_getCoordSeq_r g).isSome = true := by
        intro g hg
        have hsp := List.all_eq_true.mp hreg g hg
        cases g <;> simp [GEOSGeometry.isSinglePoint] at hsp <;> rfl
      simp only [QgsGeos.fromGeosOf, multiPoint_loop _ _ geoms hseq, Except.ok.injEq,
        Option.some.injEq] at h
      subst h
      rw [multiPoint_fold_nCoordinates _ _ geoms hreg]
      simp [QgsAbstractGeometry.nCoordinates, QgsAbstractGeometry.nCoordinates.sumCoordinates,
        GEOSGeomTypeId_r, GEOSCollectionType.typeId, GEOSGetNumCoordinates_r,
        sumCoordinates_singlePoints geoms hreg]
    | multiLineString =>
      simp [QgsGeos.isSubdividedByMembers, GEOSGeomTypeId_r, GEOSCollectionType.typeId] at hsingle
    | multiPolygon =>
      simp [QgsGeos.isSubdividedByMembers, GEOSGeomTypeId_r, GEOSCollectionType.typeId] at hsingle
    | geometryCollection =>
      simp [QgsGeos.isSubdividedByMembers, GEOSGeomTypeId_r, GEOSCollectionType.typeId] at hsingle

/-! ### The collection returned by `subdivide` -/

theorem addGeometry_geometries (c : QgsAbstractGeometry) (g : Option QgsAbstractGeometry)
    (part : QgsAbstractGeometry) (h : part ∈ (c.addGeometry g).geometries) :
    part ∈ c.geometries ∨ g = some part := by
  unfold QgsAbstractGeometry.addGeometry at h
  split at h <;>
    first
    | exact Or.inl h
    | (simp only [QgsAbstractGeometry.geometries, List.mem_append, List.mem_singleton] at h
       rcases h with h | h
       · exact Or.inl h
       · exact Or.inr (by rw [h]))

theorem foldl_addGeometry_geometries (es : List (EmitReason × GEOSGeometry)) :
    ∀ (c : QgsAbstractGeometry) (part : QgsAbstractGeometry),
      part ∈ (es.foldl (fun parts e => parts.addGeometry (QgsGeos.fromGeos (some e.2))) c).geometries →
        part ∈ c.geometries ∨ ∃ e ∈ es, QgsGeos.fromGeos (some e.2) = some part := by
  induction es with
  | nil => intro c part h; exact Or.inl h
  | cons e es ih =>
    intro c part h
    simp only [List.foldl_cons] at h
    rcases ih _ part h with h1 | ⟨e2, he2, hp⟩
    · rcases addGeometry_geometries _ _ _ h1 with h2 | h2
      · exact Or.inl h2
      · exact Or.inr ⟨e, by simp, h2⟩
    · exact Or.inr ⟨e2, by simp [he2], hp⟩

theorem createCollectionOfType_geometries (g : QgsAbstractGeometry) :
    (createCollectionOfType g).geometries = [] := by
  cases g <;> rfl

/-! ### Termination -/

theorem exists_uniform_bound {α : Type} (P : α → Nat → Prop) (l : List α)
    (h : ∀ a ∈ l, ∃ f, ∀ n, f ≤ n → P a n) : ∃ F, ∀ a ∈ l, ∀ n, F ≤ n → P a n := by
  induction l with
  | nil => exact ⟨0, by simp⟩
  | cons a l ih =>
    obtain ⟨f, hf⟩ := h a (by simp)
    obtain ⟨F, hF⟩ := ih (fun b hb => h b (by simp [hb]))
    refine ⟨max f F, ?_⟩
    intro b hb n hn
    rcases List.mem_cons.mp hb with rfl | hb
    · exact hf n (le_trans (le_max_left _ _) hn)
    · exact hF b hb n (le_trans (le_max_right _ _) hn)

theorem foldl_fuel_members (run : GEOSGeometry → Option SubdivideTrace)
    (total : GEOSGeometry → SubdivideTrace) (l : List GEOSGeometry)
    (h : ∀ g ∈ l, run g = some (total g)) :
    ∀ init : SubdivideTrace,
      l.foldl
        (fun trace member =>
          match trace, run member with
          | some trace, some next => some (trace.andThen next)
          | _, _ => none)
        (some init)
      = some (l.foldl (fun trace member => trace.andThen (total member)) init) := by
  induction l with
  | nil => intro init; rfl
  | cons g gs ih =>
    intro init
    simp only [List.foldl_cons, h g (by simp)]
    exact ih (fun x hx => h x (by simp [hx])) _

/-- With enough fuel the bounded run of `subdivideRecursive` ends, with the trace of the total
function. -/
theorem subdivideRecursiveFuel_enough (ctxt : GEOSContextHandle_t) (currentPart : GEOSGeometry)
    (maxNodes depth : Int) (clipRect : QgsRectangle) :
    ∃ fuel, ∀ n, fuel ≤ n →
      QgsGeos.subdivideRecursiveFuel ctxt n currentPart maxNodes depth clipRect
        = some (QgsGeos.subdivideRecursive ctxt currentPart maxNodes depth clipRect) := by
  induction currentPart, maxNodes, depth, clipRect using QgsGeos.subdivideRecursive.induct ctxt with
  | case1 currentPart maxNodes depth clipRect hdeg hpt =>
    refine ⟨1, fun n hn => ?_⟩
    obtain ⟨k, rfl⟩ : ∃ k, n = k + 1 := ⟨n - 1, by omega⟩
    rw [QgsGeos.subdivideRecursive_degenerate _ _ _ _ _ hdeg]
    simp [QgsGeos.subdivideRecursiveFuel, hdeg, hpt]
  | case2 currentPart maxNodes depth clipRect hdeg hpt =>
    refine ⟨1, fun n hn => ?_⟩
    obtain ⟨k, rfl⟩ : ∃ k, n = k + 1 := ⟨n - 1, by omega⟩
    rw [QgsGeos.subdivideRecursive_degenerate _ _ _ _ _ hdeg]
    simp [QgsGeos.subdivideRecursiveFuel, hdeg, hpt]
  | case3 currentPart maxNodes depth clipRect hdeg hmulti ih =>
    obtain ⟨F, hF⟩ := exists_uniform_bound
      (fun member n => QgsGeos.subdivideRecursiveFuel ctxt n member maxNodes depth clipRect
        = some (QgsGeos.subdivideRecursive ctxt member maxNodes depth clipRect))
      currentPart.memberGeometries (fun member hmem => ih ⟨member, hmem⟩)
    refine ⟨F + 1, fun n hn => ?_⟩
    obtain ⟨k, rfl⟩ : ∃ k, n = k + 1 := ⟨n - 1, by omega⟩
    rw [QgsGeos.subdivideRecursive_members _ _ _ _ _ (by simpa [QgsGeos.isDegenerate] using hdeg)
      hmulti]
    simp only [QgsGeos.subdivideRecursiveFuel, hdeg, hmulti, if_true, if_false]
    exact foldl_fuel_members _ _ _ (fun g hg => hF g hg k (by omega)) _
  | case4 currentPart maxNodes depth clipRect hdeg hmulti hdepth =>
    refine ⟨1, fun n hn => ?_⟩
    obtain ⟨k, rfl⟩ : ∃ k, n = k + 1 := ⟨n - 1, by omega⟩
    rw [QgsGeos.subdivideRecursive_single _ _ _ _ _ (by simpa [QgsGeos.isDegenerate] using hdeg)
      (by simpa using hmulti)]
    simp [QgsGeos.subdivideRecursiveFuel, hdeg, hmulti, hdepth]
  | case5 currentPart maxNodes depth clipRect hdeg hmulti hdepth vertexCount hzero =>
    refine ⟨1, fun n hn => ?_⟩
    obtain ⟨k, rfl⟩ : ∃ k, n = k + 1 := ⟨n - 1, by omega⟩
    rw [QgsGeos.subdivideRecursive_single _ _ _ _ _ (by simpa [QgsGeos.isDegenerate] using hdeg)
      (by simpa using hmulti)]
    simp only [vertexCount] at hzero
    simp [QgsGeos.subdivideRecursiveFuel, hdeg, hmulti, hdepth, hzero]
  | case6 currentPart maxNodes depth clipRect hdeg hmulti hdepth vertexCount hzero hlt =>
    refine ⟨1, fun n hn => ?_⟩
    obtain ⟨k, rfl⟩ : ∃ k, n = k + 1 := ⟨n - 1, by omega⟩
    rw [QgsGeos.subdivideRecursive_single _ _ _ _ _ (by simpa [QgsGeos.isDegenerate] using hdeg)
      (by simpa using hmulti)]
    simp only [vertexCount] at hzero hlt
    simp [QgsGeos.subdivideRecursiveFuel, hdeg, hmulti, hdepth, hzero, hlt]
  | case7 currentPart maxNodes depth clipRect hdeg hmulti hdepth vertexCount hzero hlt half1 half2
      clipPart1 clipPart2 hc2 hc1 ih1 ih2 =>
    obtain ⟨f1, hf1⟩ := ih1
    obtain ⟨f2, hf2⟩ := ih2
    refine ⟨max f1 f2 + 1, fun n hn => ?_⟩
    obtain ⟨k, rfl⟩ : ∃ k, n = k + 1 := ⟨n - 1, by omega⟩
    have hk1 : f1 ≤ k := le_trans (le_max_left f1 f2) (by omega)
    have hk2 : f2 ≤ k := le_trans (le_max_right f1 f2) (by omega)
    rw [QgsGeos.subdivideRecursive_single _ _ _ _ _ (by simpa [QgsGeos.isDegenerate] using hdeg)
      (by simpa using hmulti)]
    simp only [vertexCount] at hzero hlt
    simp only [half1, half2] at hc1 hc2 hf1 hf2
    simp [QgsGeos.subdivideRecursiveFuel, hdeg, hmulti, hdepth, hzero, hlt, hc1, hc2,
      hf1 k hk1, hf2 k hk2]
  | case8 currentPart maxNodes depth clipRect hdeg hmulti hdepth vertexCount hzero hlt half1 half2
      hfail =>
    refine ⟨1, fun n hn => ?_⟩
    obtain ⟨k, rfl⟩ : ∃ k, n = k + 1 := ⟨n - 1, by omega⟩
    rw [QgsGeos.subdivideRecursive_single _ _ _ _ _ (by simpa [QgsGeos.isDegenerate] using hdeg)
      (by simpa using hmulti)]
    simp only [vertexCount] at hzero hlt
    simp only [half1, half2] at hfail
    simp [QgsGeos.subdivideRecursiveFuel, hdeg, hmulti, hdepth, hzero, hlt]

/-! ### The claims on subdivision -/

theorem fiveVertex_boundingBox :
    (QgsAbstractGeometry.lineString fiveVertexLine).boundingBox
      = { xMinimum := 0, yMinimum := 0, xMaximum := 4, yMaximum := 1 } := by
  norm_num [QgsAbstractGeometry.boundingBox, QgsAbstractGeometry.vertices, fiveVertexLine]

theorem fiveVertex_notDegenerate :
    QgsGeos.isDegenerate { xMinimum := 0, yMinimum := 0, xMaximum := 4, yMaximum := 1 } = false := by
  decide!

theorem fiveVertex_trace (ctxt : GEOSContextHandle_t) (maxNodes : Int) (h : 5 < maxNodes) :
    QgsGeos.subdivideRecursive ctxt fiveVertexLineGeos maxNodes 0
        { xMinimum := 0, yMinimum := 0, xMaximum := 4, yMaximum := 1 }
      = SubdivideTrace.emit .belowThreshold fiveVertexLineGeos := by
  rw [QgsGeos.subdivideRecursive_single _ _ _ _ _ fiveVertex_notDegenerate (by rfl)]
  simp [fiveVertexLineGeos, GEOSGetNumCoordinates_r, h]

theorem fiveVertex_fromGeos :
    QgsGeos.fromGeos (some fiveVertexLineGeos) = some (.lineString fiveVertexLine) := by
  simp [fiveVertexLine, fiveVertexLineGeos, QgsGeos.fromGeos, QgsGeos.fromGeosOf,
    QgsGeos.sequenceToLinestring, QgsGeos.lineOfSequence, GEOSGeom_getCoordSeq_r, GEOSCoordSeq_getSize_r,
    GEOSCoordSeq_getX_r, GEOSCoordSeq_getY_r, GEOSGeom_getCoordinateDimension_r,
    GEOSGeom_getDimensions_r, QgsLineString.ofVectors, List.range, List.range.loop]

theorem fiveVertex_subdivide (ctxt : GEOSContextHandle_t) (maxNodes : Int) (h : maxNodes ≤ 8) :
    QgsGeos.subdivide ctxt fiveVertexEngine maxNodes
      = some (.collection .MultiLineString false false [.lineString fiveVertexLine]) := by
  have hmax : max maxNodes 8 = 8 := max_eq_right h
  simp only [QgsGeos.subdivide, fiveVertexEngine, fiveVertex_boundingBox, hmax]
  rw [fiveVertex_trace ctxt 8 (by decide)]
  simp only [SubdivideTrace.emit, Bool.false_eq_true, if_false, List.foldl_cons, List.foldl_nil,
    fiveVertex_fromGeos]
  simp [createCollectionOfType, QgsAbstractGeometry.addGeometry, fiveVertexLine]

theorem nineVertex_boundingBox :
    (QgsAbstractGeometry.lineString nineVertexLine).boundingBox
      = { xMinimum := 0, yMinimum := 0, xMaximum := 8, yMaximum := 1 } := by
  norm_num [QgsAbstractGeometry.boundingBox, QgsAbstractGeometry.vertices, nineVertexLine]

theorem nineVertex_halves :
    QgsGeos.halfClipRects { xMinimum := 0, yMinimum := 0, xMaximum := 8, yMaximum := 1 }
      = ({ xMinimum := 0, yMinimum := 0, xMaximum := 4, yMaximum := 1 },
         { xMinimum := 4, yMinimum := 0, xMaximum := 8, yMaximum := 1 }) := by
  decide!

theorem nineVertex_notDegenerate (x0 x1 : ℚ) (h : 4 ≤ x1 - x0) :
    QgsGeos.isDegenerate { xMinimum := x0, yMinimum := 0, xMaximum := x1, yMaximum := 1 } = false :=
  isDegenerate_of_wide _ h

theorem nineVertex_trace (maxNodes : Int) (h5 : 5 < maxNodes) (h9 : maxNodes ≤ 9) :
    QgsGeos.subdivideRecursive cuttingContext nineVertexLineGeos maxNodes 0
        { xMinimum := 0, yMinimum := 0, xMaximum := 8, yMaximum := 1 }
      = { parts := [(EmitReason.belowThreshold, leftPartGeos),
                    (EmitReason.belowThreshold, rightPartGeos)], raised := false } := by
  rw [QgsGeos.subdivideRecursive_single _ _ _ _ _ (nineVertex_notDegenerate 0 8 (by norm_num))
    (by rfl)]
  have hc : (GEOSGetNumCoordinates_r nineVertexLineGeos : Int) = 9 := by rfl
  simp only [hc, nineVertex_halves]
  have h1 : QgsGeos.clipByRect cuttingContext nineVertexLineGeos
      { xMinimum := 0, yMinimum := 0, xMaximum := 4, yMaximum := 1 } = .ok leftPartGeos := by
    simp [QgsGeos.clipByRect, cuttingContext]
  have h2 : QgsGeos.clipByRect cuttingContext nineVertexLineGeos
      { xMinimum := 4, yMinimum := 0, xMaximum := 8, yMaximum := 1 } = .ok rightPartGeos := by
    norm_num [QgsGeos.clipByRect, cuttingContext]
  rw [h1, h2]
  have hl : (GEOSGetNumCoordinates_r leftPartGeos : Int) = 5 := by rfl
  have hr : (GEOSGetNumCoordinates_r rightPartGeos : Int) = 5 := by rfl
  have h9 : ¬ (9 < maxNodes) := by omega
  have hleft := QgsGeos.subdivideRecursive_single cuttingContext leftPartGeos maxNodes (0 + 1) _
    (nineVertex_notDegenerate 0 4 (by norm_num)) (by rfl)
  have hright := QgsGeos.subdivideRecursive_single cuttingContext rightPartGeos maxNodes (0 + 1) _
    (nineVertex_notDegenerate 4 8 (by norm_num)) (by rfl)
  simp [hl, h5] at hleft
  simp [hr, h5] at hright
  simp [h9, hleft, hright, SubdivideTrace.andThen, SubdivideTrace.emit]

theorem nineVertex_fromGeos :
    QgsGeos.fromGeos (some leftPartGeos) = some (.lineString leftPartLine)
      ∧ QgsGeos.fromGeos (some rightPartGeos) = some (.lineString rightPartLine) := by
  constructor <;>
  simp [leftPartLine, leftPartGeos, rightPartLine, rightPartGeos, QgsGeos.fromGeos,
    QgsGeos.fromGeosOf,
    QgsGeos.sequenceToLinestring, QgsGeos.lineOfSequence, GEOSGeom_getCoordSeq_r, GEOSCoordSeq_getSize_r,
    GEOSCoordSeq_getX_r, GEOSCoordSeq_getY_r, GEOSGeom_getCoordinateDimension_r,
    GEOSGeom_getDimensions_r, QgsLineString.ofVectors, List.range, List.range.loop]

theorem nineVertex_subdivide :
    QgsGeos.subdivide cuttingContext nineVertexEngine 3
      = some (.collection .MultiLineString false false
          [.lineString leftPartLine, .lineString rightPartLine]) := by
  have hmax : max (3 : Int) 8 = 8 := by decide
  simp only [QgsGeos.subdivide, nineVertexEngine, nineVertex_boundingBox, hmax]
  rw [nineVertex_trace 8 (by decide) (by decide)]
  simp only [Bool.false_eq_true, if_false, List.foldl_cons, List.foldl_nil,
    nineVertex_fromGeos.1, nineVertex_fromGeos.2]
  simp [createCollectionOfType, QgsAbstractGeometry.addGeometry, leftPartLine, rightPartLine]

theorem cuttingContext_clip (part : GEOSGeometry) (x0 y0 x1 y1 : ℚ) (c : GEOSGeometry)
    (h : cuttingContext.GEOSClipByRect_r part x0 y0 x1 y1 = .ok c) :
    c.multiPointsOfPoints = true := by
  simp only [cuttingContext, Except.ok.injEq] at h
  subst h
  split <;> rfl

/-- C1 (amended): when the library hands out multi-points made of points, no part of the
collection returned by `subdivide(maxNodes)` has as many vertices as `max(maxNodes, 8)`,
the requested threshold raised to its floor of 8, except the parts that were emitted
because the recursion depth 50 was exceeded. -/
theorem subdivide_parts_below_floored_threshold (ctxt : GEOSContextHandle_t) (self : QgsGeos)
    (maxNodes : Int) (mGeos : GEOSGeometry) (mGeometry coll : QgsAbstractGeometry)
    (hgeos : self.mGeos = some mGeos) (hgeom : self.mGeometry = some mGeometry)
    (hreg : mGeos.multiPointsOfPoints = true)
    (hclip : ∀ part x0 y0 x1 y1 c,
      ctxt.GEOSClipByRect_r part x0 y0 x1 y1 = .ok c → c.multiPointsOfPoints = true)
    (hres : QgsGeos.subdivide ctxt self maxNodes = some coll) :
    ∀ part ∈ coll.geometries,
      (part.nCoordinates : Int) < max maxNodes 8
        ∨ ∃ g, (EmitReason.depthExceeded, g)
              ∈ (QgsGeos.subdivideRecursive ctxt mGeos (max maxNodes 8) 0 mGeometry.boundingBox).parts
            ∧ QgsGeos.fromGeos (some g) = some part := by
  intro part hpart
  simp only [QgsGeos.subdivide, hgeos, hgeom] at hres
  split at hres
  · exact absurd hres (by simp)
  · simp only [Option.some.injEq] at hres
    subst hres
    rcases foldl_addGeometry_geometries _ _ part hpart with h0 | ⟨e, he, hconv⟩
    · simp [createCollectionOfType_geometries] at h0
    · obtain ⟨hdegenerate, hbelow, hdepth, hregular⟩ :=
        subdivideRecursive_emitted ctxt hclip mGeos (max maxNodes 8) 0 mGeometry.boundingBox hreg e he
      obtain ⟨reason, g⟩ := e
      have h8 : (8 : Int) ≤ max maxNodes 8 := le_max_right _ _
      cases reason with
      | degenerateRect =>
        left
        have hpt := hdegenerate rfl
        have hcount := fromGeosOf_nCoordinates g part hregular
          (by simp only at hpt; simp [hpt, QgsGeos.isSubdividedByMembers]) hconv
        simp only at hpt
        simp only [hpt, if_true] at hcount
        rw [hcount]
        omega
      | belowThreshold =>
        left
        obtain ⟨hsingle, hpos, hlt⟩ := hbelow rfl
        have hcount := fromGeosOf_nCoordinates g part hregular hsingle hconv
        simp only at hpos hlt
        split at hcount
        · rw [hcount]; omega
        · rw [hcount]; exact hlt
      | depthExceeded => exact Or.inr ⟨g, he, hconv⟩

/-- C1 (counterexample): with the requested threshold 3, `subdivide` returns the line string of
five vertices as its only part; it was emitted by the vertex-count test, not because the depth
was exceeded. -/
theorem subdivide_part_above_requested_threshold :
    QgsGeos.subdivide raisingContext fiveVertexEngine 3
        = some (.collection .MultiLineString false false [.lineString fiveVertexLine])
      ∧ (3 : Int) < ((QgsAbstractGeometry.lineString fiveVertexLine).nCoordinates : Int)
      ∧ (QgsGeos.subdivideRecursive raisingContext fiveVertexLineGeos (max 3 8) 0
            (QgsAbstractGeometry.lineString fiveVertexLine).boundingBox).parts
          = [(EmitReason.belowThreshold, fiveVertexLineGeos)] := by
  refine ⟨fiveVertex_subdivide raisingContext 3 (by decide), by decide, ?_⟩
  rw [fiveVertex_boundingBox, fiveVertex_trace raisingContext _ (by decide)]
  rfl

/-- Witness of C1 (amended): the engine of the nine-vertex line and the requested threshold 3: one
clipping step cuts the line into two parts of five vertices, which are the returned collection,
and the bound holds for them. -/
theorem subdivide_parts_below_floored_threshold_witness :
    QgsGeos.subdivide cuttingContext nineVertexEngine 3
        = some (.collection .MultiLineString false false
            [.lineString leftPartLine, .lineString rightPartLine])
      ∧ ∀ part ∈ (QgsAbstractGeometry.collection .MultiLineString false false
          [.lineString leftPartLine, .lineString rightPartLine]).geometries,
        (part.nCoordinates : Int) < max 3 8
          ∨ ∃ g, (EmitReason.depthExceeded, g)
                ∈ (QgsGeos.subdivideRecursive cuttingContext nineVertexLineGeos (max 3 8) 0
                    (QgsAbstractGeometry.lineString nineVertexLine).boundingBox).parts
              ∧ QgsGeos.fromGeos (some g) = some part :=
  ⟨nineVertex_subdivide,
    subdivide_parts_below_floored_threshold cuttingContext nineVertexEngine 3 nineVertexLineGeos
      (.lineString nineVertexLine) _ rfl rfl (by rfl) cuttingContext_clip nineVertex_subdivide⟩

/-- C3: `subdivideRecursive` terminates on every geometry and clip rectangle: with enough fuel
the bounded run of its body ends with the trace of the total function.  On a degenerate clip
rectangle the call returns by itself; otherwise a single part met beyond depth 50 is emitted
whole by the call itself, whatever its vertex count and whatever the library would answer; a
clipping step recurses at depth + 1; the recursion into the members of a multi-part geometry
keeps the depth and is on strictly smaller geometries. -/
theorem subdivideRecursive_terminates (ctxt : GEOSContextHandle_t) (currentPart : GEOSGeometry)
    (maxNodes depth : Int) (clipRect : QgsRectangle) :
    (∃ fuel, ∀ n, fuel ≤ n →
        QgsGeos.subdivideRecursiveFuel ctxt n currentPart maxNodes depth clipRect
          = some (QgsGeos.subdivideRecursive ctxt currentPart maxNodes depth clipRect))
      ∧ (QgsGeos.isDegenerate clipRect = true →
          QgsGeos.subdivideRecursiveFuel ctxt 1 currentPart maxNodes depth clipRect
            = some (if GEOSGeomTypeId_r currentPart = GEOS_POINT then
                      SubdivideTrace.emit .degenerateRect currentPart
                    else SubdivideTrace.nothing))
      ∧ (QgsGeos.isDegenerate clipRect = false →
          QgsGeos.isSubdividedByMembers (GEOSGeomTypeId_r currentPart) = false → depth > 50 →
            QgsGeos.subdivideRecursiveFuel ctxt 1 currentPart maxNodes depth clipRect
                = some (SubdivideTrace.emit .depthExceeded currentPart)
              ∧ QgsGeos.subdivideRecursive ctxt currentPart maxNodes depth clipRect
                = SubdivideTrace.emit .depthExceeded currentPart)
      ∧ (QgsGeos.isDegenerate clipRect = false →
          QgsGeos.isSubdividedByMembers (GEOSGeomTypeId_r currentPart) = false → ¬ depth > 50 →
            (GEOSGetNumCoordinates_r currentPart : Int) ≠ 0 →
              ¬ (GEOSGetNumCoordinates_r currentPart : Int) < maxNodes →
                ∀ clipPart1 clipPart2,
                  QgsGeos.clipByRect ctxt currentPart (QgsGeos.halfClipRects clipRect).1
                      = .ok clipPart1 →
                    QgsGeos.clipByRect ctxt currentPart (QgsGeos.halfClipRects clipRect).2
                        = .ok clipPart2 →
                      QgsGeos.subdivideRecursive ctxt currentPart maxNodes depth clipRect
                        = (QgsGeos.subdivideRecursive ctxt clipPart1 maxNodes (depth + 1)
                            (QgsGeos.halfClipRects clipRect).1).andThen
                          (QgsGeos.subdivideRecursive ctxt clipPart2 maxNodes (depth + 1)
                            (QgsGeos.halfClipRects clipRect).2))
      ∧ (QgsGeos.isDegenerate clipRect = false →
          QgsGeos.isSubdividedByMembers (GEOSGeomTypeId_r currentPart) = true →
            QgsGeos.subdivideRecursive ctxt currentPart maxNodes depth clipRect
                = currentPart.memberGeometries.foldl
                    (fun trace member =>
                      trace.andThen (QgsGeos.subdivideRecursive ctxt member maxNodes depth clipRect))
                    SubdivideTrace.nothing
              ∧ ∀ member ∈ currentPart.memberGeometries, sizeOf member < sizeOf currentPart) := by
  refine ⟨subdivideRecursiveFuel_enough ctxt currentPart maxNodes depth clipRect, ?_, ?_, ?_, ?_⟩
  · intro hdeg
    have hdeg2 : (qgsDoubleNear clipRect.width 0 && qgsDoubleNear clipRect.height 0) = true := hdeg
    by_cases hpt : GEOSGeomTypeId_r currentPart = GEOS_POINT <;>
      simp [QgsGeos.subdivideRecursiveFuel, hdeg2, hpt]
  · intro hdeg hsingle hdepth
    have hdeg2 : (qgsDoubleNear clipRect.width 0 && qgsDoubleNear clipRect.height 0) = false := hdeg
    constructor
    · simp [QgsGeos.subdivideRecursiveFuel, hdeg2, hsingle, hdepth]
    · rw [QgsGeos.subdivideRecursive_single _ _ _ _ _ hdeg hsingle]
      simp [hdepth]
  · intro hdeg hsingle hdepth hzero hlt clipPart1 clipPart2 hc1 hc2
    rw [QgsGeos.subdivideRecursive_single _ _ _ _ _ hdeg hsingle]
    simp [hdepth, hzero, hlt, hc1, hc2]
  · intro hdeg hmulti
    refine ⟨QgsGeos.subdivideRecursive_members _ _ _ _ _ hdeg hmulti, ?_⟩
    intro member hmem
    cases currentPart with
    | collection type geoms =>
      have hlt := List.sizeOf_lt_of_mem (show member ∈ geoms from hmem)
      simp only [GEOSGeometry.collection.sizeOf_spec]
      omega
    | point cs => simp [QgsGeos.isSubdividedByMembers, GEOSGeomTypeId_r] at hmulti
    | lineString cs => simp [QgsGeos.isSubdividedByMembers, GEOSGeomTypeId_r] at hmulti
    | linearRing cs => simp [QgsGeos.isSubdividedByMembers, GEOSGeomTypeId_r] at hmulti
    | polygon shell holes => simp [QgsGeos.isSubdividedByMembers, GEOSGeomTypeId_r] at hmulti

/-- Witness of C3: the five-vertex line met at depth 51 with the threshold 3 is emitted whole,
by the call itself. -/
theorem subdivideRecursive_terminates_witness :
    QgsGeos.subdivideRecursiveFuel raisingContext 1 fiveVertexLineGeos 3 51
          { xMinimum := 0, yMinimum := 0, xMaximum := 4, yMaximum := 1 }
        = some (SubdivideTrace.emit .depthExceeded fiveVertexLineGeos)
      ∧ QgsGeos.subdivideRecursive raisingContext fiveVertexLineGeos 3 51
          { xMinimum := 0, yMinimum := 0, xMaximum := 4, yMaximum := 1 }
        = SubdivideTrace.emit .depthExceeded fiveVertexLineGeos :=
  (subdivideRecursive_terminates raisingContext fiveVertexLineGeos 3 51
    { xMinimum := 0, yMinimum := 0, xMaximum := 4, yMaximum := 1 }).2.2.1
    fiveVertex_notDegenerate (by rfl) (by decide)

/-! ## Splitting -/

theorem listModifyAt_length {α : Type} (f : α → α) (l : List α) (i : Nat) :
    (listModifyAt f l i).length = l.length := by
  induction l generalizing i with
  | nil => rfl
  | cons a l ih =>
    cases i with
    | zero => rfl
    | succ i => simp [listModifyAt, ih]

theorem storeExact_length (line : QgsLineString) (hasZ hasM : Bool) (n : Nat)
    (cs : GEOSCoordSequence) (i : Nat) :
    (QgsGeos.storeExact line hasZ hasM n cs i).coords.length = cs.coords.length := by
  cases hasZ <;> cases hasM <;>
    simp [QgsGeos.storeExact, GEOSCoordSeq_setX_r, GEOSCoordSeq_setY_r, GEOSCoordSeq_setOrdinate_r,
      listModifyAt_length]

theorem storeSnapped_length (line : QgsLineString) (precision : ℚ) (hasZ hasM : Bool) (n : Nat)
    (cs : GEOSCoordSequence) (i : Nat) :
    (QgsGeos.storeSnapped line precision hasZ hasM n cs i).coords.length = cs.coords.length := by
  cases hasZ <;> cases hasM <;>
    simp [QgsGeos.storeSnapped, GEOSCoordSeq_setX_r, GEOSCoordSeq_setY_r,
      GEOSCoordSeq_setOrdinate_r, listModifyAt_length]

theorem foldl_length_invariant (step : GEOSCoordSequence → Nat → GEOSCoordSequence)
    (h : ∀ cs i, (step cs i).coords.length = cs.coords.length) (l : List Nat) :
    ∀ cs, (l.foldl step cs).coords.length = cs.coords.length := by
  induction l with
  | nil => intro cs; rfl
  | cons a l ih => intro cs; simp only [List.foldl_cons, ih, h]

/-- A line of at least two points always has a native form. -/
theorem createGeosLinestring_isSome (l : QgsLineString) (precision : ℚ) (h : 2 ≤ l.numPoints) :
    ∃ g, QgsGeos.createGeosLinestring l precision = some g := by
  unfold QgsGeos.createGeosLinestring QgsGeos.createCoordinateSequence
  simp only [Bool.false_and, Bool.false_eq_true, if_false]
  split
  · rename_i cs hcs
    split at hcs <;> cases hcs
  · rename_i cs hcs
    have hlen : cs.coords.length = l.numPoints := by
      split at hcs
      · simp only [Option.some.injEq] at hcs
        rw [← hcs, foldl_length_invariant _ (storeSnapped_length _ _ _ _ _)]
        simp [GEOSCoordSeq_create_r]
      · simp only [Option.some.injEq] at hcs
        rw [← hcs, foldl_length_invariant _ (storeExact_length _ _ _ _)]
        simp [GEOSCoordSeq_create_r]
    have hne : cs.coords.length ≠ 1 := by omega
    exact ⟨.lineString cs, by simp [GEOSGeom_createLineString_r, hne]⟩

theorem createSplitLineGeos_line (splitLine : QgsLineString) (precision : ℚ)
    (h : 2 ≤ splitLine.numPoints) :
    QgsGeos.createSplitLineGeos splitLine precision
      = some (QgsGeos.createGeosLinestring splitLine precision) := by
  have h1 : splitLine.numPoints > 1 := by omega
  simp [QgsGeos.createSplitLineGeos, h1]

/-- C4: for every valid receiver of dimension 2 (a polygon or multi-polygon) and every cutting
line of at least two points whose native form is valid, simple and does not intersect the
receiver, `splitGeometry` returns `NothingHappened` and the output list is empty. -/
theorem splitGeometry_polygon_line_outside (ctxt : GEOSContextHandle_t) (self : QgsGeos)
    (mGeos : GEOSGeometry) (mGeometry : QgsAbstractGeometry) (splitLine : QgsLineString)
    (newGeometries : List (Option QgsAbstractGeometry)) (topological : Bool)
    (topologyTestPoints : List QgsPoint)
    (hgeos : self.mGeos = some mGeos) (hgeom : self.mGeometry = some mGeometry)
    (hdim : mGeometry.dimension = 2)
    (hvalid : ctxt.GEOSisValid_r mGeos = .ok true)
    (hpoints : 2 ≤ splitLine.numPoints)
    (hline : ∀ g, QgsGeos.createGeosLinestring splitLine self.mPrecision = some g →
      ctxt.GEOSisValid_r g = .ok true ∧ ctxt.GEOSisSimple_r g = .ok true
        ∧ ctxt.GEOSIntersects_r g mGeos = .ok false) :
    ∃ testPoints,
      QgsGeos.splitGeometry ctxt self splitLine newGeometries topological topologyTestPoints
        = .ok ⟨EngineOperationResult.NothingHappened, [], testPoints⟩ := by
  obtain ⟨g, hg⟩ := createGeosLinestring_isSome splitLine self.mPrecision hpoints
  obtain ⟨hv, hs, hi⟩ := hline g hg
  have hnot : ¬ splitLine.numPoints < 2 := by omega
  have htest : (QgsGeos.topologicalTestPointsSplit ctxt self g topologyTestPoints).1 = true := by
    simp only [QgsGeos.topologicalTestPointsSplit, hgeos]
    split <;> [rfl; (split <;> rfl)]
  simp only [QgsGeos.splitGeometry, hgeos, hgeom, hdim, hvalid, hnot, and_false, false_and,
    or_false, if_false, QgsGeos.splitGeometryGuarded, createSplitLineGeos_line _ _ hpoints, hg, hv,
    hs, OfNat.ofNat_ne_zero, OfNat.ofNat_ne_one, QgsGeos.splitPolygonGeometry, hi]
  cases topological
  · exact ⟨topologyTestPoints, by simp⟩
  · exact ⟨(QgsGeos.topologicalTestPointsSplit ctxt self g topologyTestPoints).2, by simp [htest]⟩

/-- C5 (amended): `splitGeometry` reports `InvalidBaseGeometry` when the receiver is absent and when
a receiver of dimension 1 or 2 is invalid; for a zero-dimensional receiver (a point or
multi-point) it reports `SplitCannotSplitPoint`.  In all three cases the two lists are left
as they were passed in. -/
theorem splitGeometry_base_geometry (ctxt : GEOSContextHandle_t) (self : QgsGeos)
    (splitLine : QgsLineString) (newGeometries : List (Option QgsAbstractGeometry))
    (topological : Bool) (topologyTestPoints : List QgsPoint) :
    ((self.mGeos = none ∨ self.mGeometry = none) →
        QgsGeos.splitGeometry ctxt self splitLine newGeometries topological topologyTestPoints
          = .ok ⟨EngineOperationResult.InvalidBaseGeometry, newGeometries, topologyTestPoints⟩)
      ∧ (∀ mGeos mGeometry, self.mGeos = some mGeos → self.mGeometry = some mGeometry →
          mGeometry.dimension = 0 →
            QgsGeos.splitGeometry ctxt self splitLine newGeometries topological topologyTestPoints
              = .ok ⟨EngineOperationResult.SplitCannotSplitPoint, newGeometries,
                  topologyTestPoints⟩)
      ∧ (∀ mGeos mGeometry, self.mGeos = some mGeos → self.mGeometry = some mGeometry →
          mGeometry.dimension ≠ 0 → ctxt.GEOSisValid_r mGeos = .ok false →
            QgsGeos.splitGeometry ctxt self splitLine newGeometries topological topologyTestPoints
              = .ok ⟨EngineOperationResult.InvalidBaseGeometry, newGeometries,
                  topologyTestPoints⟩) := by
  refine ⟨?_, ?_, ?_⟩
  · intro h
    unfold QgsGeos.splitGeometry
    rcases h with h | h
    · rw [h]
    · rw [h]
      cases self.mGeos <;> rfl
  · intro mGeos mGeometry hgeos hgeom hdim
    simp [QgsGeos.splitGeometry, hgeos, hgeom, hdim]
  · intro mGeos mGeometry hgeos hgeom hdim hvalid
    simp [QgsGeos.splitGeometry, hgeos, hgeom, hdim, hvalid]

/-- C6: a malformed cutting line is rejected with `InvalidInput`, and no geometry is added to the
output list.  For a valid receiver of dimension 2 and a line of fewer than 2 points, and for a
valid receiver of dimension 1 and a line without points, the two lists are left exactly as
passed in; for a valid receiver of dimension 1 or 2 and a line with enough points whose
native form is invalid, or valid and not simple, the output list is left empty. -/
theorem splitGeometry_malformed_line (ctxt : GEOSContextHandle_t) (self : QgsGeos)
    (mGeos : GEOSGeometry) (mGeometry : QgsAbstractGeometry) (splitLine : QgsLineString)
    (newGeometries : List (Option QgsAbstractGeometry)) (topological : Bool)
    (topologyTestPoints : List QgsPoint)
    (hgeos : self.mGeos = some mGeos) (hgeom : self.mGeometry = some mGeometry)
    (hvalid : ctxt.GEOSisValid_r mGeos = .ok true) :
    (mGeometry.dimension = 2 → splitLine.numPoints < 2 →
        QgsGeos.splitGeometry ctxt self splitLine newGeometries topological topologyTestPoints
          = .ok ⟨EngineOperationResult.InvalidInput, newGeometries, topologyTestPoints⟩)
      ∧ (mGeometry.dimension = 1 → splitLine.numPoints < 1 →
          QgsGeos.splitGeometry ctxt self splitLine newGeometries topological topologyTestPoints
            = .ok ⟨EngineOperationResult.InvalidInput, newGeometries, topologyTestPoints⟩)
      ∧ (∀ splitLineGeos,
          (mGeometry.dimension = 1 ∧ 1 ≤ splitLine.numPoints)
              ∨ (mGeometry.dimension = 2 ∧ 2 ≤ splitLine.numPoints) →
            QgsGeos.createSplitLineGeos splitLine self.mPrecision = some (some splitLineGeos) →
              ctxt.GEOSisValid_r splitLineGeos = .ok false
                  ∨ (ctxt.GEOSisValid_r splitLineGeos = .ok true
                      ∧ ctxt.GEOSisSimple_r splitLineGeos = .ok false) →
                QgsGeos.splitGeometry ctxt self splitLine newGeometries topological
                    topologyTestPoints
                  = .ok ⟨EngineOperationResult.InvalidInput, [], topologyTestPoints⟩) := by
  refine ⟨?_, ?_, ?_⟩
  · intro hdim hfew
    simp [QgsGeos.splitGeometry, hgeos, hgeom, hdim, hvalid, hfew]
  · intro hdim hfew
    simp [QgsGeos.splitGeometry, hgeos, hgeom, hdim, hvalid, hfew]
  · intro splitLineGeos hdim hcreated hbad
    have hnot : ¬ ((mGeometry.dimension = 1 ∧ splitLine.numPoints < 1)
        ∨ (mGeometry.dimension = 2 ∧ splitLine.numPoints < 2)) := by
      rcases hdim with ⟨h1, h2⟩ | ⟨h1, h2⟩ <;> omega
    have hdim0 : mGeometry.dimension ≠ 0 := by
      rcases hdim with ⟨h1, _⟩ | ⟨h1, _⟩ <;> omega
    simp only [QgsGeos.splitGeometry, hgeos, hgeom, hdim0, hvalid, hnot, if_false,
      QgsGeos.splitGeometryGuarded, hcreated]
    rcases hbad with hv | ⟨hv, hs⟩
    · simp [hv]
    · simp [hv, hs]

/-- C7: for every valid receiver of dimension 1 and every cutting line whose native form is valid
and simple and overlaps the receiver linearly (the two intersect and their relation matches
the pattern `1********`), `splitGeometry` returns `InvalidInput` and produces no output
geometry. -/
theorem splitGeometry_linear_overlap (ctxt : GEOSContextHandle_t) (self : QgsGeos)
    (mGeos : GEOSGeometry) (mGeometry : QgsAbstractGeometry) (splitLine : QgsLineString)
    (splitLineGeos : GEOSGeometry)
    (newGeometries : List (Option QgsAbstractGeometry)) (topological : Bool)
    (topologyTestPoints : List QgsPoint)
    (hgeos : self.mGeos = some mGeos) (hgeom : self.mGeometry = some mGeometry)
    (hdim : mGeometry.dimension = 1)
    (hvalid : ctxt.GEOSisValid_r mGeos = .ok true)
    (hpoints : 1 ≤ splitLine.numPoints)
    (hcreated : QgsGeos.createSplitLineGeos splitLine self.mPrecision = some (some splitLineGeos))
    (hlineValid : ctxt.GEOSisValid_r splitLineGeos = .ok true)
    (hlineSimple : ctxt.GEOSisSimple_r splitLineGeos = .ok true)
    (hintersects : ctxt.GEOSIntersects_r splitLineGeos mGeos = .ok true)
    (hoverlap : ctxt.GEOSRelatePattern_r mGeos splitLineGeos "1********" = .ok true) :
    ∃ testPoints,
      QgsGeos.splitGeometry ctxt self splitLine newGeometries topological topologyTestPoints
        = .ok ⟨EngineOperationResult.InvalidInput, [], testPoints⟩ := by
  have hnot : ¬ splitLine.numPoints < 1 := by omega
  have htest : (QgsGeos.topologicalTestPointsSplit ctxt self splitLineGeos topologyTestPoints).1
      = true := by
    simp only [QgsGeos.topologicalTestPointsSplit, hgeos]
    split <;> [rfl; (split <;> rfl)]
  simp only [QgsGeos.splitGeometry, hgeos, hgeom, hdim, hvalid, hnot, and_false, false_and,
    or_false, if_false, QgsGeos.splitGeometryGuarded, hcreated, hlineValid, hlineSimple,
    OfNat.ofNat_ne_zero, one_ne_zero, QgsGeos.splitLinearGeometry, hintersects, hoverlap]
  cases topological
  · exact ⟨topologyTestPoints, by simp⟩
  · exact ⟨(QgsGeos.topologicalTestPointsSplit ctxt self splitLineGeos topologyTestPoints).2,
      by simp [htest]⟩

/-! ### The candidate test of `splitPolygonGeometry` -/

theorem middleCutLine_created :
    QgsGeos.createGeosLinestring middleCutLine 0 = some middleCutLineGeos := by
  simp [QgsGeos.createGeosLinestring, QgsGeos.createCoordinateSequence, middleCutLine,
    middleCutLineGeos, QgsLineString.numPoints, GEOSCoordSeq_create_r, List.range, List.range.loop,
    QgsGeos.storeExact, GEOSCoordSeq_setX_r, GEOSCoordSeq_setY_r, listModifyAt, QgsLineString.xAt,
    QgsLineString.yAt, GEOSGeom_createLineString_r]

theorem unmeasuredLine_created :
    QgsGeos.createSplitLineGeos unmeasuredLine 0 = some (some unmeasuredLineGeos) := by
  simp [QgsGeos.createSplitLineGeos, QgsGeos.createGeosLinestring,
    QgsGeos.createCoordinateSequence, unmeasuredLine,
    unmeasuredLineGeos, QgsLineString.numPoints, GEOSCoordSeq_create_r, List.range, List.range.loop,
    QgsGeos.storeExact, GEOSCoordSeq_setX_r, GEOSCoordSeq_setY_r, listModifyAt, QgsLineString.xAt,
    QgsLineString.yAt, GEOSGeom_createLineString_r]

/-- Witness of C4: the square and the line (5 0, 5 2) outside of it. -/
theorem splitGeometry_polygon_line_outside_witness :
    ∃ testPoints,
      QgsGeos.splitGeometry disjointContext squareEngine outsideLine [] false []
        = .ok ⟨EngineOperationResult.NothingHappened, [], testPoints⟩ :=
  splitGeometry_polygon_line_outside disjointContext squareEngine squarePolygonGeos squarePolygon
    outsideLine [] false [] rfl rfl rfl rfl (by decide) (fun _ _ => ⟨rfl, rfl, rfl⟩)

/-- C5 (counterexample): on a point receiver `splitGeometry` reports `SplitCannotSplitPoint`, which is
not `InvalidBaseGeometry`. -/
theorem splitGeometry_point_receiver :
    QgsGeos.splitGeometry raisingContext pointEngine middleCutLine [] false []
        = .ok ⟨EngineOperationResult.SplitCannotSplitPoint, [], []⟩
      ∧ EngineOperationResult.SplitCannotSplitPoint ≠ EngineOperationResult.InvalidBaseGeometry := by
  constructor
  · simp [QgsGeos.splitGeometry, pointEngine, QgsAbstractGeometry.dimension]
  · decide

/-- Witness of C5 (amended): the square receiver found invalid by the library. -/
theorem splitGeometry_base_geometry_witness :
    QgsGeos.splitGeometry invalidContext squareEngine middleCutLine [] false []
      = .ok ⟨EngineOperationResult.InvalidBaseGeometry, [], []⟩ :=
  (splitGeometry_base_geometry invalidContext squareEngine middleCutLine [] false []).2.2
    squarePolygonGeos squarePolygon rfl rfl (by decide) rfl

/-- Witness of C6: the square receiver and a cutting line of one point; the output list, which
holds one entry, is left as it was passed in. -/
theorem splitGeometry_malformed_line_witness :
    QgsGeos.splitGeometry disjointContext squareEngine onePointLine [none] false []
      = .ok ⟨EngineOperationResult.InvalidInput, [none], []⟩ :=
  (splitGeometry_malformed_line disjointContext squareEngine squarePolygonGeos squarePolygon
    onePointLine [none] false [] rfl rfl rfl).1 rfl (by decide)

/-- Witness of C7: the five-vertex line and the cutting line (0 0, 1 0) lying on it. -/
theorem splitGeometry_linear_overlap_witness :
    ∃ testPoints,
      QgsGeos.splitGeometry overlappingContext fiveVertexEngine unmeasuredLine [] false []
        = .ok ⟨EngineOperationResult.InvalidInput, [], testPoints⟩ :=
  splitGeometry_linear_overlap overlappingContext fiveVertexEngine fiveVertexLineGeos
    (.lineString fiveVertexLine) unmeasuredLine unmeasuredLineGeos [] false [] rfl rfl rfl rfl
    (by decide) unmeasuredLine_created rfl rfl rfl rfl

/-- C10 (counterexample): a line string with measure values comes back from the engine-native form
without its has-M flag and without its measure values. -/
theorem fromGeos_asGeos_drops_measure :
    QgsGeos.fromGeos (QgsGeos.asGeos (some (.lineString measuredLine)) 0)
        = some (.lineString unmeasuredLine)
      ∧ (QgsAbstractGeometry.lineString measuredLine).isMeasure = true
      ∧ (QgsAbstractGeometry.lineString unmeasuredLine).isMeasure = false := by
  refine ⟨?_, rfl, rfl⟩
  simp [QgsGeos.fromGeos, QgsGeos.asGeos, QgsGeos.asGeosOf, QgsGeos.fromGeosOf,
    QgsGeos.createGeosLinestring, QgsGeos.createCoordinateSequence, measuredLine, unmeasuredLine,
    GEOSGeom_createLineString_r, GEOSCoordSeq_create_r, QgsLineString.numPoints, List.range,
    List.range.loop, QgsGeos.storeExact, GEOSCoordSeq_setX_r, GEOSCoordSeq_setY_r, listModifyAt,
    QgsLineString.xAt, QgsLineString.yAt, QgsGeos.sequenceToLinestring, QgsGeos.lineOfSequence, GEOSGeom_getCoordSeq_r,
    GEOSCoordSeq_getSize_r, GEOSCoordSeq_getX_r, GEOSCoordSeq_getY_r, QgsLineString.ofVectors,
    GEOSGeom_getCoordinateDimension_r, GEOSGeom_getDimensions_r]

theorem multiPolygonZ_wellFormed : multiPolygonZ.wellFormedNoM := by
  simp [multiPolygonZ, QgsAbstractGeometry.wellFormedNoM, QgsPolygonV2.wellFormedNoM,
    QgsLineString.wellFormedRing, QgsLineString.wellFormedNoM, squareRingZ, holeRingZ,
    QgsLineString.pointN, QgsLineString.numPoints, QgsPoint.ofType, QgsLineString.xAt,
    QgsLineString.yAt, QgsLineString.zAt, QgsLineString.mAt]

/-- Witness of C10 (amended): the round trip of a MultiPolygonZ of one polygon with a hole. -/
theorem fromGeos_asGeos_roundTrip_witness :
    QgsGeos.fromGeos (QgsGeos.asGeos (some multiPolygonZ) 0) = some multiPolygonZ :=
  fromGeos_asGeos_roundTrip multiPolygonZ 0 (le_refl 0) multiPolygonZ_wellFormed

/-! ## Coordinate snapping -/

theorem foldl_store (step : GEOSCoordSequence → Nat → GEOSCoordSequence)
    (coordOf : Nat → GEOSCoordinate) (dims : Nat)
    (hstep : ∀ k (pre rest : List GEOSCoordinate), pre.length = k →
      step { dims := dims, coords := pre ++ ⟨0, 0, 0⟩ :: rest } k
        = { dims := dims, coords := pre ++ coordOf k :: rest }) :
    ∀ k m, (List.range k).foldl step { dims := dims, coords := List.replicate (k + m) ⟨0, 0, 0⟩ }
      = { dims := dims, coords := (List.range k).map coordOf ++ List.replicate m ⟨0, 0, 0⟩ } := by
  intro k
  induction k with
  | zero => intro m; simp
  | succ k ih =>
    intro m
    have h := ih (m + 1)
    rw [show k + (m + 1) = k + 1 + m by omega] at h
    rw [List.range_succ, List.foldl_append, h]
    simp only [List.foldl_cons, List.foldl_nil, List.replicate_succ]
    rw [hstep k _ _ (by simp)]
    simp

theorem storeSnapped_at (l : QgsLineString) (p : ℚ) (hp : p > 0) (dims k : Nat)
    (pre rest : List GEOSCoordinate) (hk : pre.length = k) :
    storeSnapped l p l.is3D false l.numPoints { dims := dims, coords := pre ++ ⟨0, 0, 0⟩ :: rest } k
      = { dims := dims, coords := pre ++ storedCoordinate l p k :: rest } := by
  subst hk
  cases hz : l.is3D <;>
    simp [storeSnapped, GEOSCoordSeq_setX_r, GEOSCoordSeq_setY_r, GEOSCoordSeq_setOrdinate_r,
      listModifyAt_append_cons, storedCoordinate, storedOrdinate, hp, hz]

theorem storeExact_at (l : QgsLineString) (p : ℚ) (hp : ¬ p > 0) (dims k : Nat)
    (pre rest : List GEOSCoordinate) (hk : pre.length = k) :
    storeExact l l.is3D false l.numPoints { dims := dims, coords := pre ++ ⟨0, 0, 0⟩ :: rest } k
      = { dims := dims, coords := pre ++ storedCoordinate l p k :: rest } := by
  subst hk
  cases hz : l.is3D <;>
    simp [storeExact, GEOSCoordSeq_setX_r, GEOSCoordSeq_setY_r, GEOSCoordSeq_setOrdinate_r,
      listModifyAt_append_cons, storedCoordinate, storedOrdinate, hp, hz]

/-- The sequence written by `createCoordinateSequence`, for every precision. -/
theorem createCoordinateSequence_stored (l : QgsLineString) (p : ℚ) (forceClose : Bool) :
    createCoordinateSequence l p forceClose
      = some { dims := 2 + (if l.is3D then 1 else 0),
               coords := (List.range (numOutPoints l forceClose)).map (storedCoordinate l p) } := by
  unfold createCoordinateSequence
  simp only [GEOSCoordSeq_create_r, Bool.false_eq_true, if_false, Nat.add_zero]
  by_cases hp : p > 0
  · simp only [hp, if_true]
    have h := foldl_store (storeSnapped l p l.is3D false l.numPoints) (storedCoordinate l p)
      (2 + (if l.is3D then 1 else 0)) (fun k pre rest hk => storeSnapped_at l p hp _ k pre rest hk)
      (numOutPoints l forceClose) 0
    simp only [Nat.add_zero, List.replicate_zero, List.append_nil] at h
    exact congrArg some h
  · simp only [hp, if_false]
    have h := foldl_store (storeExact l l.is3D false l.numPoints) (storedCoordinate l p)
      (2 + (if l.is3D then 1 else 0)) (fun k pre rest hk => storeExact_at l p hp _ k pre rest hk)
      (numOutPoints l forceClose) 0
    simp only [Nat.add_zero, List.replicate_zero, List.append_nil] at h
    exact congrArg some h

/-- The point written by `createGeosPointXY`, for every precision. -/
theorem createGeosPointXY_stored (x y : ℚ) (hasZ : Bool) (z : ℚ) (hasM : Bool) (m : ℚ)
    (coordDims : Nat) (p : ℚ) :
    createGeosPointXY x y hasZ z hasM m coordDims p
      = some (.point { dims := coordDims,
                       coords := [⟨storedOrdinate p x, storedOrdinate p y,
                                   if hasZ then storedOrdinate p z else 0⟩] }) := by
  by_cases hp : p > 0 <;> cases hasZ <;>
    simp [createGeosPointXY, GEOSCoordSeq_create_r, GEOSCoordSeq_setX_r, GEOSCoordSeq_setY_r,
      GEOSCoordSeq_setOrdinate_r, listModifyAt, GEOSGeom_createPoint_r, storedOrdinate, hp]

theorem stdRound_isInt (q : ℚ) : ∃ k : ℤ, stdRound q = (k : ℚ) := by
  unfold stdRound
  split
  · exact ⟨_, rfl⟩
  · exact ⟨-(Int.floor (-q + 1 / 2)), by push_cast; rfl⟩

theorem stdRound_intCast (k : ℤ) : stdRound (k : ℚ) = (k : ℚ) := by
  unfold stdRound
  split
  · have : Int.floor ((k : ℚ) + 1 / 2) = k := by
      rw [Int.floor_eq_iff]; constructor <;> norm_num
    rw [this]
  · have : Int.floor (-(k : ℚ) + 1 / 2) = -k := by
      rw [Int.floor_eq_iff]; constructor <;> push_cast <;> norm_num
    rw [this]; push_cast; ring

theorem stdRound_near (q : ℚ) : |q - stdRound q| ≤ 1 / 2 := by
  unfold stdRound
  split
  · have h1 := Int.floor_le (q + 1 / 2)
    have h2 := Int.lt_floor_add_one (q + 1 / 2)
    rw [abs_le]; constructor <;> linarith
  · have h1 := Int.floor_le (-q + 1 / 2)
    have h2 := Int.lt_floor_add_one (-q + 1 / 2)
    rw [abs_le]; constructor <;> linarith

/-- The function `std::round` gives an integer nearest to its argument. -/
theorem stdRound_nearest (q : ℚ) (k : ℤ) : |q - stdRound q| ≤ |q - (k : ℚ)| := by
  obtain ⟨r, hr⟩ := stdRound_isInt q
  have hnear := stdRound_near q
  rw [hr] at hnear ⊢
  by_cases h : k = r
  · subst h; exact le_refl _
  · have h1 : (1 : ℚ) ≤ |(k : ℚ) - (r : ℚ)| := by
      have : (1 : ℤ) ≤ |k - r| := Int.one_le_abs (sub_ne_zero.mpr h)
      exact_mod_cast this
    have h2 : |(k : ℚ) - (r : ℚ)| ≤ |q - (k : ℚ)| + |q - (r : ℚ)| := by
      have := abs_sub_le (k : ℚ) q (r : ℚ)
      rwa [abs_sub_comm (k : ℚ) q] at this
    linarith

/-! ## The caches of the engine object -/

theorem cacheGeos_consistent (ctxt : GEOSContextHandle_t) (s : QgsGeos)
    (h : CachesConsistent ctxt s) : CachesConsistent ctxt (cacheGeos s) := by
  unfold cacheGeos
  split
  · exact h
  · rename_i hc
    simp only [Bool.or_eq_true, not_or, Option.isNone_iff_eq_none, Option.isSome_iff_ne_none,
      ne_eq, not_not] at hc
    rcases h with ⟨_, hp⟩ | ⟨g, hg, _⟩
    · cases hconv : asGeos s.mGeometry s.mPrecision with
      | none => exact Or.inl ⟨rfl, hp⟩
      | some g => exact Or.inr ⟨g, rfl, hconv, Or.inl hp⟩
    · rw [hc.2] at hg; cases hg

theorem cleared_consistent (ctxt : GEOSContextHandle_t) (s : QgsGeos) :
    CachesConsistent ctxt { s with mGeos := none, mGeosPrepared := none } :=
  Or.inl ⟨rfl, rfl⟩

theorem prepareGeometry_consistent (ctxt : GEOSContextHandle_t) (s : QgsGeos)
    (h : CachesConsistent ctxt s) : CachesConsistent ctxt (prepareGeometry ctxt s) := by
  unfold prepareGeometry
  rcases h with ⟨hg, _⟩ | ⟨g, hg, hconv, _⟩
  · simp only [hg]
    exact Or.inl ⟨rfl, rfl⟩
  · simp only [hg]
    cases hprep : ctxt.GEOSPrepare_r g with
    | error e => exact Or.inr ⟨g, rfl, hconv, Or.inl rfl⟩
    | ok p => exact Or.inr ⟨g, rfl, hconv, Or.inr ⟨p, rfl, hprep⟩⟩

theorem geometryChanged_caches (s : QgsGeos) :
    (geometryChanged s).mGeosPrepared = none
      ∧ (geometryChanged s).mGeos = asGeos s.mGeometry s.mPrecision := by
  unfold geometryChanged cacheGeos
  cases hgeom : s.mGeometry with
  | none => simp [asGeos]
  | some g => simp

/-- C12: in every state reached through construction, `cacheGeos`, `prepareGeometry` and
`geometryChanged` the two caches describe the abstract geometry held: both are absent, or the
native geometry is the conversion of that geometry and the prepared form, once built, was built
by the library from the native geometry now cached.  After `geometryChanged` no prepared form is
kept and the native geometry is converted afresh. -/
theorem caches_consistent (ctxt : GEOSContextHandle_t) (self : QgsGeos)
    (h : Reachable ctxt self) :
    CachesConsistent ctxt self
      ∧ (∀ p, self.mGeosPrepared = some p →
          ∃ g, self.mGeos = some g ∧ ctxt.GEOSPrepare_r g = .ok p
            ∧ asGeos self.mGeometry self.mPrecision = some g)
      ∧ (geometryChanged self).mGeosPrepared = none
      ∧ (geometryChanged self).mGeos = asGeos self.mGeometry self.mPrecision := by
  have hinv : CachesConsistent ctxt self := by
    induction h with
    | construct geometry precision => exact cacheGeos_consistent ctxt _ (Or.inl ⟨rfl, rfl⟩)
    | cacheGeos _ ih => exact cacheGeos_consistent ctxt _ ih
    | prepareGeometry _ ih => exact prepareGeometry_consistent ctxt _ ih
    | geometryChanged geometry _ _ =>
      exact cacheGeos_consistent ctxt _ (cleared_consistent ctxt _)
  refine ⟨hinv, ?_, (geometryChanged_caches self).1, (geometryChanged_caches self).2⟩
  intro p hp
  rcases hinv with ⟨_, hnone⟩ | ⟨g, hg, hconv, hnone | ⟨q, hq, hprep⟩⟩
  · rw [hnone] at hp; cases hp
  · rw [hnone] at hp; cases hp
  · rw [hq] at hp
    cases hp
    exact ⟨g, hg, hprep, hconv⟩

theorem unmeasuredLine_asGeos :
    asGeos (some (.lineString unmeasuredLine)) 0 = some unmeasuredLineGeos := by
  simp [asGeos, asGeosOf, QgsGeos.createGeosLinestring,
    QgsGeos.createCoordinateSequence, unmeasuredLine,
    unmeasuredLineGeos, QgsLineString.numPoints, GEOSCoordSeq_create_r, List.range, List.range.loop,
    QgsGeos.storeExact, GEOSCoordSeq_setX_r, GEOSCoordSeq_setY_r, listModifyAt, QgsLineString.xAt,
    QgsLineString.yAt, GEOSGeom_createLineString_r]

theorem preparedLine_state :
    prepareGeometry preparingContext (construct (some (.lineString unmeasuredLine)) 0)
      = { mGeometry := some (.lineString unmeasuredLine), mPrecision := 0,
          mGeos := some unmeasuredLineGeos,
          mGeosPrepared := some { base := unmeasuredLineGeos } } := by
  simp [prepareGeometry, construct, cacheGeos, unmeasuredLine_asGeos, preparingContext]

/-- Witness of C12: the engine constructed on the line (0 0, 1 0) and then prepared holds the
native line and the index built from it; the caches are consistent, and `geometryChanged` drops
the index. -/
theorem caches_consistent_witness :
    prepareGeometry preparingContext (construct (some (.lineString unmeasuredLine)) 0)
        = { mGeometry := some (.lineString unmeasuredLine), mPrecision := 0,
            mGeos := some unmeasuredLineGeos,
            mGeosPrepared := some { base := unmeasuredLineGeos } }
      ∧ CachesConsistent preparingContext
          (prepareGeometry preparingContext (construct (some (.lineString unmeasuredLine)) 0))
      ∧ (geometryChanged
          (prepareGeometry preparingContext
            (construct (some (.lineString unmeasuredLine)) 0))).mGeosPrepared = none :=
  have h := caches_consistent preparingContext _
    (Reachable.prepareGeometry (Reachable.construct (some (.lineString unmeasuredLine)) 0))
  ⟨preparedLine_state, h.1, h.2.2.1⟩

/-! ## Operations on an engine without native geometry -/

/-- C13: an engine that holds no native geometry (its receiver is absent or could not be
converted) answers every operation by the null value of its result type: the overlay operations,
`clip`, `subdivide`, the two forms of `buffer`, `simplify`, `envelope`, `convexHull`, `centroid`
and `pointOnSurface` return null, the predicates return false, `relate` returns the empty
string, the measures return -1, and `splitGeometry` and `reshapeGeometry` report
`InvalidBaseGeometry`, leaving the lists of `splitGeometry` as they were.  The overlay
operations and the predicates with an operand answer a null operand the same way, whatever the
engine holds. -/
theorem no_native_geometry_null_results (ctxt : GEOSContextHandle_t) (self other : QgsGeos)
    (geom : Option QgsAbstractGeometry) (rect : QgsRectangle) (maxNodes segments endCapStyle
    joinStyle : Int) (dist miterLimit tolerance : ℚ) (pattern : String) (point : QgsPoint)
    (line : QgsLineString) (newGeometries : List (Option QgsAbstractGeometry))
    (topological : Bool) (topologyTestPoints : List QgsPoint)
    (errorCode : EngineOperationResult) (op : Overlay) (r : Relation)
    (h : self.mGeos = none) :
    (intersection ctxt self geom = none ∧ difference ctxt self geom = none
        ∧ combine ctxt self geom = none ∧ symDifference ctxt self geom = none
        ∧ clip ctxt self rect = none ∧ subdivide ctxt self maxNodes = none
        ∧ buffer ctxt self dist segments = none
        ∧ bufferWithStyle ctxt self dist segments endCapStyle joinStyle miterLimit = none
        ∧ simplify ctxt self tolerance = none ∧ envelope ctxt self = none
        ∧ convexHull ctxt self = none ∧ centroid ctxt self = none
        ∧ pointOnSurface ctxt self = none)
      ∧ (intersects ctxt self geom = false ∧ touches ctxt self geom = false
        ∧ crosses ctxt self geom = false ∧ within ctxt self geom = false
        ∧ overlaps ctxt self geom = false ∧ contains ctxt self geom = false
        ∧ disjoint ctxt self geom = false ∧ relatePattern ctxt self geom pattern = false
        ∧ isValid ctxt self = false ∧ isSimple ctxt self = false
        ∧ isEqual ctxt self geom = false)
      ∧ relate ctxt self geom = ""
      ∧ (distance ctxt self geom = -1 ∧ hausdorffDistance ctxt self geom = -1
        ∧ area ctxt self = -1 ∧ length ctxt self = -1 ∧ lineLocatePoint ctxt self point = -1)
      ∧ splitGeometry ctxt self line newGeometries topological topologyTestPoints
          = .ok ⟨InvalidBaseGeometry, newGeometries, topologyTestPoints⟩
      ∧ reshapeGeometry ctxt self line errorCode = .ok (none, InvalidBaseGeometry)
      ∧ (overlay ctxt other none op = none ∧ relation ctxt other none r = false
        ∧ relatePattern ctxt other none pattern = false ∧ isEqual ctxt other none = false)
      ∧ (∀ geometry precision, asGeos geometry precision = none →
          (construct geometry precision).mGeos = none) := by
  refine ⟨?_, ?_, ?_, ?_, ?_, ?_, ?_, ?_⟩
  · simp [intersection, difference, combine, symDifference, overlay, clip, subdivide, buffer,
      bufferWithStyle, simplify, envelope, QgsGeos.convexHull, centroid, pointOnSurface, h]
  · simp [intersects, touches, crosses, within, overlaps, contains, disjoint, relation,
      relatePattern, isValid, isSimple, isEqual, h]
  · simp [relate, h]
  · simp [distance, hausdorffDistance, area, length, lineLocatePoint, h]
  · simp [splitGeometry, h]
  · simp [reshapeGeometry, h]
  · refine ⟨?_, ?_, ?_, ?_⟩
    · unfold overlay; cases other.mGeos <;> rfl
    · unfold relation; cases other.mGeos <;> rfl
    · unfold relatePattern; cases other.mGeos <;> rfl
    · unfold isEqual; cases other.mGeos <;> rfl
  · intro geometry precision hconv
    unfold construct cacheGeos
    cases geometry with
    | none => rfl
    | some g => simp [hconv]

/-- Witness of C13: the engine constructed on no geometry, with a library that would answer:
`area` is -1, `isValid` is false, `envelope` is null and `reshapeGeometry` reports
`InvalidBaseGeometry`. -/
theorem no_native_geometry_null_results_witness :
    area halvingContext (construct none 0) = -1
      ∧ isValid halvingContext (construct none 0) = false
      ∧ envelope halvingContext (construct none 0) = none
      ∧ reshapeGeometry halvingContext (construct none 0) middleCutLine Success
          = .ok (none, InvalidBaseGeometry) :=
  have h := no_native_geometry_null_results halvingContext (construct none 0) (construct none 0)
    none ⟨0, 0, 1, 1⟩ 8 8 1 1 1 1 1 "" QgsPoint.empty middleCutLine [] false [] Success
    .INTERSECTION .INTERSECTS rfl
  ⟨h.2.2.2.1.2.2.1, h.2.1.2.2.2.2.2.2.2.2.1, h.1.2.2.2.2.2.2.2.2.2.1, h.2.2.2.2.2.1⟩

/-! ## Reshaping a multi-part receiver -/

/-- The parts that `reshapeGeometry` reassembles: the reshaped part where there is one, the
original part otherwise. -/
theorem reshapeParts_eq (ctxt : GEOSContextHandle_t) (isLine : Bool)
    (reshapeLineGeos : Option GEOSGeometry) (precision : ℚ) (parts : List GEOSGeometry)
    (results : List (Option GEOSGeometry))
    (hparts : List.Forall₂
      (fun part r => reshapePart ctxt isLine part reshapeLineGeos precision = .ok r)
      parts results) :
    reshapeParts ctxt isLine reshapeLineGeos precision parts
      = .ok (List.zipWith (fun part (r : Option GEOSGeometry) => r.getD part) parts results,
             results.any Option.isSome) := by
  induction hparts with
  | nil => rfl
  | @cons part r parts results hhead _ ih =>
    simp only [reshapeParts, hhead, ih]
    cases r <;> simp [GEOSGeom_clone_r]

theorem multiLineString_geometries (hasZ hasM : Bool) (geoms : List GEOSGeometry) :
    ∀ (z m : Bool) (acc : List QgsAbstractGeometry),
      (∀ g ∈ geoms, GEOSGeomTypeId_r g = GEOS_LINESTRING) →
      (geoms.foldl
          (fun (multiLineString : QgsAbstractGeometry) part =>
            multiLineString.addGeometry
              ((GEOSGeom_getCoordSeq_r part).map
                (fun cs => .lineString (lineOfSequence cs hasZ hasM))))
          (QgsAbstractGeometry.collection .MultiLineString z m acc)).geometries.length
        = acc.length + geoms.length := by
  induction geoms with
  | nil => intro z m acc _; simp [QgsAbstractGeometry.geometries]
  | cons g geoms ih =>
    intro z m acc hall
    have hg := hall g (List.mem_cons_self _ _)
    have hrest : ∀ g' ∈ geoms, GEOSGeomTypeId_r g' = GEOS_LINESTRING :=
      fun g' hg' => hall g' (List.mem_cons_of_mem _ hg')
    cases g with
    | lineString cs =>
      simp only [List.foldl_cons]
      rw [show (QgsAbstractGeometry.collection .MultiLineString z m acc).addGeometry
          ((GEOSGeom_getCoordSeq_r (.lineString cs)).map
            (fun cs => QgsAbstractGeometry.lineString (lineOfSequence cs hasZ hasM)))
        = .collection .MultiLineString (lineOfSequence cs hasZ hasM).is3D
            (lineOfSequence cs hasZ hasM).isMeasure
            (acc ++ [.lineString (lineOfSequence cs hasZ hasM)]) from rfl,
        ih _ _ _ hrest]
      simp; omega
    | point cs => simp [GEOSGeomTypeId_r] at hg
    | linearRing cs => simp [GEOSGeomTypeId_r] at hg
    | polygon s hs => simp [GEOSGeomTypeId_r] at hg
    | collection t gs => cases t <;> simp [GEOSGeomTypeId_r, GEOSCollectionType.typeId] at hg

theorem multiPolygon_geometries (geoms : List GEOSGeometry) :
    ∀ (z m : Bool) (acc : List QgsAbstractGeometry),
      (∀ g ∈ geoms, GEOSGeomTypeId_r g = GEOS_POLYGON) →
      (geoms.foldl
          (fun (multiPolygon : QgsAbstractGeometry) part =>
            multiPolygon.addGeometry
              ((match fromGeosPolygon part with
                | .ok poly => poly
                | .error _ => none).map QgsAbstractGeometry.polygon))
          (QgsAbstractGeometry.collection .MultiPolygon z m acc)).geometries.length
        = acc.length + geoms.length := by
  induction geoms with
  | nil => intro z m acc _; simp [QgsAbstractGeometry.geometries]
  | cons g geoms ih =>
    intro z m acc hall
    have hg := hall g (List.mem_cons_self _ _)
    have hrest : ∀ g' ∈ geoms, GEOSGeomTypeId_r g' = GEOS_POLYGON :=
      fun g' hg' => hall g' (List.mem_cons_of_mem _ hg')
    cases g with
    | polygon s hs =>
      obtain ⟨p, hp⟩ : ∃ p, fromGeosPolygon (.polygon s hs) = .ok (some p) :=
        ⟨_, fromGeosPolygon_polygon s hs⟩
      simp only [List.foldl_cons, hp, Option.map_some']
      rw [show (QgsAbstractGeometry.collection .MultiPolygon z m acc).addGeometry
          (some (.polygon p))
        = .collection .MultiPolygon p.is3D p.isMeasure (acc ++ [.polygon p]) from rfl,
        ih _ _ _ hrest]
      simp; omega
    | point cs => simp [GEOSGeomTypeId_r] at hg
    | linearRing cs => simp [GEOSGeomTypeId_r] at hg
    | lineString cs => simp [GEOSGeomTypeId_r] at hg
    | collection t gs => cases t <;> simp [GEOSGeomTypeId_r, GEOSCollectionType.typeId] at hg

theorem extensionLine_created :
    createGeosLinestring extensionLine 0 = some extensionLineGeos := by
  simp [QgsGeos.createGeosLinestring, QgsGeos.createCoordinateSequence, extensionLine,
    extensionLineGeos, QgsLineString.numPoints, GEOSCoordSeq_create_r, List.range, List.range.loop,
    QgsGeos.storeExact, GEOSCoordSeq_setX_r, GEOSCoordSeq_setY_r, listModifyAt, QgsLineString.xAt,
    QgsLineString.yAt, GEOSGeom_createLineString_r]

theorem firstLine_extended :
    reshapeLine extendingContext (some firstLineGeos) (some extensionLineGeos) 0
      = .ok (some extendedLineGeos) := by
  simp [reshapeLine, scanIntersection, extendingContext, firstLineGeos, extensionLineGeos,
    GEOSGeomTypeId_r, GEOSGeom_getCoordSeq_r, GEOSCoordSeq_getX_r, GEOSCoordSeq_getY_r,
    _mergeLinestrings, _linestringEndpoints, GEOSCoordSeq_getSize_r, GEOSGeom_createCollection_r,
    GEOSCollectionType.ofTypeId, GEOSGeom_clone_r]

theorem secondLine_kept :
    reshapeLine extendingContext (some secondLineGeos) (some extensionLineGeos) 0 = .ok none := by
  simp [reshapeLine, scanIntersection, extendingContext, secondLineGeos, extensionLineGeos,
    GEOSGeomTypeId_r, GEOSCollectionType.typeId, GEOSGetNumGeometries_r]

theorem twoLines_extended_fromGeos :
    fromGeos (some (.collection .multiLineString [extendedLineGeos, secondLineGeos]))
      = some (.collection .MultiLineString false false
          [.lineString { is3D := false, isMeasure := false, mX := [0, 1, 2], mY := [0, 0, 0],
                         mZ := [], mM := [] },
           .lineString { is3D := false, isMeasure := false, mX := [0, 1], mY := [5, 5],
                         mZ := [], mM := [] }]) := by
  simp [fromGeos, fromGeosOf, extendedLineGeos, secondLineGeos, QgsGeos.sequenceToLinestring,
    QgsGeos.lineOfSequence, GEOSGeom_getCoordSeq_r, GEOSCoordSeq_getSize_r, GEOSCoordSeq_getX_r, GEOSCoordSeq_getY_r,
    GEOSGeom_getCoordinateDimension_r, GEOSGeom_getCoordinateDimension_r.maxDimension,
    GEOSGeom_getDimensions_r, QgsLineString.ofVectors, List.range, List.range.loop,
    QgsAbstractGeometry.addGeometry, QgsLineString.is3D, QgsLineString.isMeasure]

/-! ## Reshaping a line -/

/-- C15: `reshapeLine` on two lines whose intersection the library delivers.  If the
intersection is one point that is an end point of both lines, the result is the line merge of
the two lines (the extension case); if the one point is not an end point of both lines, or the
intersection is neither one point nor a multi-point of at least two points (an empty geometry, a
linear overlap, a multi-point of one point), or the intersection raises, there is no result. -/
theorem reshapeLine_extension (ctxt : GEOSContextHandle_t) (line reshapeLineGeos : GEOSGeometry)
    (precision : ℚ) :
    (∀ cs c rest p1 p2 r1 r2,
        ctxt.GEOSIntersection_r line reshapeLineGeos = .ok (.point cs) → cs.coords = c :: rest →
        _linestringEndpoints line = some (p1, p2) →
        _linestringEndpoints reshapeLineGeos = some (r1, r2) →
        ((⟨c.x, c.y⟩ : QgsPointXY) = p1 ∨ (⟨c.x, c.y⟩ : QgsPointXY) = p2) →
        ((⟨c.x, c.y⟩ : QgsPointXY) = r1 ∨ (⟨c.x, c.y⟩ : QgsPointXY) = r2) →
          reshapeLine ctxt (some line) (some reshapeLineGeos) precision
            = match ctxt.GEOSLineMerge_r (.collection .multiLineString [line, reshapeLineGeos]) with
              | .ok merged => .ok (some merged)
              | .error e => .error e)
      ∧ (∀ cs c rest,
        ctxt.GEOSIntersection_r line reshapeLineGeos = .ok (.point cs) → cs.coords = c :: rest →
        (¬ ∃ p1 p2 r1 r2, _linestringEndpoints line = some (p1, p2)
            ∧ _linestringEndpoints reshapeLineGeos = some (r1, r2)
            ∧ ((⟨c.x, c.y⟩ : QgsPointXY) = p1 ∨ (⟨c.x, c.y⟩ : QgsPointXY) = p2)
            ∧ ((⟨c.x, c.y⟩ : QgsPointXY) = r1 ∨ (⟨c.x, c.y⟩ : QgsPointXY) = r2)) →
          reshapeLine ctxt (some line) (some reshapeLineGeos) precision = .ok none)
      ∧ (∀ g, ctxt.GEOSIntersection_r line reshapeLineGeos = .ok g →
        GEOSGeomTypeId_r g ≠ GEOS_POINT →
        ¬ (GEOSGeomTypeId_r g = GEOS_MULTIPOINT ∧ GEOSGetNumGeometries_r g > 1) →
          reshapeLine ctxt (some line) (some reshapeLineGeos) precision = .ok none)
      ∧ (∀ e, ctxt.GEOSIntersection_r line reshapeLineGeos = .error e →
          reshapeLine ctxt (some line) (some reshapeLineGeos) precision = .ok none) := by
  have hscan : ∀ cs c rest, ctxt.GEOSIntersection_r line reshapeLineGeos = .ok (.point cs) →
      cs.coords = c :: rest →
      reshapeLine ctxt (some line) (some reshapeLineGeos) precision
        = _mergeLinestrings ctxt line reshapeLineGeos ⟨c.x, c.y⟩ := by
    intro cs c rest hi hc
    simp [reshapeLine, scanIntersection, hi, GEOSGeomTypeId_r, GEOSGeom_getCoordSeq_r,
      GEOSCoordSeq_getX_r, GEOSCoordSeq_getY_r, hc]
  have hpt : ∀ (a b : QgsPointXY), (decide (a.x = b.x) && decide (a.y = b.y)) = decide (a = b) := by
    intro a b
    cases a; cases b
    simp [QgsPointXY.mk.injEq]
  refine ⟨?_, ?_, ?_, ?_⟩
  · intro cs c rest p1 p2 r1 r2 hi hc hl hr ho hrs
    rw [hscan cs c rest hi hc]
    have e1 := hpt ⟨c.x, c.y⟩ p1
    have e2 := hpt ⟨c.x, c.y⟩ p2
    have e3 := hpt ⟨c.x, c.y⟩ r1
    have e4 := hpt ⟨c.x, c.y⟩ r2
    simp only at e1 e2 e3 e4
    simp only [_mergeLinestrings, hl, hr, e1, e2, e3, e4]
    have h1 : (decide ((⟨c.x, c.y⟩ : QgsPointXY) = p1) || decide ((⟨c.x, c.y⟩ : QgsPointXY) = p2))
        = true := by
      rcases ho with h | h <;> simp [h]
    have h2 : (decide ((⟨c.x, c.y⟩ : QgsPointXY) = r1) || decide ((⟨c.x, c.y⟩ : QgsPointXY) = r2))
        = true := by
      rcases hrs with h | h <;> simp [h]
    simp only [h1, h2, Bool.and_self, if_true, GEOSGeom_createCollection_r,
      GEOSCollectionType.ofTypeId, Option.map_some', GEOSGeom_clone_r]
    cases ctxt.GEOSLineMerge_r (.collection .multiLineString [line, reshapeLineGeos]) <;> rfl
  · intro cs c rest hi hc hno
    rw [hscan cs c rest hi hc]
    unfold _mergeLinestrings
    cases hl : _linestringEndpoints line with
    | none => rfl
    | some pp =>
      obtain ⟨p1, p2⟩ := pp
      cases hr : _linestringEndpoints reshapeLineGeos with
      | none => rfl
      | some rr =>
        obtain ⟨r1, r2⟩ := rr
        have e1 := hpt ⟨c.x, c.y⟩ p1
        have e2 := hpt ⟨c.x, c.y⟩ p2
        have e3 := hpt ⟨c.x, c.y⟩ r1
        have e4 := hpt ⟨c.x, c.y⟩ r2
        simp only at e1 e2 e3 e4
        simp only [e1, e2, e3, e4]
        split
        · rename_i hboth
          exfalso
          apply hno
          simp only [Bool.and_eq_true, Bool.or_eq_true, decide_eq_true_eq] at hboth
          exact ⟨p1, p2, r1, r2, hl, hr, hboth.1, hboth.2⟩
        · rfl
  · intro g hi hnp hnm
    have hm : (decide (GEOSGeomTypeId_r g = GEOS_MULTIPOINT)
        && decide (GEOSGetNumGeometries_r g > 1)) = false := by
      by_contra hcon
      simp only [Bool.not_eq_false, Bool.and_eq_true, decide_eq_true_eq] at hcon
      exact hnm hcon
    simp [reshapeLine, scanIntersection, hi, hnp, hm]
  · intro e hi
    simp [reshapeLine, scanIntersection, hi]

/-- Witness of C15: the line (0 0, 1 0) and the line (1 0, 2 0) meet in the point (1 0), an end
point of both: `reshapeLine` returns their line merge. -/
theorem reshapeLine_extension_witness :
    reshapeLine extendingContext (some firstLineGeos) (some extensionLineGeos) 0
      = .ok (some extendedLineGeos) :=
  (reshapeLine_extension extendingContext firstLineGeos extensionLineGeos 0).1
    { dims := 2, coords := [⟨1, 0, 0⟩] } ⟨1, 0, 0⟩ [] ⟨0, 0⟩ ⟨1, 0⟩ ⟨1, 0⟩ ⟨2, 0⟩
    (by simp [extendingContext, firstLineGeos]) rfl
    (by simp [_linestringEndpoints, firstLineGeos, GEOSGeom_getCoordSeq_r, GEOSCoordSeq_getSize_r,
      GEOSCoordSeq_getX_r, GEOSCoordSeq_getY_r])
    (by simp [_linestringEndpoints, extensionLineGeos, GEOSGeom_getCoordSeq_r,
      GEOSCoordSeq_getSize_r, GEOSCoordSeq_getX_r, GEOSCoordSeq_getY_r])
    (Or.inr rfl) (Or.inl rfl)

/-! ## Reshaping a polygon -/

theorem ringSequences_linearRings (rings : List GEOSCoordSequence) :
    ringSequences (rings.map GEOSGeometry.linearRing) = some rings := by
  induction rings with
  | nil => rfl
  | cons r rs ih => simp [ringSequences, ih]

theorem count_pos_of_get (bs : List Bool) (k : Nat) (h : bs.get? k = some true) :
    0 < bs.count true := by
  rw [List.count_pos_iff]
  exact List.get?_mem h

theorem scanInnerRings_answered (ctxt : GEOSContextHandle_t) (rl : GEOSGeometry)
    (holes : List GEOSCoordSequence) (bs : List Bool)
    (hin : List.Forall₂ (fun hole b => ctxt.GEOSIntersects_r (.linearRing hole) rl = .ok b)
      holes bs) :
    ∀ (i : Nat) (s : RingScan), ∃ s',
      scanInnerRings ctxt rl (holes.map GEOSGeometry.linearRing) i s = .ok s'
        ∧ s'.nIntersections = s.nIntersections + bs.count true
        ∧ (bs.count true = 0 → s' = s)
        ∧ (∀ k ring, bs.count true = 1 → bs.get? k = some true → holes.get? k = some ring →
            s'.lastIntersectingRing = ((i + k : Nat) : Int)
              ∧ s'.lastIntersectingGeom = some (.linearRing ring)) := by
  induction hin with
  | nil =>
    intro i s
    exact ⟨s, rfl, by simp, fun _ => rfl, fun k ring _ hk => by simp at hk⟩
  | @cons hole b holes bs hhead _ ih =>
    intro i s
    cases b with
    | true =>
      obtain ⟨s', hs, hn, hzero, _⟩ := ih (i + 1)
        { nIntersections := s.nIntersections + 1, lastIntersectingRing := i,
          lastIntersectingGeom := some (.linearRing hole) }
      refine ⟨s', by simp [scanInnerRings, hhead, hs], by simp [hn]; omega, by simp, ?_⟩
      intro k ring hone hk hring
      have hc : bs.count true = 0 := by simpa using hone
      have hs' := hzero hc
      cases k with
      | zero =>
        simp only [List.get?_cons_zero, Option.some.injEq] at hring
        subst hring
        rw [hs']; simp
      | succ k =>
        simp only [List.get?_cons_succ] at hk
        have := count_pos_of_get bs k hk
        omega
    | false =>
      obtain ⟨s', hs, hn, hzero, hone'⟩ := ih (i + 1) s
      refine ⟨s', by simp [scanInnerRings, hhead, hs], by simp [hn], ?_, ?_⟩
      · intro hc
        exact hzero (by simpa using hc)
      · intro k ring hone hk hring
        cases k with
        | zero => simp at hk
        | succ k =>
          simp only [List.get?_cons_succ] at hk hring
          have := hone' k ring (by simpa using hone) hk hring
          rw [this.1, this.2]
          exact ⟨by push_cast; ring, rfl⟩

theorem containedRings_answered (ctxt : GEOSContextHandle_t) (outerRingPoly : GEOSGeometry)
    (cs : GEOSCoordSequence) (last : Int) (holes : List GEOSCoordSequence) :
    ∀ (i : Nat) (contained : List Bool),
      List.Forall₂ (fun hole c => ctxt.GEOSContains_r outerRingPoly (.linearRing hole) = .ok c)
        (holesWithReplaced cs last holes i) contained →
      containedRings ctxt outerRingPoly (.linearRing cs) last
          (holes.map GEOSGeometry.linearRing) i
        = .ok ((keptRings (holesWithReplaced cs last holes i) contained).map
            GEOSGeometry.linearRing) := by
  induction holes with
  | nil =>
    intro i contained h
    simp [containedRings, holesWithReplaced, keptRings]
  | cons hole holes ih =>
    intro i contained h
    simp only [holesWithReplaced, List.enumFrom_cons, List.map_cons] at h
    cases h with
    | @cons _ c _ rest hhead htail =>
      have hrest := ih (i + 1) rest htail
      have hcur : (if last = (i : Int) then GEOSGeometry.linearRing cs
          else GEOSGeom_clone_r (GEOSGeometry.linearRing hole))
          = GEOSGeometry.linearRing (if last = (i : Int) then cs else hole) := by
        split <;> rfl
      simp only [List.map_cons, containedRings, hcur, hhead, hrest, holesWithReplaced,
        List.enumFrom_cons, keptRings, List.zip_cons_cons, List.filterMap_cons]
      cases c <;> simp

/-- C16: `reshapePolygon` on a polygon whose rings the library tests against the reshape line.
Unless exactly one ring (the exterior or one interior ring) intersects the line there is no
result.  When that ring is reshaped into a ring `cs`, the result has the exterior `cs` if the
exterior was intersected and the original exterior otherwise, and its interior rings are, in
their order, the interior rings (the intersected one replaced by `cs`) that the polygon of the
new exterior contains; the other rings are dropped. -/
theorem reshapePolygon_rings (ctxt : GEOSContextHandle_t) (shell : GEOSCoordSequence)
    (holes : List GEOSCoordSequence) (reshapeLineGeos : GEOSGeometry) (precision : ℚ)
    (outerIntersects : Bool) (innerIntersects : List Bool)
    (hout : ctxt.GEOSIntersects_r (.linearRing shell) reshapeLineGeos = .ok outerIntersects)
    (hin : List.Forall₂
      (fun hole b => ctxt.GEOSIntersects_r (.linearRing hole) reshapeLineGeos = .ok b)
      holes innerIntersects) :
    ((outerIntersects :: innerIntersects).count true ≠ 1 →
        reshapePolygon ctxt (.polygon shell holes) (some reshapeLineGeos) precision = .ok none)
      ∧ (∀ reshaped,
        reshapePolygon ctxt (.polygon shell holes) (some reshapeLineGeos) precision
          = .ok (some reshaped) → (outerIntersects :: innerIntersects).count true = 1)
      ∧ (∀ (last : Int) (ring : GEOSCoordSequence) (reshapeResult : GEOSGeometry)
          (cs : GEOSCoordSequence) (contained : List Bool),
        (outerIntersects :: innerIntersects).count true = 1 →
        ((last = -1 ∧ outerIntersects = true ∧ ring = shell)
          ∨ ∃ k : Nat, last = (k : Int) ∧ innerIntersects.get? k = some true
              ∧ holes.get? k = some ring) →
        reshapeLine ctxt (some (.linearRing ring)) (some reshapeLineGeos) precision
          = .ok (some reshapeResult) →
        GEOSGeom_getCoordSeq_r reshapeResult = some cs →
        GEOSGeom_createLinearRing_r cs = some (.linearRing cs) →
        List.Forall₂
          (fun hole c =>
            ctxt.GEOSContains_r (.polygon (if last = -1 then cs else shell) [])
              (.linearRing hole) = .ok c)
          (holesWithReplaced cs last holes 0) contained →
        reshapePolygon ctxt (.polygon shell holes) (some reshapeLineGeos) precision
          = .ok (some (.polygon (if last = -1 then cs else shell)
              (keptRings (holesWithReplaced cs last holes 0) contained)))) := by
  obtain ⟨s', hs, hn, hzero, hone⟩ := scanInnerRings_answered ctxt reshapeLineGeos holes
    innerIntersects hin 0 (if outerIntersects then ⟨1, -1, some (.linearRing shell)⟩
      else ⟨0, -2, none⟩)
  have hcount : s'.nIntersections = (outerIntersects :: innerIntersects).count true := by
    rw [hn]
    cases outerIntersects
    · simp
    · simp; omega
  have hnone : (outerIntersects :: innerIntersects).count true ≠ 1 →
      reshapePolygon ctxt (.polygon shell holes) (some reshapeLineGeos) precision = .ok none := by
    intro hne
    have hne' : s'.nIntersections ≠ 1 := by rw [hcount]; exact hne
    simp only [reshapePolygon, hout, hs]
    simp [hne']
  refine ⟨hnone, ?_, ?_⟩
  · intro reshaped hres
    by_contra hne
    rw [hnone hne] at hres
    cases hres
  · intro last ring reshapeResult cs contained hcnt hlast hreshape hcs hring hcont
    have hone' : s'.nIntersections = 1 := by rw [hcount]; exact hcnt
    have hscan : s'.lastIntersectingRing = last
        ∧ s'.lastIntersectingGeom = some (.linearRing ring) := by
      rcases hlast with ⟨hl, ho, hr⟩ | ⟨k, hl, hk, hr⟩
      · subst ho
        have hc : innerIntersects.count true = 0 := by simpa using hcnt
        rw [hzero hc, hl, hr]
        exact ⟨rfl, rfl⟩
      · have hpos := count_pos_of_get innerIntersects k hk
        have ho : outerIntersects = false := by
          cases outerIntersects with
          | false => rfl
          | true => simp at hcnt; omega
        subst ho
        have hc : innerIntersects.count true = 1 := by simpa using hcnt
        have := hone k ring hc hk hr
        rw [this.1, this.2, hl]
        exact ⟨by simp, rfl⟩
    have hpoly : GEOSGeom_createPolygon_r
        (GEOSGeom_clone_r (if last = -1 then GEOSGeometry.linearRing cs
          else GEOSGeom_clone_r (GEOSGeometry.linearRing shell))) []
        = some (.polygon (if last = -1 then cs else shell) []) := by
      split <;> rfl
    have hfinal : ∀ rings : List GEOSCoordSequence,
        GEOSGeom_createPolygon_r
          (if last = -1 then GEOSGeometry.linearRing cs
            else GEOSGeom_clone_r (GEOSGeometry.linearRing shell))
          (rings.map GEOSGeometry.linearRing)
        = some (.polygon (if last = -1 then cs else shell) rings) := by
      intro rings
      split <;> simp [GEOSGeom_createPolygon_r, GEOSGeom_clone_r, ringSequences_linearRings]
    simp only [reshapePolygon, hout, hs, hone', ne_eq, not_true_eq_false, if_false, hscan.1,
      hscan.2, hreshape, hcs, Option.some_bind, hring, hpoly, List.length_map]
    by_cases hlen : holes.length > 0
    · simp only [hlen, if_true,
        containedRings_answered ctxt _ cs last holes 0 contained hcont, hfinal]
    · have hnil : holes = [] := by
        cases holes with
        | nil => rfl
        | cons h t => simp at hlen
      subst hnil
      simp only [hlen, if_false]
      have := hfinal []
      simp only [List.map_nil] at this
      simp [this, holesWithReplaced, keptRings]

/-! ## The network tracer: shortest paths -/

namespace QgsTracer

variable {V : Type} {C : Type} [LinearOrderedAddCommMonoid C]

theorem mem_neighbours [DecidableEq V] (edges : List (V × V)) (u v : V) :
    v ∈ neighbours edges u ↔ (u, v) ∈ edges ∨ (v, u) ∈ edges := by
  unfold neighbours
  simp only [List.mem_filterMap]
  constructor
  · rintro ⟨e, he, h⟩
    obtain ⟨a, b⟩ := e
    by_cases h1 : a = u
    · simp only [h1, if_true, Option.some.injEq] at h
      subst h1 h; exact Or.inl he
    · simp only [h1, if_false] at h
      by_cases h2 : b = u
      · simp only [h2, if_true, Option.some.injEq] at h
        subst h2 h; exact Or.inr he
      · simp [h2] at h
  · rintro (h | h)
    · exact ⟨(u, v), h, by simp⟩
    · refine ⟨(v, u), h, ?_⟩
      by_cases h1 : v = u
      · simp [h1]
      · simp [h1]

theorem neighbours_symm [DecidableEq V] (edges : List (V × V)) (u v : V) (h : v ∈ neighbours edges u) :
    u ∈ neighbours edges v := by
  rw [mem_neighbours] at h ⊢
  exact h.symm

theorem neighbour_mem_vertices [DecidableEq V] (edges : List (V × V)) (u v : V) (h : v ∈ neighbours edges u) :
    v ∈ vertices edges ∧ u ∈ vertices edges := by
  rw [mem_neighbours] at h
  unfold vertices
  simp only [List.mem_dedup, List.mem_flatMap, List.mem_cons, List.mem_singleton]
  rcases h with h | h
  · exact ⟨⟨(u, v), h, by simp⟩, ⟨(u, v), h, by simp⟩⟩
  · exact ⟨⟨(v, u), h, by simp⟩, ⟨(v, u), h, by simp⟩⟩

theorem pathLength_nonneg (len : V → V → C) (hlen : ∀ a b, 0 ≤ len a b) (w : List V) :
    0 ≤ pathLength len w := by
  induction w with
  | nil => exact le_refl _
  | cons a t ih =>
    cases t with
    | nil => exact le_refl _
    | cons b rest => exact add_nonneg (hlen a b) ih

theorem pathLength_append_singleton (len : V → V → C) (w : List V) (u v : V)
    (hlast : w.getLast? = some u) :
    pathLength len (w ++ [v]) = pathLength len w + len u v := by
  induction w with
  | nil => simp at hlast
  | cons a t ih =>
    cases t with
    | nil =>
      simp only [List.getLast?_singleton, Option.some.injEq] at hlast
      subst hlast
      simp [pathLength]
    | cons b rest =>
      have hl : (b :: rest).getLast? = some u := by
        rw [List.getLast?_cons_cons] at hlast; exact hlast
      have := ih hl
      show pathLength len (a :: b :: (rest ++ [v])) = pathLength len (a :: b :: rest) + len u v
      rw [pathLength, pathLength, show b :: (rest ++ [v]) = (b :: rest) ++ [v] from rfl, this,
        add_assoc]

theorem pathLength_split (len : V → V → C) (pre : List V) (x y : V) (post : List V) :
    pathLength len (pre ++ x :: y :: post)
      = pathLength len (pre ++ [x]) + (len x y + pathLength len (y :: post)) := by
  induction pre with
  | nil => simp [pathLength]
  | cons a t ih =>
    cases t with
    | nil =>
      show pathLength len (a :: x :: y :: post)
        = pathLength len [a, x] + (len x y + pathLength len (y :: post))
      simp only [pathLength, add_zero]
    | cons b rest =>
      show pathLength len (a :: b :: (rest ++ x :: y :: post))
        = pathLength len (a :: b :: (rest ++ [x])) + (len x y + pathLength len (y :: post))
      rw [pathLength, pathLength, show b :: (rest ++ x :: y :: post) = (b :: rest) ++ x :: y :: post
        from rfl, ih, add_assoc]
      rfl

theorem minCandidate_spec (cs : List (Settled V C)) :
    (minCandidate cs = none ↔ cs = [])
      ∧ ∀ c, minCandidate cs = some c → c ∈ cs ∧ ∀ d ∈ cs, c.dist ≤ d.dist := by
  induction cs with
  | nil => simp [minCandidate]
  | cons c cs ih =>
    constructor
    · simp only [minCandidate]
      cases h : minCandidate cs with
      | none => simp
      | some m => simp only []; split <;> simp
    · intro r hr
      simp only [minCandidate] at hr
      cases h : minCandidate cs with
      | none =>
        rw [h] at hr
        simp only [Option.some.injEq] at hr
        subst hr
        have hnil := ih.1.mp h
        subst hnil
        exact ⟨List.mem_cons_self _ _, fun d hd => by simp at hd; rw [hd]⟩
      | some m =>
        rw [h] at hr
        simp only at hr
        obtain ⟨hm, hmin⟩ := ih.2 m h
        split at hr
        · rename_i hlt
          simp only [Option.some.injEq] at hr
          subst hr
          refine ⟨List.mem_cons_of_mem _ hm, fun d hd => ?_⟩
          rcases List.mem_cons.mp hd with hd | hd
          · rw [hd]; exact le_of_lt hlt
          · exact hmin d hd
        · rename_i hnlt
          simp only [Option.some.injEq] at hr
          subst hr
          refine ⟨List.mem_cons_self _ _, fun d hd => ?_⟩
          rcases List.mem_cons.mp hd with hd | hd
          · rw [hd]
          · exact le_trans (not_lt.mp hnlt) (hmin d hd)

theorem mem_candidates [DecidableEq V] (len : V → V → C) (edges : List (V × V)) (settled : List (Settled V C))
    (c : Settled V C) :
    c ∈ candidates len edges settled ↔
      ∃ s ∈ settled, ∃ v ∈ neighbours edges s.vertex,
        v ∉ settled.map (fun t => t.vertex)
          ∧ c = { vertex := v, dist := s.dist + len s.vertex v, path := s.path ++ [v] } := by
  unfold candidates
  simp only [List.mem_flatMap, List.mem_filterMap]
  constructor
  · rintro ⟨s, hs, v, hv, h⟩
    by_cases hin : v ∈ settled.map (fun t => t.vertex)
    · simp [hin] at h
    · simp only [hin, if_false, Option.some.injEq] at h
      exact ⟨s, hs, v, hv, hin, h.symm⟩
  · rintro ⟨s, hs, v, hv, hin, h⟩
    exact ⟨s, hs, v, hv, by simp only [hin, if_false, h]⟩

theorem walk_leaves [DecidableEq V] (edges : List (V × V)) (S : List V) :
    ∀ w : List V, IsWalk edges w → (∃ a, w.head? = some a ∧ a ∈ S) →
      (∃ b, w.getLast? = some b ∧ b ∉ S) →
      ∃ pre x y post, w = pre ++ x :: y :: post ∧ (∀ z ∈ pre, z ∈ S) ∧ x ∈ S ∧ y ∉ S := by
  intro w
  induction w with
  | nil => rintro _ ⟨a, ha, _⟩ _; simp at ha
  | cons a t ih =>
    rintro hw ⟨a', ha', haS⟩ ⟨b, hb, hbS⟩
    simp only [List.head?_cons, Option.some.injEq] at ha'
    subst ha'
    cases t with
    | nil =>
      simp only [List.getLast?_singleton, Option.some.injEq] at hb
      subst hb
      exact absurd haS hbS
    | cons c rest =>
      by_cases hc : c ∈ S
      · have hw' : IsWalk edges (c :: rest) := List.Chain'.tail hw
        have hb' : (c :: rest).getLast? = some b := by
          rw [List.getLast?_cons_cons] at hb; exact hb
        obtain ⟨pre, x, y, post, heq, hpre, hx, hy⟩ :=
          ih hw' ⟨c, rfl, hc⟩ ⟨b, hb', hbS⟩
        refine ⟨a :: pre, x, y, post, by rw [heq]; rfl, ?_, hx, hy⟩
        intro z hz
        rcases List.mem_cons.mp hz with h | h
        · rw [h]; exact haS
        · exact hpre z h
      · exact ⟨[], a, c, rest, rfl, by simp, haS, hc⟩

theorem isWalk_append_singleton [DecidableEq V] (edges : List (V × V)) (w : List V) (u v : V)
    (hw : IsWalk edges w) (hlast : w.getLast? = some u) (hv : v ∈ neighbours edges u) :
    IsWalk edges (w ++ [v]) := by
  unfold IsWalk at hw ⊢
  rw [List.chain'_append]
  refine ⟨hw, List.chain'_singleton v, ?_⟩
  intro x hx y hy
  simp only [List.head?_cons, Option.mem_def, Option.some.injEq] at hy
  rw [hlast] at hx
  simp only [Option.mem_def, Option.some.injEq] at hx
  subst hx hy
  exact hv

theorem head?_append_of_head? {α : Type} (w : List α) (a : α) (t : List α)
    (h : w.head? = some a) : (w ++ t).head? = some a := by
  cases w with
  | nil => simp at h
  | cons b r => simpa using h

theorem initial_invariant [DecidableEq V] (len : V → V → C) (hlen : ∀ a b, 0 ≤ len a b)
    (edges : List (V × V)) (source : V) :
    SearchInvariant len edges source [{ vertex := source, dist := 0, path := [source] }] where
  walks := by
    intro s hs
    simp only [List.mem_singleton] at hs
    subst hs
    exact ⟨⟨List.chain'_singleton _, rfl, rfl⟩, rfl⟩
  shortest := by
    intro s hs w _
    simp only [List.mem_singleton] at hs
    subst hs
    exact pathLength_nonneg len hlen w
  nodup := by simp
  paths := by
    intro s hs
    simp only [List.mem_singleton] at hs
    subst hs
    simp
  source_mem := by simp

theorem step_invariant [DecidableEq V] (len : V → V → C) (hlen : ∀ a b, 0 ≤ len a b)
    (edges : List (V × V)) (source : V) (settled : List (Settled V C))
    (hinv : SearchInvariant len edges source settled) (c : Settled V C)
    (hc : minCandidate (candidates len edges settled) = some c) :
    SearchInvariant len edges source (settled ++ [c]) := by
  obtain ⟨hmem, hmin⟩ := (minCandidate_spec _).2 c hc
  obtain ⟨s, hs, v, hv, hvS, hceq⟩ := (mem_candidates len edges settled c).mp hmem
  obtain ⟨⟨hsw, hshead, hslast⟩, hsdist⟩ := hinv.walks s hs
  have hcwalk : IsWalkFromTo edges source c.vertex c.path := by
    rw [hceq]
    exact ⟨isWalk_append_singleton edges s.path s.vertex v hsw hslast hv,
      head?_append_of_head? _ _ _ hshead, by simp⟩
  have hcdist : pathLength len c.path = c.dist := by
    rw [hceq]
    simp only
    rw [pathLength_append_singleton len s.path s.vertex v hslast, hsdist]
  have hcv : c.vertex = v := by rw [hceq]
  constructor
  · intro t ht
    rcases List.mem_append.mp ht with h | h
    · exact hinv.walks t h
    · simp only [List.mem_singleton] at h
      subst h
      exact ⟨hcwalk, hcdist⟩
  · intro t ht w hw
    rcases List.mem_append.mp ht with h | h
    · exact hinv.shortest t h w hw
    · simp only [List.mem_singleton] at h
      subst h
      obtain ⟨hww, hwhead, hwlast⟩ := hw
      obtain ⟨pre, x, y, post, heq, hpre, hx, hy⟩ :=
        walk_leaves edges (settled.map (fun t => t.vertex)) w hww
          ⟨source, hwhead, hinv.source_mem⟩ ⟨t.vertex, hwlast, by rw [hcv]; exact hvS⟩
      obtain ⟨sx, hsx, hsxv⟩ := List.mem_map.mp hx
      subst heq
      have hsplit := (@List.chain'_split _ _ x pre (y :: post)).mp hww
      have hxy : y ∈ neighbours edges x := by
        have := hsplit.2
        rw [List.chain'_cons] at this
        exact this.1
      have hprewalk : IsWalkFromTo edges source sx.vertex (pre ++ [x]) := by
        refine ⟨hsplit.1, ?_, by simp [hsxv]⟩
        cases pre with
        | nil => simpa using hwhead
        | cons p ps => simpa using hwhead
      have h1 := hinv.shortest sx hsx (pre ++ [x]) hprewalk
      have hcand : ({ vertex := y, dist := sx.dist + len sx.vertex y, path := sx.path ++ [y] } :
          Settled V C) ∈ candidates len edges settled :=
        (mem_candidates len edges settled _).mpr ⟨sx, hsx, y, by rw [hsxv]; exact hxy, hy, rfl⟩
      have h2 := hmin _ hcand
      simp only at h2
      rw [pathLength_split, hsxv] at *
      calc t.dist ≤ sx.dist + len x y := h2
        _ ≤ pathLength len (pre ++ [x]) + len x y := add_le_add_right h1 _
        _ ≤ pathLength len (pre ++ [x]) + (len x y + pathLength len (y :: post)) :=
            add_le_add_left (le_add_of_nonneg_right (pathLength_nonneg len hlen _)) _
  · rw [List.map_append, List.nodup_append]
    refine ⟨hinv.nodup, by simp, ?_⟩
    intro a ha hb
    simp only [List.map_cons, List.map_nil, List.mem_singleton] at hb
    rw [hb, hcv] at ha
    exact hvS ha
  · intro t ht
    rcases List.mem_append.mp ht with h | h
    · obtain ⟨hn, hsub⟩ := hinv.paths t h
      exact ⟨hn, fun z hz => by
        rw [List.map_append]; exact List.mem_append_left _ (hsub z hz)⟩
    · simp only [List.mem_singleton] at h
      subst h
      obtain ⟨hn, hsub⟩ := hinv.paths s hs
      rw [hceq]
      simp only
      constructor
      · rw [List.nodup_append]
        refine ⟨hn, by simp, ?_⟩
        intro a ha hb
        simp only [List.mem_singleton] at hb
        subst hb
        exact hvS (hsub a ha)
      · intro z hz
        rw [List.map_append]
        rcases List.mem_append.mp hz with h | h
        · exact List.mem_append_left _ (hsub z h)
        · simp only [List.mem_singleton] at h
          subst h
          exact List.mem_append_right _ (by simp)
  · rw [List.map_append]
    exact List.mem_append_left _ hinv.source_mem

theorem dijkstra_invariant [DecidableEq V] (len : V → V → C) (hlen : ∀ a b, 0 ≤ len a b)
    (edges : List (V × V)) (source : V) :
    ∀ (fuel : Nat) (settled : List (Settled V C)),
      SearchInvariant len edges source settled →
      SearchInvariant len edges source (dijkstra len edges fuel settled) := by
  intro fuel
  induction fuel with
  | zero => intro settled h; exact h
  | succ fuel ih =>
    intro settled h
    simp only [dijkstra]
    cases hc : minCandidate (candidates len edges settled) with
    | none => exact h
    | some c => exact ih _ (step_invariant len hlen edges source settled h c hc)

theorem candidate_unsettled [DecidableEq V] (len : V → V → C) (edges : List (V × V))
    (settled : List (Settled V C)) (c : Settled V C)
    (hc : c ∈ candidates len edges settled) :
    c.vertex ∈ (vertices edges).filter (fun v => decide (v ∉ settled.map (fun t => t.vertex))) := by
  obtain ⟨s, _, v, hv, hvS, hceq⟩ := (mem_candidates len edges settled c).mp hc
  rw [hceq]
  simp only [List.mem_filter, decide_eq_true_eq]
  exact ⟨(neighbour_mem_vertices edges s.vertex v hv).1, hvS⟩

theorem dijkstra_exhausts [DecidableEq V] (len : V → V → C) (edges : List (V × V)) :
    ∀ (fuel : Nat) (settled : List (Settled V C)),
      ((vertices edges).filter
        (fun v => decide (v ∉ settled.map (fun t => t.vertex)))).length ≤ fuel →
      candidates len edges (dijkstra len edges fuel settled) = [] := by
  intro fuel
  induction fuel with
  | zero =>
    intro settled hk
    simp only [dijkstra]
    cases hcs : candidates len edges settled with
    | nil => rfl
    | cons c cs =>
      have := candidate_unsettled len edges settled c (by rw [hcs]; exact List.mem_cons_self _ _)
      have hpos := List.length_pos_of_mem this
      omega
  | succ fuel ih =>
    intro settled hk
    simp only [dijkstra]
    cases hc : minCandidate (candidates len edges settled) with
    | none => exact (minCandidate_spec _).1.mp hc
    | some c =>
      apply ih
      have hmem := ((minCandidate_spec _).2 c hc).1
      have hun := candidate_unsettled len edges settled c hmem
      have hfilter : (vertices edges).filter
            (fun v => decide (v ∉ (settled ++ [c]).map (fun t => t.vertex)))
          = ((vertices edges).filter
              (fun v => decide (v ∉ settled.map (fun t => t.vertex)))).erase c.vertex := by
        have hnd : ((vertices edges).filter
            (fun v => decide (v ∉ settled.map (fun t => t.vertex)))).Nodup :=
          List.Nodup.filter _ (List.nodup_dedup _)
        rw [List.Nodup.erase_eq_filter hnd, List.filter_filter]
        apply List.filter_congr
        intro v _
        simp only [List.map_append, List.map_cons, List.map_nil, List.mem_append,
          List.mem_singleton, not_or, Bool.decide_and, bne_iff_ne, ne_eq]
        by_cases h1 : v = c.vertex <;> by_cases h2 : v ∈ settled.map (fun t => t.vertex) <;>
          simp [h1, h2]
      rw [hfilter, List.length_erase_of_mem hun]
      omega

theorem settled_of_walk [DecidableEq V] (len : V → V → C) (edges : List (V × V)) (source : V)
    (settled : List (Settled V C)) (hinv : SearchInvariant len edges source settled)
    (hnone : candidates len edges settled = []) (target : V) (w : List V)
    (hw : IsWalkFromTo edges source target w) :
    target ∈ settled.map (fun t => t.vertex) := by
  by_contra hnot
  obtain ⟨hww, hhead, hlast⟩ := hw
  obtain ⟨pre, x, y, post, heq, _, hx, hy⟩ :=
    walk_leaves edges (settled.map (fun t => t.vertex)) w hww ⟨source, hhead, hinv.source_mem⟩
      ⟨target, hlast, hnot⟩
  obtain ⟨sx, hsx, hsxv⟩ := List.mem_map.mp hx
  subst heq
  have hsplit := (@List.chain'_split _ _ x pre (y :: post)).mp hww
  have hxy : y ∈ neighbours edges x := by
    have := hsplit.2
    rw [List.chain'_cons] at this
    exact this.1
  have hcand : ({ vertex := y, dist := sx.dist + len sx.vertex y, path := sx.path ++ [y] } :
      Settled V C) ∈ candidates len edges settled :=
    (mem_candidates len edges settled _).mpr ⟨sx, hsx, y, by rw [hsxv]; exact hxy, hy, rfl⟩
  rw [hnone] at hcand
  simp at hcand

/-- The search delivers a shortest walk to every vertex that a walk reaches, and nothing for
the other vertices. -/
theorem shortestPath_spec [DecidableEq V] (len : V → V → C) (hlen : ∀ a b, 0 ≤ len a b)
    (edges : List (V × V)) (source target : V) :
    ((∃ w, IsWalkFromTo edges source target w) →
        IsWalkFromTo edges source target (shortestPath len edges source target)
          ∧ (shortestPath len edges source target).Nodup
          ∧ ∀ w, IsWalkFromTo edges source target w →
              pathLength len (shortestPath len edges source target) ≤ pathLength len w)
      ∧ ((¬ ∃ w, IsWalkFromTo edges source target w) →
        shortestPath len edges source target = []) := by
  have hinv := dijkstra_invariant len hlen edges source (vertices edges).length _
    (initial_invariant len hlen edges source)
  have hdone := dijkstra_exhausts len edges (vertices edges).length
    [{ vertex := source, dist := 0, path := [source] }]
    (le_trans (List.length_filter_le _ _) (le_refl _))
  constructor
  · rintro ⟨w, hw⟩
    have hmem := settled_of_walk len edges source _ hinv hdone target w hw
    obtain ⟨t, ht, htv⟩ := List.mem_map.mp hmem
    unfold shortestPath
    cases hf : (dijkstra len edges (vertices edges).length
        [{ vertex := source, dist := 0, path := [source] }]).find?
        (fun s => decide (s.vertex = target)) with
    | none =>
      rw [List.find?_eq_none] at hf
      exact absurd (by simpa using htv) (hf t ht)
    | some s =>
      have hs := List.mem_of_find?_eq_some hf
      have hsv : s.vertex = target := by simpa using List.find?_some hf
      simp only
      obtain ⟨hwalk, hdist⟩ := hinv.walks s hs
      rw [hsv] at hwalk
      refine ⟨hwalk, (hinv.paths s hs).1, ?_⟩
      intro w' hw'
      rw [hdist]
      exact hinv.shortest s hs w' (by rw [hsv]; exact hw')
  · intro hno
    unfold shortestPath
    cases hf : (dijkstra len edges (vertices edges).length
        [{ vertex := source, dist := 0, path := [source] }]).find?
        (fun s => decide (s.vertex = target)) with
    | none => rfl
    | some s =>
      have hs := List.mem_of_find?_eq_some hf
      have hsv : s.vertex = target := by simpa using List.find?_some hf
      obtain ⟨hwalk, _⟩ := hinv.walks s hs
      rw [hsv] at hwalk
      exact absurd ⟨s.path, hwalk⟩ hno

end QgsTracer

/-! ## The network tracer: the graph is planar -/

theorem QgsPointXY.le_def (p q : QgsPointXY) :
    p ≤ q ↔ p.x < q.x ∨ (p.x = q.x ∧ p.y ≤ q.y) :=
  Prod.Lex.le_iff (p.x, p.y) (q.x, q.y)

theorem QgsPointXY.lt_def (p q : QgsPointXY) :
    p < q ↔ p.x < q.x ∨ (p.x = q.x ∧ p.y < q.y) :=
  Prod.Lex.lt_iff (p.x, p.y) (q.x, q.y)

namespace QgsTracer

/-- Two vectors that are both parallel to a third vector, which is not zero, are parallel. -/
theorem parallel_trans {wx wy dx dy qx qy : ℚ} (hw : wx ≠ 0 ∨ wy ≠ 0)
    (hd : wx * dy - wy * dx = 0) (hq : wx * qy - wy * qx = 0) : dx * qy - dy * qx = 0 := by
  rcases hw with hw | hw
  · refine (mul_eq_zero.mp ?_).resolve_left hw
    linear_combination dx * hq - qx * hd
  · refine (mul_eq_zero.mp ?_).resolve_left hw
    linear_combination dy * hq - qy * hd

theorem ne_coordinates {a b : QgsPointXY} (h : a ≠ b) : b.x - a.x ≠ 0 ∨ b.y - a.y ≠ 0 := by
  by_contra hcon
  push_neg at hcon
  apply h
  cases a; cases b
  simp only [QgsPointXY.mk.injEq]
  constructor <;> linarith [hcon.1, hcon.2]

/-- Three points on the line through `a` and `b` lie on one line. -/
theorem cross_of_collinear {a b u v p : QgsPointXY} (hab : a ≠ b) (hu : cross a b u = 0)
    (hv : cross a b v = 0) (hp : cross a b p = 0) : cross u v p = 0 := by
  unfold cross at *
  have h1 : (b.x - a.x) * (v.y - u.y) - (b.y - a.y) * (v.x - u.x) = 0 := by
    linear_combination hv - hu
  have h2 : (b.x - a.x) * (p.y - u.y) - (b.y - a.y) * (p.x - u.x) = 0 := by
    linear_combination hp - hu
  exact parallel_trans (ne_coordinates hab) h1 h2

/-- A point on the line through two different points of a line lies on that line. -/
theorem cross_of_cross {a b u v p : QgsPointXY} (huv : u ≠ v) (hu : cross a b u = 0)
    (hv : cross a b v = 0) (hp : cross u v p = 0) : cross a b p = 0 := by
  unfold cross at *
  have h1 : (v.x - u.x) * (b.y - a.y) - (v.y - u.y) * (b.x - a.x) = 0 := by
    linear_combination hu - hv
  have h2 : (v.x - u.x) * (p.y - u.y) - (v.y - u.y) * (p.x - u.x) = 0 := by
    linear_combination hp
  have h3 := parallel_trans (ne_coordinates huv) h1 h2
  linear_combination h3 + hu

/-- The lines through two segments that are not parallel have one common point. -/
theorem lineIntersection_unique {s t : QgsPointXY × QgsPointXY} {q p : QgsPointXY}
    (h : lineIntersection s t = some q) (hs : cross s.1 s.2 p = 0) (ht : cross t.1 t.2 p = 0) :
    q = p := by
  unfold lineIntersection at h
  simp only at h
  split_ifs at h with hd
  simp only [Option.some.injEq] at h
  subst h
  unfold cross at hs ht
  cases p with
  | mk px py =>
    simp only at hs ht
    simp only [QgsPointXY.mk.injEq]
    constructor
    · field_simp
      linear_combination (s.2.x - s.1.x) * ht - (t.2.x - t.1.x) * hs
    · field_simp
      linear_combination (s.2.y - s.1.y) * ht - (t.2.y - t.1.y) * hs

/-- Two parallel segments with a common point lie on one line. -/
theorem collinear_of_parallel {s t : QgsPointXY × QgsPointXY} {p : QgsPointXY}
    (h : lineIntersection s t = none) (hne : t.1 ≠ t.2) (hs : cross s.1 s.2 p = 0)
    (ht : cross t.1 t.2 p = 0) : cross s.1 s.2 t.1 = 0 ∧ cross s.1 s.2 t.2 = 0 := by
  unfold lineIntersection at h
  simp only at h
  split_ifs at h with hd
  unfold cross at *
  have h1 : (t.2.x - t.1.x) * (s.2.y - s.1.y) - (t.2.y - t.1.y) * (s.2.x - s.1.x) = 0 := by
    linear_combination -hd
  have h3 := parallel_trans (ne_coordinates hne) h1 ht
  constructor
  · linear_combination hs - h3
  · linear_combination hs - h3 + hd

theorem onSegment_fst (s : QgsPointXY × QgsPointXY) : onSegment s s.1 :=
  ⟨by unfold cross; ring, min_le_left _ _, le_max_left _ _⟩

theorem onSegment_snd (s : QgsPointXY × QgsPointXY) : onSegment s s.2 :=
  ⟨by unfold cross; ring, min_le_right _ _, le_max_right _ _⟩

/-- A point on a piece of a segment lies on the segment. -/
theorem onSegment_of_piece {s e : QgsPointXY × QgsPointXY} {p : QgsPointXY}
    (h1 : onSegment s e.1) (h2 : onSegment s e.2) (hp : onSegment e p) : onSegment s p := by
  obtain ⟨hc, hlo, hhi⟩ := hp
  refine ⟨?_, le_trans (le_min h1.2.1 h2.2.1) hlo, le_trans hhi (max_le h1.2.2 h2.2.2)⟩
  by_cases heq : e.1 = e.2
  · have : p = e.1 := by
      rw [← heq, min_self] at hlo
      rw [← heq, max_self] at hhi
      exact le_antisymm hhi hlo
    rw [this]; exact h1.1
  · exact cross_of_cross heq h1.1 h2.1 hc

/-- Between two consecutive members of a sorted list lies no other member. -/
theorem consecutive_of_sorted {α : Type} [LinearOrder α] :
    ∀ (l : List α), l.Sorted (· < ·) → ∀ u v, (u, v) ∈ l.zip l.tail →
      u < v ∧ u ∈ l ∧ v ∈ l ∧ ∀ x ∈ l, u ≤ x → x ≤ v → x = u ∨ x = v
  | [], _, u, v, h => by simp at h
  | [_], _, u, v, h => by simp at h
  | a :: b :: rest, hs, u, v, h => by
    have hs2 : (b :: rest).Sorted (· < ·) := List.Sorted.of_cons hs
    have hab : ∀ x ∈ b :: rest, a < x := fun x hx => List.rel_of_sorted_cons hs x hx
    simp only [List.tail_cons, List.zip_cons_cons, List.mem_cons, Prod.mk.injEq] at h
    rcases h with ⟨rfl, rfl⟩ | h
    · refine ⟨hab _ (List.mem_cons_self _ _), List.mem_cons_self _ _,
        List.mem_cons_of_mem _ (List.mem_cons_self _ _), ?_⟩
      intro x hx hux hxv
      rcases List.mem_cons.mp hx with rfl | hx
      · exact Or.inl rfl
      · rcases List.mem_cons.mp hx with rfl | hx
        · exact Or.inr rfl
        · exact absurd (List.rel_of_sorted_cons hs2 x hx) (not_lt.mpr hxv)
    · obtain ⟨huv, hu, hv, hbetween⟩ := consecutive_of_sorted (b :: rest) hs2 u v h
      refine ⟨huv, List.mem_cons_of_mem _ hu, List.mem_cons_of_mem _ hv, ?_⟩
      intro x hx hux hxv
      rcases List.mem_cons.mp hx with rfl | hx
      · exact absurd (hab u hu) (not_lt.mpr hux)
      · exact hbetween x hx hux hxv

/-- Every member of a list of two or more members has a neighbour in the list. -/
theorem mem_zip_tail {α : Type} :
    ∀ (l : List α), 2 ≤ l.length → ∀ p ∈ l, ∃ q, (p, q) ∈ l.zip l.tail ∨ (q, p) ∈ l.zip l.tail
  | [], h, _, _ => by simp at h
  | [_], h, _, _ => by simp at h
  | [a, b], _, p, hp => by
    simp only [List.mem_cons, List.mem_singleton, List.not_mem_nil, or_false] at hp
    rcases hp with rfl | rfl
    · exact ⟨b, Or.inl (by simp)⟩
    · exact ⟨a, Or.inr (by simp)⟩
  | a :: b :: c :: rest, _, p, hp => by
    rcases List.mem_cons.mp hp with rfl | hp
    · exact ⟨b, Or.inl (by simp)⟩
    · obtain ⟨q, hq⟩ := mem_zip_tail (b :: c :: rest) (by simp) p hp
      refine ⟨q, ?_⟩
      rcases hq with hq | hq
      · exact Or.inl (List.mem_cons_of_mem _ hq)
      · exact Or.inr (List.mem_cons_of_mem _ hq)

/-- Two different intervals of a linear order, neither of which has an end of the other
strictly inside or as its only common end, share at most an end. -/
theorem interval_ends {α : Type} [LinearOrder α] {u1 v1 u2 v2 p : α} (h1 : u1 < v1)
    (h2 : u2 < v2)
    (hin1 : ∀ x, x = u2 ∨ x = v2 → u1 ≤ x → x ≤ v1 → x = u1 ∨ x = v1)
    (hin2 : ∀ x, x = u1 ∨ x = v1 → u2 ≤ x → x ≤ v2 → x = u2 ∨ x = v2)
    (hp1 : u1 ≤ p ∧ p ≤ v1) (hp2 : u2 ≤ p ∧ p ≤ v2) (hne : (u1, v1) ≠ (u2, v2)) :
    (p = u1 ∨ p = v1) ∧ (p = u2 ∨ p = v2) := by
  rcases lt_trichotomy u1 u2 with hlt | heq | hgt
  · -- u1 < u2 ≤ p ≤ v1
    rcases hin1 u2 (Or.inl rfl) hlt.le (le_trans hp2.1 hp1.2) with h | h
    · exact absurd h (ne_of_gt hlt)
    · have : p = v1 := le_antisymm hp1.2 (h ▸ hp2.1)
      exact ⟨Or.inr this, Or.inl (this.trans h.symm)⟩
  · subst heq
    rcases le_total v2 v1 with hle | hle
    · rcases hin1 v2 (Or.inr rfl) h2.le hle with h | h
      · exact absurd h (ne_of_gt h2)
      · exact absurd (by rw [h]) hne
    · rcases hin2 v1 (Or.inr rfl) h1.le hle with h | h
      · exact absurd h (ne_of_gt h1)
      · exact absurd (by rw [h]) hne
  · rcases hin2 u1 (Or.inl rfl) hgt.le (le_trans hp1.1 hp2.2) with h | h
    · exact absurd h (ne_of_gt hgt)
    · have : p = v2 := le_antisymm hp2.2 (h ▸ hp1.1)
      exact ⟨Or.inl (this.trans h.symm), Or.inr this⟩


theorem mem_vertices {V : Type} [DecidableEq V] (edges : List (V × V)) (v : V) :
    v ∈ vertices edges ↔ ∃ e ∈ edges, v = e.1 ∨ v = e.2 := by
  simp only [vertices, List.mem_dedup, List.mem_flatMap, List.mem_cons, List.mem_singleton,
    List.not_mem_nil, or_false]

theorem ne_of_mem_segmentsOf {line : List QgsPointXY} {s : QgsPointXY × QgsPointXY}
    (h : s ∈ segmentsOf line) : s.1 ≠ s.2 := by
  simp only [segmentsOf, List.mem_filter, decide_eq_true_eq] at h
  exact h.2

theorem ne_of_mem_segments {lines : List (List QgsPointXY)} {s : QgsPointXY × QgsPointXY}
    (h : s ∈ lines.flatMap segmentsOf) : s.1 ≠ s.2 := by
  obtain ⟨line, _, hs⟩ := List.mem_flatMap.mp h
  exact ne_of_mem_segmentsOf hs

theorem mem_cutPoints (segments : List (QgsPointXY × QgsPointXY))
    (s : QgsPointXY × QgsPointXY) (p : QgsPointXY) :
    p ∈ cutPoints segments s ↔ p ∈ nodes segments ∧ onSegment s p := by
  unfold cutPoints
  rw [(List.perm_insertionSort _ _).mem_iff, List.mem_dedup, List.mem_filter,
    decide_eq_true_eq]

theorem cutPoints_sorted (segments : List (QgsPointXY × QgsPointXY))
    (s : QgsPointXY × QgsPointXY) : (cutPoints segments s).Sorted (· < ·) := by
  unfold cutPoints
  exact (List.sorted_insertionSort _ _).lt_of_le
    ((List.perm_insertionSort _ _).nodup_iff.mpr (List.nodup_dedup _))

theorem end_mem_nodes {segments : List (QgsPointXY × QgsPointXY)}
    {s : QgsPointXY × QgsPointXY} (hs : s ∈ segments) :
    s.1 ∈ nodes segments ∧ s.2 ∈ nodes segments := by
  unfold nodes
  constructor
  · exact List.mem_append_left _ (List.mem_flatMap.mpr ⟨s, hs, by simp⟩)
  · exact List.mem_append_left _ (List.mem_flatMap.mpr ⟨s, hs, by simp⟩)

/-- Every node lies on a segment. -/
theorem onSegment_of_mem_nodes {segments : List (QgsPointXY × QgsPointXY)} {p : QgsPointXY}
    (hp : p ∈ nodes segments) : ∃ s ∈ segments, onSegment s p := by
  unfold nodes at hp
  rcases List.mem_append.mp hp with h | h
  · obtain ⟨s, hs, hmem⟩ := List.mem_flatMap.mp h
    simp only [List.mem_cons, List.mem_singleton, List.not_mem_nil, or_false] at hmem
    rcases hmem with rfl | rfl
    · exact ⟨s, hs, onSegment_fst s⟩
    · exact ⟨s, hs, onSegment_snd s⟩
  · unfold crossings at h
    obtain ⟨s, hs, hmem⟩ := List.mem_flatMap.mp h
    obtain ⟨t, _, hst⟩ := List.mem_filterMap.mp hmem
    cases hli : lineIntersection s t with
    | none => simp [hli] at hst
    | some q =>
      simp only [hli] at hst
      split_ifs at hst with hon
      simp only [Option.some.injEq] at hst
      subst hst
      exact ⟨s, hs, hon.1⟩

/-- A common point of two segments that are not parallel is a node. -/
theorem crossing_mem_nodes {segments : List (QgsPointXY × QgsPointXY)}
    {s t : QgsPointXY × QgsPointXY} {q p : QgsPointXY} (hs : s ∈ segments) (ht : t ∈ segments)
    (h : lineIntersection s t = some q) (hps : onSegment s p) (hpt : onSegment t p) :
    p ∈ nodes segments := by
  have hq : q = p := lineIntersection_unique h hps.1 hpt.1
  subst hq
  unfold nodes crossings
  refine List.mem_append_right _ (List.mem_flatMap.mpr ⟨s, hs, ?_⟩)
  refine List.mem_filterMap.mpr ⟨t, ht, ?_⟩
  simp only [h]
  rw [if_pos ⟨hps, hpt⟩]

/-- The pieces of a segment: each runs between two nodes of the segment, in the order of
the plane, and no node of the segment lies strictly inside. -/
theorem segmentEdges_spec {segments : List (QgsPointXY × QgsPointXY)}
    {s e : QgsPointXY × QgsPointXY} (he : e ∈ segmentEdges segments s) :
    e.1 < e.2 ∧ e.1 ∈ nodes segments ∧ e.2 ∈ nodes segments ∧ onSegment s e.1
      ∧ onSegment s e.2 ∧ ∀ x ∈ nodes segments, onSegment e x → x = e.1 ∨ x = e.2 := by
  obtain ⟨hlt, h1, h2, hbetween⟩ :=
    consecutive_of_sorted _ (cutPoints_sorted segments s) e.1 e.2 he
  rw [mem_cutPoints] at h1 h2
  refine ⟨hlt, h1.1, h2.1, h1.2, h2.2, ?_⟩
  intro x hx hon
  have hxs : onSegment s x := onSegment_of_piece h1.2 h2.2 hon
  have hlo := hon.2.1
  have hhi := hon.2.2
  rw [min_eq_left hlt.le] at hlo
  rw [max_eq_right hlt.le] at hhi
  exact hbetween x ((mem_cutPoints _ _ _).mpr ⟨hx, hxs⟩) hlo hhi

theorem mem_makeGraph (lines : List (List QgsPointXY)) (e : QgsPointXY × QgsPointXY) :
    e ∈ makeGraph lines ↔
      ∃ s ∈ lines.flatMap segmentsOf, e ∈ segmentEdges (lines.flatMap segmentsOf) s := by
  simp only [makeGraph, List.mem_dedup, List.mem_flatMap]

theorem two_le_length {α : Type} {a b : α} :
    ∀ {l : List α}, a ∈ l → b ∈ l → a ≠ b → 2 ≤ l.length
  | [], ha, _, _ => by simp at ha
  | [c], ha, hb, hne => by
    simp only [List.mem_singleton] at ha hb
    exact absurd (ha.trans hb.symm) hne
  | _ :: _ :: _, _, _, _ => by simp

/-- Every node is a vertex of the graph. -/
theorem node_mem_vertices (lines : List (List QgsPointXY)) {p : QgsPointXY}
    (hp : p ∈ nodes (lines.flatMap segmentsOf)) : p ∈ vertices (makeGraph lines) := by
  obtain ⟨s, hs, hon⟩ := onSegment_of_mem_nodes hp
  have hends := end_mem_nodes hs
  have hlen : 2 ≤ (cutPoints (lines.flatMap segmentsOf) s).length :=
    two_le_length ((mem_cutPoints _ _ _).mpr ⟨hends.1, onSegment_fst s⟩)
      ((mem_cutPoints _ _ _).mpr ⟨hends.2, onSegment_snd s⟩) (ne_of_mem_segments hs)
  obtain ⟨q, hq⟩ := mem_zip_tail _ hlen p ((mem_cutPoints _ _ _).mpr ⟨hp, hon⟩)
  rw [mem_vertices]
  rcases hq with hq | hq
  · exact ⟨(p, q), (mem_makeGraph _ _).mpr ⟨s, hs, hq⟩, Or.inl rfl⟩
  · exact ⟨(q, p), (mem_makeGraph _ _).mpr ⟨s, hs, hq⟩, Or.inr rfl⟩

/-- The graph is planar: a common point of two different edges is an end of both. -/
theorem makeGraph_planar (lines : List (List QgsPointXY)) {e1 e2 : QgsPointXY × QgsPointXY}
    (h1 : e1 ∈ makeGraph lines) (h2 : e2 ∈ makeGraph lines) (hne : e1 ≠ e2) {p : QgsPointXY}
    (hp1 : onSegment e1 p) (hp2 : onSegment e2 p) :
    (p = e1.1 ∨ p = e1.2) ∧ (p = e2.1 ∨ p = e2.2) := by
  obtain ⟨s1, hs1, he1⟩ := (mem_makeGraph _ _).mp h1
  obtain ⟨s2, hs2, he2⟩ := (mem_makeGraph _ _).mp h2
  obtain ⟨hlt1, hn11, hn12, ho11, ho12, hb1⟩ := segmentEdges_spec he1
  obtain ⟨hlt2, hn21, hn22, ho21, ho22, hb2⟩ := segmentEdges_spec he2
  have hps1 : onSegment s1 p := onSegment_of_piece ho11 ho12 hp1
  have hps2 : onSegment s2 p := onSegment_of_piece ho21 ho22 hp2
  cases hli : lineIntersection s1 s2 with
  | some q =>
    have hnode := crossing_mem_nodes hs1 hs2 hli hps1 hps2
    exact ⟨hb1 p hnode hp1, hb2 p hnode hp2⟩
  | none =>
    have hcol := collinear_of_parallel hli (ne_of_mem_segments hs2) hps1.1 hps2.1
    have hline : ∀ x, cross s2.1 s2.2 x = 0 → cross s1.1 s1.2 x = 0 := fun x hx =>
      cross_of_cross (ne_of_mem_segments hs2) hcol.1 hcol.2 hx
    have hs1ne := ne_of_mem_segments hs1
    have hlo1 := hp1.2.1
    have hhi1 := hp1.2.2
    have hlo2 := hp2.2.1
    have hhi2 := hp2.2.2
    rw [min_eq_left hlt1.le] at hlo1
    rw [max_eq_right hlt1.le] at hhi1
    rw [min_eq_left hlt2.le] at hlo2
    rw [max_eq_right hlt2.le] at hhi2
    refine interval_ends hlt1 hlt2 ?_ ?_ ⟨hlo1, hhi1⟩ ⟨hlo2, hhi2⟩ hne
    · intro x hx hlo hhi
      have hxn : x ∈ nodes (lines.flatMap segmentsOf) := by
        rcases hx with rfl | rfl
        · exact hn21
        · exact hn22
      have hxs : cross s1.1 s1.2 x = 0 := by
        rcases hx with rfl | rfl
        · exact hline _ ho21.1
        · exact hline _ ho22.1
      refine hb1 x hxn ⟨cross_of_collinear hs1ne ho11.1 ho12.1 hxs, ?_, ?_⟩
      · rw [min_eq_left hlt1.le]; exact hlo
      · rw [max_eq_right hlt1.le]; exact hhi
    · intro x hx hlo hhi
      have hxn : x ∈ nodes (lines.flatMap segmentsOf) := by
        rcases hx with rfl | rfl
        · exact hn11
        · exact hn12
      have hxs : cross s1.1 s1.2 x = 0 := by
        rcases hx with rfl | rfl
        · exact ho11.1
        · exact ho12.1
      refine hb2 x hxn
        ⟨cross_of_collinear hs1ne (hline _ ho21.1) (hline _ ho22.1) hxs, ?_, ?_⟩
      · rw [min_eq_left hlt2.le]; exact hlo
      · rw [max_eq_right hlt2.le]; exact hhi

end QgsTracer

/-! ## The network tracer: query points are joined to the graph -/

namespace QgsTracer

theorem onGraph_of_mem_vertices {edges : List (QgsPointXY × QgsPointXY)} {p : QgsPointXY}
    (h : p ∈ vertices edges) : OnGraph edges p := by
  obtain ⟨e, he, hp⟩ := (mem_vertices _ _).mp h
  rcases hp with rfl | rfl
  · exact ⟨e, he, onSegment_fst e⟩
  · exact ⟨e, he, onSegment_snd e⟩

theorem splitEdge_eq_none (edges : List (QgsPointXY × QgsPointXY)) (p : QgsPointXY) :
    splitEdge edges p = none ↔ ¬ OnGraph edges p := by
  induction edges with
  | nil => simp [splitEdge, OnGraph]
  | cons e rest ih =>
    unfold splitEdge
    by_cases hon : onSegment e p
    · simp only [hon, if_true, reduceCtorEq, false_iff, not_not]
      exact ⟨e, List.mem_cons_self _ _, hon⟩
    · simp only [hon, if_false, Option.map_eq_none', ih, OnGraph, List.mem_cons]
      constructor
      · rintro h ⟨e', he' | he', hp⟩
        · exact hon (he' ▸ hp)
        · exact h ⟨e', he', hp⟩
      · rintro h ⟨e', he', hp⟩
        exact h ⟨e', Or.inr he', hp⟩

/-- A query point is joined to the graph exactly when it lies on an edge. -/
theorem joinPoint_eq_none (edges : List (QgsPointXY × QgsPointXY)) (p : QgsPointXY) :
    joinPoint edges p = none ↔ ¬ OnGraph edges p := by
  unfold joinPoint
  by_cases hv : p ∈ vertices edges
  · simp only [hv, if_true, reduceCtorEq, false_iff, not_not]
    exact onGraph_of_mem_vertices hv
  · simp only [hv, if_false, splitEdge_eq_none]

/-- The edges after a split: the edges before it, one of which is replaced by its two
pieces. -/
theorem splitEdge_spec {edges joined : List (QgsPointXY × QgsPointXY)} {p : QgsPointXY}
    (h : splitEdge edges p = some joined) :
    ∃ e ∈ edges, onSegment e p ∧ (e.1, p) ∈ joined ∧ (p, e.2) ∈ joined
      ∧ (∀ f ∈ edges, f ≠ e → f ∈ joined)
      ∧ ∀ f ∈ joined, f ∈ edges ∨ f = (e.1, p) ∨ f = (p, e.2) := by
  induction edges generalizing joined with
  | nil => simp [splitEdge] at h
  | cons e rest ih =>
    unfold splitEdge at h
    by_cases hon : onSegment e p
    · simp only [hon, if_true, Option.some.injEq] at h
      subst h
      refine ⟨e, List.mem_cons_self _ _, hon, by simp, by simp, ?_, ?_⟩
      · intro f hf hne
        rcases List.mem_cons.mp hf with rfl | hf
        · exact absurd rfl hne
        · simp [hf]
      · intro f hf
        simp only [List.mem_cons] at hf
        rcases hf with rfl | rfl | hf
        · exact Or.inr (Or.inl rfl)
        · exact Or.inr (Or.inr rfl)
        · exact Or.inl (List.mem_cons_of_mem _ hf)
    · simp only [hon, if_false, Option.map_eq_some'] at h
      obtain ⟨r, hr, rfl⟩ := h
      obtain ⟨e', he', hon', h1, h2, hkeep, hall⟩ := ih hr
      refine ⟨e', List.mem_cons_of_mem _ he', hon', List.mem_cons_of_mem _ h1,
        List.mem_cons_of_mem _ h2, ?_, ?_⟩
      · intro f hf hne
        rcases List.mem_cons.mp hf with rfl | hf
        · exact List.mem_cons_self _ _
        · exact List.mem_cons_of_mem _ (hkeep f hf hne)
      · intro f hf
        rcases List.mem_cons.mp hf with rfl | hf
        · exact Or.inl (List.mem_cons_self _ _)
        · rcases hall f hf with h | h
          · exact Or.inl (List.mem_cons_of_mem _ h)
          · exact Or.inr h

/-- The query point is a vertex of the graph it is joined to. -/
theorem joinPoint_mem_vertices {edges joined : List (QgsPointXY × QgsPointXY)}
    {p : QgsPointXY} (h : joinPoint edges p = some joined) : p ∈ vertices joined := by
  unfold joinPoint at h
  split_ifs at h with hv
  · simp only [Option.some.injEq] at h
    exact h ▸ hv
  · obtain ⟨e, _, _, h1, _⟩ := splitEdge_spec h
    exact (mem_vertices _ _).mpr ⟨_, h1, Or.inr rfl⟩

/-- The vertices of the graph stay vertices when a query point is joined. -/
theorem joinPoint_vertices {edges joined : List (QgsPointXY × QgsPointXY)}
    {p : QgsPointXY} (h : joinPoint edges p = some joined) {v : QgsPointXY}
    (hv : v ∈ vertices edges) : v ∈ vertices joined := by
  unfold joinPoint at h
  split_ifs at h with hp
  · simp only [Option.some.injEq] at h
    exact h ▸ hv
  · obtain ⟨e, _, _, h1, h2, hkeep, _⟩ := splitEdge_spec h
    obtain ⟨f, hf, hvf⟩ := (mem_vertices _ _).mp hv
    by_cases hfe : f = e
    · subst hfe
      rcases hvf with rfl | rfl
      · exact (mem_vertices _ _).mpr ⟨_, h1, Or.inl rfl⟩
      · exact (mem_vertices _ _).mpr ⟨_, h2, Or.inr rfl⟩
    · exact (mem_vertices _ _).mpr ⟨f, hkeep f hf hfe, hvf⟩

/-- Every edge of the graph with a query point joined lies on an edge of the graph. -/
theorem joinPoint_edges {edges joined : List (QgsPointXY × QgsPointXY)}
    {p : QgsPointXY} (h : joinPoint edges p = some joined) :
    ∀ f ∈ joined, ∃ e ∈ edges, onSegment e f.1 ∧ onSegment e f.2 := by
  unfold joinPoint at h
  split_ifs at h with hp
  · simp only [Option.some.injEq] at h
    subst h
    exact fun f hf => ⟨f, hf, onSegment_fst f, onSegment_snd f⟩
  · obtain ⟨e, he, hon, _, _, _, hall⟩ := splitEdge_spec h
    intro f hf
    rcases hall f hf with hf | rfl | rfl
    · exact ⟨f, hf, onSegment_fst f, onSegment_snd f⟩
    · exact ⟨e, he, onSegment_fst e, hon⟩
    · exact ⟨e, he, hon, onSegment_snd e⟩

/-- A point of the line of a segment between two points of the segment. -/
theorem onSegment_piece_of_le {e : QgsPointXY × QgsPointXY} {a b q : QgsPointXY}
    (hne : e.1 ≠ e.2) (ha : onSegment e a) (hb : onSegment e b) (hq : onSegment e q)
    (hlo : min a b ≤ q) (hhi : q ≤ max a b) : onSegment (a, b) q :=
  ⟨cross_of_collinear hne ha.1 hb.1 hq.1, hlo, hhi⟩

/-- A point on the graph stays on the graph when a query point is joined. -/
theorem joinPoint_onGraph {edges joined : List (QgsPointXY × QgsPointXY)}
    {p : QgsPointXY} (h : joinPoint edges p = some joined) {q : QgsPointXY}
    (hq : OnGraph edges q) : OnGraph joined q := by
  unfold joinPoint at h
  split_ifs at h with hp
  · simp only [Option.some.injEq] at h
    exact h ▸ hq
  · obtain ⟨e, he, hon, h1, h2, hkeep, _⟩ := splitEdge_spec h
    obtain ⟨f, hf, hqf⟩ := hq
    by_cases hfe : f = e
    · subst hfe
      have hne : f.1 ≠ f.2 := by
        intro heq
        have hlo := hon.2.1
        have hhi := hon.2.2
        rw [← heq, min_self] at hlo
        rw [← heq, max_self] at hhi
        exact hp ((mem_vertices _ _).mpr ⟨f, he, Or.inl (le_antisymm hhi hlo)⟩)
      rcases le_total f.1 f.2 with hle | hle
      · rcases le_total q p with hqp | hqp
        · refine ⟨_, h1, onSegment_piece_of_le hne (onSegment_fst f) hon hqf ?_ ?_⟩
          · exact le_trans (min_le_left _ _) (by have := hqf.2.1; rwa [min_eq_left hle] at this)
          · exact le_trans hqp (le_max_right _ _)
        · refine ⟨_, h2, onSegment_piece_of_le hne hon (onSegment_snd f) hqf ?_ ?_⟩
          · exact le_trans (min_le_left _ _) hqp
          · exact le_trans (by have := hqf.2.2; rwa [max_eq_right hle] at this)
              (le_max_right _ _)
      · rcases le_total q p with hqp | hqp
        · refine ⟨_, h2, onSegment_piece_of_le hne hon (onSegment_snd f) hqf ?_ ?_⟩
          · exact le_trans (min_le_right _ _) (by have := hqf.2.1; rwa [min_eq_right hle] at this)
          · exact le_trans hqp (le_max_left _ _)
        · refine ⟨_, h1, onSegment_piece_of_le hne (onSegment_fst f) hon hqf ?_ ?_⟩
          · exact le_trans (min_le_right _ _) hqp
          · exact le_trans (by have := hqf.2.2; rwa [max_eq_left hle] at this)
              (le_max_left _ _)
    · exact ⟨f, hkeep f hf hfe, hqf⟩

/-- Both query points are joined to the graph exactly when both lie on it. -/
theorem joinedGraph_eq_none (edges : List (QgsPointXY × QgsPointXY)) (p1 p2 : QgsPointXY) :
    joinedGraph edges p1 p2 = none ↔ ¬ (OnGraph edges p1 ∧ OnGraph edges p2) := by
  unfold joinedGraph
  cases h1 : joinPoint edges p1 with
  | none =>
    simp only [Option.none_bind, true_iff]
    exact fun h => (joinPoint_eq_none _ _).mp h1 h.1
  | some joined =>
    simp only [Option.some_bind, joinPoint_eq_none]
    have hon1 : OnGraph edges p1 := by
      by_contra hcon
      rw [(joinPoint_eq_none _ _).mpr hcon] at h1
      exact Option.noConfusion h1
    constructor
    · exact fun h hboth => h (joinPoint_onGraph h1 hboth.2)
    · intro h hon2
      apply h
      refine ⟨hon1, ?_⟩
      obtain ⟨f, hf, hp2⟩ := hon2
      obtain ⟨e, he, h1e, h2e⟩ := joinPoint_edges h1 f hf
      exact ⟨e, he, onSegment_of_piece h1e h2e hp2⟩

/-- The graph with both query points joined: both are vertices of it, and its edges lie on
edges of the graph. -/
theorem joinedGraph_spec {edges joined : List (QgsPointXY × QgsPointXY)}
    {p1 p2 : QgsPointXY} (h : joinedGraph edges p1 p2 = some joined) :
    p1 ∈ vertices joined ∧ p2 ∈ vertices joined
      ∧ ∀ f ∈ joined, ∃ e ∈ edges, onSegment e f.1 ∧ onSegment e f.2 := by
  unfold joinedGraph at h
  cases h1 : joinPoint edges p1 with
  | none => simp [h1] at h
  | some first =>
    simp only [h1, Option.some_bind] at h
    refine ⟨joinPoint_vertices h (joinPoint_mem_vertices h1), joinPoint_mem_vertices h, ?_⟩
    intro f hf
    obtain ⟨e, he, h1e, h2e⟩ := joinPoint_edges h f hf
    obtain ⟨e0, he0, h1e0, h2e0⟩ := joinPoint_edges h1 e he
    exact ⟨e0, he0, onSegment_of_piece h1e0 h2e0 h1e, onSegment_of_piece h1e0 h2e0 h2e⟩

end QgsTracer

/-! ## The network tracer: the query -/

namespace QgsTracer

/-- Every path without a repeated vertex is among the enumerated paths. -/
theorem mem_simplePaths {V : Type} [DecidableEq V] (edges : List (V × V)) (target : V) :
    ∀ (fuel : Nat) (visited : List V) (u : V) (w : List V), IsWalk edges w → w.Nodup →
      w.head? = some u → w.getLast? = some target → (∀ x ∈ w, x ∉ visited) →
      w.length ≤ fuel → w ∈ simplePaths edges target fuel visited u
  | 0, _, u, w, _, _, hhead, _, _, hlen => by
    have : w = [] := List.length_eq_zero.mp (Nat.le_zero.mp hlen)
    subst this
    simp at hhead
  | fuel + 1, visited, u, w, hwalk, hnodup, hhead, hlast, hvisited, hlen => by
    cases w with
    | nil => simp at hhead
    | cons a rest =>
      simp only [List.head?_cons, Option.some.injEq] at hhead
      subst hhead
      unfold simplePaths
      by_cases hat : a = target
      · rw [if_pos hat]
        cases rest with
        | nil => simp
        | cons b rest2 =>
          exfalso
          rw [List.getLast?_cons_cons] at hlast
          have hmem : target ∈ b :: rest2 := List.mem_of_getLast?_eq_some hlast
          exact (List.nodup_cons.mp hnodup).1 (hat ▸ hmem)
      · rw [if_neg hat]
        cases rest with
        | nil =>
          simp only [List.getLast?_singleton, Option.some.injEq] at hlast
          exact absurd hlast hat
        | cons b rest2 =>
          rw [List.getLast?_cons_cons] at hlast
          have hstep : b ∈ neighbours edges a := List.Chain'.rel_head hwalk
          have htail : IsWalk edges (b :: rest2) := List.Chain'.tail hwalk
          have hnd := List.nodup_cons.mp hnodup
          refine List.mem_flatMap.mpr ⟨b, ?_, ?_⟩
          · rw [List.mem_filter, decide_eq_true_eq]
            refine ⟨hstep, ?_⟩
            intro hb
            rcases List.mem_cons.mp hb with hb | hb
            · exact hnd.1 (hb ▸ List.mem_cons_self _ _)
            · exact hvisited b (List.mem_cons_of_mem _ (List.mem_cons_self _ _)) hb
          · refine List.mem_map.mpr ⟨b :: rest2, ?_, rfl⟩
            refine mem_simplePaths edges target fuel (a :: visited) b (b :: rest2) htail hnd.2
              rfl hlast ?_ (by simpa using hlen)
            intro x hx hxv
            rcases List.mem_cons.mp hxv with hxa | hxv
            · exact hnd.1 (hxa ▸ hx)
            · exact hvisited x (List.mem_cons_of_mem _ hx) hxv

theorem isEuclideanLength_nonneg {len : QgsPointXY → QgsPointXY → ℝ}
    (hlen : IsEuclideanLength len) (a b : QgsPointXY) : 0 ≤ len a b :=
  (hlen a b).1

/-- A walk in the graph with the query points joined runs along the edges of the graph. -/
theorem runsAlong_of_isWalk {edges joined : List (QgsPointXY × QgsPointXY)}
    (h : ∀ f ∈ joined, ∃ e ∈ edges, onSegment e f.1 ∧ onSegment e f.2)
    {w : List QgsPointXY} (hw : IsWalk joined w) : RunsAlong edges w := by
  unfold RunsAlong
  refine List.Chain'.imp ?_ hw
  intro a b hab
  rcases (mem_neighbours joined a b).mp hab with hf | hf
  · obtain ⟨e, he, h1, h2⟩ := h _ hf
    exact ⟨e, he, h1, h2⟩
  · obtain ⟨e, he, h1, h2⟩ := h _ hf
    exact ⟨e, he, h2, h1⟩

theorem findShortestPath_fst {C : Type} [LinearOrderedAddCommMonoid C]
    (len : QgsPointXY → QgsPointXY → C) (t : QgsTracer) (p1 p2 : QgsPointXY)
    {graph : List (QgsPointXY × QgsPointXY)} (h : t.init.mGraph = some graph) :
    (findShortestPath len t p1 p2).1 = tracePath len graph p1 p2 := by
  unfold findShortestPath
  rw [h]

theorem findShortestPath_snd {C : Type} [LinearOrderedAddCommMonoid C]
    (len : QgsPointXY → QgsPointXY → C) (t : QgsTracer) (p1 p2 : QgsPointXY) :
    (findShortestPath len t p1 p2).2 = t.init := by
  unfold findShortestPath
  split <;> rfl

theorem tracePath_of_joined {C : Type} [LinearOrderedAddCommMonoid C]
    (len : QgsPointXY → QgsPointXY → C) {edges joined : List (QgsPointXY × QgsPointXY)}
    {p1 p2 : QgsPointXY} (h : joinedGraph edges p1 p2 = some joined) :
    tracePath len edges p1 p2 = shortestPath len joined p1 p2 := by
  unfold tracePath
  rw [h]

theorem init_mGraph (t : QgsTracer) :
    t.init.mGraph = some (match t.mGraph with
      | some graph => graph
      | none => t.currentGraph) := by
  unfold init
  cases h : t.mGraph with
  | none => rfl
  | some graph => simp [h]

end QgsTracer

/-! ## The network tracer: the scenarios -/

namespace QgsTracer

theorem walk_subset_vertices {V : Type} [DecidableEq V] (edges : List (V × V)) :
    ∀ (w : List V) (u : V), IsWalk edges w → w.head? = some u → u ∈ vertices edges →
      ∀ x ∈ w, x ∈ vertices edges
  | [], _, _, hhead, _ => by simp at hhead
  | [a], u, _, hhead, hu => by
    simp only [List.head?_cons, Option.some.injEq] at hhead
    intro x hx
    simp only [List.mem_singleton] at hx
    rw [hx, hhead]; exact hu
  | a :: b :: rest, u, hw, hhead, hu => by
    simp only [List.head?_cons, Option.some.injEq] at hhead
    intro x hx
    rcases List.mem_cons.mp hx with rfl | hx
    · rw [hhead]; exact hu
    · exact walk_subset_vertices edges (b :: rest) b (List.Chain'.tail hw) rfl
        (neighbour_mem_vertices edges a b (List.Chain'.rel_head hw)).1 x hx

/-- The shortest path is among the enumerated paths. -/
theorem shortestPath_mem_simplePaths {V : Type} [DecidableEq V] {C : Type}
    [LinearOrderedAddCommMonoid C] (len : V → V → C) (hlen : ∀ a b, 0 ≤ len a b)
    (edges : List (V × V)) (source target : V) (hs : source ∈ vertices edges)
    (hconn : ∃ w, IsWalkFromTo edges source target w) :
    shortestPath len edges source target
      ∈ simplePaths edges target (vertices edges).length [] source := by
  obtain ⟨hwalk, hnodup, _⟩ := (shortestPath_spec len hlen edges source target).1 hconn
  refine mem_simplePaths edges target _ [] source _ hwalk.1 hnodup hwalk.2.1 hwalk.2.2
    (fun _ _ => List.not_mem_nil _) ?_
  have hsub : shortestPath len edges source target ⊆ vertices edges :=
    fun x hx => walk_subset_vertices edges _ source hwalk.1 hwalk.2.1 hs x hx
  exact (List.Nodup.subperm hnodup hsub).length_le

/-- The shortest path is the walk that is shorter than every other enumerated path. -/
theorem shortestPath_eq_of_shorter {V : Type} [DecidableEq V] {C : Type}
    [LinearOrderedAddCommMonoid C] (len : V → V → C) (hlen : ∀ a b, 0 ≤ len a b)
    (edges : List (V × V)) (source target : V) (hs : source ∈ vertices edges)
    (best : List V) (hbest : IsWalkFromTo edges source target best)
    (hothers : ∀ w ∈ simplePaths edges target (vertices edges).length [] source,
      w ≠ best → pathLength len best < pathLength len w) :
    shortestPath len edges source target = best := by
  by_contra hne
  have hmem := shortestPath_mem_simplePaths len hlen edges source target hs ⟨best, hbest⟩
  have hlt := hothers _ hmem hne
  have hle := ((shortestPath_spec len hlen edges source target).1 ⟨best, hbest⟩).2.2 best hbest
  exact absurd hlt (not_lt.mpr hle)

/-- There is no walk to a target that a search does not reach. -/
theorem no_walk_of_shortestPath {V : Type} [DecidableEq V] (edges : List (V × V))
    (source target : V) (h : shortestPath (fun _ _ => (0 : Nat)) edges source target = []) :
    ¬ ∃ w, IsWalkFromTo edges source target w := by
  intro hconn
  have hwalk := ((shortestPath_spec (fun _ _ => (0 : Nat)) (fun _ _ => le_refl _) edges source
    target).1 hconn).1
  rw [h] at hwalk
  simp [IsWalkFromTo] at hwalk

theorem len_eq_of_sq {len : QgsPointXY → QgsPointXY → ℝ} (hlen : IsEuclideanLength len)
    (p q : QgsPointXY) (d : ℚ) (hd : 0 ≤ d)
    (h : (p.x - q.x) ^ 2 + (p.y - q.y) ^ 2 = d ^ 2) : len p q = (d : ℝ) := by
  obtain ⟨h0, hsq⟩ := hlen p q
  rw [h] at hsq
  push_cast at hsq
  have hd' : (0 : ℝ) ≤ (d : ℝ) := by exact_mod_cast hd
  nlinarith [sq_nonneg (len p q - d), sq_nonneg (len p q + d)]

theorem len_lt_of_sq {len : QgsPointXY → QgsPointXY → ℝ} (hlen : IsEuclideanLength len)
    (p q : QgsPointXY) (d : ℚ) (hd : 0 ≤ d)
    (h : (p.x - q.x) ^ 2 + (p.y - q.y) ^ 2 < d ^ 2) : len p q < (d : ℝ) := by
  obtain ⟨h0, hsq⟩ := hlen p q
  have hd' : (0 : ℝ) ≤ (d : ℝ) := by exact_mod_cast hd
  have h' : len p q ^ 2 < (d : ℝ) ^ 2 := by
    rw [hsq]; exact_mod_cast h
  by_contra hcon
  push_neg at hcon
  nlinarith [mul_le_mul hcon hcon hd' h0]

theorem lt_len_of_sq {len : QgsPointXY → QgsPointXY → ℝ} (hlen : IsEuclideanLength len)
    (p q : QgsPointXY) (d : ℚ) (hd : 0 ≤ d)
    (h : d ^ 2 < (p.x - q.x) ^ 2 + (p.y - q.y) ^ 2) : (d : ℝ) < len p q := by
  obtain ⟨h0, hsq⟩ := hlen p q
  have hd' : (0 : ℝ) ≤ (d : ℝ) := by exact_mod_cast hd
  have h' : (d : ℝ) ^ 2 < len p q ^ 2 := by
    rw [hsq]; exact_mod_cast h
  by_contra hcon
  push_neg at hcon
  nlinarith [mul_le_mul hcon hcon h0 hd']

end QgsTracer

namespace QgsTracer

theorem fourEdge_mGraph :
    (create.setLayers [fourEdgeLayer]).init.mGraph = some fourEdgeGraph := by
  decide!

theorem butterfly_mGraph :
    (create.setLayers [butterflyLayer]).init.mGraph = some butterflyGraph := by
  decide!

theorem islands_mGraph :
    (create.setLayers [islandsLayer]).init.mGraph = some islandsGraph := by
  decide!

theorem tracePath_of_not_joined {C : Type} [LinearOrderedAddCommMonoid C]
    (len : QgsPointXY → QgsPointXY → C) {edges : List (QgsPointXY × QgsPointXY)}
    {p1 p2 : QgsPointXY} (h : joinedGraph edges p1 p2 = none) :
    tracePath len edges p1 p2 = [] := by
  unfold tracePath
  rw [h]

/-- The Euclidean distance is a Euclidean length. -/
theorem sqrt_isEuclideanLength :
    IsEuclideanLength
      (fun p q => Real.sqrt (((p.x - q.x) ^ 2 + (p.y - q.y) ^ 2 : ℚ) : ℝ)) := by
  intro p q
  refine ⟨Real.sqrt_nonneg _, Real.sq_sqrt ?_⟩
  exact_mod_cast add_nonneg (sq_nonneg (p.x - q.x)) (sq_nonneg (p.y - q.y))

/-- The path of the test `testSimple` on its graph. -/
theorem fourEdge_tracePath (len : QgsPointXY → QgsPointXY → ℝ) (hlen : IsEuclideanLength len) :
    tracePath len fourEdgeGraph ⟨0, 0⟩ ⟨20, 10⟩ = [⟨0, 0⟩, ⟨10, 0⟩, ⟨20, 10⟩] := by
  have hj : joinedGraph fourEdgeGraph ⟨0, 0⟩ ⟨20, 10⟩ = some fourEdgeGraph := by decide!
  rw [tracePath_of_joined len hj]
  refine shortestPath_eq_of_shorter len (isEuclideanLength_nonneg hlen) _ _ _ (by decide!) _
    ⟨by simp only [IsWalk, List.chain'_cons, List.chain'_singleton, and_true]; decide!, rfl,
      rfl⟩ ?_
  have hpaths : simplePaths fourEdgeGraph ⟨20, 10⟩ (vertices fourEdgeGraph).length []
      ⟨0, 0⟩ = [[⟨0, 0⟩, ⟨0, 10⟩, ⟨20, 10⟩], [⟨0, 0⟩, ⟨10, 0⟩, ⟨20, 10⟩]] := by decide!
  rw [hpaths]
  intro w hw hne
  simp only [List.mem_cons, List.mem_singleton, List.not_mem_nil, or_false] at hw
  have h1 := len_eq_of_sq hlen ⟨0, 0⟩ ⟨10, 0⟩ 10 (by norm_num) (by norm_num)
  have h2 := len_lt_of_sq hlen ⟨10, 0⟩ ⟨20, 10⟩ 20 (by norm_num) (by norm_num)
  have h3 := len_eq_of_sq hlen ⟨0, 0⟩ ⟨0, 10⟩ 10 (by norm_num) (by norm_num)
  have h4 := len_eq_of_sq hlen ⟨0, 10⟩ ⟨20, 10⟩ 20 (by norm_num) (by norm_num)
  rcases hw with rfl | rfl
  · simp only [pathLength]
    push_cast at h1 h2 h3 h4
    linarith
  · exact absurd rfl hne

/-- The path of the test `testLayerUpdates` before the shortcut is added and after it is
deleted. -/
theorem fourEdge_detour (len : QgsPointXY → QgsPointXY → ℝ) (hlen : IsEuclideanLength len) :
    tracePath len fourEdgeGraph ⟨10, 0⟩ ⟨10, 10⟩ = [⟨10, 0⟩, ⟨20, 10⟩, ⟨10, 10⟩] := by
  have hj : joinedGraph fourEdgeGraph ⟨10, 0⟩ ⟨10, 10⟩ = some fourEdgeGraphJoined := by
    decide!
  rw [tracePath_of_joined len hj]
  refine shortestPath_eq_of_shorter len (isEuclideanLength_nonneg hlen) _ _ _ (by decide!) _
    ⟨by simp only [IsWalk, List.chain'_cons, List.chain'_singleton, and_true]; decide!, rfl,
      rfl⟩ ?_
  have hpaths : simplePaths fourEdgeGraphJoined ⟨10, 10⟩ (vertices fourEdgeGraphJoined).length
      [] ⟨10, 0⟩
        = [[⟨10, 0⟩, ⟨0, 0⟩, ⟨0, 10⟩, ⟨10, 10⟩], [⟨10, 0⟩, ⟨20, 10⟩, ⟨10, 10⟩]] := by decide!
  rw [hpaths]
  intro w hw hne
  simp only [List.mem_cons, List.mem_singleton, List.not_mem_nil, or_false] at hw
  have h1 := len_eq_of_sq hlen ⟨10, 0⟩ ⟨0, 0⟩ 10 (by norm_num) (by norm_num)
  have h2 := len_lt_of_sq hlen ⟨10, 0⟩ ⟨20, 10⟩ 20 (by norm_num) (by norm_num)
  have h3 := len_eq_of_sq hlen ⟨0, 0⟩ ⟨0, 10⟩ 10 (by norm_num) (by norm_num)
  have h4 := len_eq_of_sq hlen ⟨0, 10⟩ ⟨10, 10⟩ 10 (by norm_num) (by norm_num)
  have h5 := len_eq_of_sq hlen ⟨20, 10⟩ ⟨10, 10⟩ 10 (by norm_num) (by norm_num)
  rcases hw with rfl | rfl
  · simp only [pathLength]
    push_cast at h1 h2 h3 h4 h5
    linarith
  · exact absurd rfl hne

/-- The path of the test `testLayerUpdates` while the layer has the shortcut. -/
theorem shortcut_tracePath (len : QgsPointXY → QgsPointXY → ℝ) (hlen : IsEuclideanLength len) :
    tracePath len shortcutGraph ⟨10, 0⟩ ⟨10, 10⟩ = [⟨10, 0⟩, ⟨10, 10⟩] := by
  have hj : joinedGraph shortcutGraph ⟨10, 0⟩ ⟨10, 10⟩ = some shortcutGraph := by decide!
  rw [tracePath_of_joined len hj]
  refine shortestPath_eq_of_shorter len (isEuclideanLength_nonneg hlen) _ _ _ (by decide!) _
    ⟨by simp only [IsWalk, List.chain'_cons, List.chain'_singleton, and_true]; decide!, rfl,
      rfl⟩ ?_
  have hpaths : simplePaths shortcutGraph ⟨10, 10⟩ (vertices shortcutGraph).length []
      ⟨10, 0⟩
        = [[⟨10, 0⟩, ⟨0, 0⟩, ⟨0, 10⟩, ⟨10, 10⟩], [⟨10, 0⟩, ⟨20, 10⟩, ⟨10, 10⟩],
            [⟨10, 0⟩, ⟨10, 10⟩]] := by decide!
  rw [hpaths]
  intro w hw hne
  simp only [List.mem_cons, List.mem_singleton, List.not_mem_nil, or_false] at hw
  have h1 := len_eq_of_sq hlen ⟨10, 0⟩ ⟨0, 0⟩ 10 (by norm_num) (by norm_num)
  have h2 := isEuclideanLength_nonneg hlen ⟨10, 0⟩ ⟨20, 10⟩
  have h3 := len_eq_of_sq hlen ⟨0, 0⟩ ⟨0, 10⟩ 10 (by norm_num) (by norm_num)
  have h4 := len_eq_of_sq hlen ⟨0, 10⟩ ⟨10, 10⟩ 10 (by norm_num) (by norm_num)
  have h5 := len_eq_of_sq hlen ⟨20, 10⟩ ⟨10, 10⟩ 10 (by norm_num) (by norm_num)
  have h6 := len_eq_of_sq hlen ⟨10, 0⟩ ⟨10, 10⟩ 10 (by norm_num) (by norm_num)
  have h7 := lt_len_of_sq hlen ⟨10, 0⟩ ⟨20, 10⟩ 0 (by norm_num) (by norm_num)
  rcases hw with rfl | rfl | rfl
  · simp only [pathLength]
    push_cast at h1 h3 h4 h5 h6 h7
    linarith
  · simp only [pathLength]
    push_cast at h1 h3 h4 h5 h6 h7
    linarith
  · exact absurd rfl hne

/-- The path of the test `testButterfly` on its graph. -/
theorem butterfly_tracePath (len : QgsPointXY → QgsPointXY → ℝ) (hlen : IsEuclideanLength len) :
    tracePath len butterflyGraph ⟨0, 0⟩ ⟨10, 0⟩ = [⟨0, 0⟩, ⟨5, 5⟩, ⟨10, 0⟩] := by
  have hj : joinedGraph butterflyGraph ⟨0, 0⟩ ⟨10, 0⟩ = some butterflyGraph := by decide!
  rw [tracePath_of_joined len hj]
  refine shortestPath_eq_of_shorter len (isEuclideanLength_nonneg hlen) _ _ _ (by decide!) _
    ⟨by simp only [IsWalk, List.chain'_cons, List.chain'_singleton, and_true]; decide!, rfl,
      rfl⟩ ?_
  have hpaths : simplePaths butterflyGraph ⟨10, 0⟩ (vertices butterflyGraph).length []
      ⟨0, 0⟩
        = [[⟨0, 0⟩, ⟨0, 10⟩, ⟨5, 5⟩, ⟨10, 0⟩], [⟨0, 0⟩, ⟨0, 10⟩, ⟨5, 5⟩, ⟨10, 10⟩, ⟨10, 0⟩],
            [⟨0, 0⟩, ⟨5, 5⟩, ⟨10, 0⟩], [⟨0, 0⟩, ⟨5, 5⟩, ⟨10, 10⟩, ⟨10, 0⟩]] := by decide!
  rw [hpaths]
  intro w hw hne
  simp only [List.mem_cons, List.mem_singleton, List.not_mem_nil, or_false] at hw
  have h1 := len_lt_of_sq hlen ⟨0, 0⟩ ⟨5, 5⟩ 8 (by norm_num) (by norm_num)
  have h2 := len_lt_of_sq hlen ⟨5, 5⟩ ⟨10, 0⟩ 8 (by norm_num) (by norm_num)
  have h3 := len_eq_of_sq hlen ⟨0, 0⟩ ⟨0, 10⟩ 10 (by norm_num) (by norm_num)
  have h4 := lt_len_of_sq hlen ⟨0, 10⟩ ⟨5, 5⟩ 7 (by norm_num) (by norm_num)
  have h5 := lt_len_of_sq hlen ⟨5, 5⟩ ⟨10, 0⟩ 7 (by norm_num) (by norm_num)
  have h6 := lt_len_of_sq hlen ⟨5, 5⟩ ⟨10, 10⟩ 7 (by norm_num) (by norm_num)
  have h7 := lt_len_of_sq hlen ⟨0, 0⟩ ⟨5, 5⟩ 7 (by norm_num) (by norm_num)
  have h8 := len_eq_of_sq hlen ⟨10, 10⟩ ⟨10, 0⟩ 10 (by norm_num) (by norm_num)
  push_cast at h1 h2 h3 h4 h5 h6 h7 h8
  rcases hw with rfl | rfl | rfl | rfl
  · simp only [pathLength]
    linarith
  · simp only [pathLength]
    linarith
  · exact absurd rfl hne
  · simp only [pathLength]
    linarith


theorem shortcut_mGraph :
    ((create.setLayers [fourEdgeLayer]).init.init.featureAdded 0 shortcutFeature).init.mGraph
      = some shortcutGraph := by
  decide!

theorem reverted_mGraph :
    ((((create.setLayers [fourEdgeLayer]).init.init.featureAdded 0
      shortcutFeature).init.featureDeleted 0 5).init).mGraph = some fourEdgeGraph := by
  decide!

/-- Between the least and the greatest of two members of a sorted list, every point lies
between two consecutive members. -/
theorem exists_consecutive {α : Type} [LinearOrder α] :
    ∀ (l : List α), l.Sorted (· < ·) → ∀ a b p, a ∈ l → b ∈ l → a ≤ p → p ≤ b → a < b →
      ∃ u v, (u, v) ∈ l.zip l.tail ∧ u ≤ p ∧ p ≤ v
  | [], _, a, _, _, ha, _, _, _, _ => by simp at ha
  | [x], _, a, b, _, ha, hb, _, _, hab => by
    simp only [List.mem_singleton] at ha hb
    rw [ha, hb] at hab
    exact absurd hab (lt_irrefl _)
  | x :: y :: rest, hs, a, b, p, ha, hb, hap, hpb, hab => by
    have hs2 : (y :: rest).Sorted (· < ·) := List.Sorted.of_cons hs
    have hmin : ∀ z ∈ x :: y :: rest, x ≤ z := by
      intro z hz
      rcases List.mem_cons.mp hz with rfl | hz
      · exact le_refl _
      · exact (List.rel_of_sorted_cons hs z hz).le
    by_cases hpy : p ≤ y
    · exact ⟨x, y, by simp, le_trans (hmin a ha) hap, hpy⟩
    · push_neg at hpy
      have hb2 : b ∈ y :: rest := by
        rcases List.mem_cons.mp hb with rfl | hb
        · exact absurd (lt_of_le_of_lt (hmin a ha) hab) (lt_irrefl _)
        · exact hb
      obtain ⟨u, v, huv, hu, hv⟩ := exists_consecutive (y :: rest) hs2 y b p
        (List.mem_cons_self _ _) hb2 hpy.le hpb (lt_of_lt_of_le hpy hpb)
      exact ⟨u, v, List.mem_cons_of_mem _ huv, hu, hv⟩

/-- Every point of a segment of the line work lies on an edge of the graph. -/
theorem onGraph_of_onSegment (lines : List (List QgsPointXY)) {s : QgsPointXY × QgsPointXY}
    (hs : s ∈ lines.flatMap segmentsOf) {p : QgsPointXY} (hp : onSegment s p) :
    OnGraph (makeGraph lines) p := by
  have hne := ne_of_mem_segments hs
  have hends := end_mem_nodes hs
  have h1 : s.1 ∈ cutPoints (lines.flatMap segmentsOf) s :=
    (mem_cutPoints _ _ _).mpr ⟨hends.1, onSegment_fst s⟩
  have h2 : s.2 ∈ cutPoints (lines.flatMap segmentsOf) s :=
    (mem_cutPoints _ _ _).mpr ⟨hends.2, onSegment_snd s⟩
  have hmin : min s.1 s.2 ∈ cutPoints (lines.flatMap segmentsOf) s := by
    rcases min_choice s.1 s.2 with h | h <;> rw [h] <;> assumption
  have hmax : max s.1 s.2 ∈ cutPoints (lines.flatMap segmentsOf) s := by
    rcases max_choice s.1 s.2 with h | h <;> rw [h] <;> assumption
  obtain ⟨u, v, huv, hu, hv⟩ := exists_consecutive _ (cutPoints_sorted _ s) _ _ p hmin hmax
    hp.2.1 hp.2.2 (min_lt_max.mpr hne)
  obtain ⟨_, _, _, hou, hov, _⟩ := segmentEdges_spec (show (u, v) ∈ segmentEdges _ s from huv)
  refine ⟨(u, v), (mem_makeGraph _ _).mpr ⟨s, hs, huv⟩, ?_, ?_, ?_⟩
  · exact cross_of_collinear hne hou.1 hov.1 hp.1
  · exact le_trans (min_le_left _ _) hu
  · exact le_trans hv (le_max_right _ _)

/-- The graph of a reachable state, when there is one, is the graph of the current contents
of the layers. -/
theorem reachable_mGraph {t : QgsTracer} (h : Reachable t) :
    t.mGraph = none ∨ t.mGraph = some t.currentGraph := by
  induction h with
  | create => exact Or.inl rfl
  | setLayers t layers _ _ => exact Or.inl rfl
  | setExtent t extent _ _ => exact Or.inl rfl
  | featureAdded t i f _ _ => exact Or.inl rfl
  | featureDeleted t i fid _ _ => exact Or.inl rfl
  | geometryChanged t i fid geom _ _ => exact Or.inl rfl
  | init t _ ih =>
    right
    unfold init
    cases hg : t.mGraph with
    | none => rfl
    | some graph =>
      rcases ih with ih | ih
      · rw [hg] at ih; exact Option.noConfusion ih
      · simp only [hg]; rw [← ih, hg]

theorem reachable_init_mGraph {t : QgsTracer} (h : Reachable t) :
    t.init.mGraph = some t.currentGraph := by
  rcases reachable_mGraph (Reachable.init t h) with hnone | hsome
  · rw [init_mGraph] at hnone
    exact Option.noConfusion hnone
  · rw [hsome]
    have : t.init.currentGraph = t.currentGraph := by
      unfold init
      cases t.mGraph <;> rfl
    rw [this]

end QgsTracer

/-! ## The network tracer: no path, noding and layer updates -/

section TracerClaims

open QgsTracer

/-- C18: `findShortestPath` is a total function without an error result; it returns the empty
sequence when a query point lies on no edge of the graph, when both are joined to the graph
but no walk connects them, and when no point sequence along the edges of the graph leads from
the first query point to the second.  On the four-edge layer the path from (0, 0) to (1, 1)
is empty. -/
theorem findShortestPath_noPath :
    (∀ (len : QgsPointXY → QgsPointXY → ℝ), IsEuclideanLength len →
      ∀ (t : QgsTracer) (graph : List (QgsPointXY × QgsPointXY)) (p1 p2 : QgsPointXY),
        t.init.mGraph = some graph → (¬ OnGraph graph p1 ∨ ¬ OnGraph graph p2) →
        (findShortestPath len t p1 p2).1 = [])
    ∧ (∀ (len : QgsPointXY → QgsPointXY → ℝ), IsEuclideanLength len →
      ∀ (t : QgsTracer) (graph joined : List (QgsPointXY × QgsPointXY)) (p1 p2 : QgsPointXY),
        t.init.mGraph = some graph → joinedGraph graph p1 p2 = some joined →
        (¬ ∃ w, IsWalkFromTo joined p1 p2 w) → (findShortestPath len t p1 p2).1 = [])
    ∧ (∀ (len : QgsPointXY → QgsPointXY → ℝ), IsEuclideanLength len →
      ∀ (t : QgsTracer) (graph : List (QgsPointXY × QgsPointXY)) (p1 p2 : QgsPointXY),
        t.init.mGraph = some graph →
        (¬ ∃ w, w.head? = some p1 ∧ w.getLast? = some p2 ∧ RunsAlong graph w) →
        (findShortestPath len t p1 p2).1 = [])
    ∧ ∀ (len : QgsPointXY → QgsPointXY → ℝ), IsEuclideanLength len →
        (findShortestPath len (create.setLayers [fourEdgeLayer]) ⟨0, 0⟩ ⟨1, 1⟩).1 = [] := by
  have hoff : ∀ (len : QgsPointXY → QgsPointXY → ℝ) (t : QgsTracer)
      (graph : List (QgsPointXY × QgsPointXY)) (p1 p2 : QgsPointXY),
      t.init.mGraph = some graph → (¬ OnGraph graph p1 ∨ ¬ OnGraph graph p2) →
      (findShortestPath len t p1 p2).1 = [] := by
    intro len t graph p1 p2 hgraph hoff
    rw [findShortestPath_fst len t p1 p2 hgraph]
    refine tracePath_of_not_joined len ((joinedGraph_eq_none graph p1 p2).mpr ?_)
    rintro ⟨h1, h2⟩
    rcases hoff with h | h
    · exact h h1
    · exact h h2
  have hwalk : ∀ (len : QgsPointXY → QgsPointXY → ℝ), IsEuclideanLength len →
      ∀ (t : QgsTracer) (graph joined : List (QgsPointXY × QgsPointXY)) (p1 p2 : QgsPointXY),
      t.init.mGraph = some graph → joinedGraph graph p1 p2 = some joined →
      (¬ ∃ w, IsWalkFromTo joined p1 p2 w) → (findShortestPath len t p1 p2).1 = [] := by
    intro len hlen t graph joined p1 p2 hgraph hj hnone
    rw [findShortestPath_fst len t p1 p2 hgraph, tracePath_of_joined len hj]
    exact (shortestPath_spec len (isEuclideanLength_nonneg hlen) joined p1 p2).2 hnone
  refine ⟨fun len _ => hoff len, hwalk, ?_, ?_⟩
  · intro len hlen t graph p1 p2 hgraph hnone
    cases hj : joinedGraph graph p1 p2 with
    | none =>
      rw [findShortestPath_fst len t p1 p2 hgraph]
      exact tracePath_of_not_joined len hj
    | some joined =>
      refine hwalk len hlen t graph joined p1 p2 hgraph hj ?_
      rintro ⟨w, hw⟩
      exact hnone ⟨w, hw.2.1, hw.2.2, runsAlong_of_isWalk (joinedGraph_spec hj).2.2 hw.1⟩
  · intro len _
    refine hoff len _ fourEdgeGraph _ _ fourEdge_mGraph (Or.inr ?_)
    unfold OnGraph
    decide!

/-- Witness of C18: on the four-edge layer the point (1, 1) lies on no edge, and in the layer
LINESTRING(0 0, 1 0), LINESTRING(0 5, 1 5) no path connects (0, 0) and (0, 5): both queries
return the empty sequence. -/
theorem findShortestPath_noPath_witness :
    (findShortestPath (fun (p q : QgsPointXY) => Real.sqrt (((p.x - q.x) ^ 2 + (p.y - q.y) ^ 2 : ℚ) : ℝ))
        (create.setLayers [fourEdgeLayer]) ⟨0, 0⟩ ⟨1, 1⟩).1 = []
      ∧ (findShortestPath (fun (p q : QgsPointXY) => Real.sqrt (((p.x - q.x) ^ 2 + (p.y - q.y) ^ 2 : ℚ) : ℝ))
        (create.setLayers [islandsLayer]) ⟨0, 0⟩ ⟨0, 5⟩).1 = [] :=
  ⟨findShortestPath_noPath.1 _ sqrt_isEuclideanLength (create.setLayers [fourEdgeLayer])
      fourEdgeGraph ⟨0, 0⟩ ⟨1, 1⟩ fourEdge_mGraph (Or.inr (by unfold OnGraph; decide!)),
    findShortestPath_noPath.2.1 _ sqrt_isEuclideanLength (create.setLayers [islandsLayer])
      islandsGraph islandsGraph ⟨0, 0⟩ ⟨0, 5⟩ islands_mGraph (by decide!)
      (no_walk_of_shortestPath islandsGraph ⟨0, 0⟩ ⟨0, 5⟩ (by decide!))⟩

/-- C19: in the graph built from any lines, every end of a segment and every point in which
two segments that are not parallel meet is a vertex, and every edge through such a point ends
there; the edges are pieces of the segments and cover them; and a common point of two
different edges is an end of both, so that no edge crosses another.  The graph of
LINESTRING(0 0, 0 10, 10 0, 10 10, 0 0) has the vertex (5, 5), and the path from (0, 0) to
(10, 0) is [(0, 0), (5, 5), (10, 0)]. -/
theorem makeGraph_noded :
    (∀ (lines : List (List QgsPointXY)),
      (∀ s ∈ lines.flatMap segmentsOf,
        s.1 ∈ vertices (makeGraph lines) ∧ s.2 ∈ vertices (makeGraph lines))
      ∧ (∀ s ∈ lines.flatMap segmentsOf, ∀ t ∈ lines.flatMap segmentsOf, ∀ q p,
        lineIntersection s t = some q → onSegment s p → onSegment t p →
          p ∈ vertices (makeGraph lines)
            ∧ ∀ e ∈ makeGraph lines, onSegment e p → p = e.1 ∨ p = e.2)
      ∧ (∀ e ∈ makeGraph lines, e.1 ≠ e.2
          ∧ ∃ s ∈ lines.flatMap segmentsOf, onSegment s e.1 ∧ onSegment s e.2)
      ∧ (∀ s ∈ lines.flatMap segmentsOf, ∀ p, onSegment s p → OnGraph (makeGraph lines) p)
      ∧ (∀ e1 ∈ makeGraph lines, ∀ e2 ∈ makeGraph lines, e1 ≠ e2 →
          ∀ p, onSegment e1 p → onSegment e2 p →
            (p = e1.1 ∨ p = e1.2) ∧ (p = e2.1 ∨ p = e2.2)))
    ∧ (∃ graph, (create.setLayers [butterflyLayer]).init.mGraph = some graph
        ∧ (⟨5, 5⟩ : QgsPointXY) ∈ vertices graph)
    ∧ ∀ (len : QgsPointXY → QgsPointXY → ℝ), IsEuclideanLength len →
        (findShortestPath len (create.setLayers [butterflyLayer]) ⟨0, 0⟩ ⟨10, 0⟩).1
          = [⟨0, 0⟩, ⟨5, 5⟩, ⟨10, 0⟩] := by
  refine ⟨fun lines => ⟨?_, ?_, ?_, ?_, ?_⟩, ?_, ?_⟩
  · intro s hs
    exact ⟨node_mem_vertices lines (end_mem_nodes hs).1,
      node_mem_vertices lines (end_mem_nodes hs).2⟩
  · intro s hs t ht q p hq hps hpt
    have hnode := crossing_mem_nodes hs ht hq hps hpt
    refine ⟨node_mem_vertices lines hnode, ?_⟩
    intro e he hon
    obtain ⟨s', _, he'⟩ := (mem_makeGraph lines e).mp he
    exact (segmentEdges_spec he').2.2.2.2.2 p hnode hon
  · intro e he
    obtain ⟨s, hs, he'⟩ := (mem_makeGraph lines e).mp he
    obtain ⟨hlt, _, _, h1, h2, _⟩ := segmentEdges_spec he'
    exact ⟨ne_of_lt hlt, s, hs, h1, h2⟩
  · intro s hs p hp
    exact onGraph_of_onSegment lines hs hp
  · intro e1 h1 e2 h2 hne p hp1 hp2
    exact makeGraph_planar lines h1 h2 hne hp1 hp2
  · exact ⟨butterflyGraph, butterfly_mGraph, by decide!⟩
  · intro len hlen
    rw [findShortestPath_fst len _ _ _ butterfly_mGraph]
    exact butterfly_tracePath len hlen

/-- Witness of C19: the second and the fourth segment of the line
(0 0, 0 10, 10 0, 10 10, 0 0) cross in (5, 5), and the point is a vertex of the graph. -/
theorem makeGraph_noded_witness :
    (⟨5, 5⟩ : QgsPointXY)
      ∈ vertices (makeGraph [[⟨0, 0⟩, ⟨0, 10⟩, ⟨10, 0⟩, ⟨10, 10⟩, ⟨0, 0⟩]]) :=
  ((makeGraph_noded.1 [[⟨0, 0⟩, ⟨0, 10⟩, ⟨10, 0⟩, ⟨10, 10⟩, ⟨0, 0⟩]]).2.1
    (⟨0, 10⟩, ⟨10, 0⟩) (by decide!) (⟨10, 10⟩, ⟨0, 0⟩) (by decide!) ⟨5, 5⟩ ⟨5, 5⟩ (by decide!)
    (by decide!) (by decide!)).1

/-- C20: in every state that the calls of the interface reach, the graph of the tracer, when
it has one, is the graph of the current contents of its layers; so every query, and with it
the query that follows a feature added, a feature deleted or a geometry changed, is answered
over the graph of the current contents.  On the four-edge layer the path from (10, 0) to
(10, 10) is [(10, 0), (20, 10), (10, 10)]; with LINESTRING(10 0, 10 10) added it is
[(10, 0), (10, 10)]; with that feature deleted it is [(10, 0), (20, 10), (10, 10)] again. -/
theorem findShortestPath_tracks_layers :
    (∀ (t : QgsTracer), QgsTracer.Reachable t →
      (t.mGraph = none ∨ t.mGraph = some (makeGraph t.layerLinework))
      ∧ ∀ (len : QgsPointXY → QgsPointXY → ℝ) (p1 p2 : QgsPointXY),
        (findShortestPath len t p1 p2).1 = tracePath len (makeGraph t.layerLinework) p1 p2
        ∧ QgsTracer.Reachable (findShortestPath len t p1 p2).2
        ∧ (findShortestPath len t p1 p2).2.mLayers = t.mLayers
        ∧ (findShortestPath len t p1 p2).2.mExtent = t.mExtent)
    ∧ (∀ (t : QgsTracer), QgsTracer.Reachable t →
      ∀ (len : QgsPointXY → QgsPointXY → ℝ) (i : Nat) (f : QgsFeature) (fid : Int)
        (geom : QgsAbstractGeometry) (p1 p2 : QgsPointXY),
        (findShortestPath len (t.featureAdded i f) p1 p2).1
            = tracePath len (makeGraph (t.featureAdded i f).layerLinework) p1 p2
          ∧ (findShortestPath len (t.featureDeleted i fid) p1 p2).1
            = tracePath len (makeGraph (t.featureDeleted i fid).layerLinework) p1 p2
          ∧ (findShortestPath len (t.geometryChanged i fid geom) p1 p2).1
            = tracePath len (makeGraph (t.geometryChanged i fid geom).layerLinework) p1 p2)
    ∧ ∀ (len : QgsPointXY → QgsPointXY → ℝ), IsEuclideanLength len →
        (findShortestPath len (create.setLayers [fourEdgeLayer]).init ⟨10, 0⟩ ⟨10, 10⟩).1
            = [⟨10, 0⟩, ⟨20, 10⟩, ⟨10, 10⟩]
          ∧ (findShortestPath len
              ((findShortestPath len (create.setLayers [fourEdgeLayer]).init ⟨10, 0⟩
                ⟨10, 10⟩).2.featureAdded 0 shortcutFeature) ⟨10, 0⟩ ⟨10, 10⟩).1
            = [⟨10, 0⟩, ⟨10, 10⟩]
          ∧ (findShortestPath len
              ((findShortestPath len
                ((findShortestPath len (create.setLayers [fourEdgeLayer]).init ⟨10, 0⟩
                  ⟨10, 10⟩).2.featureAdded 0 shortcutFeature) ⟨10, 0⟩
                ⟨10, 10⟩).2.featureDeleted 0 5) ⟨10, 0⟩ ⟨10, 10⟩).1
            = [⟨10, 0⟩, ⟨20, 10⟩, ⟨10, 10⟩] := by
  have hquery : ∀ (t : QgsTracer), QgsTracer.Reachable t →
      ∀ (len : QgsPointXY → QgsPointXY → ℝ) (p1 p2 : QgsPointXY),
        (findShortestPath len t p1 p2).1 = tracePath len (makeGraph t.layerLinework) p1 p2 :=
    fun t ht len p1 p2 => findShortestPath_fst len t p1 p2 (reachable_init_mGraph ht)
  refine ⟨?_, ?_, ?_⟩
  · intro t ht
    refine ⟨reachable_mGraph ht, fun len p1 p2 => ⟨hquery t ht len p1 p2, ?_, ?_, ?_⟩⟩
    · rw [findShortestPath_snd]
      exact QgsTracer.Reachable.init t ht
    · rw [findShortestPath_snd]
      unfold init
      cases t.mGraph <;> rfl
    · rw [findShortestPath_snd]
      unfold init
      cases t.mGraph <;> rfl
  · intro t ht len i f fid geom p1 p2
    exact ⟨hquery _ (QgsTracer.Reachable.featureAdded t i f ht) len p1 p2,
      hquery _ (QgsTracer.Reachable.featureDeleted t i fid ht) len p1 p2,
      hquery _ (QgsTracer.Reachable.geometryChanged t i fid geom ht) len p1 p2⟩
  · intro len hlen
    refine ⟨?_, ?_, ?_⟩
    · rw [findShortestPath_fst len _ _ _
        (show (create.setLayers [fourEdgeLayer]).init.init.mGraph = some fourEdgeGraph by
          decide!)]
      exact fourEdge_detour len hlen
    · rw [findShortestPath_snd, findShortestPath_fst len _ _ _ shortcut_mGraph]
      exact shortcut_tracePath len hlen
    · rw [findShortestPath_snd, findShortestPath_snd,
        findShortestPath_fst len _ _ _ reverted_mGraph]
      exact fourEdge_detour len hlen

/-- Witness of C20: the tracer of the four-edge layer, initialised, is a reachable state; the
query after the shortcut is added is answered over the graph of the five lines, which has
the edge from (10, 0) to (10, 10). -/
theorem findShortestPath_tracks_layers_witness :
    (findShortestPath (fun (p q : QgsPointXY) =>
          Real.sqrt (((p.x - q.x) ^ 2 + (p.y - q.y) ^ 2 : ℚ) : ℝ))
        ((create.setLayers [fourEdgeLayer]).init.featureAdded 0 shortcutFeature)
        ⟨10, 0⟩ ⟨10, 10⟩).1
      = tracePath (fun (p q : QgsPointXY) =>
          Real.sqrt (((p.x - q.x) ^ 2 + (p.y - q.y) ^ 2 : ℚ) : ℝ))
        (makeGraph ((create.setLayers [fourEdgeLayer]).init.featureAdded 0
          shortcutFeature).layerLinework) ⟨10, 0⟩ ⟨10, 10⟩
      ∧ ((⟨10, 0⟩, ⟨10, 10⟩) : QgsPointXY × QgsPointXY)
        ∈ makeGraph ((create.setLayers [fourEdgeLayer]).init.featureAdded 0
          shortcutFeature).layerLinework :=
  ⟨(findShortestPath_tracks_layers.2.1 (create.setLayers [fourEdgeLayer]).init
      (QgsTracer.Reachable.init _
        (QgsTracer.Reachable.setLayers _ [fourEdgeLayer] QgsTracer.Reachable.create))
      _ 0 shortcutFeature 5 (lineString []) ⟨10, 0⟩ ⟨10, 10⟩).1,
    by decide!⟩

end TracerClaims

/-! ## The network tracer: the other queries of the tests -/

namespace QgsTracer

/-- The result of a query is the walk that is shorter than every other path without a
repeated vertex. -/
theorem tracePath_eq_of_shorter (len : QgsPointXY → QgsPointXY → ℝ)
    (hlen : IsEuclideanLength len) (graph joined : List (QgsPointXY × QgsPointXY))
    (p1 p2 : QgsPointXY) (best : List QgsPointXY) (paths : List (List QgsPointXY))
    (hj : joinedGraph graph p1 p2 = some joined) (hbest : IsWalkFromTo joined p1 p2 best)
    (hpaths : simplePaths joined p2 (vertices joined).length [] p1 = paths)
    (hothers : ∀ w ∈ paths, w ≠ best → pathLength len best < pathLength len w) :
    tracePath len graph p1 p2 = best := by
  rw [tracePath_of_joined len hj]
  refine shortestPath_eq_of_shorter len (isEuclideanLength_nonneg hlen) _ _ _
    (joinedGraph_spec hj).1 _ hbest ?_
  rw [hpaths]
  exact hothers

/-- The test `testSimple`, one joined point: from (5, 10) to (0, 0). -/
theorem testSimple_one_joined (len : QgsPointXY → QgsPointXY → ℝ)
    (hlen : IsEuclideanLength len) :
    (findShortestPath len (create.setLayers [fourEdgeLayer]) ⟨5, 10⟩ ⟨0, 0⟩).1
      = [⟨5, 10⟩, ⟨0, 10⟩, ⟨0, 0⟩] := by
  rw [findShortestPath_fst len _ _ _ fourEdge_mGraph]
  refine tracePath_eq_of_shorter len hlen _
    [(⟨0, 0⟩, ⟨0, 10⟩), (⟨0, 0⟩, ⟨10, 0⟩), (⟨0, 10⟩, ⟨5, 10⟩), (⟨5, 10⟩, ⟨20, 10⟩),
      (⟨10, 0⟩, ⟨20, 10⟩)] _ _ _
    [[⟨5, 10⟩, ⟨0, 10⟩, ⟨0, 0⟩], [⟨5, 10⟩, ⟨20, 10⟩, ⟨10, 0⟩, ⟨0, 0⟩]] (by decide!)
    ⟨by simp only [IsWalk, List.chain'_cons, List.chain'_singleton, and_true]; decide!, rfl,
      rfl⟩ (by decide!) ?_
  intro w hw hne
  simp only [List.mem_cons, List.mem_singleton, List.not_mem_nil, or_false] at hw
  have h1 := len_eq_of_sq hlen ⟨5, 10⟩ ⟨0, 10⟩ 5 (by norm_num) (by norm_num)
  have h2 := len_eq_of_sq hlen ⟨0, 10⟩ ⟨0, 0⟩ 10 (by norm_num) (by norm_num)
  have h3 := len_eq_of_sq hlen ⟨5, 10⟩ ⟨20, 10⟩ 15 (by norm_num) (by norm_num)
  have h4 := isEuclideanLength_nonneg hlen ⟨20, 10⟩ ⟨10, 0⟩
  have h5 := len_eq_of_sq hlen ⟨10, 0⟩ ⟨0, 0⟩ 10 (by norm_num) (by norm_num)
  push_cast at h1 h2 h3 h5
  rcases hw with rfl | rfl
  · exact absurd rfl hne
  · simp only [pathLength]
    linarith

/-- The test `testSimple`, two joined points: from (0, 1) to (11, 1). -/
theorem testSimple_two_joined (len : QgsPointXY → QgsPointXY → ℝ)
    (hlen : IsEuclideanLength len) :
    (findShortestPath len (create.setLayers [fourEdgeLayer]) ⟨0, 1⟩ ⟨11, 1⟩).1
      = [⟨0, 1⟩, ⟨0, 0⟩, ⟨10, 0⟩, ⟨11, 1⟩] := by
  rw [findShortestPath_fst len _ _ _ fourEdge_mGraph]
  refine tracePath_eq_of_shorter len hlen _
    [(⟨0, 0⟩, ⟨0, 1⟩), (⟨0, 1⟩, ⟨0, 10⟩), (⟨0, 0⟩, ⟨10, 0⟩), (⟨0, 10⟩, ⟨20, 10⟩),
      (⟨10, 0⟩, ⟨11, 1⟩), (⟨11, 1⟩, ⟨20, 10⟩)] _ _ _
    [[⟨0, 1⟩, ⟨0, 0⟩, ⟨10, 0⟩, ⟨11, 1⟩], [⟨0, 1⟩, ⟨0, 10⟩, ⟨20, 10⟩, ⟨11, 1⟩]] (by decide!)
    ⟨by simp only [IsWalk, List.chain'_cons, List.chain'_singleton, and_true]; decide!, rfl,
      rfl⟩ (by decide!) ?_
  intro w hw hne
  simp only [List.mem_cons, List.mem_singleton, List.not_mem_nil, or_false] at hw
  have h1 := len_eq_of_sq hlen ⟨0, 1⟩ ⟨0, 0⟩ 1 (by norm_num) (by norm_num)
  have h2 := len_eq_of_sq hlen ⟨0, 0⟩ ⟨10, 0⟩ 10 (by norm_num) (by norm_num)
  have h3 := len_lt_of_sq hlen ⟨10, 0⟩ ⟨11, 1⟩ 2 (by norm_num) (by norm_num)
  have h4 := len_eq_of_sq hlen ⟨0, 1⟩ ⟨0, 10⟩ 9 (by norm_num) (by norm_num)
  have h5 := len_eq_of_sq hlen ⟨0, 10⟩ ⟨20, 10⟩ 20 (by norm_num) (by norm_num)
  have h6 := isEuclideanLength_nonneg hlen ⟨20, 10⟩ ⟨11, 1⟩
  push_cast at h1 h2 h3 h4 h5
  rcases hw with rfl | rfl
  · exact absurd rfl hne
  · simp only [pathLength]
    linarith

/-- The test `testSimple`, two joined points on one line: from (11, 1) to (19, 9). -/
theorem testSimple_one_line (len : QgsPointXY → QgsPointXY → ℝ)
    (hlen : IsEuclideanLength len) :
    (findShortestPath len (create.setLayers [fourEdgeLayer]) ⟨11, 1⟩ ⟨19, 9⟩).1
      = [⟨11, 1⟩, ⟨19, 9⟩] := by
  rw [findShortestPath_fst len _ _ _ fourEdge_mGraph]
  refine tracePath_eq_of_shorter len hlen _
    [(⟨0, 0⟩, ⟨0, 10⟩), (⟨0, 0⟩, ⟨10, 0⟩), (⟨0, 10⟩, ⟨20, 10⟩), (⟨10, 0⟩, ⟨11, 1⟩),
      (⟨11, 1⟩, ⟨19, 9⟩), (⟨19, 9⟩, ⟨20, 10⟩)] _ _ _
    [[⟨11, 1⟩, ⟨10, 0⟩, ⟨0, 0⟩, ⟨0, 10⟩, ⟨20, 10⟩, ⟨19, 9⟩], [⟨11, 1⟩, ⟨19, 9⟩]]
    (by decide!)
    ⟨by simp only [IsWalk, List.chain'_cons, List.chain'_singleton, and_true]; decide!, rfl,
      rfl⟩ (by decide!) ?_
  intro w hw hne
  simp only [List.mem_cons, List.mem_singleton, List.not_mem_nil, or_false] at hw
  have h1 := len_lt_of_sq hlen ⟨11, 1⟩ ⟨19, 9⟩ 12 (by norm_num) (by norm_num)
  have h2 := isEuclideanLength_nonneg hlen ⟨11, 1⟩ ⟨10, 0⟩
  have h3 := len_eq_of_sq hlen ⟨10, 0⟩ ⟨0, 0⟩ 10 (by norm_num) (by norm_num)
  have h4 := len_eq_of_sq hlen ⟨0, 0⟩ ⟨0, 10⟩ 10 (by norm_num) (by norm_num)
  have h5 := len_eq_of_sq hlen ⟨0, 10⟩ ⟨20, 10⟩ 20 (by norm_num) (by norm_num)
  have h6 := isEuclideanLength_nonneg hlen ⟨20, 10⟩ ⟨19, 9⟩
  push_cast at h1 h3 h4 h5
  rcases hw with rfl | rfl
  · simp only [pathLength]
    linarith
  · exact absurd rfl hne

/-- The test `testPolygon`: the ring of a polygon is line work of the graph; from (1, 0) to
(0, 1). -/
theorem testPolygon_path (len : QgsPointXY → QgsPointXY → ℝ) (hlen : IsEuclideanLength len) :
    (findShortestPath len (create.setLayers [polygonLayer]) ⟨1, 0⟩ ⟨0, 1⟩).1
      = [⟨1, 0⟩, ⟨0, 0⟩, ⟨0, 1⟩] := by
  rw [findShortestPath_fst len _ _ _
    (show (create.setLayers [polygonLayer]).init.mGraph
      = some [(⟨0, 0⟩, ⟨0, 10⟩), (⟨0, 10⟩, ⟨20, 10⟩), (⟨10, 0⟩, ⟨20, 10⟩), (⟨0, 0⟩, ⟨10, 0⟩)] by
      decide!)]
  refine tracePath_eq_of_shorter len hlen _
    [(⟨0, 0⟩, ⟨0, 1⟩), (⟨0, 1⟩, ⟨0, 10⟩), (⟨0, 10⟩, ⟨20, 10⟩), (⟨10, 0⟩, ⟨20, 10⟩),
      (⟨0, 0⟩, ⟨1, 0⟩), (⟨1, 0⟩, ⟨10, 0⟩)] _ _ _
    [[⟨1, 0⟩, ⟨0, 0⟩, ⟨0, 1⟩], [⟨1, 0⟩, ⟨10, 0⟩, ⟨20, 10⟩, ⟨0, 10⟩, ⟨0, 1⟩]] (by decide!)
    ⟨by simp only [IsWalk, List.chain'_cons, List.chain'_singleton, and_true]; decide!, rfl,
      rfl⟩ (by decide!) ?_
  intro w hw hne
  simp only [List.mem_cons, List.mem_singleton, List.not_mem_nil, or_false] at hw
  have h1 := len_eq_of_sq hlen ⟨1, 0⟩ ⟨0, 0⟩ 1 (by norm_num) (by norm_num)
  have h2 := len_eq_of_sq hlen ⟨0, 0⟩ ⟨0, 1⟩ 1 (by norm_num) (by norm_num)
  have h3 := len_eq_of_sq hlen ⟨1, 0⟩ ⟨10, 0⟩ 9 (by norm_num) (by norm_num)
  have h4 := isEuclideanLength_nonneg hlen ⟨10, 0⟩ ⟨20, 10⟩
  have h5 := len_eq_of_sq hlen ⟨20, 10⟩ ⟨0, 10⟩ 20 (by norm_num) (by norm_num)
  have h6 := len_eq_of_sq hlen ⟨0, 10⟩ ⟨0, 1⟩ 9 (by norm_num) (by norm_num)
  push_cast at h1 h2 h3 h5 h6
  rcases hw with rfl | rfl
  · exact absurd rfl hne
  · simp only [pathLength]
    linarith

theorem changedTracer_reachable : Reachable changedTracer :=
  Reachable.geometryChanged _ 0 2 _ (Reachable.init _ (Reachable.featureDeleted _ 0 5
    (Reachable.init _ (Reachable.featureAdded _ 0 shortcutFeature (Reachable.init _
      (Reachable.setLayers _ [fourEdgeLayer] Reachable.create))))))

theorem changedTracer_mGraph :
    changedTracer.init.mGraph
      = some [(⟨0, 0⟩, ⟨0, 10⟩), (⟨10, 0⟩, ⟨10, 10⟩), (⟨0, 10⟩, ⟨10, 10⟩), (⟨10, 10⟩, ⟨20, 10⟩),
        (⟨10, 0⟩, ⟨20, 10⟩)] := by
  decide!

/-- The test `testLayerUpdates`, the geometry of the bottom line changed into the shortcut:
the path from (10, 0) to (10, 10) is direct, and the path from (0, 0) to (10, 0) goes
around. -/
theorem testLayerUpdates_changeGeometry (len : QgsPointXY → QgsPointXY → ℝ)
    (hlen : IsEuclideanLength len) :
    (findShortestPath len changedTracer ⟨10, 0⟩ ⟨10, 10⟩).1 = [⟨10, 0⟩, ⟨10, 10⟩]
      ∧ (findShortestPath len (findShortestPath len changedTracer ⟨10, 0⟩ ⟨10, 10⟩).2
          ⟨0, 0⟩ ⟨10, 0⟩).1 = [⟨0, 0⟩, ⟨0, 10⟩, ⟨10, 10⟩, ⟨10, 0⟩] := by
  have h1 := len_eq_of_sq hlen ⟨10, 0⟩ ⟨10, 10⟩ 10 (by norm_num) (by norm_num)
  have h2 := lt_len_of_sq hlen ⟨10, 0⟩ ⟨20, 10⟩ 0 (by norm_num) (by norm_num)
  have h3 := len_eq_of_sq hlen ⟨20, 10⟩ ⟨10, 10⟩ 10 (by norm_num) (by norm_num)
  have h4 := len_eq_of_sq hlen ⟨0, 0⟩ ⟨0, 10⟩ 10 (by norm_num) (by norm_num)
  have h5 := len_eq_of_sq hlen ⟨0, 10⟩ ⟨10, 10⟩ 10 (by norm_num) (by norm_num)
  have h6 := len_eq_of_sq hlen ⟨10, 10⟩ ⟨10, 0⟩ 10 (by norm_num) (by norm_num)
  have h7 := len_eq_of_sq hlen ⟨10, 10⟩ ⟨20, 10⟩ 10 (by norm_num) (by norm_num)
  have h8 := lt_len_of_sq hlen ⟨20, 10⟩ ⟨10, 0⟩ 10 (by norm_num) (by norm_num)
  push_cast at h1 h2 h3 h4 h5 h6 h7 h8
  constructor
  · rw [findShortestPath_fst len _ _ _ changedTracer_mGraph]
    refine tracePath_eq_of_shorter len hlen _ _ _ _ _
      [[⟨10, 0⟩, ⟨10, 10⟩], [⟨10, 0⟩, ⟨20, 10⟩, ⟨10, 10⟩]]
      (show joinedGraph _ _ _ = some [(⟨0, 0⟩, ⟨0, 10⟩), (⟨10, 0⟩, ⟨10, 10⟩),
        (⟨0, 10⟩, ⟨10, 10⟩), (⟨10, 10⟩, ⟨20, 10⟩), (⟨10, 0⟩, ⟨20, 10⟩)] by decide!)
      ⟨by simp only [IsWalk, List.chain'_cons, List.chain'_singleton, and_true]; decide!, rfl,
        rfl⟩ (by decide!) ?_
    intro w hw hne
    simp only [List.mem_cons, List.mem_singleton, List.not_mem_nil, or_false] at hw
    rcases hw with rfl | rfl
    · exact absurd rfl hne
    · simp only [pathLength]
      linarith
  · rw [findShortestPath_snd, findShortestPath_fst len _ _ _
      (show changedTracer.init.init.mGraph
        = some [(⟨0, 0⟩, ⟨0, 10⟩), (⟨10, 0⟩, ⟨10, 10⟩), (⟨0, 10⟩, ⟨10, 10⟩),
          (⟨10, 10⟩, ⟨20, 10⟩), (⟨10, 0⟩, ⟨20, 10⟩)] by decide!)]
    refine tracePath_eq_of_shorter len hlen _ _ _ _ _
      [[⟨0, 0⟩, ⟨0, 10⟩, ⟨10, 10⟩, ⟨10, 0⟩], [⟨0, 0⟩, ⟨0, 10⟩, ⟨10, 10⟩, ⟨20, 10⟩, ⟨10, 0⟩]]
      (show joinedGraph _ _ _ = some [(⟨0, 0⟩, ⟨0, 10⟩), (⟨10, 0⟩, ⟨10, 10⟩),
        (⟨0, 10⟩, ⟨10, 10⟩), (⟨10, 10⟩, ⟨20, 10⟩), (⟨10, 0⟩, ⟨20, 10⟩)] by decide!)
      ⟨by simp only [IsWalk, List.chain'_cons, List.chain'_singleton, and_true]; decide!, rfl,
        rfl⟩ (by decide!) ?_
    intro w hw hne
    simp only [List.mem_cons, List.mem_singleton, List.not_mem_nil, or_false] at hw
    rcases hw with rfl | rfl
    · exact absurd rfl hne
    · simp only [pathLength]
      linarith

end QgsTracer

/-! ## The network tracer: the shortest path among all paths along the edges -/

namespace QgsTracer

theorem len_self {len : QgsPointXY → QgsPointXY → ℝ} (hlen : IsEuclideanLength len)
    (p : QgsPointXY) : len p p = 0 := by
  have h := len_eq_of_sq hlen p p 0 (le_refl _) (by ring)
  simpa using h

theorem len_sq {len : QgsPointXY → QgsPointXY → ℝ} (hlen : IsEuclideanLength len)
    (p q : QgsPointXY) :
    len p q ^ 2 = ((p.x : ℝ) - q.x) ^ 2 + ((p.y : ℝ) - q.y) ^ 2 := by
  have h := (hlen p q).2
  push_cast at h
  exact h

/-- The triangle inequality of the Euclidean length. -/
theorem len_triangle {len : QgsPointXY → QgsPointXY → ℝ} (hlen : IsEuclideanLength len)
    (a b c : QgsPointXY) : len a c ≤ len a b + len b c := by
  have hab := len_sq hlen a b
  have hbc := len_sq hlen b c
  have hac := len_sq hlen a c
  have h1 := (hlen a b).1
  have h2 := (hlen b c).1
  have h3 := (hlen a c).1
  -- Cauchy-Schwarz for the vectors from a to b and from b to c
  have hcs : (((a.x : ℝ) - b.x) * ((b.x : ℝ) - c.x) + ((a.y : ℝ) - b.y) * ((b.y : ℝ) - c.y))
      ≤ len a b * len b c := by
    by_contra hcon
    push_neg at hcon
    have hpos : 0 ≤ len a b * len b c := mul_nonneg h1 h2
    have hsq : (len a b * len b c) ^ 2
        < (((a.x : ℝ) - b.x) * ((b.x : ℝ) - c.x) + ((a.y : ℝ) - b.y) * ((b.y : ℝ) - c.y)) ^ 2 :=
      pow_lt_pow_left₀ hcon hpos (by norm_num)
    rw [mul_pow, hab, hbc] at hsq
    nlinarith [sq_nonneg (((a.x : ℝ) - b.x) * ((b.y : ℝ) - c.y)
      - ((a.y : ℝ) - b.y) * ((b.x : ℝ) - c.x))]
  by_contra hcon
  push_neg at hcon
  have hsq : (len a b + len b c) ^ 2 < len a c ^ 2 :=
    pow_lt_pow_left₀ hcon (add_nonneg h1 h2) (by norm_num)
  rw [hac] at hsq
  nlinarith [hab, hbc, hcs]

/-- Along a line the Euclidean length adds up: for a point `p` between `x` and `y` on their
line, the way through `p` is no longer than the direct step. -/
theorem len_add_of_between {len : QgsPointXY → QgsPointXY → ℝ} (hlen : IsEuclideanLength len)
    {x p y : QgsPointXY} (hcol : cross x y p = 0) (hxp : x ≤ p) (hpy : p ≤ y) :
    len x p + len p y ≤ len x y := by
  have hxp2 := len_sq hlen x p
  have hpy2 := len_sq hlen p y
  have hxy2 := len_sq hlen x y
  have h1 := (hlen x p).1
  have h2 := (hlen p y).1
  have h3 := (hlen x y).1
  -- the vectors from x to p and from p to y are parallel and point the same way
  have hcross : ((p.x : ℝ) - x.x) * ((y.y : ℝ) - p.y) - ((p.y : ℝ) - x.y) * ((y.x : ℝ) - p.x)
      = 0 := by
    have hc : (p.x - x.x) * (y.y - p.y) - (p.y - x.y) * (y.x - p.x) = 0 := by
      unfold cross at hcol
      linear_combination -hcol
    have := congrArg (fun q : ℚ => (q : ℝ)) hc
    push_cast at this
    linarith
  have hdot : 0 ≤ ((p.x : ℝ) - x.x) * ((y.x : ℝ) - p.x) + ((p.y : ℝ) - x.y) * ((y.y : ℝ) - p.y) := by
    rw [QgsPointXY.le_def] at hxp hpy
    have hxp' : (x.x : ℝ) < p.x ∨ ((x.x : ℝ) = p.x ∧ (x.y : ℝ) ≤ p.y) := by
      rcases hxp with h | ⟨h, h'⟩
      · left; exact_mod_cast h
      · right; exact ⟨by exact_mod_cast h, by exact_mod_cast h'⟩
    have hpy' : (p.x : ℝ) < y.x ∨ ((p.x : ℝ) = y.x ∧ (p.y : ℝ) ≤ y.y) := by
      rcases hpy with h | ⟨h, h'⟩
      · left; exact_mod_cast h
      · right; exact ⟨by exact_mod_cast h, by exact_mod_cast h'⟩
    rcases hxp' with hu | ⟨hu, hu'⟩
    · rcases hpy' with hv | ⟨hv, hv'⟩
      · have hux : 0 < (p.x : ℝ) - x.x := by linarith
        have hvx : 0 < (y.x : ℝ) - p.x := by linarith
        have hkey : ((p.x : ℝ) - x.x) * (((p.x : ℝ) - x.x) * ((y.x : ℝ) - p.x)
            + ((p.y : ℝ) - x.y) * ((y.y : ℝ) - p.y))
            = ((y.x : ℝ) - p.x) * (((p.x : ℝ) - x.x) ^ 2 + ((p.y : ℝ) - x.y) ^ 2) := by
          linear_combination ((p.y : ℝ) - x.y) * hcross
        have hrhs : 0 ≤ ((y.x : ℝ) - p.x) * (((p.x : ℝ) - x.x) ^ 2 + ((p.y : ℝ) - x.y) ^ 2) :=
          mul_nonneg hvx.le (by positivity)
        rw [← hkey] at hrhs
        exact nonneg_of_mul_nonneg_right hrhs hux
      · have hux : 0 < (p.x : ℝ) - x.x := by linarith
        have hz : (y.x : ℝ) - p.x = 0 := by linarith
        have hvy : (y.y : ℝ) - p.y = 0 := by
          have : ((p.x : ℝ) - x.x) * ((y.y : ℝ) - p.y) = 0 := by
            have h := hcross
            rw [hz] at h
            linarith
          exact (mul_eq_zero.mp this).resolve_left (ne_of_gt hux)
        rw [hz, hvy]; simp
    · rcases hpy' with hv | ⟨hv, hv'⟩
      · have hvx : 0 < (y.x : ℝ) - p.x := by linarith
        have hz : (p.x : ℝ) - x.x = 0 := by linarith
        have huy : (p.y : ℝ) - x.y = 0 := by
          have : ((p.y : ℝ) - x.y) * ((y.x : ℝ) - p.x) = 0 := by
            have h := hcross
            rw [hz] at h
            linarith
          exact (mul_eq_zero.mp this).resolve_right (ne_of_gt hvx)
        rw [hz, huy]; simp
      · have hz1 : (p.x : ℝ) - x.x = 0 := by linarith
        have hz2 : (y.x : ℝ) - p.x = 0 := by linarith
        have : 0 ≤ ((p.y : ℝ) - x.y) * ((y.y : ℝ) - p.y) :=
          mul_nonneg (by linarith) (by linarith)
        rw [hz1, hz2]
        simpa using this
  -- the product of the lengths is the scalar product
  have hprod : len x p * len p y
      = ((p.x : ℝ) - x.x) * ((y.x : ℝ) - p.x) + ((p.y : ℝ) - x.y) * ((y.y : ℝ) - p.y) := by
    have hsq : (len x p * len p y) ^ 2
        = (((p.x : ℝ) - x.x) * ((y.x : ℝ) - p.x) + ((p.y : ℝ) - x.y) * ((y.y : ℝ) - p.y)) ^ 2 := by
      rw [mul_pow, hxp2, hpy2]
      linear_combination (((p.x : ℝ) - x.x) * ((y.y : ℝ) - p.y)
        - ((p.y : ℝ) - x.y) * ((y.x : ℝ) - p.x)
        + 2 * 0) * hcross
    exact (sq_eq_sq₀ (mul_nonneg h1 h2) hdot).mp hsq
  have hsum : (len x p + len p y) ^ 2 = len x y ^ 2 := by
    rw [hxy2, add_sq, hxp2, hpy2, mul_assoc, hprod]
    ring
  exact le_of_eq ((sq_eq_sq₀ (add_nonneg h1 h2) h3).mp hsum)

theorem len_symm {len : QgsPointXY → QgsPointXY → ℝ} (hlen : IsEuclideanLength len)
    (p q : QgsPointXY) : len p q = len q p := by
  refine (sq_eq_sq₀ (hlen p q).1 (hlen q p).1).mp ?_
  rw [len_sq hlen p q, len_sq hlen q p]
  ring

/-- The graph that is built is noded. -/
theorem makeGraph_isNoded (lines : List (List QgsPointXY)) : Noded (makeGraph lines) := by
  refine ⟨List.nodup_dedup _, ?_, ?_⟩
  · intro e he
    obtain ⟨s, _, he'⟩ := (mem_makeGraph lines e).mp he
    exact (segmentEdges_spec he').1
  · intro e1 h1 e2 h2 hne p hp1 hp2
    exact makeGraph_planar lines h1 h2 hne hp1 hp2

/-- The split of an edge, as lists. -/
theorem splitEdge_eq_some {edges joined : List (QgsPointXY × QgsPointXY)} {p : QgsPointXY}
    (h : splitEdge edges p = some joined) :
    ∃ pre e post, edges = pre ++ e :: post ∧ onSegment e p
      ∧ joined = pre ++ (e.1, p) :: (p, e.2) :: post := by
  induction edges generalizing joined with
  | nil => simp [splitEdge] at h
  | cons e rest ih =>
    unfold splitEdge at h
    by_cases hon : onSegment e p
    · simp only [hon, if_true, Option.some.injEq] at h
      exact ⟨[], e, rest, rfl, hon, h.symm⟩
    · simp only [hon, if_false, Option.map_eq_some'] at h
      obtain ⟨r, hr, rfl⟩ := h
      obtain ⟨pre, e', post, hedges, hon', hjoined⟩ := ih hr
      exact ⟨e :: pre, e', post, by rw [hedges]; rfl, hon', by rw [hjoined]; rfl⟩

/-- What a query point that is no vertex does to a noded graph: one edge, which has the point
strictly between its ends, is replaced by its two pieces, which are new edges. -/
theorem joinPoint_split {edges joined : List (QgsPointXY × QgsPointXY)} {p : QgsPointXY}
    (hG : Noded edges) (hp : p ∉ vertices edges) (h : joinPoint edges p = some joined) :
    ∃ e ∈ edges, onSegment e p ∧ e.1 < p ∧ p < e.2
      ∧ (∀ f, f ∈ joined ↔ (f ∈ edges ∧ f ≠ e) ∨ f = (e.1, p) ∨ f = (p, e.2))
      ∧ joined.Nodup := by
  unfold joinPoint at h
  rw [if_neg hp] at h
  obtain ⟨pre, e, post, hedges, hon, hjoined⟩ := splitEdge_eq_some h
  have he : e ∈ edges := by rw [hedges]; simp
  have hlt := hG.2.1 e he
  have hne1 : p ≠ e.1 := fun hcon => hp ((mem_vertices _ _).mpr ⟨e, he, Or.inl hcon⟩)
  have hne2 : p ≠ e.2 := fun hcon => hp ((mem_vertices _ _).mpr ⟨e, he, Or.inr hcon⟩)
  have hlo : e.1 ≤ p := by have := hon.2.1; rwa [min_eq_left hlt.le] at this
  have hhi : p ≤ e.2 := by have := hon.2.2; rwa [max_eq_right hlt.le] at this
  have hnd : (e :: (pre ++ post)).Nodup := by
    have := hG.1
    rw [hedges] at this
    exact List.nodup_middle.mp this
  have hnotin : e ∉ pre ++ post := (List.nodup_cons.mp hnd).1
  have hnew1 : ((e.1, p) : QgsPointXY × QgsPointXY) ∉ edges := fun hcon =>
    hp ((mem_vertices _ _).mpr ⟨_, hcon, Or.inr rfl⟩)
  have hnew2 : ((p, e.2) : QgsPointXY × QgsPointXY) ∉ edges := fun hcon =>
    hp ((mem_vertices _ _).mpr ⟨_, hcon, Or.inl rfl⟩)
  have hmem : ∀ f, f ∈ pre ++ post ↔ f ∈ edges ∧ f ≠ e := by
    intro f
    rw [hedges]
    simp only [List.mem_append, List.mem_cons]
    constructor
    · intro hf
      refine ⟨by tauto, ?_⟩
      rintro rfl
      exact hnotin (List.mem_append.mpr hf)
    · rintro ⟨hf, hfe⟩
      tauto
  refine ⟨e, he, hon, lt_of_le_of_ne hlo (Ne.symm hne1), lt_of_le_of_ne hhi hne2, ?_, ?_⟩
  · intro f
    rw [← hmem f, hjoined]
    simp only [List.mem_append, List.mem_cons]
    tauto
  · rw [hjoined]
    refine List.nodup_middle.mpr (List.nodup_cons.mpr ⟨?_, List.nodup_middle.mpr
      (List.nodup_cons.mpr ⟨?_, (List.nodup_cons.mp hnd).2⟩)⟩)
    · intro hcon
      simp only [List.mem_append, List.mem_cons] at hcon
      rcases hcon with hcon | hcon | hcon
      · exact hnew1 (((hmem _).mp (List.mem_append.mpr (Or.inl hcon))).1)
      · have := congrArg Prod.fst hcon
        exact hne1 this.symm
      · exact hnew1 (((hmem _).mp (List.mem_append.mpr (Or.inr hcon))).1)
    · intro hcon
      exact hnew2 ((hmem _).mp hcon).1

/-- A graph stays noded when a query point is joined to it. -/
theorem joinPoint_noded {edges joined : List (QgsPointXY × QgsPointXY)} {p : QgsPointXY}
    (hG : Noded edges) (h : joinPoint edges p = some joined) : Noded joined := by
  by_cases hp : p ∈ vertices edges
  · unfold joinPoint at h
    rw [if_pos hp] at h
    simp only [Option.some.injEq] at h
    exact h ▸ hG
  · obtain ⟨e, he, hon, hlt1, hlt2, hmem, hnodup⟩ := joinPoint_split hG hp h
    have hne : e.1 ≠ e.2 := ne_of_lt (hG.2.1 e he)
    -- a common point of a piece and another edge
    have hpiece : ∀ (n : QgsPointXY × QgsPointXY), n = (e.1, p) ∨ n = (p, e.2) →
        ∀ f, f ∈ edges → f ≠ e → ∀ x, onSegment n x → onSegment f x →
          (x = n.1 ∨ x = n.2) ∧ (x = f.1 ∨ x = f.2) := by
      intro n hn f hf hfe x hxn hxf
      have hxe : onSegment e x := by
        rcases hn with rfl | rfl
        · exact @onSegment_of_piece e (e.1, p) x (onSegment_fst e) hon hxn
        · exact @onSegment_of_piece e (p, e.2) x hon (onSegment_snd e) hxn
      obtain ⟨hends, hfends⟩ := hG.2.2 e he f hf (Ne.symm hfe) x hxe hxf
      refine ⟨?_, hfends⟩
      rcases hn with rfl | rfl
      · have hhi := hxn.2.2
        rw [max_eq_right hlt1.le] at hhi
        rcases hends with h1 | h2
        · exact Or.inl h1
        · exact absurd (lt_of_le_of_lt (h2 ▸ hhi) hlt2) (lt_irrefl _)
      · have hlo := hxn.2.1
        rw [min_eq_left hlt2.le] at hlo
        rcases hends with h1 | h2
        · exact absurd (lt_of_lt_of_le hlt1 (h1 ▸ hlo)) (lt_irrefl _)
        · exact Or.inr h2
    have hpieces : ∀ x, onSegment (e.1, p) x → onSegment (p, e.2) x → x = p := by
      intro x h1 h2
      have hhi := h1.2.2
      have hlo := h2.2.1
      rw [max_eq_right hlt1.le] at hhi
      rw [min_eq_left hlt2.le] at hlo
      exact le_antisymm hhi hlo
    refine ⟨hnodup, ?_, ?_⟩
    · intro f hf
      rcases (hmem f).mp hf with ⟨hf, _⟩ | rfl | rfl
      · exact hG.2.1 f hf
      · exact hlt1
      · exact hlt2
    · intro f1 h1 f2 h2 hne12 x hx1 hx2
      rcases (hmem f1).mp h1 with ⟨hf1, hfe1⟩ | rfl | rfl
      · rcases (hmem f2).mp h2 with ⟨hf2, _⟩ | rfl | rfl
        · exact hG.2.2 f1 hf1 f2 hf2 hne12 x hx1 hx2
        · exact (hpiece _ (Or.inl rfl) f1 hf1 hfe1 x hx2 hx1).symm
        · exact (hpiece _ (Or.inr rfl) f1 hf1 hfe1 x hx2 hx1).symm
      · rcases (hmem f2).mp h2 with ⟨hf2, hfe2⟩ | rfl | rfl
        · exact hpiece _ (Or.inl rfl) f2 hf2 hfe2 x hx1 hx2
        · exact absurd rfl hne12
        · have := hpieces x hx1 hx2
          exact ⟨Or.inr this, Or.inl this⟩
      · rcases (hmem f2).mp h2 with ⟨hf2, hfe2⟩ | rfl | rfl
        · exact hpiece _ (Or.inr rfl) f2 hf2 hfe2 x hx1 hx2
        · have := hpieces x hx2 hx1
          exact ⟨Or.inl this, Or.inr this⟩
        · exact absurd rfl hne12

theorem pathLength_cons_cons {V : Type} {C : Type} [LinearOrderedAddCommMonoid C]
    (len : V → V → C) (a b : V) (rest : List V) :
    pathLength len (a :: b :: rest) = len a b + pathLength len (b :: rest) := by
  rw [pathLength]

/-- A path along the edges of a noded graph can be made a path along the edges of the graph
with a query point joined, without making it longer: a step that passes the point is cut
there. -/
theorem runsAlong_joinPoint {len : QgsPointXY → QgsPointXY → ℝ} (hlen : IsEuclideanLength len)
    {edges joined : List (QgsPointXY × QgsPointXY)} {p : QgsPointXY} (hG : Noded edges)
    (h : joinPoint edges p = some joined) :
    ∀ w, RunsAlong edges w → ∃ w', w'.head? = w.head? ∧ w'.getLast? = w.getLast?
      ∧ RunsAlong joined w' ∧ pathLength len w' ≤ pathLength len w := by
  by_cases hp : p ∈ vertices edges
  · unfold joinPoint at h
    rw [if_pos hp] at h
    simp only [Option.some.injEq] at h
    subst h
    exact fun w hw => ⟨w, rfl, rfl, hw, le_refl _⟩
  · obtain ⟨e, he, hon, hlt1, hlt2, hmem, _⟩ := joinPoint_split hG hp h
    have hlt := hG.2.1 e he
    have hne : e.1 ≠ e.2 := ne_of_lt hlt
    have hE1 : ((e.1, p) : QgsPointXY × QgsPointXY) ∈ joined := (hmem _).mpr (Or.inr (Or.inl rfl))
    have hE2 : ((p, e.2) : QgsPointXY × QgsPointXY) ∈ joined := (hmem _).mpr (Or.inr (Or.inr rfl))
    -- a point of the edge before the query point lies on the first piece
    have hfirst : ∀ x, onSegment e x → x ≤ p → onSegment (e.1, p) x := by
      intro x hx hxp
      refine onSegment_piece_of_le hne (onSegment_fst e) hon hx ?_ ?_
      · have := hx.2.1
        rw [min_eq_left hlt.le] at this
        exact le_trans (min_le_left _ _) this
      · exact le_trans hxp (le_max_right _ _)
    have hsecond : ∀ x, onSegment e x → p ≤ x → onSegment (p, e.2) x := by
      intro x hx hpx
      refine onSegment_piece_of_le hne hon (onSegment_snd e) hx ?_ ?_
      · exact le_trans (min_le_left _ _) hpx
      · have := hx.2.2
        rw [max_eq_right hlt.le] at this
        exact le_trans this (le_max_right _ _)
    have hpE1 : onSegment (e.1, p) p := onSegment_snd (e.1, p)
    have hpE2 : onSegment (p, e.2) p := onSegment_fst (p, e.2)
    intro w
    induction w with
    | nil => exact fun _ => ⟨[], rfl, rfl, List.chain'_nil, le_refl _⟩
    | cons x rest ih =>
      cases rest with
      | nil => exact fun _ => ⟨[x], rfl, rfl, List.chain'_singleton x, le_refl _⟩
      | cons y rest2 =>
        intro hw
        obtain ⟨g, hg, hxg, hyg⟩ := List.Chain'.rel_head hw
        obtain ⟨w1, hh, hl, hr, hL⟩ := ih (List.Chain'.tail hw)
        cases w1 with
        | nil => simp at hh
        | cons y' r1 =>
          simp only [List.head?_cons, Option.some.injEq] at hh
          subst hh
          have hlast : (x :: y' :: r1).getLast? = (x :: y' :: rest2).getLast? := by
            rw [List.getLast?_cons_cons, List.getLast?_cons_cons]; exact hl
          have hlast2 : (x :: p :: y' :: r1).getLast? = (x :: y' :: rest2).getLast? := by
            rw [List.getLast?_cons_cons, List.getLast?_cons_cons, List.getLast?_cons_cons]
            exact hl
          have hdirect : (∃ f ∈ joined, onSegment f x ∧ onSegment f y') →
              ∃ w', w'.head? = (x :: y' :: rest2).head? ∧ w'.getLast? = (x :: y' :: rest2).getLast?
                ∧ RunsAlong joined w' ∧ pathLength len w' ≤ pathLength len (x :: y' :: rest2) := by
            intro hstep
            refine ⟨x :: y' :: r1, rfl, hlast, List.Chain'.cons hstep hr, ?_⟩
            rw [pathLength_cons_cons, pathLength_cons_cons]
            exact add_le_add_left hL _
          have hcut : (∃ f ∈ joined, onSegment f x ∧ onSegment f p) →
              (∃ f ∈ joined, onSegment f p ∧ onSegment f y') →
              len x p + len p y' ≤ len x y' →
              ∃ w', w'.head? = (x :: y' :: rest2).head? ∧ w'.getLast? = (x :: y' :: rest2).getLast?
                ∧ RunsAlong joined w' ∧ pathLength len w' ≤ pathLength len (x :: y' :: rest2) := by
            intro hstep1 hstep2 hadd
            refine ⟨x :: p :: y' :: r1, rfl, hlast2,
              List.Chain'.cons hstep1 (List.Chain'.cons hstep2 hr), ?_⟩
            rw [pathLength_cons_cons, pathLength_cons_cons, pathLength_cons_cons]
            linarith
          by_cases hge : g = e
          · subst hge
            have hcol : cross x y' p = 0 := cross_of_collinear hne hxg.1 hyg.1 hon.1
            have hcol' : cross y' x p = 0 := cross_of_collinear hne hyg.1 hxg.1 hon.1
            rcases le_total x p with hxp | hpx
            · rcases le_total y' p with hyp | hpy
              · exact hdirect ⟨_, hE1, hfirst x hxg hxp, hfirst y' hyg hyp⟩
              · exact hcut ⟨_, hE1, hfirst x hxg hxp, hpE1⟩ ⟨_, hE2, hpE2, hsecond y' hyg hpy⟩
                  (len_add_of_between hlen hcol hxp hpy)
            · rcases le_total y' p with hyp | hpy
              · refine hcut ⟨_, hE2, hsecond x hxg hpx, hpE2⟩ ⟨_, hE1, hpE1, hfirst y' hyg hyp⟩ ?_
                have := len_add_of_between hlen hcol' hyp hpx
                rw [len_symm hlen x p, len_symm hlen p y', len_symm hlen x y']
                linarith
              · exact hdirect ⟨_, hE2, hsecond x hxg hpx, hsecond y' hyg hpy⟩
          · exact hdirect ⟨g, (hmem g).mpr (Or.inl ⟨hg, hge⟩), hxg, hyg⟩

/-- From each end of an edge through the first point of a path along the edges of a noded
graph, a walk over the edges leads to the last point of the path, a vertex, and is no longer
than the way to the first point and along the path. -/
theorem walk_of_runsAlong {len : QgsPointXY → QgsPointXY → ℝ} (hlen : IsEuclideanLength len)
    {edges : List (QgsPointXY × QgsPointXY)} (hG : Noded edges) {target : QgsPointXY}
    (ht : target ∈ vertices edges) :
    ∀ w, RunsAlong edges w → w.getLast? = some target → ∀ x0, w.head? = some x0 →
      ∀ e ∈ edges, onSegment e x0 → ∀ a, (a = e.1 ∨ a = e.2) →
        ∃ u, IsWalkFromTo edges a target u ∧ pathLength len u ≤ len a x0 + pathLength len w := by
  -- the two ends of an edge are joined by it
  have hedge : ∀ e ∈ edges, ∀ a b, (a = e.1 ∨ a = e.2) → (b = e.1 ∨ b = e.2) → a ≠ b →
      b ∈ neighbours edges a := by
    intro e he a b ha hb hab
    rw [mem_neighbours]
    rcases ha with rfl | rfl
    · rcases hb with rfl | rfl
      · exact absurd rfl hab
      · exact Or.inl he
    · rcases hb with rfl | rfl
      · exact Or.inr he
      · exact absurd rfl hab
  intro w
  induction w with
  | nil => intro _ hlast; simp at hlast
  | cons x rest ih =>
    cases rest with
    | nil =>
      intro _ hlast x0 hhead e he hx a ha
      simp only [List.getLast?_singleton, Option.some.injEq] at hlast
      simp only [List.head?_cons, Option.some.injEq] at hhead
      subst hlast hhead
      -- the target is an end of the edge
      have hend : x = e.1 ∨ x = e.2 := by
        obtain ⟨e0, he0, hx0⟩ := (mem_vertices _ _).mp ht
        by_cases h : e0 = e
        · exact h ▸ hx0
        · have hon0 : onSegment e0 x := by
            rcases hx0 with h0 | h0
            · rw [h0]; exact onSegment_fst e0
            · rw [h0]; exact onSegment_snd e0
          exact (hG.2.2 e0 he0 e he h x hon0 hx).2
      by_cases hax : a = x
      · subst hax
        exact ⟨[a], ⟨List.chain'_singleton a, rfl, rfl⟩, by
          simp only [pathLength]
          linarith [(hlen a a).1]⟩
      · refine ⟨[a, x], ⟨?_, rfl, rfl⟩, ?_⟩
        · simp only [IsWalk, List.chain'_cons, List.chain'_singleton, and_true]
          exact hedge e he a x ha hend hax
        · simp only [pathLength]
          linarith
    | cons y rest2 =>
      intro hw hlast x0 hhead e he hx a ha
      simp only [List.head?_cons, Option.some.injEq] at hhead
      subst hhead
      rw [List.getLast?_cons_cons] at hlast
      obtain ⟨f, hf, hxf, hyf⟩ := List.Chain'.rel_head hw
      have ih' := ih (List.Chain'.tail hw) hlast y rfl
      rw [pathLength_cons_cons]
      by_cases hef : e = f
      · subst hef
        obtain ⟨u, hu, hL⟩ := ih' e he hyf a ha
        exact ⟨u, hu, by linarith [len_triangle hlen a x y]⟩
      · obtain ⟨hxe, hxf'⟩ := hG.2.2 e he f hf hef x hx hxf
        obtain ⟨u, hu, hL⟩ := ih' f hf hyf x hxf'
        by_cases hax : a = x
        · subst hax
          exact ⟨u, hu, by linarith [(hlen a a).1]⟩
        · cases u with
          | nil => exact absurd hu.2.1 (by simp)
          | cons x' u' =>
            have hx' : x' = x := by
              have := hu.2.1
              simpa using this
            subst hx'
            refine ⟨a :: x' :: u', ⟨List.Chain'.cons (hedge e he a x' ha hxe hax) hu.1, rfl, ?_⟩,
              ?_⟩
            · rw [List.getLast?_cons_cons]; exact hu.2.2
            · rw [pathLength_cons_cons]
              linarith

/-- On a noded graph the result of a query is no longer than any path along the edges
between the two query points. -/
theorem tracePath_le_of_runsAlong {len : QgsPointXY → QgsPointXY → ℝ}
    (hlen : IsEuclideanLength len) {edges : List (QgsPointXY × QgsPointXY)} (hG : Noded edges)
    {p1 p2 : QgsPointXY} (h1 : OnGraph edges p1) (h2 : OnGraph edges p2)
    {w : List QgsPointXY} (hw : RunsAlong edges w) (hhead : w.head? = some p1)
    (hlast : w.getLast? = some p2) :
    (tracePath len edges p1 p2).head? = some p1
      ∧ (tracePath len edges p1 p2).getLast? = some p2
      ∧ RunsAlong edges (tracePath len edges p1 p2)
      ∧ pathLength len (tracePath len edges p1 p2) ≤ pathLength len w := by
  cases hj : joinedGraph edges p1 p2 with
  | none => exact absurd ⟨h1, h2⟩ ((joinedGraph_eq_none edges p1 p2).mp hj)
  | some joined =>
    have hj' := hj
    unfold joinedGraph at hj'
    cases hj1 : joinPoint edges p1 with
    | none => simp [hj1] at hj'
    | some first =>
      simp only [hj1, Option.some_bind] at hj'
      have hN1 := joinPoint_noded hG hj1
      have hN := joinPoint_noded hN1 hj'
      obtain ⟨w1, hh1, hl1, hr1, hL1⟩ := runsAlong_joinPoint hlen hG hj1 w hw
      obtain ⟨w2, hh2, hl2, hr2, hL2⟩ := runsAlong_joinPoint hlen hN1 hj' w1 hr1
      obtain ⟨hv1, hv2, hedges⟩ := joinedGraph_spec hj
      obtain ⟨e, he, hp1e⟩ := (mem_vertices _ _).mp hv1
      have hon : onSegment e p1 := by
        rcases hp1e with h | h
        · rw [h]; exact onSegment_fst e
        · rw [h]; exact onSegment_snd e
      obtain ⟨u, hu, hLu⟩ := walk_of_runsAlong hlen hN hv2 w2 hr2 (by rw [hl2, hl1, hlast]) p1
        (by rw [hh2, hh1, hhead]) e he hon p1 hp1e
      rw [tracePath_of_joined len hj]
      obtain ⟨hwalk, _, hmin⟩ :=
        (shortestPath_spec len (isEuclideanLength_nonneg hlen) joined p1 p2).1 ⟨u, hu⟩
      refine ⟨hwalk.2.1, hwalk.2.2, runsAlong_of_isWalk hedges hwalk.1, ?_⟩
      have := hmin u hu
      rw [len_self hlen p1] at hLu
      linarith

end QgsTracer

/-! ## The network tracer: the shortest path -/

section TracerShortestPath

open QgsTracer

/-- C17: two query points that lie on the graph of a tracer are joined to it as vertices, by
edges that lie on edges of the graph.  When a walk connects them, `findShortestPath` returns
a point sequence that starts at the first query point, ends at the second, runs along the
edges of the graph and is no longer in Euclidean length than any walk between them.  In every
state that the calls of the interface reach, the result is no longer than any point sequence
from the first query point to the second whose steps each stay on one edge of the graph.  On
the layer LINESTRING(0 0, 0 10), LINESTRING(0 0, 10 0), LINESTRING(0 10, 20 10),
LINESTRING(10 0, 20 10) the path from (0, 0) to (20, 10) is [(0, 0), (10, 0), (20, 10)]. -/
theorem findShortestPath_shortest :
    (∀ (graph : List (QgsPointXY × QgsPointXY)) (p1 p2 : QgsPointXY),
      OnGraph graph p1 → OnGraph graph p2 →
        ∃ joined, joinedGraph graph p1 p2 = some joined
          ∧ p1 ∈ vertices joined ∧ p2 ∈ vertices joined
          ∧ ∀ f ∈ joined, ∃ e ∈ graph, onSegment e f.1 ∧ onSegment e f.2)
    ∧ (∀ (len : QgsPointXY → QgsPointXY → ℝ), IsEuclideanLength len →
      ∀ (t : QgsTracer) (graph joined : List (QgsPointXY × QgsPointXY)) (p1 p2 : QgsPointXY),
        t.init.mGraph = some graph → joinedGraph graph p1 p2 = some joined →
        (∃ w, IsWalkFromTo joined p1 p2 w) →
          (findShortestPath len t p1 p2).1.head? = some p1
          ∧ (findShortestPath len t p1 p2).1.getLast? = some p2
          ∧ IsWalk joined (findShortestPath len t p1 p2).1
          ∧ RunsAlong graph (findShortestPath len t p1 p2).1
          ∧ ∀ w, IsWalkFromTo joined p1 p2 w →
              pathLength len (findShortestPath len t p1 p2).1 ≤ pathLength len w)
    ∧ (∀ (len : QgsPointXY → QgsPointXY → ℝ), IsEuclideanLength len →
      ∀ (t : QgsTracer), QgsTracer.Reachable t → ∀ (p1 p2 : QgsPointXY),
        OnGraph (makeGraph t.layerLinework) p1 → OnGraph (makeGraph t.layerLinework) p2 →
        ∀ (w : List QgsPointXY), RunsAlong (makeGraph t.layerLinework) w →
          w.head? = some p1 → w.getLast? = some p2 →
          (findShortestPath len t p1 p2).1.head? = some p1
          ∧ (findShortestPath len t p1 p2).1.getLast? = some p2
          ∧ RunsAlong (makeGraph t.layerLinework) (findShortestPath len t p1 p2).1
          ∧ pathLength len (findShortestPath len t p1 p2).1 ≤ pathLength len w)
    ∧ ∀ (len : QgsPointXY → QgsPointXY → ℝ), IsEuclideanLength len →
        (findShortestPath len (create.setLayers [fourEdgeLayer]) ⟨0, 0⟩ ⟨20, 10⟩).1
          = [⟨0, 0⟩, ⟨10, 0⟩, ⟨20, 10⟩] := by
  refine ⟨?_, ?_, ?_, ?_⟩
  · intro graph p1 p2 h1 h2
    cases hj : joinedGraph graph p1 p2 with
    | none => exact absurd ⟨h1, h2⟩ ((joinedGraph_eq_none graph p1 p2).mp hj)
    | some joined =>
      obtain ⟨hv1, hv2, hedges⟩ := joinedGraph_spec hj
      exact ⟨joined, rfl, hv1, hv2, hedges⟩
  · intro len hlen t graph joined p1 p2 hgraph hj hconn
    rw [findShortestPath_fst len t p1 p2 hgraph, tracePath_of_joined len hj]
    obtain ⟨hwalk, _, hmin⟩ :=
      (shortestPath_spec len (isEuclideanLength_nonneg hlen) joined p1 p2).1 hconn
    exact ⟨hwalk.2.1, hwalk.2.2, hwalk.1,
      runsAlong_of_isWalk (joinedGraph_spec hj).2.2 hwalk.1, hmin⟩
  · intro len hlen t ht p1 p2 h1 h2 w hw hhead hlast
    rw [findShortestPath_fst len t p1 p2 (reachable_init_mGraph ht)]
    exact tracePath_le_of_runsAlong hlen (makeGraph_isNoded t.layerLinework) h1 h2 hw hhead
      hlast
  · intro len hlen
    rw [findShortestPath_fst len _ _ _ fourEdge_mGraph]
    exact fourEdge_tracePath len hlen

/-- Witness of C17: on the four-edge layer the path from (0, 0) to (20, 10) starts and ends at
the query points, runs along the graph and is no longer than the path through (0, 10). -/
theorem findShortestPath_shortest_witness :
    (findShortestPath (fun (p q : QgsPointXY) =>
          Real.sqrt (((p.x - q.x) ^ 2 + (p.y - q.y) ^ 2 : ℚ) : ℝ))
        (create.setLayers [fourEdgeLayer]) ⟨0, 0⟩ ⟨20, 10⟩).1.head? = some ⟨0, 0⟩
      ∧ (findShortestPath (fun (p q : QgsPointXY) =>
          Real.sqrt (((p.x - q.x) ^ 2 + (p.y - q.y) ^ 2 : ℚ) : ℝ))
        (create.setLayers [fourEdgeLayer]) ⟨0, 0⟩ ⟨20, 10⟩).1.getLast? = some ⟨20, 10⟩
      ∧ RunsAlong (makeGraph (create.setLayers [fourEdgeLayer]).layerLinework)
        (findShortestPath (fun (p q : QgsPointXY) =>
            Real.sqrt (((p.x - q.x) ^ 2 + (p.y - q.y) ^ 2 : ℚ) : ℝ))
          (create.setLayers [fourEdgeLayer]) ⟨0, 0⟩ ⟨20, 10⟩).1
      ∧ pathLength (fun (p q : QgsPointXY) =>
            Real.sqrt (((p.x - q.x) ^ 2 + (p.y - q.y) ^ 2 : ℚ) : ℝ))
          (findShortestPath (fun (p q : QgsPointXY) =>
              Real.sqrt (((p.x - q.x) ^ 2 + (p.y - q.y) ^ 2 : ℚ) : ℝ))
            (create.setLayers [fourEdgeLayer]) ⟨0, 0⟩ ⟨20, 10⟩).1
        ≤ pathLength (fun (p q : QgsPointXY) =>
            Real.sqrt (((p.x - q.x) ^ 2 + (p.y - q.y) ^ 2 : ℚ) : ℝ))
          [⟨0, 0⟩, ⟨0, 10⟩, ⟨20, 10⟩] :=
  findShortestPath_shortest.2.2.1 _ sqrt_isEuclideanLength (create.setLayers [fourEdgeLayer])
    (QgsTracer.Reachable.setLayers _ [fourEdgeLayer] QgsTracer.Reachable.create)
    ⟨0, 0⟩ ⟨20, 10⟩ (by unfold OnGraph; decide!) (by unfold OnGraph; decide!)
    [⟨0, 0⟩, ⟨0, 10⟩, ⟨20, 10⟩]
    (by
      simp only [RunsAlong, List.chain'_cons, List.chain'_singleton, and_true]
      decide!)
    rfl rfl

end TracerShortestPath

/-! ## Reshaping a polygon: a corner cut off a square with two holes -/

mutual
theorem GEOSGeometry.eq_of_same : ∀ (a b : GEOSGeometry), a.same b = true → a = b
  | .point a, .point b, h => by simp [GEOSGeometry.same] at h; rw [h]
  | .lineString a, .lineString b, h => by simp [GEOSGeometry.same] at h; rw [h]
  | .linearRing a, .linearRing b, h => by simp [GEOSGeometry.same] at h; rw [h]
  | .polygon a ha, .polygon b hb, h => by simp [GEOSGeometry.same] at h; rw [h.1, h.2]
  | .collection ta as, .collection tb bs, h => by
    simp only [GEOSGeometry.same, Bool.and_eq_true, decide_eq_true_eq] at h
    rw [h.1, GEOSGeometry.eq_of_sameList as bs h.2]
  | .point _, .lineString _, h => by simp [GEOSGeometry.same] at h
  | .point _, .linearRing _, h => by simp [GEOSGeometry.same] at h
  | .point _, .polygon _ _, h => by simp [GEOSGeometry.same] at h
  | .point _, .collection _ _, h => by simp [GEOSGeometry.same] at h
  | .lineString _, .point _, h => by simp [GEOSGeometry.same] at h
  | .lineString _, .linearRing _, h => by simp [GEOSGeometry.same] at h
  | .lineString _, .polygon _ _, h => by simp [GEOSGeometry.same] at h
  | .lineString _, .collection _ _, h => by simp [GEOSGeometry.same] at h
  | .linearRing _, .point _, h => by simp [GEOSGeometry.same] at h
  | .linearRing _, .lineString _, h => by simp [GEOSGeometry.same] at h
  | .linearRing _, .polygon _ _, h => by simp [GEOSGeometry.same] at h
  | .linearRing _, .collection _ _, h => by simp [GEOSGeometry.same] at h
  | .polygon _ _, .point _, h => by simp [GEOSGeometry.same] at h
  | .polygon _ _, .lineString _, h => by simp [GEOSGeometry.same] at h
  | .polygon _ _, .linearRing _, h => by simp [GEOSGeometry.same] at h
  | .polygon _ _, .collection _ _, h => by simp [GEOSGeometry.same] at h
  | .collection _ _, .point _, h => by simp [GEOSGeometry.same] at h
  | .collection _ _, .lineString _, h => by simp [GEOSGeometry.same] at h
  | .collection _ _, .linearRing _, h => by simp [GEOSGeometry.same] at h
  | .collection _ _, .polygon _ _, h => by simp [GEOSGeometry.same] at h
theorem GEOSGeometry.eq_of_sameList :
    ∀ (as bs : List GEOSGeometry), GEOSGeometry.same.sameList as bs = true → as = bs
  | [], [], _ => rfl
  | a :: as, b :: bs, h => by
    simp only [GEOSGeometry.same.sameList, Bool.and_eq_true] at h
    rw [GEOSGeometry.eq_of_same a b h.1, GEOSGeometry.eq_of_sameList as bs h.2]
  | [], _ :: _, h => by simp [GEOSGeometry.same.sameList] at h
  | _ :: _, [], h => by simp [GEOSGeometry.same.sameList] at h
end

theorem eq_of_isResult {r : Except GEOSException (Option GEOSGeometry)} {g : GEOSGeometry}
    (h : isResult r g = true) : r = .ok (some g) := by
  unfold isResult at h
  split at h
  · rw [GEOSGeometry.eq_of_same _ _ h]
  · exact absurd h (by simp)

theorem cornerCut_reshapeLine :
    reshapeLine cornerContext (some (.linearRing cornerShell)) (some cornerCutGeos) 0
      = .ok (some (.lineString cornerCutRing)) :=
  eq_of_isResult (by decide!)

theorem eq_of_isAnswer {α : Type} [DecidableEq α] {r : Except GEOSException α} {a : α}
    (h : isAnswer r a = true) : r = .ok a := by
  unfold isAnswer at h
  split at h
  · rw [of_decide_eq_true h]
  · exact absurd h (by simp)

/-- Witness of C16: the line (5 0, 5 2) does not intersect the ring of the square
(0 0, 2 0, 2 2, 0 2, 0 0), and `reshapePolygon` has no result.  The line (9 4, 4 4, 4 9)
intersects the exterior of the square (0 0, 8 0, 8 8, 0 8, 0 0) and neither of its two holes:
the exterior of the result is the reshaped ring, the square without its upper right quarter,
the hole in the lower left corner is kept and the hole in the upper right corner, which the
new exterior does not contain, is dropped. -/
theorem reshapePolygon_rings_witness :
    reshapePolygon disjointContext squarePolygonGeos
        (some (.lineString { dims := 2, coords := [⟨5, 0, 0⟩, ⟨5, 2, 0⟩] })) 0 = .ok none
      ∧ reshapePolygon cornerContext (.polygon cornerShell [lowerHole, upperHole])
          (some cornerCutGeos) 0
        = .ok (some (.polygon cornerCutRing [lowerHole])) :=
  ⟨(reshapePolygon_rings disjointContext
      { dims := 2, coords := [⟨0, 0, 0⟩, ⟨2, 0, 0⟩, ⟨2, 2, 0⟩, ⟨0, 2, 0⟩, ⟨0, 0, 0⟩] } []
      (.lineString { dims := 2, coords := [⟨5, 0, 0⟩, ⟨5, 2, 0⟩] }) 0 false [] rfl
      List.Forall₂.nil).1 (by decide),
    (reshapePolygon_rings cornerContext cornerShell [lowerHole, upperHole] cornerCutGeos 0 true
      [false, false] (eq_of_isAnswer (by decide!))
      (List.Forall₂.cons (eq_of_isAnswer (by decide!))
        (List.Forall₂.cons (eq_of_isAnswer (by decide!)) List.Forall₂.nil))).2.2 (-1) cornerShell
      (.lineString cornerCutRing) cornerCutRing [true, false] (by decide)
      (Or.inl ⟨rfl, rfl, rfl⟩) cornerCut_reshapeLine rfl
      (by unfold GEOSGeom_createLinearRing_r; rw [if_neg (by decide!), if_pos (by decide!)])
      (List.Forall₂.cons (eq_of_isAnswer (by decide!))
        (List.Forall₂.cons (eq_of_isAnswer (by decide!)) List.Forall₂.nil))⟩

/-! ## C22, C23: degenerate clip rectangles and the two halves -/

theorem flat_boundingBox :
    (QgsAbstractGeometry.lineString flatLine).boundingBox = flatRect := by
  norm_num [QgsAbstractGeometry.boundingBox, QgsAbstractGeometry.vertices, flatLine, flatRect]

theorem flat_halves :
    QgsGeos.halfClipRects flatRect
      = ({ xMinimum := 0, yMinimum := 0 - DBL_EPSILON, xMaximum := 4, yMaximum := 0 + DBL_EPSILON },
         { xMinimum := 4, yMinimum := 0 - DBL_EPSILON, xMaximum := 8,
           yMaximum := 0 + DBL_EPSILON }) := by
  decide!

theorem flat_notDegenerate (x0 x1 y0 y1 : ℚ) (h : 4 ≤ x1 - x0) :
    QgsGeos.isDegenerate { xMinimum := x0, yMinimum := y0, xMaximum := x1, yMaximum := y1 }
      = false :=
  isDegenerate_of_wide _ h

theorem flat_trace :
    QgsGeos.subdivideRecursive flatContext flatLineGeos 8 0 flatRect
      = { parts := [(EmitReason.belowThreshold, leftPartGeos),
                    (EmitReason.belowThreshold, flatRightGeos)], raised := false } := by
  unfold flatRect
  rw [QgsGeos.subdivideRecursive_single _ _ _ _ _ (flat_notDegenerate 0 8 0 0 (by norm_num))
    (by rfl)]
  have hc : (GEOSGetNumCoordinates_r flatLineGeos : Int) = 9 := by rfl
  have hhalves := flat_halves
  unfold flatRect at hhalves
  simp only [hc, hhalves]
  have h1 : QgsGeos.clipByRect flatContext flatLineGeos
      { xMinimum := 0, yMinimum := 0 - DBL_EPSILON, xMaximum := 4, yMaximum := 0 + DBL_EPSILON }
        = .ok leftPartGeos := by
    simp [QgsGeos.clipByRect, flatContext]
  have h2 : QgsGeos.clipByRect flatContext flatLineGeos
      { xMinimum := 4, yMinimum := 0 - DBL_EPSILON, xMaximum := 8, yMaximum := 0 + DBL_EPSILON }
        = .ok flatRightGeos := by
    norm_num [QgsGeos.clipByRect, flatContext]
  rw [h1, h2]
  have hl : (GEOSGetNumCoordinates_r leftPartGeos : Int) = 5 := by rfl
  have hr : (GEOSGetNumCoordinates_r flatRightGeos : Int) = 5 := by rfl
  have hleft := QgsGeos.subdivideRecursive_single flatContext leftPartGeos 8 (0 + 1) _
    (flat_notDegenerate 0 4 (0 - DBL_EPSILON) (0 + DBL_EPSILON) (by norm_num)) (by rfl)
  have hright := QgsGeos.subdivideRecursive_single flatContext flatRightGeos 8 (0 + 1) _
    (flat_notDegenerate 4 8 (0 - DBL_EPSILON) (0 + DBL_EPSILON) (by norm_num)) (by rfl)
  simp [hl] at hleft
  simp [hr] at hright
  simp [hleft, hright, SubdivideTrace.andThen, SubdivideTrace.emit]

theorem flat_fromGeos :
    QgsGeos.fromGeos (some leftPartGeos) = some (.lineString leftPartLine)
      ∧ QgsGeos.fromGeos (some flatRightGeos) = some (.lineString flatRightLine) := by
  constructor <;>
  simp [leftPartLine, leftPartGeos, flatRightLine, flatRightGeos, QgsGeos.fromGeos,
    QgsGeos.fromGeosOf,
    QgsGeos.sequenceToLinestring, QgsGeos.lineOfSequence, GEOSGeom_getCoordSeq_r, GEOSCoordSeq_getSize_r,
    GEOSCoordSeq_getX_r, GEOSCoordSeq_getY_r, GEOSGeom_getCoordinateDimension_r,
    GEOSGeom_getDimensions_r, QgsLineString.ofVectors, List.range, List.range.loop]

/-- C22 (counterexample): the clip rectangle from (0, 0) to (8, 0) has area 0, and the part, a
line string of nine vertices on the x axis, is no point; yet `subdivideRecursive` with the
threshold 8 clips the part by the two half rectangles and emits both halves from the recursive
calls, where the claim has nothing emitted and no clipping.  `subdivide` itself enters this run
on the engine of that line, and returns the two halves. -/
theorem subdivideRecursive_zeroArea_clips :
    flatRect.width * flatRect.height = 0
      ∧ GEOSGeomTypeId_r flatLineGeos ≠ GEOS_POINT
      ∧ QgsGeos.subdivideRecursive flatContext flatLineGeos 8 0 flatRect
          = (SubdivideTrace.emit .belowThreshold leftPartGeos).andThen
              (SubdivideTrace.emit .belowThreshold flatRightGeos)
      ∧ QgsGeos.subdivideRecursive flatContext flatLineGeos 8 0 flatRect ≠ SubdivideTrace.nothing
      ∧ QgsGeos.subdivide flatContext flatEngine 8
          = some (.collection .MultiLineString false false
              [.lineString leftPartLine, .lineString flatRightLine]) := by
  refine ⟨by decide!, by decide, ?_, ?_, ?_⟩
  · rw [flat_trace]
    simp [SubdivideTrace.andThen, SubdivideTrace.emit]
  · rw [flat_trace]
    simp [SubdivideTrace.nothing]
  · have hmax : max (8 : Int) 8 = 8 := by decide
    simp only [QgsGeos.subdivide, flatEngine, flat_boundingBox, hmax]
    rw [flat_trace]
    simp only [Bool.false_eq_true, if_false, List.foldl_cons, List.foldl_nil,
      flat_fromGeos.1, flat_fromGeos.2]
    simp [createCollectionOfType, QgsAbstractGeometry.addGeometry, leftPartLine, flatRightLine]

/-- C22 (amended): for every clip rectangle whose width and height are both within the
`qgsDoubleNear` tolerance of zero, `subdivideRecursive` is a single-point pass-through: it
emits the current part unchanged if that part is a point and nothing otherwise; the call
returns by itself (one unit of fuel, no recursion) and asks nothing of the library (the
result is the same for every behaviour of the library calls). -/
theorem subdivideRecursive_passThrough (ctxt : GEOSContextHandle_t) (currentPart : GEOSGeometry)
    (maxNodes depth : Int) (clipRect : QgsRectangle)
    (hwidth : qgsDoubleNear clipRect.width 0 = true)
    (hheight : qgsDoubleNear clipRect.height 0 = true) :
    QgsGeos.subdivideRecursive ctxt currentPart maxNodes depth clipRect
        = (if GEOSGeomTypeId_r currentPart = GEOS_POINT then
            SubdivideTrace.emit .degenerateRect currentPart
          else SubdivideTrace.nothing)
      ∧ QgsGeos.subdivideRecursiveFuel ctxt 1 currentPart maxNodes depth clipRect
        = some (QgsGeos.subdivideRecursive ctxt currentPart maxNodes depth clipRect)
      ∧ ∀ other : GEOSContextHandle_t,
          QgsGeos.subdivideRecursive other currentPart maxNodes depth clipRect
            = QgsGeos.subdivideRecursive ctxt currentPart maxNodes depth clipRect := by
  have hdeg : QgsGeos.isDegenerate clipRect = true := by
    simp [QgsGeos.isDegenerate, hwidth, hheight]
  refine ⟨QgsGeos.subdivideRecursive_degenerate _ _ _ _ _ hdeg, ?_, ?_⟩
  · rw [QgsGeos.subdivideRecursive_degenerate _ _ _ _ _ hdeg]
    by_cases hpt : GEOSGeomTypeId_r currentPart = GEOS_POINT <;>
      simp [QgsGeos.subdivideRecursiveFuel, hwidth, hheight, hpt]
  · intro other
    rw [QgsGeos.subdivideRecursive_degenerate _ _ _ _ _ hdeg,
      QgsGeos.subdivideRecursive_degenerate _ _ _ _ _ hdeg]

/-- Witness of C22 (amended): on the rectangle from (3, 3) to (3, 3) a point is emitted
unchanged. -/
theorem subdivideRecursive_passThrough_witness :
    QgsGeos.subdivideRecursive raisingContext (.point { dims := 2, coords := [⟨3, 3, 0⟩] }) 8 0
        { xMinimum := 3, yMinimum := 3, xMaximum := 3, yMaximum := 3 }
      = SubdivideTrace.emit .degenerateRect (.point { dims := 2, coords := [⟨3, 3, 0⟩] }) :=
  (subdivideRecursive_passThrough raisingContext (.point { dims := 2, coords := [⟨3, 3, 0⟩] }) 8 0
    { xMinimum := 3, yMinimum := 3, xMaximum := 3, yMaximum := 3 }
    (by decide!) (by decide!)).1

/-! ## C30: the hash of a point and its equality -/

/-- C30 (counterexample): the points (1 - 2^-52, 0) and (1, 0) have non-negative coordinates
and are equal under `operator==` (their x differ by `DBL_EPSILON`, within the tolerance
`4 * DBL_EPSILON`), but x is truncated to 0 for the first and to 1 for the second, and
`qHash` gives 0 and 1; the hashes differ for every library hash that tells the keys 0 and 1
apart. -/
theorem qHash_differs_on_equal_points :
    (0 : ℚ) ≤ 1 - DBL_EPSILON
      ∧ QgsPointXY.operatorEq ⟨1 - DBL_EPSILON, 0⟩ ⟨1, 0⟩ = true
      ∧ qHash qHashQuint64 ⟨1 - DBL_EPSILON, 0⟩ = some 0
      ∧ qHash qHashQuint64 ⟨1, 0⟩ = some 1
      ∧ ∀ h : Nat → Nat, h 0 % 2 ^ 32 ≠ h 1 % 2 ^ 32 →
          qHash h ⟨1 - DBL_EPSILON, 0⟩ ≠ qHash h ⟨1, 0⟩ := by
  have hfloor : ⌊(1 : ℚ) - DBL_EPSILON⌋ = 0 := by
    rw [Int.floor_eq_iff]
    norm_num [DBL_EPSILON]
  have h0 : toQuint64 (1 - DBL_EPSILON) = some 0 := by
    unfold toQuint64
    rw [hfloor]
    norm_num [DBL_EPSILON]
  have h1 : toQuint64 1 = some 1 := by
    norm_num [toQuint64]
  have hz : toQuint64 0 = some 0 := by
    norm_num [toQuint64]
  refine ⟨by norm_num [DBL_EPSILON], ?_, ?_, ?_, ?_⟩
  · norm_num [QgsPointXY.operatorEq, qgsDoubleNear, qgsDoubleNearEps, DBL_EPSILON]
  · simp only [qHash, h0, hz]
    decide
  · simp only [qHash, h1, hz]
    decide
  · intro h hne heq
    simp only [qHash, h0, h1, hz, Option.some.injEq] at heq
    exact hne (Nat.xor_right_injective.eq_iff.mp (by rw [Nat.xor_comm, heq, Nat.xor_comm]))

/-- C30 (amended): for every hash of the library and all points p and q with non-negative
coordinates whose x have the same integer part and whose y have the same integer part (in
particular for points with the same coordinates), `qHash` gives the same value; it is defined
when the coordinates are below 2^64. -/
theorem qHash_eq_of_floor_eq (h : Nat → Nat) (p q : QgsPointXY)
    (hpx : 0 ≤ p.x) (hpy : 0 ≤ p.y) (hqx : 0 ≤ q.x) (hqy : 0 ≤ q.y)
    (hx : ⌊p.x⌋ = ⌊q.x⌋) (hy : ⌊p.y⌋ = ⌊q.y⌋) :
    qHash h p = qHash h q
      ∧ (p.x < 2 ^ 64 → p.y < 2 ^ 64 → (qHash h p).isSome = true) := by
  have key : ∀ a b : ℚ, 0 ≤ a → 0 ≤ b → ⌊a⌋ = ⌊b⌋ → toQuint64 a = toQuint64 b := by
    intro a b ha hb hab
    have hlt : a < 2 ^ 64 ↔ b < 2 ^ 64 := by
      have e : ((2 : ℚ) ^ 64) = (((2 : ℤ) ^ 64 : ℤ) : ℚ) := by norm_num
      rw [e, ← Int.floor_lt, ← Int.floor_lt, hab]
    unfold toQuint64
    by_cases hb2 : b < 2 ^ 64
    · have ha2 := hlt.mpr hb2
      rw [if_pos ⟨by linarith, ha2⟩, if_pos ⟨by linarith, hb2⟩, hab]
    · have ha2 : ¬ a < 2 ^ 64 := fun hh => hb2 (hlt.mp hh)
      rw [if_neg (fun hh => ha2 hh.2), if_neg (fun hh => hb2 hh.2)]
  constructor
  · unfold qHash
    rw [key p.x q.x hpx hqx hx, key p.y q.y hpy hqy hy]
  · intro hx2 hy2
    have e1 : toQuint64 p.x = some (Int.toNat ⌊p.x⌋) := by
      unfold toQuint64
      rw [if_pos ⟨by linarith, hx2⟩]
    have e2 : toQuint64 p.y = some (Int.toNat ⌊p.y⌋) := by
      unfold toQuint64
      rw [if_pos ⟨by linarith, hy2⟩]
    simp [qHash, e1, e2]

/-- Witness of C30 (amended): (5/2, 7) and (2, 15/2) have the same hash, 12. -/
theorem qHash_eq_of_floor_eq_witness :
    qHash qHashQuint64 ⟨5 / 2, 7⟩ = qHash qHashQuint64 ⟨2, 15 / 2⟩ :=
  (qHash_eq_of_floor_eq qHashQuint64 ⟨5 / 2, 7⟩ ⟨2, 15 / 2⟩ (by norm_num) (by norm_num)
    (by norm_num) (by norm_num)
    (by
      show ⌊(5 / 2 : ℚ)⌋ = ⌊(2 : ℚ)⌋
      rw [Int.floor_eq_iff]
      norm_num)
    (by
      show ⌊(7 : ℚ)⌋ = ⌊(15 / 2 : ℚ)⌋
      symm
      rw [Int.floor_eq_iff]
      norm_num)).1

/-! ## C27: the result of `reshapeGeometry` under the code `Success` -/

theorem eq_ok_none_of_check {r : Except GEOSException (Option GEOSGeometry)}
    (h : (match r with
          | .ok none => true
          | _ => false) = true) : r = .ok none := by
  split at h
  · rfl
  · exact absurd h (by simp)

theorem outsideLine_created :
    createGeosLinestring outsideLine 0
      = some (.lineString { dims := 2, coords := [⟨5, 0, 0⟩, ⟨5, 2, 0⟩] }) := by
  simp [QgsGeos.createGeosLinestring, QgsGeos.createCoordinateSequence, outsideLine,
    QgsLineString.numPoints, GEOSCoordSeq_create_r, List.range, List.range.loop,
    QgsGeos.storeExact, GEOSCoordSeq_setX_r, GEOSCoordSeq_setY_r, listModifyAt, QgsLineString.xAt,
    QgsLineString.yAt, GEOSGeom_createLineString_r]

theorem twoLines_reshaped :
    reshapeGeometry extendingContext twoLinesEngine extensionLine NothingHappened
      = .ok (some (.collection .MultiLineString false false
          [.lineString { is3D := false, isMeasure := false, mX := [0, 1, 2], mY := [0, 0, 0],
                         mZ := [], mM := [] },
           .lineString { is3D := false, isMeasure := false, mX := [0, 1], mY := [5, 5],
                         mZ := [], mM := [] }]), Success) := by
  have hdim : twoLines.dimension = 1 := by decide
  have hparts := reshapeParts_eq extendingContext true (some extensionLineGeos) 0
    [firstLineGeos, secondLineGeos] [some extendedLineGeos, none]
    (List.Forall₂.cons (by simp only [reshapePart, if_true]; exact firstLine_extended)
      (List.Forall₂.cons (by simp only [reshapePart, if_true]; exact secondLine_kept)
        List.Forall₂.nil))
  unfold reshapeGeometry
  simp only [twoLinesEngine, hdim, extensionLine_created, twoLinesGeos,
    GEOSGeometry.memberGeometries, decide_True, hparts]
  simp only [List.zipWith, Option.getD, List.any, Option.isSome, Bool.true_or, if_true,
    GEOSGeom_createCollection_r, GEOSCollectionType.ofTypeId, Option.map_some',
    twoLines_extended_fromGeos]
  simp [GEOSGeomTypeId_r, GEOSCollectionType.typeId, extensionLine, QgsLineString.numPoints]

theorem twoLines_outside :
    reshapeGeometry cornerContext twoLinesEngine outsideLine Success
      = .ok (none, NothingHappened) := by
  have h1 : reshapeLine cornerContext (some firstLineGeos)
      (some (.lineString { dims := 2, coords := [⟨5, 0, 0⟩, ⟨5, 2, 0⟩] })) 0 = .ok none :=
    eq_ok_none_of_check (by decide!)
  have h2 : reshapeLine cornerContext (some secondLineGeos)
      (some (.lineString { dims := 2, coords := [⟨5, 0, 0⟩, ⟨5, 2, 0⟩] })) 0 = .ok none :=
    eq_ok_none_of_check (by decide!)
  have hdim : twoLines.dimension = 1 := by decide
  have hn : ¬ outsideLine.numPoints < 2 := by decide
  have hparts := reshapeParts_eq cornerContext true
    (some (.lineString { dims := 2, coords := [⟨5, 0, 0⟩, ⟨5, 2, 0⟩] })) 0
    [firstLineGeos, secondLineGeos] [none, none]
    (List.Forall₂.cons (by simp only [reshapePart, if_true]; exact h1)
      (List.Forall₂.cons (by simp only [reshapePart, if_true]; exact h2)
        List.Forall₂.nil))
  unfold reshapeGeometry
  simp only [twoLinesEngine, hdim, hn, outsideLine_created, twoLinesGeos,
    GEOSGeometry.memberGeometries, decide_True, hparts]
  simp [GEOSGeomTypeId_r, GEOSCollectionType.typeId, GEOSGeom_createCollection_r,
    GEOSCollectionType.ofTypeId]

/-- C27 (the code at the failing input): the square polygon (0 0, 2 0, 2 2, 0 2, 0 0), a
single-part receiver, and the reshape line (5 0, 5 2), which does not meet it: `reshapePolygon`
returns null, `reshapeGeometry` sets the code `Success` all the same and returns null.  The same
holds of the line string (0 0, 1 0, 2 0, 3 0, 4 1) as receiver.  On the multi-line-string
((0 0, 1 0), (0 5, 1 5)), no part of which the line reshapes, the sibling branch returns null
with the code `NothingHappened`. -/
theorem reshapeGeometry_success_with_null :
    reshapeGeometry cornerContext squareEngine outsideLine NothingHappened = .ok (none, Success)
      ∧ reshapeGeometry cornerContext fiveVertexEngine outsideLine NothingHappened
        = .ok (none, Success)
      ∧ reshapeGeometry cornerContext twoLinesEngine outsideLine Success
        = .ok (none, NothingHappened) := by
  have h1 : reshapePolygon cornerContext squarePolygonGeos
      (some (.lineString { dims := 2, coords := [⟨5, 0, 0⟩, ⟨5, 2, 0⟩] })) 0 = .ok none :=
    eq_ok_none_of_check (by decide!)
  have h2 : reshapeLine cornerContext (some fiveVertexLineGeos)
      (some (.lineString { dims := 2, coords := [⟨5, 0, 0⟩, ⟨5, 2, 0⟩] })) 0 = .ok none :=
    eq_ok_none_of_check (by decide!)
  have ht1 : GEOSGeomTypeId_r squarePolygonGeos = GEOS_POLYGON := rfl
  have ht2 : GEOSGeomTypeId_r fiveVertexLineGeos = GEOS_LINESTRING := rfl
  have hn : ¬ outsideLine.numPoints < 2 := by decide
  refine ⟨?_, ?_, twoLines_outside⟩
  · have hdim : squarePolygon.dimension = 2 := by decide
    unfold reshapeGeometry
    simp only [squareEngine, hdim, outsideLine_created, reshapePart, ht1, hn, h1, fromGeos]
    simp
  · have hdim : (QgsAbstractGeometry.lineString fiveVertexLine).dimension = 1 := by decide
    unfold reshapeGeometry
    simp only [fiveVertexEngine, hdim, outsideLine_created, reshapePart, ht2, hn, h2, fromGeos]
    simp

/-! ## C29: no measure flag comes out of `fromGeos` -/

theorem anyOf_append (a b : List QgsAbstractGeometry) :
    QgsAbstractGeometry.anyMeasure.anyOf (a ++ b)
      = (QgsAbstractGeometry.anyMeasure.anyOf a || QgsAbstractGeometry.anyMeasure.anyOf b) := by
  induction a with
  | nil => simp [QgsAbstractGeometry.anyMeasure.anyOf]
  | cons x xs ih => simp [QgsAbstractGeometry.anyMeasure.anyOf, ih, Bool.or_assoc]

theorem addGeometry_noMeasure (c : QgsAbstractGeometry) (m : Option QgsAbstractGeometry)
    (hc : c.anyMeasure = false) (hm : ∀ g, m = some g → g.anyMeasure = false) :
    (c.addGeometry m).anyMeasure = false := by
  cases m with
  | none => cases c <;> first | exact hc | (rename_i t _ _ _; cases t <;> exact hc)
  | some g =>
    have hg := hm g rfl
    cases c with
    | point p => exact hc
    | lineString l => exact hc
    | polygon p => exact hc
    | collection t hasZ hasM geoms =>
      simp only [QgsAbstractGeometry.anyMeasure, Bool.or_eq_false_iff] at hc
      cases t with
      | MultiPoint =>
        cases g with
        | point p =>
          simp only [QgsAbstractGeometry.anyMeasure] at hg
          simp [QgsAbstractGeometry.addGeometry, QgsAbstractGeometry.anyMeasure, anyOf_append,
            QgsAbstractGeometry.anyMeasure.anyOf, hc.2, hg]
        | lineString l => simp [QgsAbstractGeometry.addGeometry, QgsAbstractGeometry.anyMeasure, hc]
        | polygon p => simp [QgsAbstractGeometry.addGeometry, QgsAbstractGeometry.anyMeasure, hc]
        | collection _ _ _ _ =>
          simp [QgsAbstractGeometry.addGeometry, QgsAbstractGeometry.anyMeasure, hc]
      | MultiLineString =>
        cases g with
        | lineString l =>
          simp only [QgsAbstractGeometry.anyMeasure, QgsLineString.anyMeasure,
            Bool.or_eq_false_iff] at hg
          simp [QgsAbstractGeometry.addGeometry, QgsAbstractGeometry.anyMeasure, anyOf_append,
            QgsAbstractGeometry.anyMeasure.anyOf, QgsLineString.anyMeasure, hc.2, hg.1, hg.2]
        | point p => simp [QgsAbstractGeometry.addGeometry, QgsAbstractGeometry.anyMeasure, hc]
        | polygon p => simp [QgsAbstractGeometry.addGeometry, QgsAbstractGeometry.anyMeasure, hc]
        | collection _ _ _ _ =>
          simp [QgsAbstractGeometry.addGeometry, QgsAbstractGeometry.anyMeasure, hc]
      | MultiPolygon =>
        cases g with
        | polygon p =>
          have hg2 := hg
          simp only [QgsAbstractGeometry.anyMeasure, Bool.or_eq_false_iff] at hg2
          simp only [QgsAbstractGeometry.addGeometry, QgsAbstractGeometry.anyMeasure, anyOf_append,
            QgsAbstractGeometry.anyMeasure.anyOf, hc.2, hg2.1.1, Bool.or_false, Bool.false_or]
          rw [hg2.1.2, hg2.2]
          rfl
        | point p => simp [QgsAbstractGeometry.addGeometry, QgsAbstractGeometry.anyMeasure, hc]
        | lineString l => simp [QgsAbstractGeometry.addGeometry, QgsAbstractGeometry.anyMeasure, hc]
        | collection _ _ _ _ =>
          simp [QgsAbstractGeometry.addGeometry, QgsAbstractGeometry.anyMeasure, hc]
      | GeometryCollection =>
        simp [QgsAbstractGeometry.addGeometry, QgsAbstractGeometry.anyMeasure, anyOf_append,
          QgsAbstractGeometry.anyMeasure.anyOf, hc.1, hc.2, hg]

theorem foldl_noMeasure {α : Type} (step : QgsAbstractGeometry → α → QgsAbstractGeometry)
    (l : List α)
    (hstep : ∀ c a, a ∈ l → c.anyMeasure = false → (step c a).anyMeasure = false)
    (init : QgsAbstractGeometry) (hinit : init.anyMeasure = false) :
    (l.foldl step init).anyMeasure = false := by
  induction l generalizing init with
  | nil => exact hinit
  | cons a l ih =>
    rw [List.foldl_cons]
    exact ih (fun c b hb hc => hstep c b (List.mem_cons_of_mem _ hb) hc) _
      (hstep init a (List.mem_cons_self _ _) hinit)

theorem ofVectors_noMeasure (x y z : List ℚ) :
    (QgsLineString.ofVectors x y z []).anyMeasure = false := by
  simp [QgsLineString.ofVectors, QgsLineString.anyMeasure]

theorem lineOfSequence_noMeasure (cs : GEOSCoordSequence) (hasZ : Bool) :
    (lineOfSequence cs hasZ false).anyMeasure = false := by
  simp only [lineOfSequence, Bool.false_eq_true, if_false]
  exact ofVectors_noMeasure _ _ _

theorem sequenceToLinestring_noMeasure (geos : GEOSGeometry) (hasZ : Bool) (l : QgsLineString)
    (h : sequenceToLinestring geos hasZ false = .ok l) : l.anyMeasure = false := by
  unfold sequenceToLinestring at h
  split at h
  · simp at h
  · simp only [Except.ok.injEq] at h
    rw [← h]
    exact lineOfSequence_noMeasure _ _

theorem polygon_coordinateDimension (shell : GEOSCoordSequence) (holes : List GEOSCoordSequence) :
    2 ≤ GEOSGeom_getCoordinateDimension_r (.polygon shell holes) := by
  have key : ∀ (l : List Nat) (a : Nat), 2 ≤ a → 2 ≤ l.foldl max a := by
    intro l
    induction l with
    | nil => intro a ha; exact ha
    | cons x xs ih =>
      intro a ha
      rw [List.foldl_cons]
      exact ih _ (le_trans ha (le_max_left _ _))
  exact key _ _ (le_max_left _ _)

theorem fromGeosPolygon_noMeasure (geos : GEOSGeometry) (p : QgsPolygonV2)
    (h : fromGeosPolygon geos = .ok (some p)) :
    (QgsAbstractGeometry.polygon p).anyMeasure = false := by
  cases geos with
  | polygon shell holes =>
    have hd := polygon_coordinateDimension shell holes
    have hM : decide (GEOSGeom_getDimensions_r (.polygon shell holes)
        - ((GEOSGeom_getCoordinateDimension_r (.polygon shell holes) : Nat) : Int) = 1)
        = false := by
      simp only [GEOSGeom_getDimensions_r, decide_eq_false_iff_not]
      omega
    rw [fromGeosPolygon_polygon, hM] at h
    simp only [Except.ok.injEq, Option.some.injEq] at h
    rw [← h]
    have hring := lineOfSequence_noMeasure shell
      (decide (GEOSGeom_getCoordinateDimension_r (.polygon shell holes) = 3))
    have hflag : (lineOfSequence shell
        (decide (GEOSGeom_getCoordinateDimension_r (.polygon shell holes) = 3)) false).isMeasure
        = false := by
      simp only [QgsLineString.anyMeasure, Bool.or_eq_false_iff] at hring
      exact hring.1
    have hrings : (holes.map (fun hole => lineOfSequence hole
        (decide (GEOSGeom_getCoordinateDimension_r (.polygon shell holes) = 3)) false)).any
          QgsLineString.anyMeasure = false := by
      rw [List.any_eq_false]
      intro l hl
      obtain ⟨hole, _, rfl⟩ := List.mem_map.mp hl
      simp [lineOfSequence_noMeasure]
    simp [QgsAbstractGeometry.anyMeasure, QgsPolygonV2.setInteriorRings,
      QgsPolygonV2.setExteriorRing, QgsPolygonV2.empty, hrings, hring, hflag]
  | point cs => simp [fromGeosPolygon, GEOSGeomTypeId_r] at h
  | lineString cs => simp [fromGeosPolygon, GEOSGeomTypeId_r] at h
  | linearRing cs => simp [fromGeosPolygon, GEOSGeomTypeId_r] at h
  | collection t gs =>
    have hne : GEOSGeomTypeId_r (.collection t gs) ≠ GEOS_POLYGON := by
      cases t <;> simp [GEOSGeomTypeId_r, GEOSCollectionType.typeId]
    simp [fromGeosPolygon, hne] at h

theorem coordSeqPoint_noMeasure (cs : Option GEOSCoordSequence) (i : Nat) (hasZ : Bool) :
    (coordSeqPoint cs i hasZ false).isMeasure = false := by
  cases cs <;> simp [coordSeqPoint, QgsPoint.empty, QgsPoint.ofType, QgsPoint.isMeasure]

theorem maxDimension_ge_two (geoms : List GEOSGeometry) :
    2 ≤ GEOSGeom_getCoordinateDimension_r.maxDimension geoms := by
  induction geoms with
  | nil => simp [GEOSGeom_getCoordinateDimension_r.maxDimension]
  | cons g gs ih =>
    simp only [GEOSGeom_getCoordinateDimension_r.maxDimension]
    exact le_trans ih (le_max_right _ _)

/-- The loop of a multi-geometry that ends without exception keeps what each statement
keeps. -/
theorem loop_noMeasure {α : Type}
    (F : Except GEOSException QgsAbstractGeometry → α → Except GEOSException QgsAbstractGeometry)
    (hF : ∀ e a, F (.error e) a = .error e) (l : List α)
    (hstep : ∀ s a s2, a ∈ l → s.anyMeasure = false → F (.ok s) a = .ok s2 →
      s2.anyMeasure = false)
    (init : QgsAbstractGeometry) (hinit : init.anyMeasure = false) (g : QgsAbstractGeometry)
    (h : (match l.foldl F (.ok init) with
          | .ok multi => Except.ok (some multi)
          | .error e => .error e) = .ok (some g)) : g.anyMeasure = false := by
  cases hr : l.foldl F (.ok init) with
  | error e => rw [hr] at h; simp at h
  | ok r =>
    rw [hr] at h
    simp only [Except.ok.injEq, Option.some.injEq] at h
    rw [← h]
    exact foldl_except_invariant F hF (fun s => s.anyMeasure = false) l hstep init r hinit hr

mutual
theorem fromGeosOf_noMeasure :
    ∀ (geos : GEOSGeometry) (g : QgsAbstractGeometry), geos.hasPlanarSequences = true →
      fromGeosOf geos = .ok (some g) → g.anyMeasure = false
  | .point cs, g, _, h => by
    have hM : decide (GEOSGeom_getDimensions_r (.point cs)
        - ((GEOSGeom_getCoordinateDimension_r (.point cs) : Nat) : Int) = 1) = false := by
      simp only [GEOSGeom_getDimensions_r, decide_eq_false_iff_not]
      omega
    simp only [fromGeosOf, hM, Except.ok.injEq, Option.some.injEq] at h
    rw [← h]
    exact coordSeqPoint_noMeasure _ _ _
  | .lineString cs, g, hp, h => by
    have hd : 2 ≤ cs.dims := by simpa [GEOSGeometry.hasPlanarSequences] using hp
    have hM : decide (GEOSGeom_getDimensions_r (.lineString cs)
        - ((GEOSGeom_getCoordinateDimension_r (.lineString cs) : Nat) : Int) = 1) = false := by
      simp only [GEOSGeom_getDimensions_r, GEOSGeom_getCoordinateDimension_r,
        decide_eq_false_iff_not]
      omega
    simp only [fromGeosOf, hM] at h
    cases hl : sequenceToLinestring (.lineString cs)
        (decide (GEOSGeom_getCoordinateDimension_r (.lineString cs) = 3)) false with
    | error e => simp [hl] at h
    | ok l =>
      simp only [hl, Except.ok.injEq, Option.some.injEq] at h
      rw [← h]
      exact sequenceToLinestring_noMeasure _ _ l hl
  | .linearRing cs, g, _, h => by simp [fromGeosOf] at h
  | .polygon shell holes, g, _, h => by
    simp only [fromGeosOf] at h
    cases hp : fromGeosPolygon (.polygon shell holes) with
    | error e => simp [hp] at h
    | ok p =>
      cases p with
      | none => simp [hp] at h
      | some p =>
        simp only [hp, Option.map_some', Except.ok.injEq, Option.some.injEq] at h
        rw [← h]
        exact fromGeosPolygon_noMeasure _ p hp
  | .collection .multiPoint geoms, g, _, h => by
    have hM : decide (GEOSGeom_getDimensions_r (.collection .multiPoint geoms)
        - ((GEOSGeom_getCoordinateDimension_r (.collection .multiPoint geoms) : Nat) : Int) = 1)
        = false := by
      simp only [GEOSGeom_getDimensions_r, decide_eq_false_iff_not]
      omega
    simp only [fromGeosOf, hM] at h
    refine loop_noMeasure _ (fun e a => rfl) geoms ?_ _ ?_ g h
    swap
    · rfl
    intro s part s2 _ hs hstep
    cases hcs : GEOSGeom_getCoordSeq_r part with
    | none => simp [hcs] at hstep
    | some cs =>
      simp only [hcs, Except.ok.injEq] at hstep
      rw [← hstep]
      exact addGeometry_noMeasure s _ hs (fun g hg => by
        simp only [Option.some.injEq] at hg
        rw [← hg]
        exact coordSeqPoint_noMeasure _ _ _)
  | .collection .multiLineString geoms, g, _, h => by
    have hd := maxDimension_ge_two geoms
    have hM : decide (GEOSGeom_getDimensions_r (.collection .multiLineString geoms)
        - ((GEOSGeom_getCoordinateDimension_r (.collection .multiLineString geoms) : Nat) : Int)
          = 1) = false := by
      simp only [GEOSGeom_getDimensions_r, GEOSGeom_getCoordinateDimension_r,
        decide_eq_false_iff_not]
      omega
    simp only [fromGeosOf, hM] at h
    refine loop_noMeasure _ (fun e a => rfl) geoms ?_ _ ?_ g h
    swap
    · rfl
    intro s part s2 _ hs hstep
    cases hl : sequenceToLinestring part
        (decide (GEOSGeom_getCoordinateDimension_r (.collection .multiLineString geoms) = 3))
        false with
    | error e => simp [hl] at hstep
    | ok l =>
      simp only [hl, Except.ok.injEq] at hstep
      rw [← hstep]
      exact addGeometry_noMeasure s _ hs (fun g hg => by
        simp only [Option.some.injEq] at hg
        rw [← hg]
        exact sequenceToLinestring_noMeasure _ _ l hl)
  | .collection .multiPolygon geoms, g, _, h => by
    simp only [fromGeosOf] at h
    refine loop_noMeasure _ (fun e a => rfl) geoms ?_ _ ?_ g h
    swap
    · rfl
    intro s part s2 _ hs hstep
    cases hp : fromGeosPolygon part with
    | error e => simp [hp] at hstep
    | ok p =>
      simp only [hp, Except.ok.injEq] at hstep
      rw [← hstep]
      exact addGeometry_noMeasure s _ hs (fun g hg => by
        cases p with
        | none => simp at hg
        | some p =>
          simp only [Option.map_some', Option.some.injEq] at hg
          rw [← hg]
          exact fromGeosPolygon_noMeasure _ p hp)
  | .collection .geometryCollection geoms, g, hp, h => by
    simp only [fromGeosOf] at h
    cases hm : fromGeosOf.members geoms with
    | error e => simp [hm] at h
    | ok converted =>
      simp only [hm, Except.ok.injEq, Option.some.injEq] at h
      rw [← h]
      have hmem := fromGeosOf_members_noMeasure geoms
        (by simpa [GEOSGeometry.hasPlanarSequences] using hp) converted hm
      apply foldl_noMeasure
      · intro c m hm hc
        exact addGeometry_noMeasure c m hc (fun g hg => hmem m hm g hg)
      · rfl
theorem fromGeosOf_members_noMeasure :
    ∀ (geoms : List GEOSGeometry), GEOSGeometry.hasPlanarSequences.allOf geoms = true →
      ∀ converted, fromGeosOf.members geoms = .ok converted →
        ∀ m ∈ converted, ∀ g, m = some g → g.anyMeasure = false
  | [], _, converted, hc, m, hm, _, _ => by
    simp only [fromGeosOf.members, Except.ok.injEq] at hc
    rw [← hc] at hm
    simp at hm
  | x :: xs, hp, converted, hc, m, hm, g, hg => by
    simp only [GEOSGeometry.hasPlanarSequences.allOf, Bool.and_eq_true] at hp
    simp only [fromGeosOf.members] at hc
    cases hx : fromGeosOf x with
    | error e => simp [hx] at hc
    | ok geom =>
      cases hxs : fromGeosOf.members xs with
      | error e => simp [hx, hxs] at hc
      | ok rest =>
        simp only [hx, hxs, Except.ok.injEq] at hc
        rw [← hc, List.mem_cons] at hm
        rcases hm with hm | hm
        · rw [hm] at hg
          rw [hg] at hx
          exact fromGeosOf_noMeasure x g hp.1 hx
        · exact fromGeosOf_members_noMeasure xs hp.2 rest hxs m hm g hg
end

mutual
theorem getDimensions_le_two : ∀ geos : GEOSGeometry, GEOSGeom_getDimensions_r geos ≤ 2
  | .point _ => by simp [GEOSGeom_getDimensions_r]
  | .lineString _ => by simp [GEOSGeom_getDimensions_r]
  | .linearRing _ => by simp [GEOSGeom_getDimensions_r]
  | .polygon _ _ => by simp [GEOSGeom_getDimensions_r]
  | .collection .multiPoint _ => by simp [GEOSGeom_getDimensions_r]
  | .collection .multiLineString _ => by simp [GEOSGeom_getDimensions_r]
  | .collection .multiPolygon _ => by simp [GEOSGeom_getDimensions_r]
  | .collection .geometryCollection geoms => by
    simp only [GEOSGeom_getDimensions_r]
    exact maxDimensions_le_two geoms
theorem maxDimensions_le_two :
    ∀ geoms : List GEOSGeometry, GEOSGeom_getDimensions_r.maxDimensions geoms ≤ 2
  | [] => by simp [GEOSGeom_getDimensions_r.maxDimensions]
  | g :: gs => by
    simp only [GEOSGeom_getDimensions_r.maxDimensions]
    exact max_le (getDimensions_le_two g) (maxDimensions_le_two gs)
end

theorem createCoordinateSequence_dims (l : QgsLineString) (precision : ℚ) (forceClose : Bool) :
    ∃ cs, createCoordinateSequence l precision forceClose = some cs ∧ 2 ≤ cs.dims :=
  ⟨_, createCoordinateSequence_stored l precision forceClose, by simp⟩

theorem createGeosRing_planar (ring : QgsLineString) (precision : ℚ) (g : GEOSGeometry)
    (h : createGeosRing ring precision = some g) :
    ∃ cs, g = .linearRing cs ∧ 2 ≤ cs.dims := by
  obtain ⟨cs, hcs, hd⟩ := createCoordinateSequence_dims ring precision true
  unfold createGeosRing at h
  rw [hcs] at h
  simp only [Option.some_bind, GEOSGeom_createLinearRing_r] at h
  split_ifs at h <;> exact ⟨cs, (Option.some.inj h).symm, hd⟩

theorem createGeosHoles_planar (precision : ℚ) :
    ∀ (rings : List QgsLineString) (holes : List GEOSGeometry),
      createGeosHoles precision rings = some holes →
      ∃ css : List GEOSCoordSequence, holes = css.map GEOSGeometry.linearRing
        ∧ ∀ cs ∈ css, 2 ≤ cs.dims
  | [], holes, h => by
    simp only [createGeosHoles, Option.some.injEq] at h
    exact ⟨[], by simp [← h], by simp⟩
  | r :: rs, holes, h => by
    simp only [createGeosHoles] at h
    cases hr : createGeosRing r precision with
    | none => simp [hr] at h
    | some hole =>
      simp only [hr] at h
      cases hrest : createGeosHoles precision rs with
      | none => simp [hrest] at h
      | some rest =>
        simp only [hrest, Option.map_some', Option.some.injEq] at h
        obtain ⟨cs, hcs, hd⟩ := createGeosRing_planar r precision hole hr
        obtain ⟨css, hcss, hds⟩ := createGeosHoles_planar precision rs rest hrest
        refine ⟨cs :: css, by simp [← h, hcs, hcss], ?_⟩
        intro c hc
        rcases List.mem_cons.mp hc with hc | hc
        · rw [hc]
          exact hd
        · exact hds c hc

theorem createGeosPolygon_planar (polygon : QgsPolygonV2) (precision : ℚ) (g : GEOSGeometry)
    (h : createGeosPolygon polygon precision = some g) : g.hasPlanarSequences = true := by
  unfold createGeosPolygon at h
  cases hext : polygon.exteriorRing with
  | none => simp [hext] at h
  | some exteriorRing =>
    simp only [hext] at h
    cases hr : createGeosRing exteriorRing precision with
    | none => simp [hr] at h
    | some exteriorRingGeos =>
      simp only [hr] at h
      cases hh : createGeosHoles precision polygon.interiorRings with
      | none => simp [hh] at h
      | some holes =>
        simp only [hh] at h
        obtain ⟨cs, hcs, hd⟩ := createGeosRing_planar _ precision _ hr
        obtain ⟨css, hcss, hds⟩ := createGeosHoles_planar precision _ _ hh
        rw [hcs, hcss] at h
        simp only [GEOSGeom_createPolygon_r, ringSequences_linearRings, Option.some.injEq] at h
        rw [← h]
        simp only [GEOSGeometry.hasPlanarSequences, Bool.and_eq_true, decide_eq_true_eq,
          List.all_eq_true]
        exact ⟨hd, hds⟩

mutual
theorem asGeosOf_planar :
    ∀ (precision : ℚ) (g : QgsAbstractGeometry) (geos : GEOSGeometry),
      asGeosOf precision g = some geos → geos.hasPlanarSequences = true
  | precision, .point p, geos, h => by
    simp only [asGeosOf, createGeosPoint, createGeosPointXY_stored, Option.some.injEq] at h
    rw [← h]
    simp only [GEOSGeometry.hasPlanarSequences, decide_eq_true_eq]
    omega
  | precision, .lineString l, geos, h => by
    obtain ⟨cs, hcs, hd⟩ := createCoordinateSequence_dims l precision false
    simp only [asGeosOf, createGeosLinestring, hcs, GEOSGeom_createLineString_r] at h
    split_ifs at h
    simp only [Option.some.injEq] at h
    rw [← h]
    simpa [GEOSGeometry.hasPlanarSequences] using hd
  | precision, .polygon p, geos, h => by
    simp only [asGeosOf] at h
    exact createGeosPolygon_planar p precision geos h
  | precision, .collection t _ _ geoms, geos, h => by
    simp only [asGeosOf, createGeosCollection, GEOSGeom_createCollection_r] at h
    cases ht : GEOSCollectionType.ofTypeId (collectionTypeId t) with
    | none => simp [ht] at h
    | some ct =>
      simp only [ht, Option.map_some', Option.some.injEq] at h
      rw [← h]
      simp only [GEOSGeometry.hasPlanarSequences]
      exact geomVector_planar precision geoms
theorem geomVector_planar :
    ∀ (precision : ℚ) (geoms : List QgsAbstractGeometry),
      GEOSGeometry.hasPlanarSequences.allOf ((asGeosOf.geomVector precision geoms).filterMap id)
        = true
  | _, [] => by simp [asGeosOf.geomVector, GEOSGeometry.hasPlanarSequences.allOf]
  | precision, g :: gs => by
    simp only [asGeosOf.geomVector]
    cases hg : asGeosOf precision g with
    | none =>
      simp only [List.filterMap_cons, id]
      exact geomVector_planar precision gs
    | some geos =>
      simp only [List.filterMap_cons, id, GEOSGeometry.hasPlanarSequences.allOf,
        Bool.and_eq_true]
      exact ⟨asGeosOf_planar precision g geos hg, geomVector_planar precision gs⟩
end

theorem measuredLine_roundTrip :
    fromGeos (asGeos (some (.lineString measuredLine)) 0) = some (.lineString unmeasuredLine) := by
  simp [QgsGeos.fromGeos, QgsGeos.asGeos, QgsGeos.asGeosOf, QgsGeos.fromGeosOf,
    QgsGeos.createGeosLinestring, QgsGeos.createCoordinateSequence, measuredLine, unmeasuredLine,
    GEOSGeom_createLineString_r, GEOSCoordSeq_create_r, QgsLineString.numPoints, List.range,
    List.range.loop, QgsGeos.storeExact, GEOSCoordSeq_setX_r, GEOSCoordSeq_setY_r, listModifyAt,
    QgsLineString.xAt, QgsLineString.yAt, QgsGeos.sequenceToLinestring, QgsGeos.lineOfSequence, GEOSGeom_getCoordSeq_r,
    GEOSCoordSeq_getSize_r, GEOSCoordSeq_getX_r, GEOSCoordSeq_getY_r, QgsLineString.ofVectors,
    GEOSGeom_getCoordinateDimension_r, GEOSGeom_getDimensions_r]

/-- C29: `fromGeos` never produces a geometry with the measure flag.  The topological dimension
of an engine-native geometry is at most 2, so with a coordinate dimension of 2 or 3 the computed
`hasM` (topological dimension minus coordinate dimension equals 1) is false; the geometry that
`fromGeos` returns for a native geometry whose coordinate sequences have dimension 2 or more
carries no measure flag and no measure value, neither itself nor in a ring or member.  `asGeos`
writes no measure: a point is built without regard to its measure, a coordinate sequence holds
the x, y and z of the line only and its dimension does not count the measure, and every native
geometry that `asGeos` builds has sequences of dimension 2 or more; so whatever `fromGeos`
returns for the native form of an abstract geometry is without measure. -/
theorem fromGeos_never_measure (precision : ℚ) :
    (∀ geos : GEOSGeometry,
        GEOSGeom_getDimensions_r geos ≤ 2
          ∧ (GEOSGeom_getCoordinateDimension_r geos = 2
              ∨ GEOSGeom_getCoordinateDimension_r geos = 3 →
            decide (GEOSGeom_getDimensions_r geos
              - ((GEOSGeom_getCoordinateDimension_r geos : Nat) : Int) = 1) = false))
      ∧ (∀ (geos : GEOSGeometry) (g : QgsAbstractGeometry), geos.hasPlanarSequences = true →
          fromGeos (some geos) = some g → g.anyMeasure = false)
      ∧ (∀ (x y z m : ℚ) (hasZ hasM : Bool) (coordDims : Nat),
          createGeosPointXY x y hasZ z hasM m coordDims precision
            = createGeosPointXY x y hasZ z false 0 coordDims precision)
      ∧ (∀ (curve : QgsLineString) (forceClose : Bool),
          createCoordinateSequence curve precision forceClose
            = some { dims := 2 + (if curve.is3D then 1 else 0),
                     coords := (List.range (numOutPoints curve forceClose)).map
                       (storedCoordinate curve precision) })
      ∧ (∀ (G : QgsAbstractGeometry) (geos : GEOSGeometry),
          asGeos (some G) precision = some geos → geos.hasPlanarSequences = true)
      ∧ (∀ G g : QgsAbstractGeometry,
          fromGeos (asGeos (some G) precision) = some g → g.anyMeasure = false) := by
  refine ⟨?_, ?_, ?_, ?_, ?_, ?_⟩
  · intro geos
    have h := getDimensions_le_two geos
    refine ⟨h, ?_⟩
    intro hd
    simp only [decide_eq_false_iff_not]
    omega
  · intro geos g hp h
    exact fromGeosOf_noMeasure geos g hp ((fromGeos_eq_some geos g).mp h)
  · intro x y z m hasZ hasM coordDims
    rw [createGeosPointXY_stored, createGeosPointXY_stored]
  · intro curve forceClose
    exact createCoordinateSequence_stored curve precision forceClose
  · intro G geos h
    exact asGeosOf_planar precision G geos h
  · intro G g h
    cases hn : asGeos (some G) precision with
    | none => simp [hn, fromGeos] at h
    | some geos =>
      rw [hn] at h
      exact fromGeosOf_noMeasure geos g (asGeosOf_planar precision G geos hn)
        ((fromGeos_eq_some geos g).mp h)

/-- Witness of C29: the line string (0 0, 1 0) with the measure values 5 and 6 comes back from
the native form without measure. -/
theorem fromGeos_never_measure_witness :
    (QgsAbstractGeometry.lineString unmeasuredLine).anyMeasure = false :=
  (fromGeos_never_measure 0).2.2.2.2.2 (.lineString measuredLine) (.lineString unmeasuredLine)
    measuredLine_roundTrip

/-! ## C21: the extent of the tracer -/

section TracerExtent

open QgsTracer

theorem extent_mGraph : extentTracer.init.mGraph = some extentGraph := by
  decide!

theorem mem_layerLinework (t : QgsTracer) (line : List QgsPointXY) :
    line ∈ t.layerLinework ↔
      ∃ layer ∈ t.mLayers, ∃ f ∈ layer.features,
        (t.mExtent.isEmpty = true ∨ intersectsExtent t.mExtent f.geometry = true)
          ∧ line ∈ extractLinework f.geometry := by
  unfold layerLinework
  simp only [List.mem_flatMap, List.mem_filter, Bool.or_eq_true]
  constructor
  · rintro ⟨layer, hl, f, ⟨hf, hin⟩, hline⟩
    exact ⟨layer, hl, f, hf, hin, hline⟩
  · rintro ⟨layer, hl, f, hf, hin, hline⟩
    exact ⟨layer, hl, f, ⟨hf, hin⟩, hline⟩

theorem range_iff (a d mn mx t : ℚ) (hd : d ≠ 0) :
    (mn ≤ a + t * d ∧ a + t * d ≤ mx) ↔ (rangeEnter a d mn mx ≤ t ∧ t ≤ rangeLeave a d mn mx) := by
  unfold rangeEnter rangeLeave
  rcases lt_or_gt_of_ne hd with hneg | hpos
  · have hn : ¬ 0 < d := not_lt.mpr (le_of_lt hneg)
    rw [if_neg hn, if_pos hneg, if_neg hn, if_pos hneg, div_le_iff_of_neg hneg,
      le_div_iff_of_neg hneg]
    constructor
    · rintro ⟨h1, h2⟩
      exact ⟨by linarith, by linarith⟩
    · rintro ⟨h1, h2⟩
      exact ⟨by linarith, by linarith⟩
  · rw [if_pos hpos, if_pos hpos, div_le_iff₀ hpos, le_div_iff₀ hpos]
    constructor
    · rintro ⟨h1, h2⟩
      exact ⟨by linarith, by linarith⟩
    · rintro ⟨h1, h2⟩
      exact ⟨by linarith, by linarith⟩

theorem range_zero (a mn mx : ℚ) :
    rangeEnter a 0 mn mx = 0 ∧ rangeLeave a 0 mn mx = 1 := by
  simp [rangeEnter, rangeLeave]

/-- What the test on one axis says: the values of `t` from 0 to 1 at which `a + t * d` lies in
the range are those from `max 0 enter` to `min 1 leave`, provided that the value lies in the range
when it does not move. -/
theorem axis_iff (a d mn mx t : ℚ) :
    (0 ≤ t ∧ t ≤ 1 ∧ mn ≤ a + t * d ∧ a + t * d ≤ mx)
      ↔ ((d ≠ 0 ∨ (mn ≤ a ∧ a ≤ mx))
          ∧ max 0 (rangeEnter a d mn mx) ≤ t ∧ t ≤ min 1 (rangeLeave a d mn mx)) := by
  by_cases hd : d = 0
  · subst hd
    rw [(range_zero a mn mx).1, (range_zero a mn mx).2]
    simp only [mul_zero, add_zero, ne_eq, not_true_eq_false, false_or, max_self, min_self]
    constructor
    · rintro ⟨h0, h1, h2, h3⟩
      exact ⟨⟨h2, h3⟩, h0, h1⟩
    · rintro ⟨⟨h2, h3⟩, h0, h1⟩
      exact ⟨h0, h1, h2, h3⟩
  · have hr := range_iff a d mn mx t hd
    simp only [max_le_iff, le_min_iff, ne_eq, hd, not_false_eq_true, true_or, true_and]
    constructor
    · rintro ⟨h0, h1, h2, h3⟩
      have := hr.mp ⟨h2, h3⟩
      exact ⟨⟨h0, this.1⟩, h1, this.2⟩
    · rintro ⟨⟨h0, h2⟩, h1, h3⟩
      have := hr.mpr ⟨h2, h3⟩
      exact ⟨h0, h1, this.1, this.2⟩

/-- The test on a segment is true exactly when a point of the segment lies in the
rectangle. -/
theorem segmentIntersects_iff (s : QgsPointXY × QgsPointXY) (r : QgsRectangle) :
    segmentIntersects s r = true
      ↔ ∃ t : ℚ, 0 ≤ t ∧ t ≤ 1
          ∧ r.contains ⟨s.1.x + t * (s.2.x - s.1.x), s.1.y + t * (s.2.y - s.1.y)⟩ = true := by
  have hx := axis_iff s.1.x (s.2.x - s.1.x) r.xMinimum r.xMaximum
  have hy := axis_iff s.1.y (s.2.y - s.1.y) r.yMinimum r.yMaximum
  simp only [segmentIntersects, QgsRectangle.contains, Bool.and_eq_true, Bool.or_eq_true,
    decide_eq_true_eq]
  generalize rangeEnter s.1.x (s.2.x - s.1.x) r.xMinimum r.xMaximum = ex at hx
  generalize rangeLeave s.1.x (s.2.x - s.1.x) r.xMinimum r.xMaximum = lx at hx
  generalize rangeEnter s.1.y (s.2.y - s.1.y) r.yMinimum r.yMaximum = ey at hy
  generalize rangeLeave s.1.y (s.2.y - s.1.y) r.yMinimum r.yMaximum = ly at hy
  constructor
  · rintro ⟨⟨hox, hoy⟩, hLH⟩
    have h1 : max 0 ex ≤ max 0 (max ex ey) :=
      max_le (le_max_left _ _) (le_trans (le_max_left _ _) (le_max_right _ _))
    have h2 : max 0 ey ≤ max 0 (max ex ey) :=
      max_le (le_max_left _ _) (le_trans (le_max_right _ _) (le_max_right _ _))
    have h3 : min 1 (min lx ly) ≤ min 1 lx :=
      le_min (min_le_left _ _) (le_trans (min_le_right _ _) (min_le_left _ _))
    have h4 : min 1 (min lx ly) ≤ min 1 ly :=
      le_min (min_le_left _ _) (le_trans (min_le_right _ _) (min_le_right _ _))
    have hxf := (hx (max 0 (max ex ey))).mpr ⟨hox, h1, le_trans hLH h3⟩
    have hyf := (hy (max 0 (max ex ey))).mpr ⟨hoy, h2, le_trans hLH h4⟩
    exact ⟨max 0 (max ex ey), hxf.1, hxf.2.1, ⟨⟨hxf.2.2.1, hxf.2.2.2⟩, hyf.2.2.1⟩, hyf.2.2.2⟩
  · rintro ⟨t, h0, h1, ⟨⟨hx1, hx2⟩, hy1⟩, hy2⟩
    have hxf := (hx t).mp ⟨h0, h1, hx1, hx2⟩
    have hyf := (hy t).mp ⟨h0, h1, hy1, hy2⟩
    refine ⟨⟨hxf.1, hyf.1⟩, ?_⟩
    have ha : max 0 (max ex ey) ≤ t :=
      max_le h0 (max_le (le_trans (le_max_right _ _) hxf.2.1) (le_trans (le_max_right _ _) hyf.2.1))
    have hb : t ≤ min 1 (min lx ly) :=
      le_min h1 (le_min (le_trans hxf.2.2 (min_le_right _ _)) (le_trans hyf.2.2 (min_le_right _ _)))
    exact le_trans ha hb

/-- The test on a line is true exactly when the line has a point in the rectangle: one of its
points, or a point of the segment between two points that follow each other. -/
theorem lineIntersects_iff (line : List QgsPointXY) (r : QgsRectangle) :
    lineIntersects line r = true
      ↔ ∃ p : QgsPointXY, r.contains p = true
          ∧ (p ∈ line
              ∨ ∃ s ∈ line.zip line.tail, ∃ t : ℚ, 0 ≤ t ∧ t ≤ 1
                  ∧ p = ⟨s.1.x + t * (s.2.x - s.1.x), s.1.y + t * (s.2.y - s.1.y)⟩) := by
  simp only [lineIntersects, Bool.or_eq_true, List.any_eq_true]
  constructor
  · rintro (⟨p, hp, hin⟩ | ⟨s, hs, hseg⟩)
    · exact ⟨p, hin, Or.inl hp⟩
    · obtain ⟨t, h0, h1, hin⟩ := (segmentIntersects_iff s r).mp hseg
      exact ⟨_, hin, Or.inr ⟨s, hs, t, h0, h1, rfl⟩⟩
  · rintro ⟨p, hin, hp | ⟨s, hs, t, h0, h1, rfl⟩⟩
    · exact Or.inl ⟨p, hp, hin⟩
    · exact Or.inr ⟨s, hs, (segmentIntersects_iff s r).mpr ⟨t, h0, h1, hin⟩⟩

mutual

/-- A geometry whose line work has a point in the rectangle intersects it. -/
theorem intersectsExtent_of_linework (r : QgsRectangle) :
    ∀ g : QgsAbstractGeometry,
      (∃ line ∈ extractLinework g, lineIntersects line r = true) → intersectsExtent r g = true
  | .point p, h => by simp [extractLinework] at h
  | .lineString l, h => by
    simpa [extractLinework, intersectsExtent] using h
  | .polygon p, h => by
    obtain ⟨line, hline, hin⟩ := h
    simp only [extractLinework, List.mem_append, List.mem_map] at hline
    simp only [intersectsExtent, Bool.or_eq_true, List.any_eq_true]
    rcases hline with hext | ⟨hole, hhole, rfl⟩
    · left
      cases hr : p.exteriorRing with
      | none => simp [hr] at hext
      | some ring =>
        simp only [hr, List.mem_singleton] at hext
        subst hext
        simp [hin]
    · exact Or.inr ⟨hole, hhole, hin⟩
  | .collection t z m geoms, h => by
    simp only [extractLinework] at h
    simp only [intersectsExtent]
    exact anyMember_of_linework r geoms h

theorem anyMember_of_linework (r : QgsRectangle) :
    ∀ geoms : List QgsAbstractGeometry,
      (∃ line ∈ extractLinework.membersLinework geoms, lineIntersects line r = true) →
        intersectsExtent.anyMember r geoms = true
  | [], h => by simp [extractLinework.membersLinework] at h
  | g :: gs, h => by
    obtain ⟨line, hline, hin⟩ := h
    simp only [extractLinework.membersLinework, List.mem_append] at hline
    simp only [intersectsExtent.anyMember, Bool.or_eq_true]
    rcases hline with hg | hgs
    · exact Or.inl (intersectsExtent_of_linework r g ⟨line, hg, hin⟩)
    · exact Or.inr (anyMember_of_linework r gs ⟨line, hgs, hin⟩)

end

theorem passing_mGraph : passingTracer.init.mGraph = some [(⟨0, 0⟩, ⟨10, 0⟩)] := by
  decide!

/-- C21: with an extent configured, the graph that a query is answered on is the graph of
the lines of exactly the features that intersect the extent, and these features enter whole:
every point of every segment of such a feature lies on the graph, also outside the extent.  A
line-string feature intersects the extent exactly when one of its points, or a point of one of
its segments, lies in the extent, and no feature is left out whose line work has a point in
the extent; the line (12 0, 0 12), whose bounding box overlaps the extent
(0,0)-(5,5) while no point of it lies there, does not enter.  On the four-edge layer with the
extent (0,0)-(5,5) the point (20, 10), reached before over (10, 0), no longer lies on the graph,
so the query from (0, 0) to (20, 10) is empty, while the query from (0, 0) to (10, 0) still
gives [(0,0), (10,0)]. -/
theorem findShortestPath_extent (len : QgsPointXY → QgsPointXY → ℝ)
    (hlen : IsEuclideanLength len) :
    (∀ t : QgsTracer, QgsTracer.Reachable t → t.mExtent.isEmpty = false →
        t.init.mGraph = some (makeGraph t.layerLinework)
          ∧ (∀ line, line ∈ t.layerLinework ↔
              ∃ layer ∈ t.mLayers, ∃ f ∈ layer.features,
                intersectsExtent t.mExtent f.geometry = true
                  ∧ line ∈ extractLinework f.geometry)
          ∧ (∀ layer ∈ t.mLayers, ∀ f ∈ layer.features,
              intersectsExtent t.mExtent f.geometry = true →
              ∀ line ∈ extractLinework f.geometry, ∀ s ∈ segmentsOf line, ∀ p,
                onSegment s p → OnGraph (makeGraph t.layerLinework) p))
      ∧ (∀ (l : QgsLineString) (r : QgsRectangle),
          intersectsExtent r (.lineString l) = true
            ↔ ∃ p : QgsPointXY, r.contains p = true
                ∧ (p ∈ linePoints l
                    ∨ ∃ s ∈ (linePoints l).zip (linePoints l).tail, ∃ t : ℚ, 0 ≤ t ∧ t ≤ 1
                        ∧ p = ⟨s.1.x + t * (s.2.x - s.1.x), s.1.y + t * (s.2.y - s.1.y)⟩))
      ∧ (∀ (g : QgsAbstractGeometry) (r : QgsRectangle),
          (∃ line ∈ extractLinework g, lineIntersects line r = true) →
            intersectsExtent r g = true)
      ∧ ((lineString [(12, 0), (0, 12)]).boundingBox.intersects
            { xMinimum := 0, yMinimum := 0, xMaximum := 5, yMaximum := 5 } = true
          ∧ intersectsExtent { xMinimum := 0, yMinimum := 0, xMaximum := 5, yMaximum := 5 }
              (lineString [(12, 0), (0, 12)]) = false
          ∧ passingTracer.init.mGraph = some [(⟨0, 0⟩, ⟨10, 0⟩)])
      ∧ (findShortestPath len (create.setLayers [fourEdgeLayer]) ⟨0, 0⟩ ⟨20, 10⟩).1
          = [⟨0, 0⟩, ⟨10, 0⟩, ⟨20, 10⟩]
      ∧ extentTracer.init.mGraph = some extentGraph
      ∧ ¬ OnGraph extentGraph ⟨20, 10⟩
      ∧ (findShortestPath len extentTracer ⟨0, 0⟩ ⟨20, 10⟩).1 = []
      ∧ (findShortestPath len extentTracer ⟨0, 0⟩ ⟨10, 0⟩).1 = [⟨0, 0⟩, ⟨10, 0⟩] := by
  refine ⟨?_, ?_, fun g r h => intersectsExtent_of_linework r g h,
    ⟨by decide!, by decide!, passing_mGraph⟩, ?_, extent_mGraph, ?_, ?_, ?_⟩
  · intro t hreach hext
    have hmem : ∀ line, line ∈ t.layerLinework ↔
        ∃ layer ∈ t.mLayers, ∃ f ∈ layer.features,
          intersectsExtent t.mExtent f.geometry = true
            ∧ line ∈ extractLinework f.geometry := by
      intro line
      rw [mem_layerLinework]
      simp only [hext, Bool.false_eq_true, false_or]
    refine ⟨reachable_init_mGraph hreach, hmem, ?_⟩
    intro layer hl f hf hin line hline s hs p hp
    exact onGraph_of_onSegment t.layerLinework
      (List.mem_flatMap.mpr ⟨line, (hmem line).mpr ⟨layer, hl, f, hf, hin, hline⟩, hs⟩) hp
  · intro l r
    exact lineIntersects_iff (linePoints l) r
  · rw [findShortestPath_fst len _ _ _ fourEdge_mGraph]
    exact fourEdge_tracePath len hlen
  · unfold OnGraph
    decide!
  · rw [findShortestPath_fst len _ _ _ extent_mGraph]
    exact tracePath_of_not_joined len (by decide!)
  · rw [findShortestPath_fst len _ _ _ extent_mGraph]
    refine tracePath_eq_of_shorter len hlen extentGraph extentGraph ⟨0, 0⟩ ⟨10, 0⟩
      [⟨0, 0⟩, ⟨10, 0⟩] [[⟨0, 0⟩, ⟨10, 0⟩]] (by decide!)
      ⟨by simp only [IsWalk, List.chain'_cons, List.chain'_singleton, and_true]; decide!, rfl,
        rfl⟩ (by decide!) ?_
    intro w hw hne
    simp only [List.mem_singleton] at hw
    exact absurd hw hne

/-- Witness of C21: with the Euclidean distance as length, the query from (0, 0) to (20, 10)
under the extent (0,0)-(5,5) is empty and the query to (10, 0) gives the line from (0, 0). -/
theorem findShortestPath_extent_witness :
    (findShortestPath (fun (p q : QgsPointXY) =>
          Real.sqrt (((p.x - q.x) ^ 2 + (p.y - q.y) ^ 2 : ℚ) : ℝ))
        extentTracer ⟨0, 0⟩ ⟨20, 10⟩).1 = []
      ∧ (findShortestPath (fun (p q : QgsPointXY) =>
          Real.sqrt (((p.x - q.x) ^ 2 + (p.y - q.y) ^ 2 : ℚ) : ℝ))
        extentTracer ⟨0, 0⟩ ⟨10, 0⟩).1 = [⟨0, 0⟩, ⟨10, 0⟩] :=
  (findShortestPath_extent _ sqrt_isEuclideanLength).2.2.2.2.2.2.2

end TracerExtent

/-! ## C24: regrouping of split fragments -/

theorem isPartOf_eq (ctxt : GEOSContextHandle_t) (geom : GEOSGeometry) (parts : List GEOSGeometry)
    (h : ∀ part ∈ parts, ∃ b, ctxt.GEOSEquals_r geom part = .ok b) :
    isPartOf ctxt geom parts = .ok (equalsPart ctxt parts geom) := by
  induction parts with
  | nil => rfl
  | cons part rest ih =>
    obtain ⟨b, hb⟩ := h part (List.mem_cons_self _ _)
    have hrest := ih (fun p hp => h p (List.mem_cons_of_mem _ hp))
    cases b with
    | true => simp [isPartOf, equalsPart, hb]
    | false =>
      simp only [isPartOf, hb, hrest]
      simp [equalsPart, hb]

theorem classifyFragments_eq (ctxt : GEOSContextHandle_t) (t : GEOSCollectionType)
    (ht : t = .multiLineString ∨ t = .multiPolygon) (parts fragments : List GEOSGeometry)
    (h : ∀ geom ∈ fragments, ∀ part ∈ parts, ∃ b, ctxt.GEOSEquals_r geom part = .ok b) :
    classifyFragments ctxt t.typeId parts fragments
      = .ok ((fragments.filter (fun g => !equalsPart ctxt parts g)).map
              (fun g => some (.collection t [g])),
             fragments.filter (equalsPart ctxt parts)) := by
  induction fragments with
  | nil => rfl
  | cons geom rest ih =>
    have hrest := ih (fun g hg => h g (List.mem_cons_of_mem _ hg))
    have hgeom := isPartOf_eq ctxt geom parts (h geom (List.mem_cons_self _ _))
    simp only [classifyFragments, hgeom, hrest]
    cases hp : equalsPart ctxt parts geom
    · rcases ht with ht | ht <;> subst ht <;>
        simp [hp, GEOSCollectionType.typeId, createGeosCollection, GEOSGeom_createCollection_r,
          GEOSCollectionType.ofTypeId]
    · simp [hp]

/-- C24: regrouping of split fragments.  For a multi-line-string or multi-polygon receiver
whose equality tests the library answers, `mergeGeometriesMultiTypeSplit` replaces the
fragment list by one single-member multi-geometry per fragment that equals no part of the
receiver, in fragment order, followed, only if fragments equal to a part exist, by one
multi-geometry holding all of them in order; so the members of the output geometries are the
input fragments, each once.  For a receiver that is a point, line string or polygon the
fragment list is returned unchanged. -/
theorem mergeGeometriesMultiTypeSplit_regroups (ctxt : GEOSContextHandle_t) (self : QgsGeos)
    (mGeos : GEOSGeometry) (splitResult : List GEOSGeometry) (hgeos : self.mGeos = some mGeos) :
    (∀ (t : GEOSCollectionType) (parts : List GEOSGeometry),
        mGeos = .collection t parts → (t = .multiLineString ∨ t = .multiPolygon) →
        (∀ geom ∈ splitResult, ∀ part ∈ parts, ∃ b, ctxt.GEOSEquals_r geom part = .ok b) →
        mergeGeometriesMultiTypeSplit ctxt self splitResult
            = .ok ((splitResult.filter (fun g => !equalsPart ctxt parts g)).map
                    (fun g => some (.collection t [g]))
                  ++ (if (splitResult.filter (equalsPart ctxt parts)).isEmpty then []
                      else [some (.collection t (splitResult.filter (equalsPart ctxt parts)))]))
          ∧ List.Perm
              (((splitResult.filter (fun g => !equalsPart ctxt parts g)).map
                    (fun g => GEOSGeometry.collection t [g])
                  ++ (if (splitResult.filter (equalsPart ctxt parts)).isEmpty then []
                      else [GEOSGeometry.collection t
                        (splitResult.filter (equalsPart ctxt parts))])).flatMap
                GEOSGeometry.memberGeometries)
              splitResult)
      ∧ ((GEOSGeomTypeId_r mGeos = GEOS_POINT ∨ GEOSGeomTypeId_r mGeos = GEOS_LINESTRING
            ∨ GEOSGeomTypeId_r mGeos = GEOS_LINEARRING ∨ GEOSGeomTypeId_r mGeos = GEOS_POLYGON) →
          mergeGeometriesMultiTypeSplit ctxt self splitResult = .ok (splitResult.map some)) := by
  constructor
  · intro t parts hm ht hequals
    subst hm
    constructor
    · have htype : ¬ (GEOSGeomTypeId_r (.collection t parts) ≠ GEOS_GEOMETRYCOLLECTION
          ∧ GEOSGeomTypeId_r (.collection t parts) ≠ GEOS_MULTILINESTRING
          ∧ GEOSGeomTypeId_r (.collection t parts) ≠ GEOS_MULTIPOLYGON
          ∧ GEOSGeomTypeId_r (.collection t parts) ≠ GEOS_MULTIPOINT) := by
        rcases ht with ht | ht <;> subst ht <;> simp [GEOSGeomTypeId_r, GEOSCollectionType.typeId]
      unfold mergeGeometriesMultiTypeSplit
      simp only [hgeos, htype, if_false, GEOSGeometry.memberGeometries]
      rw [show GEOSGeomTypeId_r (.collection t parts) = t.typeId from rfl,
        classifyFragments_eq ctxt t ht parts splitResult hequals]
      obtain ⟨own, hown⟩ : ∃ own, splitResult.filter (equalsPart ctxt parts) = own := ⟨_, rfl⟩
      rw [hown]
      cases own with
      | nil => simp
      | cons a l =>
        rcases ht with ht | ht <;> subst ht <;>
          simp [GEOSCollectionType.typeId, createGeosCollection,
            GEOSGeom_createCollection_r, GEOSCollectionType.ofTypeId, List.filterMap_map]
    · have h1 : ((splitResult.filter (fun g => !equalsPart ctxt parts g)).map
          (fun g => GEOSGeometry.collection t [g])).flatMap GEOSGeometry.memberGeometries
          = splitResult.filter (fun g => !equalsPart ctxt parts g) := by
        induction splitResult.filter (fun g => !equalsPart ctxt parts g) with
        | nil => rfl
        | cons a l ih => simp [GEOSGeometry.memberGeometries, ih]
      have h2 : (if (splitResult.filter (equalsPart ctxt parts)).isEmpty then []
            else [GEOSGeometry.collection t (splitResult.filter (equalsPart ctxt parts))]).flatMap
              GEOSGeometry.memberGeometries
          = splitResult.filter (equalsPart ctxt parts) := by
        obtain ⟨own, hown⟩ : ∃ own, splitResult.filter (equalsPart ctxt parts) = own := ⟨_, rfl⟩
        rw [hown]
        cases own with
        | nil => simp
        | cons a l => simp [GEOSGeometry.memberGeometries]
      rw [List.flatMap_append, h1, h2]
      exact List.Perm.trans List.perm_append_comm (List.filter_append_perm _ _)
  · intro hsingle
    have htype : GEOSGeomTypeId_r mGeos ≠ GEOS_GEOMETRYCOLLECTION
        ∧ GEOSGeomTypeId_r mGeos ≠ GEOS_MULTILINESTRING
        ∧ GEOSGeomTypeId_r mGeos ≠ GEOS_MULTIPOLYGON
        ∧ GEOSGeomTypeId_r mGeos ≠ GEOS_MULTIPOINT := by
      rcases hsingle with h | h | h | h <;> rw [h] <;> decide
    unfold mergeGeometriesMultiTypeSplit
    simp only [hgeos]
    rw [if_pos htype]

/-- Witness of C24: for the multi-line-string ((0 0, 1 0), (0 5, 1 5)) and the fragments
(0 0, 1 0, 2 0) and (0 0, 1 0), of which the second equals the first part, the result is the
multi-line-string of the first fragment followed by the multi-line-string of the second. -/
theorem mergeGeometriesMultiTypeSplit_regroups_witness :
    mergeGeometriesMultiTypeSplit cornerContext twoLinesEngine [extendedLineGeos, firstLineGeos]
      = .ok [some (.collection .multiLineString [extendedLineGeos]),
             some (.collection .multiLineString [firstLineGeos])] := by
  have h := ((mergeGeometriesMultiTypeSplit_regroups cornerContext twoLinesEngine twoLinesGeos
    [extendedLineGeos, firstLineGeos] rfl).1 .multiLineString [firstLineGeos, secondLineGeos] rfl
    (Or.inl rfl) (fun geom _ part _ => ⟨_, rfl⟩)).1
  have h1 : equalsPart cornerContext [firstLineGeos, secondLineGeos] extendedLineGeos = false := by
    decide!
  have h2 : equalsPart cornerContext [firstLineGeos, secondLineGeos] firstLineGeos = true := by
    decide!
  rw [h]
  simp [List.filter, h1, h2]

/-! ## C28: the output list of a successful split -/

theorem ofPoints_append (ps : List QgsPoint) (v : QgsPoint) :
    (QgsLineString.ofPoints ps).addVertex v = QgsLineString.ofPoints (ps ++ [v]) := by
  simp [QgsLineString.ofPoints, List.foldl_append]

theorem breakLine_fold (line : QgsLineString) (splitPoint last : QgsPoint) :
    ∀ (js : List Nat) (closed : List QgsLineString) (current : List QgsPoint),
      ((js.foldl (breakLineStep line splitPoint) (closed, QgsLineString.ofPoints current)).1
          ++ [(js.foldl (breakLineStep line splitPoint)
                (closed, QgsLineString.ofPoints current)).2.addVertex last])
        = closed ++ (breakPoints splitPoint current (js.map (fun (j : Nat) => line.pointN (j : Int)))
            last).map QgsLineString.ofPoints := by
  intro js
  induction js with
  | nil =>
    intro closed current
    simp [breakPoints, ofPoints_append]
  | cons j js ih =>
    intro closed current
    simp only [List.foldl_cons, List.map_cons, breakPoints]
    by_cases heq : (line.pointN (j : Int)).equals splitPoint = true
    · have hstep : breakLineStep line splitPoint (closed, QgsLineString.ofPoints current) j
          = (closed ++ [QgsLineString.ofPoints (current ++ [line.pointN (j : Int)])],
             QgsLineString.ofPoints [line.pointN (j : Int)]) := by
        simp only [breakLineStep, heq, if_true, ofPoints_append]
        rfl
      rw [hstep, ih, if_pos heq]
      simp
    · have hstep : breakLineStep line splitPoint (closed, QgsLineString.ofPoints current) j
          = (closed, QgsLineString.ofPoints (current ++ [line.pointN (j : Int)])) := by
        simp only [breakLineStep, heq, ofPoints_append]
        rfl
      rw [hstep, ih, if_neg heq]

theorem breakLine_eq (line : QgsLineString) (splitPoint : QgsPoint) :
    breakLine line splitPoint
      = (breakPoints splitPoint [line.pointN 0]
          ((List.range' 1 (line.numPoints - 2)).map (fun (j : Nat) => line.pointN (j : Int)))
          (line.pointN ((line.numPoints : Int) - 1))).map QgsLineString.ofPoints := by
  have h := breakLine_fold line splitPoint (line.pointN ((line.numPoints : Int) - 1))
    (List.range' 1 (line.numPoints - 2)) [] [line.pointN 0]
  simp only [List.nil_append] at h
  rw [← h]
  rfl

theorem breakPoints_structure (splitPoint : QgsPoint) :
    ∀ (rest current : List QgsPoint) (last : QgsPoint),
      ∃ suffix others,
        breakPoints splitPoint current rest last = (current ++ suffix) :: others
          ∧ suffix ≠ []
          ∧ suffix ++ others.flatMap List.tail = rest ++ [last]
          ∧ (∀ part ∈ others, 2 ≤ part.length)
          ∧ List.Chain' (fun a b : List QgsPoint => a.getLast? = b.head?)
              ((current ++ suffix) :: others)
          ∧ others.length = rest.countP (fun v => v.equals splitPoint) := by
  intro rest
  induction rest with
  | nil =>
    intro current last
    exact ⟨[last], [], rfl, by simp, by simp, by simp, by simp, by simp⟩
  | cons v rest ih =>
    intro current last
    by_cases heq : v.equals splitPoint = true
    · obtain ⟨suffix, others, hb, hne, hs, hlen, hchain, hcount⟩ := ih [v] last
      refine ⟨[v], ([v] ++ suffix) :: others, ?_, by simp, ?_, ?_, ?_, ?_⟩
      · simp only [breakPoints, heq, if_true, hb]
      · simp only [List.flatMap_cons, List.singleton_append, List.tail_cons, List.cons_append,
          List.nil_append]
        rw [hs]
      · intro part hp
        rcases List.mem_cons.mp hp with hp | hp
        · rw [hp]
          have : 0 < suffix.length := List.length_pos.mpr hne
          simp only [List.singleton_append, List.length_cons]
          omega
        · exact hlen part hp
      · refine List.Chain'.cons ?_ hchain
        simp
      · simp only [List.length_cons, hcount, List.countP_cons, heq, if_true]
    · obtain ⟨suffix, others, hb, hne, hs, hlen, hchain, hcount⟩ := ih (current ++ [v]) last
      refine ⟨v :: suffix, others, ?_, by simp, ?_, hlen, ?_, ?_⟩
      · simp only [breakPoints, heq, hb]
        simp
      · simp only [List.cons_append]
        rw [hs]
      · simpa using hchain
      · simp only [hcount, List.countP_cons, heq]
        simp

theorem getD_map {α : Type} (f : α → ℚ) (l : List α) (i : Nat) (h : i < l.length) :
    (l.map f).getD i 0 = f l[i] := by
  rw [List.getD_eq_getElem?_getD, List.getElem?_map, List.getElem?_eq_getElem h]
  rfl

theorem foldl_addVertex (rest : List QgsPoint) :
    ∀ l : QgsLineString, l.mX ≠ [] →
      rest.foldl QgsLineString.addVertex l
        = { is3D := l.is3D, isMeasure := l.isMeasure
            mX := l.mX ++ rest.map (fun q => q.x)
            mY := l.mY ++ rest.map (fun q => q.y)
            mZ := if l.is3D then l.mZ ++ rest.map (fun q => q.z) else l.mZ
            mM := if l.isMeasure then l.mM ++ rest.map (fun q => q.m) else l.mM } := by
  induction rest with
  | nil =>
    intro l _
    cases l with
    | mk z m xs ys zs ms => cases z <;> cases m <;> simp
  | cons q rest ih =>
    intro l hl
    have hne : l.mX.isEmpty = false := by
      cases hx : l.mX with
      | nil => exact absurd hx hl
      | cons _ _ => rfl
    rw [List.foldl_cons, ih _ (by simp [QgsLineString.addVertex])]
    cases l with
    | mk z m xs ys zs ms =>
      simp only at hne
      cases z <;> cases m <;> simp [QgsLineString.addVertex, hne]

theorem ofPoints_cons (p : QgsPoint) (rest : List QgsPoint) :
    QgsLineString.ofPoints (p :: rest)
      = { is3D := p.is3D, isMeasure := p.isMeasure
          mX := (p :: rest).map (fun q => q.x)
          mY := (p :: rest).map (fun q => q.y)
          mZ := if p.is3D then (p :: rest).map (fun q => q.z) else []
          mM := if p.isMeasure then (p :: rest).map (fun q => q.m) else [] } := by
  unfold QgsLineString.ofPoints
  rw [List.foldl_cons, foldl_addVertex rest _ (by simp [QgsLineString.addVertex,
    QgsLineString.empty])]
  cases hz : p.is3D <;> cases hm : p.isMeasure <;>
    simp [QgsLineString.addVertex, QgsLineString.empty, hz, hm]

theorem ofPoints_numPoints (ps : List QgsPoint) :
    (QgsLineString.ofPoints ps).numPoints = ps.length := by
  cases ps with
  | nil => rfl
  | cons p rest => simp [ofPoints_cons, QgsLineString.numPoints]

theorem point_eq_ofType (q : QgsPoint) :
    QgsPoint.ofType q.is3D q.isMeasure q.x q.y q.z q.m = q := by
  cases q with
  | mk x y zv mv =>
    cases zv <;> cases mv <;>
      simp [QgsPoint.ofType, QgsPoint.is3D, QgsPoint.isMeasure, QgsPoint.z, QgsPoint.m]

theorem ofPoints_points (p : QgsPoint) (rest : List QgsPoint)
    (hflags : ∀ q ∈ rest, q.is3D = p.is3D ∧ q.isMeasure = p.isMeasure) :
    (QgsLineString.ofPoints (p :: rest)).points = p :: rest := by
  apply List.ext_getElem
  · simp [QgsLineString.points, ofPoints_numPoints]
  · intro i h1 h2
    have hi : i < (p :: rest).length := h2
    have hq : ((p :: rest)[i]).is3D = p.is3D ∧ ((p :: rest)[i]).isMeasure = p.isMeasure := by
      have hmem : (p :: rest)[i] ∈ p :: rest := List.getElem_mem _
      rcases List.mem_cons.mp hmem with h | h
      · rw [h]
        exact ⟨rfl, rfl⟩
      · exact hflags _ h
    simp only [QgsLineString.points, List.getElem_map, List.getElem_range]
    have hn : (QgsLineString.ofPoints (p :: rest)).numPoints = (p :: rest).length :=
      ofPoints_numPoints _
    have hvalid : ¬ ((i : Int) < 0 ∨ ((QgsLineString.ofPoints (p :: rest)).numPoints : Int) ≤ i) := by
      rw [hn]
      omega
    unfold QgsLineString.pointN
    rw [if_neg hvalid]
    simp only [Int.toNat_ofNat]
    rw [ofPoints_cons]
    simp only [QgsLineString.xAt, QgsLineString.yAt, QgsLineString.zAt, QgsLineString.mAt]
    have hx := getD_map (fun q : QgsPoint => q.x) (p :: rest) i hi
    have hy := getD_map (fun q : QgsPoint => q.y) (p :: rest) i hi
    have hz := getD_map (fun q : QgsPoint => q.z) (p :: rest) i hi
    have hm := getD_map (fun q : QgsPoint => q.m) (p :: rest) i hi
    have key : QgsPoint.ofType p.is3D p.isMeasure ((p :: rest)[i]).x ((p :: rest)[i]).y
        ((p :: rest)[i]).z ((p :: rest)[i]).m = (p :: rest)[i] := by
      rw [← hq.1, ← hq.2]
      exact point_eq_ofType _
    refine Eq.trans ?_ key
    cases hpz : p.is3D <;> cases hpm : p.isMeasure <;>
      simp only [QgsPoint.ofType, Bool.false_eq_true, if_true, if_false, hx, hy, hz, hm]

theorem breakPoints_mem (splitPoint : QgsPoint) :
    ∀ (rest current : List QgsPoint) (last : QgsPoint),
      ∀ part ∈ breakPoints splitPoint current rest last, ∀ q ∈ part,
        q ∈ current ∨ q ∈ rest ∨ q = last := by
  intro rest
  induction rest with
  | nil =>
    intro current last part hp q hq
    simp only [breakPoints, List.mem_singleton] at hp
    rw [hp] at hq
    rcases List.mem_append.mp hq with h | h
    · exact Or.inl h
    · exact Or.inr (Or.inr (List.mem_singleton.mp h))
  | cons v rest ih =>
    intro current last part hp q hq
    by_cases heq : v.equals splitPoint = true
    · simp only [breakPoints, heq, if_true, List.mem_cons] at hp
      rcases hp with hp | hp
      · rw [hp] at hq
        rcases List.mem_append.mp hq with h | h
        · exact Or.inl h
        · exact Or.inr (Or.inl (by rw [List.mem_singleton.mp h]; exact List.mem_cons_self _ _))
      · rcases ih [v] last part hp q hq with h | h | h
        · exact Or.inr (Or.inl (by rw [List.mem_singleton.mp h]; exact List.mem_cons_self _ _))
        · exact Or.inr (Or.inl (List.mem_cons_of_mem _ h))
        · exact Or.inr (Or.inr h)
    · simp only [breakPoints, heq] at hp
      rcases ih (current ++ [v]) last part hp q hq with h | h | h
      · rcases List.mem_append.mp h with h | h
        · exact Or.inl h
        · exact Or.inr (Or.inl (by rw [List.mem_singleton.mp h]; exact List.mem_cons_self _ _))
      · exact Or.inr (Or.inl (List.mem_cons_of_mem _ h))
      · exact Or.inr (Or.inr h)

theorem pointN_flags (l : QgsLineString) (i : Nat) (h : i < l.numPoints) :
    (l.pointN (i : Int)).is3D = l.is3D ∧ (l.pointN (i : Int)).isMeasure = l.isMeasure := by
  have hvalid : ¬ ((i : Int) < 0 ∨ (l.numPoints : Int) ≤ i) := by omega
  unfold QgsLineString.pointN
  rw [if_neg hvalid]
  cases l.is3D <;> cases l.isMeasure <;>
    simp [QgsPoint.ofType, QgsPoint.is3D, QgsPoint.isMeasure]

theorem points_split (l : QgsLineString) (h : 2 ≤ l.numPoints) :
    l.points = l.pointN 0
      :: ((List.range' 1 (l.numPoints - 2)).map (fun (j : Nat) => l.pointN (j : Int))
          ++ [l.pointN ((l.numPoints : Int) - 1)]) := by
  obtain ⟨m, hm⟩ : ∃ m, l.numPoints = m + 2 := ⟨l.numPoints - 2, by omega⟩
  unfold QgsLineString.points
  rw [hm]
  have hr : List.range (m + 2) = 0 :: (List.range' 1 m ++ [m + 1]) := by
    rw [List.range_eq_range', List.range'_succ, List.range'_concat]
    simp [Nat.add_comm]
  have hc : (((m + 2 : Nat) : Int) - 1) = ((m + 1 : Nat) : Int) := by
    push_cast
    ring
  rw [hr, hc]
  simp

theorem foldl_addLine (parts : List QgsLineString) :
    ∀ (z m : Bool) (geoms : List QgsAbstractGeometry),
      ∃ z2 m2, parts.foldl
          (fun lines newLine => lines.addGeometry (some (.lineString newLine)))
          (QgsAbstractGeometry.collection .MultiLineString z m geoms)
        = .collection .MultiLineString z2 m2 (geoms ++ parts.map QgsAbstractGeometry.lineString) := by
  induction parts with
  | nil =>
    intro z m geoms
    exact ⟨z, m, by simp⟩
  | cons part rest ih =>
    intro z m geoms
    obtain ⟨z2, m2, h⟩ := ih part.is3D part.isMeasure (geoms ++ [.lineString part])
    refine ⟨z2, m2, ?_⟩
    rw [List.foldl_cons]
    rw [show (QgsAbstractGeometry.collection .MultiLineString z m geoms).addGeometry
        (some (.lineString part))
      = .collection .MultiLineString part.is3D part.isMeasure (geoms ++ [.lineString part])
      from rfl, h]
    simp

theorem geomVector_lineStrings (precision : ℚ) (parts : List QgsLineString) :
    asGeosOf.geomVector precision (parts.map QgsAbstractGeometry.lineString)
      = parts.map (fun part => createGeosLinestring part precision) := by
  induction parts with
  | nil => rfl
  | cons part rest ih =>
    simp only [List.map_cons, asGeosOf.geomVector, ih, asGeosOf]

theorem linePointDifference_eq (self : QgsGeos) (line : QgsLineString) (g splitGeos : GEOSGeometry)
    (splitPoint : QgsPoint) (hgeom : self.mGeometry = some (.lineString line))
    (hgeos : self.mGeos = some g) (htype : GEOSGeomTypeId_r g = GEOS_LINESTRING)
    (hsplit : fromGeos (some splitGeos) = some (.point splitPoint)) :
    linePointDifference self splitGeos
      = some (.collection .multiLineString
          ((breakLine line splitPoint).filterMap
            (fun part => createGeosLinestring part self.mPrecision))) := by
  have hne : ¬ (GEOS_LINESTRING = GEOS_MULTILINESTRING) := by decide
  obtain ⟨z2, m2, hfold⟩ := foldl_addLine (breakLine line splitPoint) false false []
  have hcurve : ((QgsAbstractGeometry.collection .MultiLineString false false []).addGeometry
      (some (.lineString line))).geometries = [.lineString line] := rfl
  unfold linePointDifference
  simp only [hgeom, hgeos, htype, hne, if_false, if_true, hsplit, hcurve]
  simp only [List.nil_append, lineStringsOf, List.foldl_cons, List.foldl_nil, hfold, asGeos,
    asGeosOf, geomVector_lineStrings, createGeosCollection, collectionTypeId,
    GEOSGeom_createCollection_r, GEOSCollectionType.ofTypeId, Option.map_some',
    List.filterMap_map]
  rfl

theorem pointN_ordinates (l : QgsLineString) (i : Nat) (h : i < l.numPoints) :
    (l.pointN (i : Int)).x = l.xAt i ∧ (l.pointN (i : Int)).y = l.yAt i
      ∧ (l.is3D = true → (l.pointN (i : Int)).z = l.zAt i) := by
  have hvalid : ¬ ((i : Int) < 0 ∨ (l.numPoints : Int) ≤ i) := by omega
  unfold QgsLineString.pointN
  rw [if_neg hvalid]
  refine ⟨rfl, rfl, ?_⟩
  intro hz
  simp [QgsPoint.ofType, QgsPoint.z, hz]

theorem line_points_flags (line : QgsLineString) :
    ∀ q ∈ line.points, q.is3D = line.is3D ∧ q.isMeasure = line.isMeasure := by
  intro q hq
  simp only [QgsLineString.points, List.mem_map, List.mem_range] at hq
  obtain ⟨i, hi, rfl⟩ := hq
  exact pointN_flags line i hi

theorem ofPoints_of_flags (line : QgsLineString) (ps : List QgsPoint) (hne : ps ≠ [])
    (hflags : ∀ q ∈ ps, q.is3D = line.is3D ∧ q.isMeasure = line.isMeasure) :
    (QgsLineString.ofPoints ps).points = ps ∧ (QgsLineString.ofPoints ps).is3D = line.is3D := by
  cases ps with
  | nil => exact absurd rfl hne
  | cons p rest =>
    have hp := hflags p (List.mem_cons_self _ _)
    refine ⟨ofPoints_points p rest (fun q hq => ?_), ?_⟩
    · have h := hflags q (List.mem_cons_of_mem _ hq)
      exact ⟨h.1.trans hp.1.symm, h.2.trans hp.2.symm⟩
    · rw [ofPoints_cons]
      exact hp.1

theorem createGeosLinestring_ofPoints (line : QgsLineString) (precision : ℚ)
    (h : 1 ≤ line.numPoints) :
    createGeosLinestring (QgsLineString.ofPoints line.points) precision
      = createGeosLinestring line precision := by
  have hlen : line.points.length = line.numPoints := by simp [QgsLineString.points]
  have hne : line.points ≠ [] := by
    intro h0
    rw [h0] at hlen
    simp at hlen
    omega
  obtain ⟨hpts, h3d⟩ := ofPoints_of_flags line line.points hne (line_points_flags line)
  have hnum : (QgsLineString.ofPoints line.points).numPoints = line.numPoints := by
    rw [ofPoints_numPoints, hlen]
  have hpt : ∀ i, i < line.numPoints →
      (QgsLineString.ofPoints line.points).pointN (i : Int) = line.pointN (i : Int) := by
    intro i hi
    have h1 : (QgsLineString.ofPoints line.points).points
        = (List.range line.numPoints).map
            (fun (i : Nat) => (QgsLineString.ofPoints line.points).pointN (i : Int)) := by
      have h0 : (QgsLineString.ofPoints line.points).points
          = (List.range (QgsLineString.ofPoints line.points).numPoints).map
              (fun (i : Nat) => (QgsLineString.ofPoints line.points).pointN (i : Int)) := rfl
      rw [hnum] at h0
      exact h0
    have h2 : (List.range line.numPoints).map
          (fun (i : Nat) => (QgsLineString.ofPoints line.points).pointN (i : Int))
        = (List.range line.numPoints).map (fun (i : Nat) => line.pointN (i : Int)) := by
      rw [← h1, hpts]
      rfl
    exact (List.map_inj_left.mp h2) i (List.mem_range.mpr hi)
  have hstored : ∀ i ∈ List.range line.numPoints,
      storedCoordinate (QgsLineString.ofPoints line.points) precision i
        = storedCoordinate line precision i := by
    intro i hi
    have hi2 : i < line.numPoints := List.mem_range.mp hi
    have hmod : i % line.numPoints = i := Nat.mod_eq_of_lt hi2
    obtain ⟨hx1, hy1, hz1⟩ := pointN_ordinates (QgsLineString.ofPoints line.points) i
      (by rw [hnum]; exact hi2)
    obtain ⟨hx2, hy2, hz2⟩ := pointN_ordinates line i hi2
    have hp := hpt i hi2
    unfold storedCoordinate
    rw [hnum, hmod, h3d, ← hx1, ← hy1, ← hx2, ← hy2, hp]
    cases hz : line.is3D
    · rfl
    · rw [h3d] at hz1
      rw [← hz1 hz, ← hz2 hz, hp]
  unfold createGeosLinestring
  rw [createCoordinateSequence_stored, createCoordinateSequence_stored]
  have hout1 : numOutPoints (QgsLineString.ofPoints line.points) false = line.numPoints := by
    simp [numOutPoints, hnum]
  have hout2 : numOutPoints line false = line.numPoints := by
    simp [numOutPoints]
  rw [hout1, hout2, h3d, List.map_congr_left hstored]

/-- C25: the per-vertex line break.  For every line string with the vertices v0..vn, n ≥ 1,
and every split point, the loop of `linePointDifference` yields 1 + k lines, k being the
number of inner vertices v1..v(n-1) equal to the split point; every line has at least two
vertices; each line after the first starts with the vertex that ends the line before it;
the vertices of the first line followed by the vertices of the other lines without their
first vertex are v0..vn; a split point equal to no inner vertex leaves one line with the
vertices v0..vn.  On a line-string receiver `linePointDifference` returns the native
multi-line-string of these lines in their order, every one of them converting; when no
inner vertex equals the split point it is the multi-line-string of the native form of the
line alone. -/
theorem linePointDifference_breaks (line : QgsLineString) (splitPoint : QgsPoint)
    (hn : 2 ≤ line.numPoints) :
    (breakLine line splitPoint).length
        = 1 + (line.points.tail.dropLast).countP (fun v => v.equals splitPoint)
      ∧ (∀ part ∈ breakLine line splitPoint, 2 ≤ part.numPoints)
      ∧ List.Chain' (fun a b : List QgsPoint => a.getLast? = b.head?)
          ((breakLine line splitPoint).map QgsLineString.points)
      ∧ (((breakLine line splitPoint).map QgsLineString.points).head?.getD []
          ++ ((breakLine line splitPoint).map QgsLineString.points).tail.flatMap List.tail
          = line.points)
      ∧ ((line.points.tail.dropLast).countP (fun v => v.equals splitPoint) = 0 →
          (breakLine line splitPoint).map QgsLineString.points = [line.points])
      ∧ (∀ part ∈ breakLine line splitPoint,
          ∀ precision : ℚ, (createGeosLinestring part precision).isSome = true)
      ∧ (∀ (self : QgsGeos) (g splitGeos : GEOSGeometry),
          self.mGeometry = some (.lineString line) → self.mGeos = some g →
          GEOSGeomTypeId_r g = GEOS_LINESTRING →
          fromGeos (some splitGeos) = some (.point splitPoint) →
          linePointDifference self splitGeos
              = some (.collection .multiLineString
                  ((breakLine line splitPoint).filterMap
                    (fun part => createGeosLinestring part self.mPrecision)))
            ∧ ((line.points.tail.dropLast).countP (fun v => v.equals splitPoint) = 0 →
              linePointDifference self splitGeos
                = (createGeosLinestring line self.mPrecision).map
                    (fun native => .collection .multiLineString [native]))) := by
  have hsplit := points_split line hn
  have htail : line.points.tail.dropLast
      = (List.range' 1 (line.numPoints - 2)).map (fun (j : Nat) => line.pointN (j : Int)) := by
    rw [hsplit, List.tail_cons, List.dropLast_concat]
  obtain ⟨suffix, others, hb, hne, hs, hlen, hchain, hcount⟩ := breakPoints_structure splitPoint
    ((List.range' 1 (line.numPoints - 2)).map (fun (j : Nat) => line.pointN (j : Int)))
    [line.pointN 0] (line.pointN ((line.numPoints : Int) - 1))
  have hbreak := breakLine_eq line splitPoint
  rw [hb] at hbreak
  have hmemline : ∀ part ∈ ([line.pointN 0] ++ suffix) :: others, ∀ q ∈ part, q ∈ line.points := by
    intro part hp q hq
    rw [← hb] at hp
    rw [hsplit]
    rcases breakPoints_mem splitPoint _ _ _ part hp q hq with h | h | h
    · rw [List.mem_singleton.mp h]
      exact List.mem_cons_self _ _
    · exact List.mem_cons_of_mem _ (List.mem_append.mpr (Or.inl h))
    · rw [h]
      exact List.mem_cons_of_mem _ (List.mem_append.mpr (Or.inr (List.mem_singleton.mpr rfl)))
  have hnonempty : ∀ part ∈ ([line.pointN 0] ++ suffix) :: others, part ≠ [] := by
    intro part hp
    rcases List.mem_cons.mp hp with h | h
    · rw [h]
      simp
    · intro h0
      have := hlen part h
      rw [h0] at this
      simp at this
  have hpoints : ((([line.pointN 0] ++ suffix) :: others).map QgsLineString.ofPoints).map
      QgsLineString.points = ([line.pointN 0] ++ suffix) :: others := by
    rw [List.map_map]
    conv_rhs => rw [← List.map_id (([line.pointN 0] ++ suffix) :: others)]
    apply List.map_congr_left
    intro part hp
    exact (ofPoints_of_flags line part (hnonempty part hp)
      (fun q hq => line_points_flags line q (hmemline part hp q hq))).1
  have hparts2 : ∀ part ∈ breakLine line splitPoint, 2 ≤ part.numPoints := by
    intro part hp
    rw [hbreak, List.mem_map] at hp
    obtain ⟨ps, hps, rfl⟩ := hp
    rw [ofPoints_numPoints]
    rcases List.mem_cons.mp hps with h | h
    · rw [h]
      have : 0 < suffix.length := List.length_pos.mpr hne
      simp only [List.singleton_append, List.length_cons]
      omega
    · exact hlen ps h
  have hrestore : ([line.pointN 0] ++ suffix) ++ others.flatMap List.tail = line.points := by
    rw [hsplit, List.append_assoc, hs]
    rfl
  have hzero : (line.points.tail.dropLast).countP (fun v => v.equals splitPoint) = 0 →
      ([line.pointN 0] ++ suffix) :: others = [line.points] := by
    intro h0
    rw [htail, ← hcount] at h0
    have ho : others = [] := List.length_eq_zero.mp h0
    rw [ho] at hrestore ⊢
    simp only [List.flatMap_nil, List.append_nil] at hrestore
    rw [hrestore]
  refine ⟨?_, hparts2, ?_, ?_, ?_, ?_, ?_⟩
  · rw [hbreak, htail, ← hcount]
    simp only [List.map_cons, List.length_cons, List.length_map]
    omega
  · rw [hbreak, hpoints]
    exact hchain
  · rw [hbreak, hpoints]
    exact hrestore
  · intro h0
    rw [hbreak, hpoints]
    exact hzero h0
  · intro part hp precision
    obtain ⟨native, hnative⟩ := createGeosLinestring_isSome part precision (hparts2 part hp)
    rw [hnative]
    rfl
  · intro self g splitGeos hgeom hgeos htype hpt
    have heq := linePointDifference_eq self line g splitGeos splitPoint hgeom hgeos htype hpt
    refine ⟨heq, ?_⟩
    intro h0
    rw [heq, hbreak, hzero h0]
    simp only [List.map_cons, List.map_nil, List.filterMap_cons, List.filterMap_nil,
      createGeosLinestring_ofPoints line self.mPrecision (by omega)]
    obtain ⟨native, hnative⟩ := createGeosLinestring_isSome line self.mPrecision hn
    rw [hnative]
    rfl

/-- Witness of C25: the line (0 0, 1 0, 2 0, 3 0, 4 1) broken at its vertex (2 0): one inner
vertex equals the split point, and the loop yields two lines. -/
theorem linePointDifference_breaks_witness :
    (breakLine fiveVertexLine { x := 2, y := 0, zValue := none, mValue := none }).length
        = 1 + (fiveVertexLine.points.tail.dropLast).countP
            (fun v => v.equals { x := 2, y := 0, zValue := none, mValue := none })
      ∧ (fiveVertexLine.points.tail.dropLast).countP
            (fun v => v.equals { x := 2, y := 0, zValue := none, mValue := none }) = 1 :=
  ⟨(linePointDifference_breaks fiveVertexLine
      { x := 2, y := 0, zValue := none, mValue := none } (by decide)).1, by decide!⟩

/-- C2: the vertex threshold of `subdivide` has a floor of 8.  A threshold below 8 gives the
result of the threshold 8; for every threshold, `subdivide` returns the collection of the parts
that `subdivideRecursive` emits for the threshold `max(maxNodes, 8)` on the bounding box of the
receiver; every part emitted by the vertex-count test of that run has at least one vertex and
fewer than `max(maxNodes, 8)` vertices (the library handing out multi-points made of points);
and a single-part receiver with vertices on a rectangle that is not degenerate is returned whole
exactly when it has fewer than `max(maxNodes, 8)` vertices: with that many vertices or more it
is clipped, so that an exception of the clipping call makes the result null. -/
theorem subdivide_threshold_floor (ctxt : GEOSContextHandle_t) (self : QgsGeos)
    (mGeos : GEOSGeometry) (mGeometry : QgsAbstractGeometry)
    (hgeos : self.mGeos = some mGeos) (hgeom : self.mGeometry = some mGeometry)
    (hreg : mGeos.multiPointsOfPoints = true)
    (hclip : ∀ part x0 y0 x1 y1 c,
      ctxt.GEOSClipByRect_r part x0 y0 x1 y1 = .ok c → c.multiPointsOfPoints = true) :
    (∀ maxNodes : Int, maxNodes < 8 →
        QgsGeos.subdivide ctxt self maxNodes = QgsGeos.subdivide ctxt self 8)
      ∧ (∀ maxNodes : Int,
          QgsGeos.subdivide ctxt self maxNodes
            = if (QgsGeos.subdivideRecursive ctxt mGeos (max maxNodes 8) 0
                    mGeometry.boundingBox).raised then none
              else some ((QgsGeos.subdivideRecursive ctxt mGeos (max maxNodes 8) 0
                    mGeometry.boundingBox).parts.foldl
                  (fun parts part => parts.addGeometry (QgsGeos.fromGeos (some part.2)))
                  (createCollectionOfType mGeometry)))
      ∧ (∀ (maxNodes : Int) (g : GEOSGeometry) (part : QgsAbstractGeometry),
          (EmitReason.belowThreshold, g)
              ∈ (QgsGeos.subdivideRecursive ctxt mGeos (max maxNodes 8) 0
                  mGeometry.boundingBox).parts →
            QgsGeos.fromGeos (some g) = some part →
              1 ≤ part.nCoordinates ∧ (part.nCoordinates : Int) < max maxNodes 8)
      ∧ (∀ maxNodes : Int, QgsGeos.isDegenerate mGeometry.boundingBox = false →
          QgsGeos.isSubdividedByMembers (GEOSGeomTypeId_r mGeos) = false →
          GEOSGetNumCoordinates_r mGeos ≠ 0 →
            ((GEOSGetNumCoordinates_r mGeos : Int) < max maxNodes 8 →
                QgsGeos.subdivide ctxt self maxNodes
                  = some ((createCollectionOfType mGeometry).addGeometry
                      (QgsGeos.fromGeos (some mGeos))))
              ∧ (max maxNodes 8 ≤ (GEOSGetNumCoordinates_r mGeos : Int) →
                  ∀ e, QgsGeos.clipByRect ctxt mGeos
                        (QgsGeos.halfClipRects mGeometry.boundingBox).1 = .error e →
                    QgsGeos.subdivide ctxt self maxNodes = none)) := by
  refine ⟨?_, ?_, ?_, ?_⟩
  · intro maxNodes h
    have h1 : max maxNodes 8 = 8 := max_eq_right (le_of_lt h)
    have h2 : max (8 : Int) 8 = 8 := max_self 8
    simp only [QgsGeos.subdivide, h1, h2]
  · intro maxNodes
    simp only [QgsGeos.subdivide, hgeos, hgeom]
  · intro maxNodes g part he hconv
    obtain ⟨-, hbelow, -, hregular⟩ :=
      subdivideRecursive_emitted ctxt hclip mGeos (max maxNodes 8) 0 mGeometry.boundingBox hreg _ he
    obtain ⟨hsingle, hpos, hlt⟩ := hbelow rfl
    have hcount := fromGeosOf_nCoordinates g part hregular hsingle hconv
    have h8 : (8 : Int) ≤ max maxNodes 8 := le_max_right _ _
    simp only at hpos hlt
    split at hcount
    · rw [hcount]; exact ⟨le_refl 1, by omega⟩
    · rw [hcount]; exact ⟨hpos, hlt⟩
  · intro maxNodes hdeg hsingle hne
    have hz : ¬ ((GEOSGetNumCoordinates_r mGeos : Int) = 0) := by
      intro h
      exact hne (by exact_mod_cast h)
    have hd : ¬ ((0 : Int) > 50) := by decide
    constructor
    · intro hlt
      simp only [QgsGeos.subdivide, hgeos, hgeom]
      rw [QgsGeos.subdivideRecursive_single _ _ _ _ _ hdeg hsingle]
      simp only [hd, if_false, hz, hlt, if_true, SubdivideTrace.emit, Bool.false_eq_true,
        List.foldl_cons, List.foldl_nil]
    · intro hge e herr
      have hlt : ¬ ((GEOSGetNumCoordinates_r mGeos : Int) < max maxNodes 8) := not_lt.mpr hge
      simp only [QgsGeos.subdivide, hgeos, hgeom]
      rw [QgsGeos.subdivideRecursive_single _ _ _ _ _ hdeg hsingle]
      simp only [hd, if_false, hz, hlt, herr]
      rfl

theorem nineVertex_single :
    QgsGeos.isDegenerate (QgsAbstractGeometry.lineString nineVertexLine).boundingBox = false
      ∧ QgsGeos.isSubdividedByMembers (GEOSGeomTypeId_r nineVertexLineGeos) = false
      ∧ GEOSGetNumCoordinates_r nineVertexLineGeos = 9 := by
  refine ⟨?_, rfl, rfl⟩
  rw [nineVertex_boundingBox]
  exact nineVertex_notDegenerate 0 8 (by norm_num)

/-- Witness of C2: at the engine of the nine-vertex line the threshold 3 gives the result of the
threshold 8; with a library whose clipping call raises, the threshold 10 returns the line whole
and the threshold 9 makes the call clip it, so that the result is null. -/
theorem subdivide_threshold_floor_witness :
    QgsGeos.subdivide cuttingContext nineVertexEngine 3
        = QgsGeos.subdivide cuttingContext nineVertexEngine 8
      ∧ QgsGeos.subdivide raisingContext nineVertexEngine 10
        = some ((createCollectionOfType (.lineString nineVertexLine)).addGeometry
            (QgsGeos.fromGeos (some nineVertexLineGeos)))
      ∧ QgsGeos.subdivide raisingContext nineVertexEngine 9 = none :=
  ⟨(subdivide_threshold_floor cuttingContext nineVertexEngine nineVertexLineGeos
      (.lineString nineVertexLine) rfl rfl (by rfl) cuttingContext_clip).1 3 (by decide),
    ((subdivide_threshold_floor raisingContext nineVertexEngine nineVertexLineGeos
      (.lineString nineVertexLine) rfl rfl (by rfl)
      (fun _ _ _ _ _ _ h => by simp [raisingContext] at h)).2.2.2 10
        nineVertex_single.1 nineVertex_single.2.1 (by decide)).1 (by decide),
    ((subdivide_threshold_floor raisingContext nineVertexEngine nineVertexLineGeos
      (.lineString nineVertexLine) rfl rfl (by rfl)
      (fun _ _ _ _ _ _ h => by simp [raisingContext] at h)).2.2.2 9
        nineVertex_single.1 nineVertex_single.2.1 (by decide)).2 (by decide) {} rfl⟩

/-- C6 (counterexample): the cutting line (1 -1, 1 3) has two points and the library finds its
native form invalid, yet `splitGeometry` does not report `InvalidInput` for every receiver: on
the point receiver it reports `SplitCannotSplitPoint`, and on the square, which the library
finds invalid too, it reports `InvalidBaseGeometry`; the receiver is tested first. -/
theorem splitGeometry_malformed_line_receiver_first :
    QgsGeos.createSplitLineGeos middleCutLine 0 = some (some middleCutLineGeos)
      ∧ invalidContext.GEOSisValid_r middleCutLineGeos = .ok false
      ∧ QgsGeos.splitGeometry invalidContext pointEngine middleCutLine [] false []
          = .ok ⟨SplitCannotSplitPoint, [], []⟩
      ∧ QgsGeos.splitGeometry invalidContext squareEngine middleCutLine [] false []
          = .ok ⟨InvalidBaseGeometry, [], []⟩
      ∧ SplitCannotSplitPoint ≠ InvalidInput
      ∧ InvalidBaseGeometry ≠ InvalidInput := by
  refine ⟨?_, rfl, ?_, ?_, by decide, by decide⟩
  · have hn : middleCutLine.numPoints > 1 := by decide
    simp only [QgsGeos.createSplitLineGeos, hn, if_true, middleCutLine_created]
  · simp [QgsGeos.splitGeometry, pointEngine, QgsAbstractGeometry.dimension]
  · have hdim : squarePolygon.dimension = 2 := rfl
    simp [QgsGeos.splitGeometry, squareEngine, hdim, invalidContext]

/-- C12 (counterexample): the engine constructed on the line (0 0, 1 0) is a reachable state in
which the native geometry is cached and the prepared form is absent: the two caches are neither
both absent nor both present. -/
theorem caches_native_without_prepared :
    QgsGeos.Reachable raisingContext (QgsGeos.construct (some (.lineString unmeasuredLine)) 0)
      ∧ (QgsGeos.construct (some (.lineString unmeasuredLine)) 0).mGeos = some unmeasuredLineGeos
      ∧ (QgsGeos.construct (some (.lineString unmeasuredLine)) 0).mGeosPrepared = none
      ∧ ¬ (((QgsGeos.construct (some (.lineString unmeasuredLine)) 0).mGeos = none
              ∧ (QgsGeos.construct (some (.lineString unmeasuredLine)) 0).mGeosPrepared = none)
            ∨ ((QgsGeos.construct (some (.lineString unmeasuredLine)) 0).mGeos.isSome = true
              ∧ (QgsGeos.construct (some (.lineString unmeasuredLine)) 0).mGeosPrepared.isSome
                  = true)) := by
  have hg : (QgsGeos.construct (some (.lineString unmeasuredLine)) 0).mGeos
      = some unmeasuredLineGeos := by
    simp [QgsGeos.construct, QgsGeos.cacheGeos, unmeasuredLine_asGeos]
  have hp : (QgsGeos.construct (some (.lineString unmeasuredLine)) 0).mGeosPrepared = none := by
    simp [QgsGeos.construct, QgsGeos.cacheGeos]
  refine ⟨QgsGeos.Reachable.construct _ _, hg, hp, ?_⟩
  rw [hg, hp]
  simp

/-! ## C11: the snapping of coordinates, computed in doubles -/

theorem isDouble_DBL_MAX : IsDouble DBL_MAX :=
  ⟨2 ^ 53 - 1, 971, by norm_num, by norm_num, by rw [DBL_MAX]; norm_num⟩

/-- Rounding keeps a value within the range of the finite doubles. -/
theorem toDouble_abs_le_max {x : ℚ} (h : |x| ≤ DBL_MAX) : |toDouble x| ≤ DBL_MAX := by
  have hneg : IsDouble (-DBL_MAX) := by
    obtain ⟨m, k, hm, hk, he⟩ := isDouble_DBL_MAX
    exact ⟨-m, k, by rwa [abs_neg], hk, by rw [he]; push_cast; ring⟩
  rw [abs_le] at h ⊢
  exact ⟨le_toDouble_of_le hneg h.1, toDouble_le_of_le isDouble_DBL_MAX h.2⟩

/-- The function `std::round` takes doubles to doubles. -/
theorem stdRound_isDouble {q : ℚ} (hq : IsDouble q) : IsDouble (stdRound q) := by
  obtain ⟨m, e, hm, he, rfl⟩ := hq
  by_cases h0 : 0 ≤ e
  · have hint : (m : ℚ) * 2 ^ e = ((m * 2 ^ e.toNat : ℤ) : ℚ) := by
      push_cast
      rw [← zpow_natCast, Int.toNat_of_nonneg h0]
    rw [hint, stdRound_intCast, ← hint]
    exact ⟨m, e, hm, he, rfl⟩
  · obtain ⟨r, hr⟩ := stdRound_isInt ((m : ℚ) * 2 ^ e)
    have hnear := stdRound_near ((m : ℚ) * 2 ^ e)
    rw [hr] at hnear ⊢
    have hpow : (2 : ℚ) ^ e ≤ 1 / 2 := by
      have : (2 : ℚ) ^ e ≤ 2 ^ (-1 : ℤ) := zpow_le_zpow_right₀ (by norm_num) (by omega)
      simpa using this
    have hmq : |(m : ℚ)| ≤ 2 ^ 53 := by
      have : |m| ≤ 2 ^ 53 := le_of_lt hm
      exact_mod_cast this
    have hq : |(m : ℚ) * 2 ^ e| ≤ 2 ^ 52 := by
      rw [abs_mul, abs_of_pos (two_zpow_pos e)]
      calc |(m : ℚ)| * 2 ^ e ≤ 2 ^ 53 * (1 / 2) :=
            mul_le_mul hmq hpow (le_of_lt (two_zpow_pos e)) (by norm_num)
        _ = 2 ^ 52 := by norm_num
    have hr2 : |(r : ℚ)| ≤ 2 ^ 52 + 1 / 2 := by
      have := abs_sub_abs_le_abs_sub (r : ℚ) ((m : ℚ) * 2 ^ e)
      rw [abs_sub_comm] at this
      linarith
    have hr3 : |r| ≤ 2 ^ 53 := by
      have h1 : |(r : ℚ)| < 2 ^ 52 + 1 := by linarith
      have h2 : |r| < 2 ^ 52 + 1 := by exact_mod_cast h1
      have h3 : (2 : ℤ) ^ 52 + 1 ≤ 2 ^ 53 := by norm_num
      omega
    have := isDouble_intCast_mul r 0 hr3 (by norm_num)
    simpa using this

/-- In exact arithmetic the snapped value is a multiple of the precision nearest to `v`. -/
theorem snapped_nearest_multiple (p v : ℚ) (hp : p > 0) (k : ℤ) :
    |v - stdRound (v / p) * p| ≤ |v - (k : ℚ) * p| := by
  have h := stdRound_nearest (v / p) k
  have hne : p ≠ 0 := ne_of_gt hp
  have e1 : v - stdRound (v / p) * p = (v / p - stdRound (v / p)) * p := by
    rw [sub_mul, div_mul_cancel₀ v hne]
  have e2 : v - (k : ℚ) * p = (v / p - (k : ℚ)) * p := by
    rw [sub_mul, div_mul_cancel₀ v hne]
  rw [e1, e2, abs_mul, abs_mul]
  exact mul_le_mul_of_nonneg_right h (abs_nonneg _)

/-- C11 (counterexample): the ordinate 0.25 and the precision 0.1, both doubles.  The quotient of
the two doubles is rounded to 2.5, `std::round` makes it 3 and the product is rounded to
0.30000000000000004: this is what both builders store.  The value of the claim is
`round(v / p) * p` = 2 p, because `v / p` lies below 2.5, and it is the nearer one; the stored
value is not even a multiple of the precision. -/
theorem snapping_rounds_in_doubles :
    createGeosPointXY (1 / 4) 0 false 0 false 0 2 (toDouble (1 / 10))
        = some (.point { dims := 2, coords := [⟨5404319552844596 / 18014398509481984, 0, 0⟩] })
      ∧ createCoordinateSequence quarterLine (toDouble (1 / 10)) false
        = some { dims := 2, coords := [⟨5404319552844596 / 18014398509481984, 0, 0⟩,
                                        ⟨1, 0, 0⟩] }
      ∧ toDouble (1 / 4) = 1 / 4
      ∧ stdRound ((1 / 4) / toDouble (1 / 10)) * toDouble (1 / 10) = 2 * toDouble (1 / 10)
      ∧ (5404319552844596 / 18014398509481984 : ℚ) ≠ 2 * toDouble (1 / 10)
      ∧ |(1 / 4 : ℚ) - 2 * toDouble (1 / 10)| < |1 / 4 - 5404319552844596 / 18014398509481984|
      ∧ ∀ k : ℤ, (k : ℚ) * toDouble (1 / 10) ≠ 5404319552844596 / 18014398509481984 := by
  have hp : toDouble (1 / 10) = 3602879701896397 / 36028797018963968 := by decide!
  have h1 : storedOrdinate (toDouble (1 / 10)) (1 / 4)
      = 5404319552844596 / 18014398509481984 := by decide!
  have h0 : storedOrdinate (toDouble (1 / 10)) 0 = 0 := by decide!
  refine ⟨by rw [createGeosPointXY_stored, h1, h0]; rfl, by decide!, by decide!, by decide!,
    by decide!, by decide!, ?_⟩
  intro k hk
  rw [hp] at hk
  have h3 : (3 : ℚ) < k := by
    have : (3 : ℚ) * (3602879701896397 / 36028797018963968)
        < (k : ℚ) * (3602879701896397 / 36028797018963968) := by rw [hk]; norm_num
    exact lt_of_mul_lt_mul_right this (by norm_num)
  have h4 : (k : ℚ) < 4 := by
    have : (k : ℚ) * (3602879701896397 / 36028797018963968)
        < (4 : ℚ) * (3602879701896397 / 36028797018963968) := by rw [hk]; norm_num
    exact lt_of_mul_lt_mul_right this (by norm_num)
  have h3z : (3 : ℤ) < k := by exact_mod_cast h3
  have h4z : k < (4 : ℤ) := by exact_mod_cast h4
  omega

/-- C11 (amended): coordinate snapping is uniform over the two builders, and it is computed in
doubles.  `createCoordinateSequence` and `createGeosPointXY` store every x, y and (with Z) z
ordinate `v` as `storedOrdinate precision v`, and the point built from the ordinates of a vertex
holds the coordinate stored for that vertex.  For a positive precision, and as long as the
quotient and the product stay within the range of the doubles, the stored ordinate is the
double nearest to `k * precision`, where `k` is `std::round` of the double nearest to
`v / precision`; for other precisions it is `v` itself.  Whenever the quotient and the product
are doubles themselves, the stored ordinate is `round(v / precision) * precision` exactly, a
multiple of the precision nearest to `v`, and storing it again changes nothing. -/
theorem snapping_uniform (line : QgsLineString) (forceClose : Bool) (x y z m : ℚ)
    (hasZ hasM : Bool) (coordDims : Nat) (precision v : ℚ) (i : Nat) :
    createCoordinateSequence line precision forceClose
        = some { dims := 2 + (if line.is3D then 1 else 0),
                 coords := (List.range (numOutPoints line forceClose)).map
                   (storedCoordinate line precision) }
      ∧ createGeosPointXY x y hasZ z hasM m coordDims precision
        = some (.point { dims := coordDims,
                         coords := [⟨storedOrdinate precision x, storedOrdinate precision y,
                                     if hasZ then storedOrdinate precision z else 0⟩] })
      ∧ createGeosPointXY (line.xAt (i % line.numPoints)) (line.yAt (i % line.numPoints))
            line.is3D (line.zAt (i % line.numPoints)) hasM m coordDims precision
        = some (.point { dims := coordDims, coords := [storedCoordinate line precision i] })
      ∧ (precision > 0 → |v / precision| ≤ DBL_MAX →
          |stdRound (toDouble (v / precision)) * precision| ≤ DBL_MAX →
          storedOrdinate precision v
              = toDouble (stdRound (toDouble (v / precision)) * precision)
            ∧ IsDouble (storedOrdinate precision v)
            ∧ |storedOrdinate precision v| ≤ DBL_MAX
            ∧ ∀ d, IsDouble d →
                |stdRound (toDouble (v / precision)) * precision - storedOrdinate precision v|
                  ≤ |stdRound (toDouble (v / precision)) * precision - d|)
      ∧ (precision ≤ 0 → storedOrdinate precision v = v)
      ∧ (precision > 0 → toDouble (v / precision) = v / precision →
          toDouble (stdRound (v / precision) * precision) = stdRound (v / precision) * precision →
          storedOrdinate precision v = stdRound (v / precision) * precision
            ∧ (∃ k : ℤ, storedOrdinate precision v = (k : ℚ) * precision)
            ∧ (∀ k : ℤ, |v - storedOrdinate precision v| ≤ |v - (k : ℚ) * precision|)
            ∧ storedOrdinate precision (storedOrdinate precision v)
                = storedOrdinate precision v) := by
  refine ⟨createCoordinateSequence_stored line precision forceClose,
    createGeosPointXY_stored x y hasZ z hasM m coordDims precision, ?_, ?_, ?_, ?_⟩
  · rw [createGeosPointXY_stored]; rfl
  · intro hp _ hprod
    have hs : storedOrdinate precision v
        = toDouble (stdRound (toDouble (v / precision)) * precision) := by
      simp [storedOrdinate, hp]
    rw [hs]
    exact ⟨rfl, toDouble_isDouble _, toDouble_abs_le_max hprod,
      fun d hd => toDouble_nearest _ d hd⟩
  · intro hp
    simp [storedOrdinate, not_lt.mpr hp]
  · intro hp hquot hprod
    have hne : precision ≠ 0 := ne_of_gt hp
    have hs : storedOrdinate precision v = stdRound (v / precision) * precision := by
      simp [storedOrdinate, hp, hquot, hprod]
    obtain ⟨k, hk⟩ := stdRound_isInt (v / precision)
    refine ⟨hs, ⟨k, by rw [hs, hk]⟩, ?_, ?_⟩
    · intro j
      rw [hs]
      exact snapped_nearest_multiple precision v hp j
    · have hkd : IsDouble (k : ℚ) := by
        rw [← hk]
        exact stdRound_isDouble (hquot ▸ toDouble_isDouble (v / precision))
      rw [hs]
      simp only [storedOrdinate, hp, if_true]
      rw [hk, mul_div_assoc, div_self hne, mul_one, toDouble_of_isDouble _ hkd, stdRound_intCast,
        ← hk, hprod]

/-- Witness of C11: on the grid of 1/2 the ordinate 3/8 is stored as 1/2 by both builders, and
1/2 is a multiple of the precision nearest to 3/8. -/
theorem snapping_uniform_witness :
    createGeosPointXY (3 / 8) 0 false 0 false 0 2 (1 / 2)
        = some (.point { dims := 2,
                         coords := [⟨storedOrdinate (1 / 2) (3 / 8), storedOrdinate (1 / 2) 0,
                                     if false then storedOrdinate (1 / 2) 0 else 0⟩] })
      ∧ storedOrdinate (1 / 2) (3 / 8) = stdRound ((3 / 8) / (1 / 2)) * (1 / 2)
      ∧ (∀ k : ℤ, |(3 / 8 : ℚ) - storedOrdinate (1 / 2) (3 / 8)| ≤ |3 / 8 - (k : ℚ) * (1 / 2)|)
      ∧ storedOrdinate (1 / 2) (storedOrdinate (1 / 2) (3 / 8)) = storedOrdinate (1 / 2) (3 / 8) :=
  have h := snapping_uniform openLineZ true (3 / 8) 0 0 0 false false 2 (1 / 2) (3 / 8) 0
  have h2 := h.2.2.2.2.2 (by norm_num) (by decide!) (by decide!)
  ⟨h.2.1, h2.1, h2.2.2.1, h2.2.2.2⟩

/-! ## C23: the two halves of a clip rectangle, computed in doubles -/

/-- The cut of a side between two doubles lies on the side. -/
theorem cutOrdinate_between {a b : ℚ} (ha : IsDouble a) (hb : IsDouble b)
    (hw : 0 < toDouble (b - a)) :
    a ≤ cutOrdinate a (toDouble (b - a)) ∧ cutOrdinate a (toDouble (b - a)) ≤ b := by
  have hpos : 0 < b - a := by
    by_contra h
    exact absurd (toDouble_nonpos (not_lt.mp h)) (not_le.mpr hw)
  have hhalf : 0 ≤ toDouble (toDouble (b - a) / 2) := toDouble_nonneg (by linarith)
  have hle : toDouble (toDouble (b - a) / 2) ≤ b - a := by
    by_cases hex : toDouble (b - a) = b - a
    · rw [hex]
      have h1 : toDouble ((b - a) / 2) ≤ toDouble (b - a) := toDouble_mono (by linarith)
      rwa [hex] at h1
    · rw [toDouble_of_isDouble _ (half_isDouble_of_rounded ha hb hex)]
      have h1 := toDouble_nearest (b - a) 0 isDouble_zero
      rw [sub_zero, abs_of_pos hpos, abs_le] at h1
      linarith
  unfold cutOrdinate
  exact ⟨le_toDouble_of_le ha (by linarith), toDouble_le_of_le hb (by linarith)⟩

/-- C23 (counterexample): the clip rectangle from (0.1, 0) to (0.3, 0.1) has positive width and
height and is wider than high.  The two halves meet at the double 0.2, which is neither
minimum + side / 2 for the exact side nor for the width in doubles: the exact midpoint lies
2^-56 below the cut. -/
theorem halfClipRects_cut_rounded :
    0 < tenthsRect.width ∧ 0 < tenthsRect.height ∧ tenthsRect.width > tenthsRect.height
      ∧ (halfClipRects tenthsRect).1.xMaximum = toDouble (2 / 10)
      ∧ (halfClipRects tenthsRect).2.xMinimum = toDouble (2 / 10)
      ∧ toDouble (2 / 10)
          ≠ tenthsRect.xMinimum + (tenthsRect.xMaximum - tenthsRect.xMinimum) / 2
      ∧ toDouble (2 / 10) ≠ tenthsRect.xMinimum + tenthsRect.width / 2
      ∧ toDouble (2 / 10)
            - (tenthsRect.xMinimum + (tenthsRect.xMaximum - tenthsRect.xMinimum) / 2)
          = 1 / 2 ^ 56 := by
  refine ⟨by decide!, by decide!, by decide!, by decide!, by decide!, by decide!, by decide!,
    by decide!⟩

/-- C23 (amended): for every clip rectangle of finite doubles with positive width and height
whose sides do not exceed the largest double, the two half rectangles of `subdivideRecursive`
bisect it along its longer side: the x range is cut when the width exceeds the height, the y
range otherwise.  The first half ends and the second half begins at the cut
`minimum + side / 2` computed in doubles, which lies between the minimum and the maximum of the
side and is `minimum + side / 2` itself when the three operations are exact; both halves lie
inside the clip rectangle, every point of the clip rectangle lies in one of them, and the points
in both are those of the clip rectangle on the cut line. -/
theorem halfClipRects_bisect (clipRect : QgsRectangle)
    (hx0 : IsDouble clipRect.xMinimum) (hx1 : IsDouble clipRect.xMaximum)
    (hy0 : IsDouble clipRect.yMinimum) (hy1 : IsDouble clipRect.yMaximum)
    (hxr : |clipRect.xMaximum - clipRect.xMinimum| ≤ DBL_MAX)
    (hyr : |clipRect.yMaximum - clipRect.yMinimum| ≤ DBL_MAX)
    (hw : 0 < clipRect.width) (hh : 0 < clipRect.height) :
    |clipRect.width| ≤ DBL_MAX ∧ |clipRect.height| ≤ DBL_MAX
      ∧ (clipRect.width > clipRect.height →
        (halfClipRects clipRect).1
            = { clipRect with xMaximum := cutOrdinate clipRect.xMinimum clipRect.width }
          ∧ (halfClipRects clipRect).2
            = { clipRect with xMinimum := cutOrdinate clipRect.xMinimum clipRect.width })
      ∧ (¬ clipRect.width > clipRect.height →
        (halfClipRects clipRect).1
            = { clipRect with yMaximum := cutOrdinate clipRect.yMinimum clipRect.height }
          ∧ (halfClipRects clipRect).2
            = { clipRect with yMinimum := cutOrdinate clipRect.yMinimum clipRect.height })
      ∧ (clipRect.xMinimum ≤ cutOrdinate clipRect.xMinimum clipRect.width
          ∧ cutOrdinate clipRect.xMinimum clipRect.width ≤ clipRect.xMaximum
          ∧ clipRect.yMinimum ≤ cutOrdinate clipRect.yMinimum clipRect.height
          ∧ cutOrdinate clipRect.yMinimum clipRect.height ≤ clipRect.yMaximum)
      ∧ (∀ lo hi : ℚ, toDouble (hi - lo) = hi - lo → toDouble ((hi - lo) / 2) = (hi - lo) / 2 →
          toDouble (lo + (hi - lo) / 2) = lo + (hi - lo) / 2 →
          cutOrdinate lo (toDouble (hi - lo)) = lo + (hi - lo) / 2)
      ∧ ∀ x y : ℚ,
          ((halfClipRects clipRect).1.covers x y → clipRect.covers x y)
            ∧ ((halfClipRects clipRect).2.covers x y → clipRect.covers x y)
            ∧ (clipRect.covers x y →
                (halfClipRects clipRect).1.covers x y ∨ (halfClipRects clipRect).2.covers x y)
            ∧ ((halfClipRects clipRect).1.covers x y ∧ (halfClipRects clipRect).2.covers x y
                ↔ clipRect.covers x y
                  ∧ (if clipRect.width > clipRect.height then
                      x = cutOrdinate clipRect.xMinimum clipRect.width
                    else y = cutOrdinate clipRect.yMinimum clipRect.height)) := by
  have hw2 : ¬ clipRect.width ≤ 0 := not_le.mpr hw
  have hh2 : ¬ clipRect.height ≤ 0 := not_le.mpr hh
  obtain ⟨x0, y0, x1, y1⟩ := clipRect
  simp only [QgsRectangle.width, QgsRectangle.height] at hw hh hw2 hh2 hx0 hx1 hy0 hy1 hxr hyr
  obtain ⟨hcx0, hcx1⟩ := cutOrdinate_between hx0 hx1 hw
  obtain ⟨hcy0, hcy1⟩ := cutOrdinate_between hy0 hy1 hh
  refine ⟨toDouble_abs_le_max hxr, toDouble_abs_le_max hyr, ?_⟩
  have hexact : ∀ lo hi : ℚ, toDouble (hi - lo) = hi - lo →
      toDouble ((hi - lo) / 2) = (hi - lo) / 2 →
      toDouble (lo + (hi - lo) / 2) = lo + (hi - lo) / 2 →
      cutOrdinate lo (toDouble (hi - lo)) = lo + (hi - lo) / 2 := by
    intro lo hi h1 h2 h3
    rw [cutOrdinate, h1, h2, h3]
  by_cases hlong : toDouble (x1 - x0) > toDouble (y1 - y0)
  · have h1 : (halfClipRects ⟨x0, y0, x1, y1⟩).1
        = ⟨x0, y0, cutOrdinate x0 (toDouble (x1 - x0)), y1⟩ := by
      simp [halfClipRects, QgsRectangle.width, QgsRectangle.height, hlong, hw2, hh2,
        QgsRectangle.setXMaximum, cutOrdinate]
    have h2 : (halfClipRects ⟨x0, y0, x1, y1⟩).2
        = ⟨cutOrdinate x0 (toDouble (x1 - x0)), y0, x1, y1⟩ := by
      simp [halfClipRects, QgsRectangle.width, QgsRectangle.height, hlong, hw2, hh2,
        QgsRectangle.setXMaximum, QgsRectangle.setXMinimum, cutOrdinate]
    refine ⟨fun _ => ⟨h1, h2⟩, fun h => absurd hlong h, ⟨hcx0, hcx1, hcy0, hcy1⟩, hexact, ?_⟩
    rw [h1, h2]
    simp only [QgsRectangle.width, QgsRectangle.height, hlong, if_true, QgsRectangle.covers]
    intro x y
    refine ⟨?_, ?_, ?_, ?_⟩
    · rintro ⟨a, b, c, d⟩
      exact ⟨a, by linarith, c, d⟩
    · rintro ⟨a, b, c, d⟩
      exact ⟨by linarith, b, c, d⟩
    · rintro ⟨a, b, c, d⟩
      rcases le_total x (cutOrdinate x0 (toDouble (x1 - x0))) with h | h
      · exact Or.inl ⟨a, h, c, d⟩
      · exact Or.inr ⟨h, b, c, d⟩
    · constructor
      · rintro ⟨⟨a, b, c, d⟩, ⟨a2, b2, _, _⟩⟩
        exact ⟨⟨a, b2, c, d⟩, le_antisymm b a2⟩
      · rintro ⟨⟨a, b, c, d⟩, e⟩
        exact ⟨⟨a, le_of_eq e, c, d⟩, ⟨le_of_eq e.symm, b, c, d⟩⟩
  · have h1 : (halfClipRects ⟨x0, y0, x1, y1⟩).1
        = ⟨x0, y0, x1, cutOrdinate y0 (toDouble (y1 - y0))⟩ := by
      simp [halfClipRects, QgsRectangle.width, QgsRectangle.height, hlong, hw2, hh2,
        QgsRectangle.setYMaximum, cutOrdinate]
    have h2 : (halfClipRects ⟨x0, y0, x1, y1⟩).2
        = ⟨x0, cutOrdinate y0 (toDouble (y1 - y0)), x1, y1⟩ := by
      simp [halfClipRects, QgsRectangle.width, QgsRectangle.height, hlong, hw2, hh2,
        QgsRectangle.setYMaximum, QgsRectangle.setYMinimum, cutOrdinate]
    refine ⟨fun h => absurd h hlong, fun _ => ⟨h1, h2⟩, ⟨hcx0, hcx1, hcy0, hcy1⟩, hexact, ?_⟩
    rw [h1, h2]
    simp only [QgsRectangle.width, QgsRectangle.height, hlong, if_false, QgsRectangle.covers]
    intro x y
    refine ⟨?_, ?_, ?_, ?_⟩
    · rintro ⟨a, b, c, d⟩
      exact ⟨a, b, c, by linarith⟩
    · rintro ⟨a, b, c, d⟩
      exact ⟨a, b, by linarith, d⟩
    · rintro ⟨a, b, c, d⟩
      rcases le_total y (cutOrdinate y0 (toDouble (y1 - y0))) with h | h
      · exact Or.inl ⟨a, b, c, h⟩
      · exact Or.inr ⟨a, b, h, d⟩
    · constructor
      · rintro ⟨⟨a, b, c, d⟩, ⟨_, _, c2, d2⟩⟩
        exact ⟨⟨a, b, c, d2⟩, le_antisymm d c2⟩
      · rintro ⟨⟨a, b, c, d⟩, e⟩
        exact ⟨⟨a, b, c, le_of_eq e⟩, ⟨a, b, le_of_eq e.symm, d⟩⟩

/-- Witness of C23: the rectangle from (0, 0) to (8, 1) is cut at x = 4. -/
theorem halfClipRects_bisect_witness :
    (halfClipRects { xMinimum := 0, yMinimum := 0, xMaximum := 8, yMaximum := 1 }).1
        = { xMinimum := 0, yMinimum := 0, xMaximum := 4, yMaximum := 1 }
      ∧ (halfClipRects { xMinimum := 0, yMinimum := 0, xMaximum := 8, yMaximum := 1 }).2
        = { xMinimum := 4, yMinimum := 0, xMaximum := 8, yMaximum := 1 } :=
  have h := (halfClipRects_bisect { xMinimum := 0, yMinimum := 0, xMaximum := 8, yMaximum := 1 }
    ⟨0, 0, by norm_num, by norm_num, by norm_num⟩ ⟨8, 0, by norm_num, by norm_num, by norm_num⟩
    ⟨0, 0, by norm_num, by norm_num, by norm_num⟩ ⟨1, 0, by norm_num, by norm_num, by norm_num⟩
    (by decide!) (by decide!) (by decide!) (by decide!)).2.2.1 (by decide!)
  have hc : cutOrdinate 0 (QgsRectangle.width
      { xMinimum := 0, yMinimum := 0, xMaximum := 8, yMaximum := 1 }) = 4 := by decide!
  ⟨h.1.trans (by rw [hc]), h.2.trans (by rw [hc])⟩

/-! ## C26: the digits of the envelope -/

/-- When every part of a multi-line-string or multi-polygon receiver of n parts is answered
by `reshapeLine` or `reshapePolygon`, `reshapeGeometry` reassembles the parts: when at least
one part was reshaped it reports `Success` and converts the multi-geometry of the n new parts,
the reshaped part where there is one and the original part otherwise, in the order of the
parts; when no part was reshaped it reports `NothingHappened` and returns null.  The conversion
gives a geometry of n parts when every new part is a line string (a polygon). -/
theorem reshapeGeometry_reassembles (ctxt : GEOSContextHandle_t) (self : QgsGeos)
    (t : GEOSCollectionType) (parts : List GEOSGeometry) (mGeometry : QgsAbstractGeometry)
    (reshapeWithLine : QgsLineString) (errorCode : EngineOperationResult)
    (results : List (Option GEOSGeometry))
    (hgeos : self.mGeos = some (.collection t parts))
    (ht : t = .multiLineString ∨ t = .multiPolygon)
    (hgeom : self.mGeometry = some mGeometry) (hdim : mGeometry.dimension ≠ 0)
    (hline : 2 ≤ reshapeWithLine.numPoints)
    (hparts : List.Forall₂
      (fun part r =>
        reshapePart ctxt (decide (mGeometry.dimension = 1)) part
          (createGeosLinestring reshapeWithLine self.mPrecision) self.mPrecision = .ok r)
      parts results) :
    let newGeoms := List.zipWith (fun part (r : Option GEOSGeometry) => r.getD part) parts results
    let newType : GEOSCollectionType :=
      if mGeometry.dimension = 1 then .multiLineString else .multiPolygon
    (results.any Option.isSome = true →
        reshapeGeometry ctxt self reshapeWithLine errorCode
          = .ok (fromGeos (some (.collection newType newGeoms)), Success))
      ∧ (results.any Option.isSome = false →
        reshapeGeometry ctxt self reshapeWithLine errorCode = .ok (none, NothingHappened))
      ∧ newGeoms.length = parts.length
      ∧ (∀ i part, parts.get? i = some part → results.get? i = some none →
          newGeoms.get? i = some part)
      ∧ (∀ i part reshaped, parts.get? i = some part → results.get? i = some (some reshaped) →
          newGeoms.get? i = some reshaped)
      ∧ ((∀ g ∈ newGeoms, GEOSGeomTypeId_r g
            = if mGeometry.dimension = 1 then GEOS_LINESTRING else GEOS_POLYGON) →
          ∃ multi, fromGeos (some (.collection newType newGeoms)) = some multi
            ∧ multi.geometries.length = parts.length) := by
  intro newGeoms newType
  have hlen : results.length = parts.length := (List.Forall₂.length_eq hparts).symm
  have hmulti : (decide (GEOSGeomTypeId_r (.collection t parts) = GEOS_MULTILINESTRING)
      || decide (GEOSGeomTypeId_r (.collection t parts) = GEOS_MULTIPOLYGON)) = true := by
    rcases ht with h | h <;> subst h <;> simp [GEOSGeomTypeId_r, GEOSCollectionType.typeId]
  have hnot : ¬ (reshapeWithLine.numPoints < 2) := by omega
  have hrun : reshapeGeometry ctxt self reshapeWithLine errorCode
      = if results.any Option.isSome then
          .ok (fromGeos (some (.collection newType newGeoms)), Success)
        else .ok (none, NothingHappened) := by
    unfold reshapeGeometry
    simp only [hgeos, hgeom, hdim, hnot, if_false, hmulti, Bool.not_true, Bool.false_eq_true,
      GEOSGeometry.memberGeometries, reshapeParts_eq ctxt _ _ _ parts results hparts]
    by_cases hd : mGeometry.dimension = 1 <;>
      simp [hd, GEOSGeom_createCollection_r, GEOSCollectionType.ofTypeId, newType, newGeoms]
  have hnewlen : newGeoms.length = parts.length := by
    simp [newGeoms, List.length_zipWith, hlen]
  refine ⟨fun h => by rw [hrun, if_pos h], fun h => by rw [hrun, h]; rfl, hnewlen, ?_, ?_, ?_⟩
  · intro i part hp hr
    simp [newGeoms, List.getElem?_zipWith, hp, hr] at *
    simp_all
  · intro i part reshaped hp hr
    simp [newGeoms, List.getElem?_zipWith, hp, hr] at *
    simp_all
  · intro hall
    by_cases hd : mGeometry.dimension = 1
    · simp only [hd, if_true] at hall
      have hcs : ∀ g ∈ newGeoms, (GEOSGeom_getCoordSeq_r g).isSome = true := by
        intro g hg
        have htype := hall g hg
        cases g with
        | lineString cs => rfl
        | point cs => simp [GEOSGeomTypeId_r] at htype
        | linearRing cs => simp [GEOSGeomTypeId_r] at htype
        | polygon s hs => simp [GEOSGeomTypeId_r] at htype
        | collection t gs =>
          cases t <;> simp [GEOSGeomTypeId_r, GEOSCollectionType.typeId] at htype
      have hlength := multiLineString_geometries
        (decide (GEOSGeom_getCoordinateDimension_r (.collection .multiLineString newGeoms) = 3))
        (decide (GEOSGeom_getDimensions_r (.collection .multiLineString newGeoms)
          - (GEOSGeom_getCoordinateDimension_r (.collection .multiLineString newGeoms) : Int) = 1))
        newGeoms false false [] hall
      have hnt : newType = .multiLineString := by simp [newType, hd]
      rw [hnt]
      refine ⟨_, by simp only [fromGeos, fromGeosOf]; rw [multiLineString_loop _ _ _ hcs], ?_⟩
      rw [hlength, hnewlen]; simp
    · simp only [hd, if_false] at hall
      have hlength := multiPolygon_geometries newGeoms false false [] hall
      have hnt : newType = .multiPolygon := by simp [newType, hd]
      rw [hnt]
      refine ⟨_, by simp only [fromGeos, fromGeosOf]; rw [multiPolygon_loop], ?_⟩
      rw [hlength, hnewlen]; simp

theorem closingLine_created :
    createGeosLinestring closingLine 0 = some closingLineGeos := by
  simp [QgsGeos.createGeosLinestring, QgsGeos.createCoordinateSequence, closingLine,
    closingLineGeos, QgsLineString.numPoints, GEOSCoordSeq_create_r, List.range, List.range.loop,
    QgsGeos.storeExact, GEOSCoordSeq_setX_r, GEOSCoordSeq_setY_r, listModifyAt, QgsLineString.xAt,
    QgsLineString.yAt, GEOSGeom_createLineString_r]

theorem firstLine_closingLine :
    reshapeLine closingContext (some firstLineGeos) (some closingLineGeos) 0
      = .ok (some (.collection .multiLineString [firstLineGeos, closingLineGeos])) := by
  simp [reshapeLine, scanIntersection, closingContext, firstLineGeos, closingLineGeos,
    GEOSGeomTypeId_r, GEOSGeom_getCoordSeq_r, GEOSCoordSeq_getX_r, GEOSCoordSeq_getY_r,
    _mergeLinestrings, _linestringEndpoints, GEOSCoordSeq_getSize_r, GEOSGeom_createCollection_r,
    GEOSCollectionType.ofTypeId, GEOSGeom_clone_r]

theorem secondLine_closingLine :
    reshapeLine closingContext (some secondLineGeos) (some closingLineGeos) 0 = .ok none := by
  simp [reshapeLine, scanIntersection, closingContext, secondLineGeos, closingLineGeos,
    GEOSGeomTypeId_r, GEOSCollectionType.typeId, GEOSGetNumGeometries_r]

theorem unmerged_member_raises :
    fromGeosOf (.collection .multiLineString
        [.collection .multiLineString [firstLineGeos, closingLineGeos], secondLineGeos])
      = .error {} := by
  simp [fromGeosOf, QgsGeos.sequenceToLinestring, GEOSGeom_getCoordSeq_r, secondLineGeos]

/-- C14 (the code at the failing input): the multi-line-string ((0 0, 1 0), (0 5, 1 5)) is
reshaped by the closed line (1 0, 2 0, 2 1, 1 0), which meets the first part in its end point
(1 0) only.  `reshapeLine` takes the extension case and hands back what the line merge of the
part and the closed line gives, a multi-line-string, without a test of its type; the second
part is not reshaped.  The new multi-geometry has that multi-line-string as first member, the
conversion raises on it after the code was set, and `reshapeGeometry` returns null under the
code `Success`, not a multi-geometry of two parts.  The end of the main path of `reshapeLine`
gives no result for the same two lines, since it tests the type of the line merge.  On the
open line (1 0, 2 0) the first part is extended and the result has the two parts in order. -/
theorem reshapeGeometry_multiPart_unchecked_merge :
    reshapeLine closingContext (some firstLineGeos) (some closingLineGeos) 0
        = .ok (some (.collection .multiLineString [firstLineGeos, closingLineGeos]))
      ∧ reshapeLine closingContext (some secondLineGeos) (some closingLineGeos) 0 = .ok none
      ∧ fromGeosOf (.collection .multiLineString
            [.collection .multiLineString [firstLineGeos, closingLineGeos], secondLineGeos])
          = .error {}
      ∧ reshapeGeometry closingContext twoLinesEngine closingLine NothingHappened
          = .ok (none, Success)
      ∧ mergeResultLineParts closingContext [firstLineGeos, closingLineGeos] = .ok none
      ∧ reshapeGeometry extendingContext twoLinesEngine extensionLine NothingHappened
          = .ok (some (.collection .MultiLineString false false
              [.lineString { is3D := false, isMeasure := false, mX := [0, 1, 2],
                             mY := [0, 0, 0], mZ := [], mM := [] },
               .lineString { is3D := false, isMeasure := false, mX := [0, 1], mY := [5, 5],
                             mZ := [], mM := [] }]), Success) := by
  refine ⟨firstLine_closingLine, secondLine_closingLine, unmerged_member_raises, ?_, ?_,
    twoLines_reshaped⟩
  · have hdim : twoLines.dimension = 1 := by decide
    have hn : ¬ closingLine.numPoints < 2 := by decide
    have hparts := reshapeParts_eq closingContext true (some closingLineGeos) 0
      [firstLineGeos, secondLineGeos]
      [some (.collection .multiLineString [firstLineGeos, closingLineGeos]), none]
      (List.Forall₂.cons (by simp only [reshapePart, if_true]; exact firstLine_closingLine)
        (List.Forall₂.cons (by simp only [reshapePart, if_true]; exact secondLine_closingLine)
          List.Forall₂.nil))
    unfold reshapeGeometry
    simp only [twoLinesEngine, hdim, hn, closingLine_created, twoLinesGeos,
      GEOSGeometry.memberGeometries, decide_True, hparts]
    simp only [List.zipWith, Option.getD, List.any, Option.isSome, Bool.true_or, if_true,
      GEOSGeom_createCollection_r, GEOSCollectionType.ofTypeId, Option.map_some',
      fromGeos, unmerged_member_raises]
    simp [GEOSGeomTypeId_r, GEOSCollectionType.typeId]
  · simp [mergeResultLineParts, closingContext, GEOSGeom_createCollection_r,
      GEOSCollectionType.ofTypeId, GEOSGeomTypeId_r, GEOSCollectionType.typeId]
